import Mathlib

/-!
# Tower defense: a shallow embedding of `src/game.js`

The simulation core of the game (classes `Game`, `Tower`, `Projectile`, `Enemy`) is
translated function by function.  Drawing code, the DOM and `console.log` are left out: they
neither read nor write simulation state, except `drawReadyPrompt`, which stores the bounds of
the start button.

## Numbers

JavaScript numbers are IEEE-754 doubles.

* Counters, gold, castle health, costs, rewards, enemy damage and the health an enemy is
  constructed with are integers far below `2^53`; on such values `+`, `-`, `*` and the
  `Math.floor (a / b)` idiom are exact, so they are modelled in `Nat` and `Int`.
* Coordinates, times, speeds, tower damage and range, and enemy health after hits live in an
  ordered field `K`: the definitions are generic, they are evaluated with `K = ℚ`, and
  arithmetic in `K` is exact.  `Math.hypot`, `Math.sqrt` and `Math.random` are supplied by
  a `JsMath K` record.  What is proved of the game as a whole holds for every such record and
  does not depend on the values of coordinates.
* Where a statement is about the values themselves (`pointToLineDistance`, the move of
  `Enemy.update`, the flight of `Projectile.update`), exact arithmetic is not what the source
  computes.  These three functions are translated a second time, as
  `Game.pointToLineDistanceF64`, `Enemy.updateF64` and `Projectile.updateF64`: every `+`, `-`,
  `*` and `/` of the source is followed by `f64`, rounding to the nearest finite double, ties
  to even, subnormal numbers included.  `Math.hypot` and `Math.sqrt` are approximated by the
  implementation in ECMAScript; theorems assume a relative error of at most `2 ^ -50` of
  them, and closed evaluations use the correctly rounded `mathF64`.  Overflow is outside the
  model: the theorems bound their inputs far below `2 ^ 1024`.
* A non-integer decimal literal denotes the double nearest to it.  For the products
  `wave * 0.8`, `health * 1.3`, `health * 1.1` followed by `Math.floor`, and for
  `baseRange * 1.3` on the five base ranges, the correctly rounded double product gives the
  same result as exact arithmetic (the literal is rounded up, so the product can never fall
  below an integer it should reach; see `f64MulFloor_0_8`, `f64MulFloor_1_3`,
  `f64MulFloor_1_1` and `f64Round_ranges`), and they are modelled exactly.  For `health * 0.7` it
  does not: `0.7` is rounded down, and `90 * 0.7` is the double `62.99999999999999`.  That
  product is therefore modelled by `f64MulFloor`, the floor of the correctly rounded product.
* The thresholds `0.6` and `0.85` compared with `Math.random()` are the doubles these
  literals denote (`lit0_6`, `lit0_85`); `0.75` is a double already.

## Object identity

Enemies and towers carry an `id`, handed out from `Game.nextId`.  A projectile refers to its
target by id; `Game.currentBoss` holds the id of the tracked boss.  Enemies taken out of
`Game.enemies` are kept in `Game.removed`, because projectiles in flight still read their
position and write their health.
-/

namespace TowerDefense

/-! ## Double-precision rounding of a product -/

/-- Number of low bits to drop so that `p` fits in 53 bits (`fuel` bounds the search). -/
def f64Shift : Nat → Nat → Nat
  | 0, _ => 0
  | fuel + 1, p => if p < 2 ^ 53 then 0 else f64Shift fuel (p / 2) + 1

/-- Round the natural number `p` to 53 significant bits, ties to even: the double nearest to
`p`, as IEEE-754 round-to-nearest-even defines it (no overflow below `2^1024`). -/
def f64Round (p : Nat) : Nat :=
  let s := f64Shift p p
  let m := p / 2 ^ s
  let r := p % 2 ^ s
  if 2 * r < 2 ^ s then m * 2 ^ s
  else if 2 ^ s < 2 * r then (m + 1) * 2 ^ s
  else if m % 2 = 0 then m * 2 ^ s
  else (m + 1) * 2 ^ s

/-- The value of `Math.floor (n * c)` where `n` is an integer double and the double `c` is
`mant / 2 ^ e`: the exact product `n * mant / 2 ^ e` is rounded to a double (scaling by a power
of two commutes with rounding), then floored. -/
def f64MulFloor (n mant e : Nat) : Nat :=
  f64Round (n * mant) / 2 ^ e

/-- Mantissa of the double denoted by the literal `0.7`, which is `mant0_7 / 2 ^ 52`. -/
def mant0_7 : Nat := 3152519739159347

/-- Mantissa of the double denoted by the literal `0.8`, which is `mant0_8 / 2 ^ 52`. -/
def mant0_8 : Nat := 3602879701896397

/-- Mantissa of the double denoted by the literal `1.3`, which is `mant1_3 / 2 ^ 52`. -/
def mant1_3 : Nat := 5854679515581645

/-- Mantissa of the double denoted by the literal `1.1`, which is `mant1_1 / 2 ^ 52`. -/
def mant1_1 : Nat := 4953959590107546

section Model

variable {K : Type} [LinearOrderedField K]

/-- The double denoted by the literal `0.6`. -/
def lit0_6 : K := 5404319552844595 / 9007199254740992

/-- The double denoted by the literal `0.85`. -/
def lit0_85 : K := 7656119366529843 / 9007199254740992

/-- The library functions the simulation calls: `Math.hypot`, `Math.sqrt`, and
`Math.random`, where `random k` is the value returned by the `k`-th call made by
`Enemy.setEnemyType` (calls made by drawing code are not counted). -/
structure JsMath (K : Type) where
  hypot : K → K → K
  sqrt : K → K
  random : Nat → K

/-- The library functions over a square root: `Math.hypot (a, b)` is the square root of
`a * a + b * b`. -/
def JsMath.ofSqrt (sqrt : K → K) (random : Nat → K) : JsMath K :=
  { hypot := fun a b => sqrt (a * a + b * b), sqrt := sqrt, random := random }

/-! ## Data model -/

/-- A path waypoint `{ x, y }`. -/
structure Waypoint (K : Type) where
  x : K
  y : K
deriving DecidableEq, Repr

/-- The values of `Enemy.type`. -/
inductive EnemyType where
  | goblin
  | scout
  | orc
  | demon
  | knight
  | dragon
  | boss
deriving DecidableEq, Repr

/-- The values of `Tower.type` that the input layer can produce. -/
inductive TowerType where
  | basic
  | power
  | freeze
  | cannon
  | lightning
deriving DecidableEq, Repr

/-- The non-null values of `Game.selectedTower`: a tower type to place, or `'remove'`. -/
inductive Selection where
  | place (t : TowerType)
  | remove
deriving DecidableEq, Repr

/-- Class `Enemy` (fields `color` and `game` left out). `isBoss` is `undefined`, hence
falsy, unless `spawnBossWave` sets it. -/
structure Enemy (K : Type) where
  id : Nat
  x : K
  y : K
  health : K
  maxHealth : K
  baseSpeed : K
  speed : K
  pathIndex : Nat
  reachedEnd : Bool
  wave : Nat
  freezeTimer : K
  type : EnemyType
  size : Nat
  damage : Nat
  reward : Nat
  isBoss : Bool
deriving DecidableEq, Repr

/-- Class `Projectile`; `target` is the id of the targeted enemy object. -/
structure Projectile (K : Type) where
  x : K
  y : K
  target : Nat
  damage : K
  speed : K
  hit : Bool
deriving DecidableEq, Repr

/-- Class `Tower` (fields `color` and the never-assigned `target` left out). -/
structure Tower (K : Type) where
  id : Nat
  x : K
  y : K
  type : TowerType
  projectiles : List (Projectile K)
  lastShot : K
  selected : Bool
  level : Nat
  maxLevel : Nat
  upgradeCost : Nat
  range : K
  damage : K
  fireRate : K
  freezeEffect : Bool
  splashDamage : Bool
  chainLightning : Bool
  baseDamage : K
  baseRange : Nat
deriving DecidableEq, Repr

/-- An entry of `Game.damageTexts`; the text is `-amount`, the colour is left out. -/
structure DamageText (K : Type) where
  x : K
  y : K
  amount : Nat
  life : K
  maxLife : K
deriving DecidableEq, Repr

/-- The callbacks handed to `setTimeout`. -/
inductive TimerAction where
  /-- The callback `() => this.spawnWave()` of `gameLoop`. -/
  | spawnWave
  /-- The stagger callback of `spawnWave`, which captured `baseHealth`. -/
  | spawnEnemy (baseHealth : Nat)
  /-- The callback of the `load` listener: spawn unless a wave is in progress. -/
  | forceFirstWave
  /-- The auto-deselect callback of `handleClick`, which captured the clicked tower. -/
  | deselect (tower : Nat)
deriving DecidableEq, Repr

/-- A pending `setTimeout`: its handle, the time (ms) it is due, and its callback. -/
structure Timer (K : Type) where
  id : Nat
  due : K
  action : TimerAction
deriving DecidableEq, Repr

/-- Class `Game`, followed by the state of the browser around it: the clock, the pending
timers, whether an animation frame is requested, the id counter, and the enemy objects that
left `enemies`. `startButton` records whether `drawReadyPrompt` has stored the (constant)
button bounds. -/
structure Game (K : Type) where
  gold : Int
  isPaused : Bool
  gameStarted : Bool
  level : Nat
  wave : Nat
  castleHealth : Int
  enemies : List (Enemy K)
  towers : List (Tower K)
  waveInProgress : Bool
  damageTexts : List (DamageText K)
  currentBoss : Option Nat
  bossWave : Bool
  levelCompleteTimer : K
  selectedTower : Option Selection
  selectedTowerTimeout : Option Nat
  startButton : Bool
  lastTime : K
  now : K
  timers : List (Timer K)
  frameRequested : Bool
  nextId : Nat
  draws : Nat
  removed : List (Enemy K)
deriving DecidableEq, Repr

/-- `Game.createPath`. -/
def Game.createPath : List (Waypoint K) :=
  [⟨50, 300⟩, ⟨200, 300⟩, ⟨200, 150⟩, ⟨500, 150⟩, ⟨500, 450⟩, ⟨700, 450⟩]

/-- `this.path[i]`; the index is in range wherever the source reads it. -/
def Game.pathAt (i : Nat) : Waypoint K :=
  (Game.createPath (K := K)).getD i ⟨0, 0⟩

/-! ## Enemy -/

/-- The `Enemy` constructor up to the call of `setEnemyType`; `type`, `size`, `damage` and
`reward` are not assigned yet (the placeholders are overwritten on every branch). -/
def Enemy.init (id : Nat) (x y : K) (health wave : Nat) : Enemy K :=
  { id := id, x := x, y := y, health := health, maxHealth := health, baseSpeed := 100,
    speed := 100, pathIndex := 0, reachedEnd := false, wave := wave, freezeTimer := 0,
    type := EnemyType.goblin, size := 0, damage := 0, reward := 0, isBoss := false }

/-- `Enemy.setEnemyType`, run on an enemy fresh from `Enemy.init` with constructor health
`health`; `rand` is the value of `Math.random ()`. The products `health * 1.3` and
`health * 1.1` are floored exactly; `health * 0.7` is the rounded double product. -/
def Enemy.setEnemyType (wave health : Nat) (rand : K) (e : Enemy K) : Enemy K :=
  if wave ≤ 3 then
    { e with type := EnemyType.goblin, size := 15, damage := 1, reward := 5 }
  else if wave % 10 = 0 then
    { e with type := EnemyType.dragon, size := 35, health := ((health * 6 : Nat) : K),
             maxHealth := ((health * 6 : Nat) : K), damage := 12, reward := 50,
             baseSpeed := 60, speed := 60 }
  else if wave % 5 = 0 then
    { e with type := EnemyType.knight, size := 28, health := ((health * 3 : Nat) : K),
             maxHealth := ((health * 3 : Nat) : K), damage := 5, reward := 25,
             baseSpeed := 70, speed := 70 }
  else if wave ≤ 6 ∨ rand < lit0_6 then
    { e with type := EnemyType.goblin, size := 15, damage := 1, reward := 5 }
  else if rand < 3 / 4 then
    { e with type := EnemyType.scout, size := 12,
             health := ((max 1 (f64MulFloor health mant0_7 52) : Nat) : K),
             maxHealth := ((max 1 (f64MulFloor health mant0_7 52) : Nat) : K),
             damage := 2, reward := 8, baseSpeed := 150, speed := 150 }
  else if rand < lit0_85 then
    { e with type := EnemyType.orc, size := 22, health := ((health * 13 / 10 : Nat) : K),
             maxHealth := ((health * 13 / 10 : Nat) : K), damage := 3, reward := 25,
             baseSpeed := 70, speed := 70 }
  else
    { e with type := EnemyType.demon, size := 18, health := ((health * 11 / 10 : Nat) : K),
             maxHealth := ((health * 11 / 10 : Nat) : K), damage := 2, reward := 10,
             baseSpeed := 100, speed := 100 }

/-- The expression `new Enemy (x, y, health, wave, game)`. -/
def Enemy.create (id : Nat) (x y : K) (health wave : Nat) (rand : K) : Enemy K :=
  Enemy.setEnemyType wave health rand (Enemy.init id x y health wave)

/-- `Enemy.update`. -/
def Enemy.update (M : JsMath K) (deltaTime : K) (e : Enemy K) : Enemy K :=
  if (Game.createPath (K := K)).length - 1 ≤ e.pathIndex then
    { e with reachedEnd := true }
  else
    let e1 : Enemy K :=
      if 0 < e.freezeTimer then
        if e.freezeTimer - deltaTime ≤ 0 then
          { e with freezeTimer := e.freezeTimer - deltaTime, speed := e.baseSpeed }
        else { e with freezeTimer := e.freezeTimer - deltaTime }
      else e
    let targetPoint : Waypoint K := Game.pathAt (e1.pathIndex + 1)
    let dx := targetPoint.x - e1.x
    let dy := targetPoint.y - e1.y
    let distance := M.hypot dx dy
    if distance < 5 then
      { e1 with pathIndex := e1.pathIndex + 1 }
    else
      { e1 with x := e1.x + dx / distance * e1.speed * deltaTime,
                y := e1.y + dy / distance * e1.speed * deltaTime }

/-! ## Projectile and tower -/

/-- The enemy object with identity `id`, looked up among the live enemies, then among the
removed ones. -/
def findEnemy (id : Nat) (live removed : List (Enemy K)) : Option (Enemy K) :=
  match live.find? (fun e => e.id == id) with
  | some e => some e
  | none => removed.find? (fun e => e.id == id)

/-- The statement `target.health -= damage` on the enemy object with identity `id`. -/
def hitEnemy (id : Nat) (damage : K) (es : List (Enemy K)) : List (Enemy K) :=
  es.map (fun e => if e.id = id then { e with health := e.health - damage } else e)

/-- The `Projectile` constructor. -/
def Projectile.create (x y : K) (target : Nat) (damage : K) : Projectile K :=
  { x := x, y := y, target := target, damage := damage, speed := 300, hit := false }

/-- `Projectile.update`: returns the projectile and the two enemy stores, in which the
target may have lost health. -/
def Projectile.update (M : JsMath K) (deltaTime : K) (p : Projectile K)
    (live removed : List (Enemy K)) : Projectile K × List (Enemy K) × List (Enemy K) :=
  if p.hit then (p, live, removed)
  else
    match findEnemy p.target live removed with
    | none => (p, live, removed)
    | some target =>
      let dx := target.x - p.x
      let dy := target.y - p.y
      let distance := M.hypot dx dy
      if distance < 5 then
        ({ p with hit := true }, hitEnemy p.target p.damage live,
          hitEnemy p.target p.damage removed)
      else
        ({ p with x := p.x + dx / distance * p.speed * deltaTime,
                  y := p.y + dy / distance * p.speed * deltaTime }, live, removed)

/-- A sequence of calls `update (dt)` on one projectile, one call per element of the list. -/
def Projectile.updates (M : JsMath K) :
    List K → Projectile K → List (Enemy K) → List (Enemy K) →
      Projectile K × List (Enemy K) × List (Enemy K)
  | [], p, live, removed => (p, live, removed)
  | dt :: dts, p, live, removed =>
    let r := Projectile.update M dt p live removed
    Projectile.updates M dts r.1 r.2.1 r.2.2

/-- `Tower.calculateUpgradeCost`. -/
def Tower.calculateUpgradeCost (t : Tower K) : Tower K :=
  if t.maxLevel ≤ t.level then { t with upgradeCost := 0 }
  else
    let baseCost : Nat :=
      if t.type = TowerType.basic then 25 else if t.type = TowerType.power then 50 else 75
    { t with upgradeCost := baseCost * t.level }

/-- The `Tower` constructor. -/
def Tower.create (id : Nat) (x y : K) (type : TowerType) : Tower K :=
  let t0 : Tower K :=
    { id := id, x := x, y := y, type := type, projectiles := [], lastShot := 0,
      selected := false, level := 1, maxLevel := 3, upgradeCost := 0, range := 0,
      damage := 0, fireRate := 0, freezeEffect := false, splashDamage := false,
      chainLightning := false, baseDamage := 0, baseRange := 0 }
  let t1 : Tower K :=
    match type with
    | TowerType.power =>
      { t0 with range := 80, baseRange := 80, damage := 3 / 2, fireRate := 4 / 5 }
    | TowerType.freeze =>
      { t0 with range := 120, baseRange := 120, damage := 1 / 4, fireRate := 3 / 2,
                freezeEffect := true }
    | TowerType.cannon =>
      { t0 with range := 90, baseRange := 90, damage := 2, fireRate := 1 / 2,
                splashDamage := true }
    | TowerType.lightning =>
      { t0 with range := 110, baseRange := 110, damage := 1, fireRate := 6 / 5,
                chainLightning := true }
    | TowerType.basic =>
      { t0 with range := 100, baseRange := 100, damage := 1 / 2, fireRate := 1 }
  Tower.calculateUpgradeCost { t1 with baseDamage := t1.damage }

/-- `Tower.canUpgrade`. -/
def Tower.canUpgrade (t : Tower K) : Bool :=
  decide (t.level < t.maxLevel)

/-- `Tower.upgrade`: the tower after the call, and the returned boolean. The product
`baseRange * 1.3` is exact on the base ranges the constructor assigns. -/
def Tower.upgrade (t : Tower K) : Tower K × Bool :=
  if t.canUpgrade = false then (t, false)
  else
    let t1 : Tower K := { t with level := t.level + 1 }
    let t2 : Tower K :=
      if t1.level = 2 then { t1 with damage := t1.baseDamage * 2 }
      else if t1.level = 3 then
        { t1 with damage := t1.baseDamage * 3,
                  range := ((t1.baseRange * 13 : Nat) : K) / 10 }
      else t1
    (Tower.calculateUpgradeCost t2, true)

/-- The `filter` over `this.projectiles` in `Tower.update`: every projectile is updated in
turn and kept unless it is marked `hit`. -/
def Tower.updateProjectiles (M : JsMath K) (deltaTime : K) :
    List (Projectile K) → List (Enemy K) → List (Enemy K) →
      List (Projectile K) × List (Enemy K) × List (Enemy K)
  | [], live, removed => ([], live, removed)
  | p :: ps, live, removed =>
    let r := Projectile.update M deltaTime p live removed
    let rest := Tower.updateProjectiles M deltaTime ps r.2.1 r.2.2
    if r.1.hit then rest else (r.1 :: rest.1, rest.2.1, rest.2.2)

/-- The `forEach` of `Tower.update` that looks for the closest enemy in range: the pair
`(closestDistance, closestEnemy)` after the scan. -/
def Tower.closest (M : JsMath K) (t : Tower K) :
    List (Enemy K) → K × Option (Enemy K) → K × Option (Enemy K)
  | [], acc => acc
  | e :: es, acc =>
    let distance := M.hypot (e.x - t.x) (e.y - t.y)
    if distance < acc.1 then Tower.closest M t es (distance, some e)
    else Tower.closest M t es acc

/-- `Tower.update (deltaTime, enemies)` with `enemies` the live list of the game. -/
def Tower.update (M : JsMath K) (deltaTime : K) (t : Tower K)
    (live removed : List (Enemy K)) : Tower K × List (Enemy K) × List (Enemy K) :=
  let r := Tower.updateProjectiles M deltaTime t.projectiles live removed
  let t1 : Tower K := { t with projectiles := r.1 }
  match (Tower.closest M t1 r.2.1 (t1.range, none)).2 with
  | some closestEnemy =>
    ({ t1 with projectiles :=
        t1.projectiles ++ [Projectile.create t1.x t1.y closestEnemy.id t1.damage] },
      r.2.1, r.2.2)
  | none => (t1, r.2.1, r.2.2)

/-- The loop `this.towers.forEach (tower => tower.update (deltaTime, this.enemies))`. -/
def Game.updateTowers (M : JsMath K) (deltaTime : K) :
    List (Tower K) → List (Enemy K) → List (Enemy K) →
      List (Tower K) × List (Enemy K) × List (Enemy K)
  | [], live, removed => ([], live, removed)
  | t :: ts, live, removed =>
    let r := Tower.update M deltaTime t live removed
    let rest := Game.updateTowers M deltaTime ts r.2.1 r.2.2
    (r.1 :: rest.1, rest.2.1, rest.2.2)

/-! ## Game: timers and spawning -/

/-- The call `setTimeout (action, delay)`: returns the handle and the new state. -/
def Game.setTimeout (action : TimerAction) (delay : K) (s : Game K) : Game K :=
  { s with timers := s.timers ++ [{ id := s.nextId, due := s.now + delay, action := action }],
           nextId := s.nextId + 1 }

/-- The call `clearTimeout (handle)`. -/
def Game.clearTimeout (handle : Nat) (s : Game K) : Game K :=
  { s with timers := s.timers.filter (fun t => t.id != handle) }

/-- The enemy object `boss` that `spawnBossWave` constructs and then overwrites field by
field. -/
def Game.newBoss (M : JsMath K) (s : Game K) : Enemy K :=
  let start : Waypoint K := Game.pathAt 0
  let bossHealth : Nat := 50 + s.wave * 5
  let e : Enemy K := Enemy.create s.nextId start.x start.y bossHealth s.wave (M.random s.draws)
  { e with pathIndex := 0, isBoss := true, type := EnemyType.boss, size := 40,
           health := bossHealth, maxHealth := bossHealth, damage := 20 + s.wave / 2,
           reward := 100 + s.wave * 5, baseSpeed := 40, speed := 40 }

/-- `Game.spawnBossWave`. -/
def Game.spawnBossWave (M : JsMath K) (s : Game K) : Game K :=
  let boss : Enemy K := Game.newBoss M s
  { s with bossWave := true, enemies := s.enemies ++ [boss], currentBoss := some boss.id,
           waveInProgress := true, nextId := s.nextId + 1, draws := s.draws + 1 }

/-- The base health computed by `spawnWave` for a wave that is not a boss wave;
`Math.floor (wave * 0.8)` is the exact floor `wave * 4 / 5`. -/
def Game.baseHealth (wave : Nat) : Nat :=
  if wave ≤ 3 then 1 else if wave ≤ 6 then 2 else 1 + wave * 4 / 5

/-- The number of enemies `spawnWave` schedules for a wave that is not a boss wave. -/
def Game.enemyCount (wave : Nat) : Nat :=
  3 + wave / 3

/-- The `for` loop of `spawnWave`: iterations `i, i + 1, ...` (`n` of them) each call
`setTimeout` with delay `i * 1000`. -/
def Game.scheduleSpawns (baseHealth : Nat) : Nat → Nat → Game K → Game K
  | 0, _, s => s
  | n + 1, i, s =>
    Game.scheduleSpawns baseHealth n (i + 1)
      (Game.setTimeout (TimerAction.spawnEnemy baseHealth) ((i : K) * 1000) s)

/-- `Game.spawnWave`. -/
def Game.spawnWave (M : JsMath K) (s : Game K) : Game K :=
  if s.wave % 10 = 0 then Game.spawnBossWave M s
  else
    let s1 := Game.scheduleSpawns (Game.baseHealth s.wave) (Game.enemyCount s.wave) 0 s
    { s1 with waveInProgress := true }

/-- The stagger callback of `spawnWave`: construct an enemy of the current `this.wave` at
the first waypoint and push it. -/
def Game.spawnEnemy (M : JsMath K) (baseHealth : Nat) (s : Game K) : Game K :=
  let start : Waypoint K := Game.pathAt 0
  let e : Enemy K := Enemy.create s.nextId start.x start.y baseHealth s.wave (M.random s.draws)
  { s with enemies := s.enemies ++ [{ e with pathIndex := 0 }], nextId := s.nextId + 1,
           draws := s.draws + 1 }

/-- `Game.showDamageText`, for the text `-amount`. -/
def Game.showDamageText (x y : K) (amount : Nat) (s : Game K) : Game K :=
  { s with damageTexts :=
      s.damageTexts ++ [{ x := x, y := y, amount := amount, life := 1, maxLife := 1 }] }

/-! ## Game: the simulation tick -/

/-- The `forEach` over the towers in `gameLoop`. -/
def Game.towersPhase (M : JsMath K) (deltaTime : K) (s : Game K) : Game K :=
  let r := Game.updateTowers M deltaTime s.towers s.enemies s.removed
  { s with towers := r.1, enemies := r.2.1, removed := r.2.2 }

/-- The `filter` over `this.damageTexts` in `gameLoop`. -/
def Game.textsPhase (deltaTime : K) (s : Game K) : Game K :=
  let aged : List (DamageText K) := s.damageTexts.map (fun d =>
    { d with life := d.life - deltaTime * 2, y := d.y - 30 * deltaTime })
  { s with damageTexts := aged.filter (fun d => decide (0 < d.life)) }

/-- The callback of the `filter` over `this.enemies` in `gameLoop`, run on the enemies in
order: the state after the callbacks, and the enemies for which it returned `true`. -/
def Game.reapEnemies (M : JsMath K) (deltaTime : K) :
    List (Enemy K) → Game K → Game K × List (Enemy K)
  | [], s => (s, [])
  | enemy :: rest, s =>
    let e := Enemy.update M deltaTime enemy
    if e.reachedEnd then
      let damageToTower : Nat := e.damage + e.wave / 3
      let s1 : Game K :=
        { s with castleHealth := s.castleHealth - damageToTower, removed := s.removed ++ [e] }
      let last : Waypoint K := Game.pathAt ((Game.createPath (K := K)).length - 1)
      Game.reapEnemies M deltaTime rest
        (Game.showDamageText (last.x + 30) (last.y - 30) damageToTower s1)
    else if e.health ≤ 0 then
      Game.reapEnemies M deltaTime rest
        { s with gold := s.gold + e.reward,
                 currentBoss := if e.isBoss then none else s.currentBoss,
                 removed := s.removed ++ [e] }
    else
      let r := Game.reapEnemies M deltaTime rest s
      (r.1, e :: r.2)

/-- The statement `this.enemies = this.enemies.filter (...)` of `gameLoop`. -/
def Game.enemiesPhase (M : JsMath K) (deltaTime : K) (s : Game K) : Game K :=
  let r := Game.reapEnemies M deltaTime s.enemies s
  { r.1 with enemies := r.2 }

/-- The block `// Check if wave is complete` of `gameLoop`; `showLevelComplete` sets
`levelCompleteTimer` to `5.0`. -/
def Game.checkWaveComplete (s : Game K) : Game K :=
  if s.waveInProgress = true ∧ s.enemies.length = 0 then
    let s1 : Game K :=
      { s with waveInProgress := false, bossWave := false, currentBoss := none,
               wave := s.wave + 1 }
    if s1.wave % 20 = 1 ∧ 1 < s1.wave then
      Game.setTimeout TimerAction.spawnWave 5000
        { s1 with level := s1.level + 1, levelCompleteTimer := 5 }
    else
      Game.setTimeout TimerAction.spawnWave 3000 s1
  else s

/-- The block `// Start first wave (only if game has started)` of `gameLoop`. -/
def Game.startFirstWave (M : JsMath K) (s : Game K) : Game K :=
  if s.waveInProgress = false ∧ s.enemies.length = 0 ∧ s.gameStarted = true then
    Game.spawnWave M s
  else s

/-- The rest of `gameLoop`: the ready prompt stores the start button, the level-complete
timer runs down, and the next animation frame is requested unless the castle has fallen. -/
def Game.finishFrame (deltaTime : K) (s : Game K) : Game K :=
  let s1 : Game K := if s.gameStarted = false then { s with startButton := true } else s
  let s2 : Game K :=
    if 0 < s1.levelCompleteTimer then
      { s1 with levelCompleteTimer := s1.levelCompleteTimer - deltaTime }
    else s1
  if s2.castleHealth ≤ 0 then s2 else { s2 with frameRequested := true }

/-- The state of `gameLoop` right after `this.enemies = this.enemies.filter (...)`: towers,
damage texts and enemies have been updated and the dead and escaped enemies removed. -/
def Game.afterEnemies (M : JsMath K) (deltaTime : K) (s : Game K) : Game K :=
  Game.enemiesPhase M deltaTime (Game.textsPhase deltaTime (Game.towersPhase M deltaTime s))

/-- The simulation part of `gameLoop` (the branch taken when the game is not paused). -/
def Game.tick (M : JsMath K) (deltaTime : K) (s : Game K) : Game K :=
  Game.finishFrame deltaTime
    (Game.startFirstWave M (Game.checkWaveComplete (Game.afterEnemies M deltaTime s)))

/-- `Game.gameLoop (currentTime)`. -/
def Game.gameLoop (M : JsMath K) (currentTime : K) (s : Game K) : Game K :=
  let deltaTime := (currentTime - s.lastTime) / 1000
  let s1 : Game K := { s with lastTime := currentTime }
  if s1.isPaused then { s1 with frameRequested := true }
  else Game.tick M deltaTime s1

/-! ## Game: commands -/

/-- `Game.getTowerCost` on the five tower types. -/
def Game.getTowerCost : TowerType → Nat
  | TowerType.power => 100
  | TowerType.freeze => 150
  | TowerType.cannon => 120
  | TowerType.lightning => 180
  | TowerType.basic => 50

/-- `Game.pointToLineDistance`. -/
def Game.pointToLineDistance (M : JsMath K) (x y x1 y1 x2 y2 : K) : K :=
  let A := x - x1
  let B := y - y1
  let C := x2 - x1
  let D := y2 - y1
  let dot := A * C + B * D
  let len_sq := C * C + D * D
  let param : K := if len_sq ≠ 0 then dot / len_sq else -1
  let xx : K := if param < 0 then x1 else if 1 < param then x2 else x1 + param * C
  let yy : K := if param < 0 then y1 else if 1 < param then y2 else y1 + param * D
  let dx := x - xx
  let dy := y - yy
  M.sqrt (dx * dx + dy * dy)

/-- The loop of `isValidTowerPlacement` over the segments that start at the given
waypoints. -/
def Game.segmentsClear (M : JsMath K) (x y : K) : List (Waypoint K) → Bool
  | start :: stop :: rest =>
    if Game.pointToLineDistance M x y start.x start.y stop.x stop.y < 25 then false
    else Game.segmentsClear M x y (stop :: rest)
  | _ => true

/-- `Game.isValidTowerPlacement`. -/
def Game.isValidTowerPlacement (M : JsMath K) (x y : K) : Bool :=
  Game.segmentsClear M x y Game.createPath

/-- `Game.selectTowerForPlacement`. -/
def Game.selectTowerForPlacement (sel : Selection) (s : Game K) : Game K :=
  { s with selectedTower := some sel }

/-- `Game.togglePause`. -/
def Game.togglePause (s : Game K) : Game K :=
  { s with isPaused := !s.isPaused }

/-- The callback `tower => Math.hypot (tower.x - x, tower.y - y) < 20` of `handleClick`. -/
def Game.towerAt (M : JsMath K) (x y : K) (t : Tower K) : Bool :=
  decide (M.hypot (t.x - x) (t.y - y) < 20)

/-- The last branch of `handleClick`: deselect every tower, then select the clicked one (or
upgrade it when it is still marked selected) and restart the auto-deselect timer. -/
def Game.selectAt (M : JsMath K) (x y : K) (s : Game K) : Game K :=
  let s1 : Game K := { s with towers := s.towers.map (fun t => { t with selected := false }) }
  match s1.towers.find? (Game.towerAt M x y) with
  | some clickedTower =>
    if clickedTower.selected = true ∧ clickedTower.canUpgrade = true ∧
        (clickedTower.upgradeCost : Int) ≤ s1.gold then
      { s1 with gold := s1.gold - clickedTower.upgradeCost,
                towers := s1.towers.map (fun t =>
                  if t.id = clickedTower.id then (Tower.upgrade t).1 else t) }
    else
      let s2 : Game K :=
        { s1 with towers := s1.towers.map (fun t =>
            if t.id = clickedTower.id then { t with selected := true } else t) }
      let s3 : Game K :=
        match s2.selectedTowerTimeout with
        | some handle => Game.clearTimeout handle s2
        | none => s2
      Game.setTimeout (TimerAction.deselect clickedTower.id) 5000
        { s3 with selectedTowerTimeout := some s3.nextId }
  | none =>
    match s1.selectedTowerTimeout with
    | some handle => { Game.clearTimeout handle s1 with selectedTowerTimeout := none }
    | none => s1

/-- `Game.handleClick` for a click at canvas coordinates `(x, y)`. The start button is the
rectangle stored by `drawReadyPrompt`: corner `(275, 400)`, width 250, height 60. -/
def Game.handleClick (M : JsMath K) (x y : K) (s : Game K) : Game K :=
  if s.gameStarted = false ∧ s.startButton = true ∧
      275 ≤ x ∧ x ≤ 275 + 250 ∧ 400 ≤ y ∧ y ≤ 400 + 60 then
    { s with gameStarted := true, startButton := false }
  else if s.gameStarted = false then s
  else
    match s.selectedTower with
    | some Selection.remove =>
      match s.towers.find? (Game.towerAt M x y) with
      | some clickedTower =>
        { s with towers := s.towers.filter (fun t => t.id != clickedTower.id),
                 gold := s.gold + (Game.getTowerCost clickedTower.type / 2 : Nat),
                 selectedTower := none }
      | none => { s with selectedTower := none }
    | some (Selection.place type) =>
      if (Game.getTowerCost type : Int) ≤ s.gold then
        if Game.isValidTowerPlacement M x y = true then
          { s with towers := s.towers ++ [Tower.create s.nextId x y type],
                   gold := s.gold - Game.getTowerCost type,
                   nextId := s.nextId + 1 }
        else s
      else Game.selectAt M x y s
    | none => Game.selectAt M x y s

/-- The keys `handleKeyPress` distinguishes. -/
inductive Key where
  | digit1
  | digit2
  | digit3
  | digit4
  | digit5
  | keyR
  | pause
  | escape
  | other
deriving DecidableEq, Repr

/-- `Game.handleKeyPress`. -/
def Game.handleKeyPress (k : Key) (s : Game K) : Game K :=
  if s.gameStarted = false then s
  else
    match k with
    | Key.digit1 => Game.selectTowerForPlacement (Selection.place TowerType.basic) s
    | Key.digit2 => Game.selectTowerForPlacement (Selection.place TowerType.power) s
    | Key.digit3 => Game.selectTowerForPlacement (Selection.place TowerType.freeze) s
    | Key.digit4 => Game.selectTowerForPlacement (Selection.place TowerType.cannon) s
    | Key.digit5 => Game.selectTowerForPlacement (Selection.place TowerType.lightning) s
    | Key.keyR => Game.selectTowerForPlacement Selection.remove s
    | Key.pause => Game.togglePause s
    | Key.escape => { s with selectedTower := none }
    | Key.other => s

/-! ## The browser: page load, timers, animation frames -/

/-- The fields assigned by the `Game` constructor before it calls `gameLoop`. -/
def Game.fields : Game K :=
  { gold := 75, isPaused := false, gameStarted := false, level := 1, wave := 1,
    castleHealth := 100, enemies := [], towers := [], waveInProgress := false,
    damageTexts := [], currentBoss := none, bossWave := false, levelCompleteTimer := 0,
    selectedTower := none, selectedTowerTimeout := none, startButton := false, lastTime := 0,
    now := 0, timers := [], frameRequested := false, nextId := 0, draws := 0, removed := [] }

/-- The `load` listener: `new Game ()`, whose constructor ends with `this.gameLoop ()`
(at `currentTime = 0`), then the one-second timer that forces the first wave. -/
def Game.load (M : JsMath K) : Game K :=
  Game.setTimeout TimerAction.forceFirstWave 1000 (Game.gameLoop M 0 Game.fields)

/-- Run the callback of a timer. -/
def Game.runTimer (M : JsMath K) (a : TimerAction) (s : Game K) : Game K :=
  match a with
  | TimerAction.spawnWave => Game.spawnWave M s
  | TimerAction.spawnEnemy baseHealth => Game.spawnEnemy M baseHealth s
  | TimerAction.forceFirstWave => if s.waveInProgress = false then Game.spawnWave M s else s
  | TimerAction.deselect tower =>
    { s with towers := s.towers.map (fun t =>
               if t.id = tower then { t with selected := false } else t),
             selectedTowerTimeout := none }

/-- The pending timer that fires next: the earliest due one, the oldest among equals. -/
def Game.nextTimer : List (Timer K) → Option (Timer K)
  | [] => none
  | t :: ts =>
    match Game.nextTimer ts with
    | some u => if u.due < t.due then some u else some t
    | none => some t

/-- What the browser can call into the game. -/
inductive Input (K : Type) where
  /-- The requested animation frame: `gameLoop (time)`. -/
  | frame
  /-- The next pending timer fires. -/
  | timeout
  /-- A click on the canvas at `(x, y)`. -/
  | click (x y : K)
  /-- A click on one of the tower buttons. -/
  | select (sel : Selection)
  /-- A click on the pause button. -/
  | pauseButton
  /-- A key press. -/
  | key (k : Key)
deriving DecidableEq, Repr

/-- An input together with the time (ms since page load) at which its callback runs. -/
structure Event (K : Type) where
  time : K
  input : Input K
deriving DecidableEq, Repr

/-- One callback. The result is `none` when the browser cannot deliver the event: time
would run backwards, a timer that was due earlier has not fired yet, no timer is due, or no
animation frame is requested. -/
def Game.step (M : JsMath K) (ev : Event K) (s : Game K) : Option (Game K) :=
  if ev.time < s.now then none
  else
    let s1 : Game K := { s with now := ev.time }
    match ev.input, Game.nextTimer s.timers with
    | Input.timeout, none => none
    | Input.timeout, some t =>
      if ev.time < t.due then none
      else some (Game.runTimer M t.action (Game.clearTimeout t.id s1))
    | input, next =>
      if (match next with
          | some t => decide (t.due < ev.time)
          | none => false) = true then none
      else
        match input with
        | Input.frame =>
          if s.frameRequested = true then
            some (Game.gameLoop M ev.time { s1 with frameRequested := false })
          else none
        | Input.click x y => some (Game.handleClick M x y s1)
        | Input.select sel => some (Game.selectTowerForPlacement sel s1)
        | Input.pauseButton => some (Game.togglePause s1)
        | Input.key k => some (Game.handleKeyPress k s1)
        | Input.timeout => none

/-- Deliver a sequence of events, starting in state `s`. -/
def Game.run (M : JsMath K) : List (Event K) → Game K → Option (Game K)
  | [], s => some s
  | ev :: evs, s =>
    match Game.step M ev s with
    | some s1 => Game.run M evs s1
    | none => none

end Model

/-! ## An instance for evaluation

With `K = ℚ` the model runs.  `Math.sqrt` is instantiated by the integer part of the square
root (exact on perfect squares; comparing it with an integer threshold gives the same answer
as comparing the real square root), `Math.hypot` is exact on axis-parallel arguments and
falls back to that square root otherwise, and every random draw is `0`. -/

/-- The largest `k ≤ bound` with `k * k ≤ n` (`0` if there is none). -/
def isqrtUpTo : Nat → Nat → Nat
  | 0, _ => 0
  | k + 1, n => if (k + 1) * (k + 1) ≤ n then k + 1 else isqrtUpTo k n

/-- Integer part of the square root of a rational below `1024 ^ 2`. -/
def sqrtQ (q : ℚ) : ℚ :=
  (isqrtUpTo 1024 ⌊q⌋.toNat : ℚ)

/-- The distance `Math.hypot (a, b)`: exact when `a` or `b` is zero. -/
def hypotQ (a b : ℚ) : ℚ :=
  if b = 0 then |a| else if a = 0 then |b| else sqrtQ (a * a + b * b)

/-- The library functions used to run the model on rationals. -/
def mathQ : JsMath ℚ :=
  { hypot := hypotQ, sqrt := sqrtQ, random := fun _ => 0 }

/-- A session in which the first goblin of wave 1 is shot before the second one spawns.
The page loads at time 0; the player picks the basic tower (100 ms), clicks the start button
(200 ms); the frame at 216 ms starts wave 1, whose first goblin spawns at once; the player
places the tower at `(20, 300)`, left of the spawn point and 30 units from the path
(220 ms); eleven frames follow, 20 ms apart. -/
def earlyKill : List (Event ℚ) :=
  [⟨16, Input.frame⟩,
   ⟨100, Input.select (Selection.place TowerType.basic)⟩,
   ⟨200, Input.click 300 420⟩,
   ⟨216, Input.frame⟩,
   ⟨216, Input.timeout⟩,
   ⟨220, Input.click 20 300⟩,
   ⟨236, Input.frame⟩, ⟨256, Input.frame⟩, ⟨276, Input.frame⟩, ⟨296, Input.frame⟩,
   ⟨316, Input.frame⟩, ⟨336, Input.frame⟩, ⟨356, Input.frame⟩, ⟨376, Input.frame⟩,
   ⟨396, Input.frame⟩, ⟨416, Input.frame⟩, ⟨436, Input.frame⟩]

/-- The state of the session `earlyKill` just before its last frame (at 416 ms): the first
goblin of wave 1 is about to be hit for the second time, the other two are still to spawn. -/
def earlyKillState : Game ℚ :=
  (Game.run mathQ (earlyKill.take 16) (Game.load mathQ)).getD Game.fields

/-- A started game in which the last enemy of wave 9 has just been removed: the wave is
in progress and the enemy list is empty. -/
def wave9Cleared : Game ℚ :=
  { (Game.fields : Game ℚ) with wave := 9, gameStarted := true, waveInProgress := true }

/-- A started game whose only enemy, a goblin of wave 1, stands on the last waypoint. -/
def goblinAtEnd : Game ℚ :=
  { (Game.fields : Game ℚ) with
    gameStarted := true, waveInProgress := true, nextId := 1, draws := 1,
    enemies := [{ Enemy.create 0 50 300 1 1 (0 : ℚ) with x := 700, y := 450, pathIndex := 5 }] }

/-- A started game whose only enemy, a goblin of wave 1 on its way, has no health left. -/
def goblinShot : Game ℚ :=
  { (Game.fields : Game ℚ) with
    gameStarted := true, waveInProgress := true, nextId := 1, draws := 1,
    enemies := [{ Enemy.create 0 50 300 1 1 (0 : ℚ) with x := 80, health := 0 }] }

/-- The state of the session `earlyKill` after its first five events: the game is started,
wave 1 is under way, the basic tower is pending and no tower is placed yet. -/
def wave1Started : Game ℚ :=
  (Game.run mathQ (earlyKill.take 5) (Game.load mathQ)).getD Game.fields

/-- The state after the player of `earlyKill` has placed the tower at `(20, 300)` and then,
at 230 ms, clicked on it: the tower is selected, and the 25 gold left cover its upgrade but
not the basic tower that is still pending. -/
def towerSelected : Game ℚ :=
  (Game.run mathQ (earlyKill.take 6 ++ [⟨230, Input.click 20 300⟩]) (Game.load mathQ)).getD
    Game.fields

/-- The state after the player of `earlyKill` has placed the tower at `(20, 300)` and then,
at 230 ms, pressed the remove button. -/
def removalPending : Game ℚ :=
  (Game.run mathQ (earlyKill.take 6 ++ [⟨230, Input.select Selection.remove⟩])
    (Game.load mathQ)).getD Game.fields

/-- A started game with the initial 75 gold in which the lightning tower is pending. -/
def lightningPending : Game ℚ :=
  (Game.run mathQ [⟨16, Input.frame⟩, ⟨100, Input.select (Selection.place TowerType.lightning)⟩,
    ⟨200, Input.click 300 420⟩] (Game.load mathQ)).getD Game.fields

/-- The state at the end of the session `earlyKill`. -/
def earlyKillEnd : Game ℚ :=
  (Game.run mathQ earlyKill (Game.load mathQ)).getD Game.fields

/-- The game `goblinShot` after the pause button. -/
def pausedGame : Game ℚ :=
  Game.togglePause goblinShot

/-- The state after a tick in which a goblin walks into a castle that has one point of
health left. -/
def castleFallen : Game ℚ :=
  Game.gameLoop mathQ 20 { goblinAtEnd with castleHealth := 1 }

/-- What the timers and the player do after the castle has fallen: the first spawn timer of
the next wave, a click, the pause button, and the second spawn timer. -/
def afterFall : List (Event ℚ) :=
  [⟨20, Input.timeout⟩, ⟨30, Input.click 20 300⟩, ⟨40, Input.pauseButton⟩,
   ⟨1000, Input.timeout⟩]

/-- The state at the end of `afterFall`. -/
def afterFallEnd : Game ℚ :=
  (Game.run mathQ afterFall castleFallen).getD Game.fields

/-- A goblin of wave 1 that stands on the last waypoint with no health left. -/
def goblinSpent : Enemy ℚ :=
  { Enemy.create 0 50 300 1 1 (0 : ℚ) with x := 700, y := 450, pathIndex := 5, health := 0 }

/-- A started game at wave 9 whose last live enemy has just been removed while the stagger
callback for the next enemy of the wave (base health 8, due at 1000 ms) is still pending. -/
def wave9Stale : Game ℚ :=
  { wave9Cleared with
    frameRequested := true, nextId := 2,
    timers := [⟨1, 1000, TimerAction.spawnEnemy 8⟩] }

/-- The state one frame after `wave9Stale`: that frame has completed wave 9. -/
def staleTen : Game ℚ :=
  (Game.run mathQ [⟨16, Input.frame⟩] wave9Stale).getD Game.fields

/-- A round trip in the session `earlyKill`, from the state in which wave 1 is under way and
the basic tower is pending: the player places the tower at `(20, 300)`, presses the remove
button and clicks on the tower. -/
def roundTrip : List (Event ℚ) :=
  [⟨220, Input.click 20 300⟩, ⟨230, Input.select Selection.remove⟩, ⟨240, Input.click 20 300⟩]

/-- The state at the end of `roundTrip`. -/
def roundTripEnd : Game ℚ :=
  (Game.run mathQ roundTrip wave1Started).getD Game.fields

/-! ## Double arithmetic on coordinates

The finite double nearest to a number, ties to even, and the translations of
`pointToLineDistance`, `Enemy.update` and `Projectile.update` in which every arithmetic
operation of the source is followed by that rounding. -/

/-- The number of halvings that bring `n` below 2 (`fuel` bounds the search). -/
def log2Fuel : Nat → Nat → Nat
  | 0, _ => 0
  | fuel + 1, n => if 2 ≤ n then log2Fuel fuel (n / 2) + 1 else 0

/-- The binary logarithm of a positive natural number, rounded down. -/
def log2Nat (n : Nat) : Nat :=
  log2Fuel n n

section Doubles

variable {K : Type} [LinearOrderedField K] [FloorRing K]

/-- Binary exponent of a positive number `a`: the integer `k` with `2 ^ k ≤ a < 2 ^ (k + 1)`. -/
def binExp (a : K) : ℤ :=
  if 1 ≤ a then (log2Nat ⌊a⌋₊ : ℤ)
  else if a = ((2 : K) ^ log2Nat ⌊a⁻¹⌋₊)⁻¹ then -(log2Nat ⌊a⁻¹⌋₊ : ℤ)
  else -((log2Nat ⌊a⁻¹⌋₊ : ℤ) + 1)

/-- Round to the nearest integer, ties to the even one. -/
def roundEven (t : K) : ℤ :=
  if 2 * Int.fract t < 1 then ⌊t⌋
  else if 1 < 2 * Int.fract t then ⌊t⌋ + 1
  else if ⌊t⌋ % 2 = 0 then ⌊t⌋ else ⌊t⌋ + 1

/-- Exponent of the unit in the last place of the doubles around `q`. -/
def f64Exp (q : K) : ℤ :=
  max (binExp |q| - 52) (-1074)

/-- The finite double nearest to `q`, ties to even. -/
def f64 (q : K) : K :=
  (roundEven (q / (2 : K) ^ f64Exp q) : K) * (2 : K) ^ f64Exp q

/-- `Game.pointToLineDistance` in double arithmetic: every `-`, `*`, `+` and `/` of the
source is followed by rounding to the nearest double. -/
def Game.pointToLineDistanceF64 (M : JsMath K) (x y x1 y1 x2 y2 : K) : K :=
  let A := f64 (x - x1)
  let B := f64 (y - y1)
  let C := f64 (x2 - x1)
  let D := f64 (y2 - y1)
  let dot := f64 (f64 (A * C) + f64 (B * D))
  let len_sq := f64 (f64 (C * C) + f64 (D * D))
  let param : K := if len_sq ≠ 0 then f64 (dot / len_sq) else -1
  let xx : K := if param < 0 then x1 else if 1 < param then x2 else f64 (x1 + f64 (param * C))
  let yy : K := if param < 0 then y1 else if 1 < param then y2 else f64 (y1 + f64 (param * D))
  let dx := f64 (x - xx)
  let dy := f64 (y - yy)
  M.sqrt (f64 (f64 (dx * dx) + f64 (dy * dy)))

/-- `Enemy.update` in double arithmetic. -/
def Enemy.updateF64 (M : JsMath K) (deltaTime : K) (e : Enemy K) : Enemy K :=
  if (Game.createPath (K := K)).length - 1 ≤ e.pathIndex then
    { e with reachedEnd := true }
  else
    let e1 : Enemy K :=
      if 0 < e.freezeTimer then
        if f64 (e.freezeTimer - deltaTime) ≤ 0 then
          { e with freezeTimer := f64 (e.freezeTimer - deltaTime), speed := e.baseSpeed }
        else { e with freezeTimer := f64 (e.freezeTimer - deltaTime) }
      else e
    let targetPoint : Waypoint K := Game.pathAt (e1.pathIndex + 1)
    let dx := f64 (targetPoint.x - e1.x)
    let dy := f64 (targetPoint.y - e1.y)
    let distance := M.hypot dx dy
    if distance < 5 then
      { e1 with pathIndex := e1.pathIndex + 1 }
    else
      { e1 with x := f64 (e1.x + f64 (f64 (f64 (dx / distance) * e1.speed) * deltaTime)),
                y := f64 (e1.y + f64 (f64 (f64 (dy / distance) * e1.speed) * deltaTime)) }

/-- The statement `target.health -= damage` in double arithmetic. -/
def hitEnemyF64 (id : Nat) (damage : K) (es : List (Enemy K)) : List (Enemy K) :=
  es.map (fun e => if e.id = id then { e with health := f64 (e.health - damage) } else e)

/-- `Projectile.update` in double arithmetic. -/
def Projectile.updateF64 (M : JsMath K) (deltaTime : K) (p : Projectile K)
    (live removed : List (Enemy K)) : Projectile K × List (Enemy K) × List (Enemy K) :=
  if p.hit then (p, live, removed)
  else
    match findEnemy p.target live removed with
    | none => (p, live, removed)
    | some target =>
      let dx := f64 (target.x - p.x)
      let dy := f64 (target.y - p.y)
      let distance := M.hypot dx dy
      if distance < 5 then
        ({ p with hit := true }, hitEnemyF64 p.target p.damage live,
          hitEnemyF64 p.target p.damage removed)
      else
        ({ p with x := f64 (p.x + f64 (f64 (f64 (dx / distance) * p.speed) * deltaTime)),
                  y := f64 (p.y + f64 (f64 (f64 (dy / distance) * p.speed) * deltaTime)) },
          live, removed)

/-- A sequence of calls `update (dt)` on one projectile in double arithmetic, one call per
element of the list. -/
def Projectile.updatesF64 (M : JsMath K) :
    List K → Projectile K → List (Enemy K) → List (Enemy K) →
      Projectile K × List (Enemy K) × List (Enemy K)
  | [], p, live, removed => (p, live, removed)
  | dt :: dts, p, live, removed =>
    let r := Projectile.updateF64 M dt p live removed
    Projectile.updatesF64 M dts r.1 r.2.1 r.2.2


end Doubles

/-- The largest `s` below `2 ^ bits` above `acc` with `s * s ≤ n`, found bit by bit. -/
def isqrtBits : Nat → Nat → Nat → Nat
  | 0, _, acc => acc
  | b + 1, n, acc =>
    if (acc + 2 ^ b) * (acc + 2 ^ b) ≤ n then isqrtBits b n (acc + 2 ^ b) else isqrtBits b n acc

/-- The double nearest to the square root of the rational `q`, ties to even: with
`t = q / 4 ^ k` in `[2 ^ 104, 2 ^ 106)` and `s` the integer part of its square root, the root
lies in `[s, s + 1) * 2 ^ k`, and `t` is compared with the square of the midpoint. -/
def sqrtF64 (q : ℚ) : ℚ :=
  if q ≤ 0 then 0
  else
    let k : ℤ := binExp q / 2 - 52
    let t : ℚ := q / (2 : ℚ) ^ (2 * k)
    let s : Nat := isqrtBits 53 ⌊t⌋₊ 0
    if t < (s : ℚ) * s + s + 1 / 4 then s * (2 : ℚ) ^ k
    else if (s : ℚ) * s + s + 1 / 4 < t then (s + 1) * (2 : ℚ) ^ k
    else if s % 2 = 0 then s * (2 : ℚ) ^ k
    else (s + 1) * (2 : ℚ) ^ k

/-- Library functions for running the double-precision definitions on rationals:
`Math.sqrt` correctly rounded, `Math.hypot` the correctly rounded root of the exact sum of
squares (on an axis-parallel pair of doubles that is the absolute value of the nonzero
argument), every random draw `0`. -/
def mathF64 : JsMath ℚ :=
  { hypot := fun a b => sqrtF64 (a * a + b * b), sqrt := sqrtF64, random := fun _ => 0 }

/-- A projectile 5 units left of its target at `(700, 450)`. -/
def swingLeft : Projectile ℚ :=
  { x := 695, y := 450, target := 7, damage := 1 / 2, speed := 300, hit := false }

/-- A projectile 5 units right of its target at `(700, 450)`. -/
def swingRight : Projectile ℚ :=
  { x := 705, y := 450, target := 7, damage := 1 / 2, speed := 300, hit := false }

/-! ## Double-precision products: lemmas -/

/-- A positive shift `s` is only chosen for numbers of at least `2 ^ (52 + s)`. -/
theorem f64Shift_spec (fuel p : Nat) (h : 0 < f64Shift fuel p) :
    2 ^ f64Shift fuel p * 2 ^ 52 ≤ p := by
  induction fuel generalizing p with
  | zero => simp [f64Shift] at h
  | succ f ih =>
    unfold f64Shift at h ⊢
    by_cases hp : p < 2 ^ 53
    · rw [if_pos hp] at h
      exact absurd h (lt_irrefl 0)
    · rw [if_neg hp]
      by_cases h0 : 0 < f64Shift f (p / 2)
      · have := ih (p / 2) h0
        rw [pow_succ]
        omega
      · have h1 : f64Shift f (p / 2) = 0 := by omega
        rw [h1]
        omega

/-- Rounding to a multiple of `E` moves a number by at most `E / 2`. -/
theorem round_core (p E : Nat) (hE : 0 < E) :
    2 * (if 2 * (p % E) < E then p / E * E
         else if E < 2 * (p % E) then (p / E + 1) * E
         else if p / E % 2 = 0 then p / E * E else (p / E + 1) * E) ≤ 2 * p + E ∧
    2 * p ≤ 2 * (if 2 * (p % E) < E then p / E * E
         else if E < 2 * (p % E) then (p / E + 1) * E
         else if p / E % 2 = 0 then p / E * E else (p / E + 1) * E) + E := by
  have hd := Nat.div_add_mod p E
  have hm := Nat.mod_lt p hE
  have e1 : (p / E + 1) * E = E * (p / E) + E := by ring
  have e2 : p / E * E = E * (p / E) := by ring
  rw [e1, e2]
  generalize E * (p / E) = a at *
  generalize p % E = r at *
  split_ifs <;> omega

/-- The rounding error of `f64Round` is at most half a unit in the last place, which is
at most `p / 2 ^ 53`. -/
theorem f64Round_error (p : Nat) :
    ∃ E : Nat, 2 * f64Round p ≤ 2 * p + E ∧ 2 * p ≤ 2 * f64Round p + E ∧ E * 2 ^ 52 ≤ p := by
  by_cases hs : 0 < f64Shift p p
  · have hpos : 0 < 2 ^ f64Shift p p := Nat.pos_pow_of_pos _ (by norm_num)
    exact ⟨2 ^ f64Shift p p, (round_core p _ hpos).1, (round_core p _ hpos).2,
      f64Shift_spec p p hs⟩
  · have h0 : f64Shift p p = 0 := by omega
    refine ⟨0, ?_, ?_, by simp⟩ <;> simp [f64Round, h0, Nat.mod_one]

/-- Rounding to a multiple of `E` never goes below the multiple of `E` just below. -/
theorem round_core_ge (p E : Nat) :
    p / E * E ≤ (if 2 * (p % E) < E then p / E * E
         else if E < 2 * (p % E) then (p / E + 1) * E
         else if p / E % 2 = 0 then p / E * E else (p / E + 1) * E) := by
  have e1 : (p / E + 1) * E = p / E * E + E := by ring
  rw [e1]
  split_ifs <;> omega

/-- Rounding never goes below a representable number that the argument reaches. -/
theorem f64Round_ge (a k p : Nat) (hp : p < 2 ^ (k + 1) * 2 ^ 52) (h : a * 2 ^ k ≤ p) :
    a * 2 ^ k ≤ f64Round p := by
  by_cases hs : 0 < f64Shift p p
  · have h1 := f64Shift_spec p p hs
    have h2 : f64Shift p p < k + 1 := by
      by_contra hc
      have h3 : 2 ^ (k + 1) ≤ 2 ^ f64Shift p p := Nat.pow_le_pow_right (by norm_num) (by omega)
      have h4 := Nat.mul_le_mul_right (2 ^ 52) h3
      omega
    have hpos : 0 < 2 ^ f64Shift p p := Nat.pos_pow_of_pos _ (by norm_num)
    have h5 : 2 ^ k = 2 ^ (k - f64Shift p p) * 2 ^ f64Shift p p := by
      rw [← pow_add]
      congr 1
      omega
    have h6 : a * 2 ^ (k - f64Shift p p) ≤ p / 2 ^ f64Shift p p := by
      rw [Nat.le_div_iff_mul_le hpos, mul_assoc, ← h5]
      exact h
    calc a * 2 ^ k = a * 2 ^ (k - f64Shift p p) * 2 ^ f64Shift p p := by rw [h5, mul_assoc]
      _ ≤ p / 2 ^ f64Shift p p * 2 ^ f64Shift p p := Nat.mul_le_mul_right _ h6
      _ ≤ f64Round p := round_core_ge p _
  · have h0 : f64Shift p p = 0 := by omega
    simpa [f64Round, h0, Nat.mod_one] using h

/-- The double product `n * 0.8`, floored, is the exact `⌊0.8 n⌋` for `n < 2 ^ 48`: the
model of `spawnWave` may compute the base health exactly. -/
theorem f64MulFloor_0_8 (n : Nat) (h : n < 2 ^ 48) : f64MulFloor n mant0_8 52 = n * 4 / 5 := by
  obtain ⟨E, h1, h2, h3⟩ := f64Round_error (n * mant0_8)
  have h4 := f64Round_ge (n * 4 / 5) 52 (n * mant0_8) (by unfold mant0_8; norm_num; omega)
    (by unfold mant0_8; norm_num; omega)
  unfold f64MulFloor
  unfold mant0_8 at *
  generalize f64Round (n * 3602879701896397) = R at *
  norm_num at *
  omega

/-- The double product `n * 1.3`, floored, is the exact `⌊1.3 n⌋` for `n < 2 ^ 48`. -/
theorem f64MulFloor_1_3 (n : Nat) (h : n < 2 ^ 48) : f64MulFloor n mant1_3 52 = n * 13 / 10 := by
  obtain ⟨E, h1, h2, h3⟩ := f64Round_error (n * mant1_3)
  have h4 := f64Round_ge (n * 13 / 10) 52 (n * mant1_3) (by unfold mant1_3; norm_num; omega)
    (by unfold mant1_3; norm_num; omega)
  unfold f64MulFloor
  unfold mant1_3 at *
  generalize f64Round (n * 5854679515581645) = R at *
  norm_num at *
  omega

/-- The double product `n * 1.1`, floored, is the exact `⌊1.1 n⌋` for `n < 2 ^ 48`. -/
theorem f64MulFloor_1_1 (n : Nat) (h : n < 2 ^ 48) : f64MulFloor n mant1_1 52 = n * 11 / 10 := by
  obtain ⟨E, h1, h2, h3⟩ := f64Round_error (n * mant1_1)
  have h4 := f64Round_ge (n * 11 / 10) 52 (n * mant1_1) (by unfold mant1_1; norm_num; omega)
    (by unfold mant1_1; norm_num; omega)
  unfold f64MulFloor
  unfold mant1_1 at *
  generalize f64Round (n * 4953959590107546) = R at *
  norm_num at *
  omega

/-- The double product `n * 0.7`, floored, is `⌊0.7 n⌋` or one less, and it is `⌊0.7 n⌋`
when `n` is not a multiple of 10 (`n < 2 ^ 48`). -/
theorem f64MulFloor_0_7 (n : Nat) (h : n < 2 ^ 48) :
    n * 7 / 10 ≤ f64MulFloor n mant0_7 52 + 1 ∧ f64MulFloor n mant0_7 52 ≤ n * 7 / 10 ∧
    (n % 10 ≠ 0 → f64MulFloor n mant0_7 52 = n * 7 / 10) := by
  obtain ⟨E, h1, h2, h3⟩ := f64Round_error (n * mant0_7)
  unfold f64MulFloor
  unfold mant0_7 at *
  generalize f64Round (n * 3152519739159347) = R at *
  norm_num at *
  refine ⟨?_, ?_, ?_⟩
  · omega
  · omega
  · intro h5
    have h6 : n * 7 % 10 ≠ 0 := by omega
    omega

/-- The double product `90 * 0.7` is below 63. -/
theorem f64MulFloor_90 : f64MulFloor 90 mant0_7 52 = 62 := by decide!

/-- The double products `baseRange * 1.3` of `Tower.upgrade` are the integers 104, 130, 156,
117 and 143: on the five base ranges the product is exact. -/
theorem f64Round_ranges :
    f64Round (80 * mant1_3) = 104 * 2 ^ 52 ∧ f64Round (100 * mant1_3) = 130 * 2 ^ 52 ∧
    f64Round (120 * mant1_3) = 156 * 2 ^ 52 ∧ f64Round (90 * mant1_3) = 117 * 2 ^ 52 ∧
    f64Round (110 * mant1_3) = 143 * 2 ^ 52 := by decide!

section Theorems

variable {K : Type} [LinearOrderedField K]

/-! ## Spawning -/

/-- The first waypoint. -/
theorem pathAt_zero : (Game.pathAt 0 : Waypoint K) = ⟨50, 300⟩ := rfl

/-- The loop of `spawnWave` appends one timer per iteration and changes nothing else. -/
theorem scheduleSpawns_eq (h n i : Nat) (s : Game K) :
    Game.scheduleSpawns h n i s =
      { s with
        timers := s.timers ++ (List.range n).map (fun j =>
          ({ id := s.nextId + j, due := s.now + ((i + j : Nat) : K) * 1000,
             action := TimerAction.spawnEnemy h } : Timer K)),
        nextId := s.nextId + n } := by
  induction n generalizing i s with
  | zero => simp [Game.scheduleSpawns]
  | succ n ih =>
    rw [Game.scheduleSpawns, ih]
    simp only [Game.setTimeout, List.range_succ_eq_map, List.map_cons, List.map_map,
      List.append_assoc, List.singleton_append]
    congr 1
    · congr 1
      congr 1
      simp
      intro a _
      constructor
      · omega
      · ring
    · omega

/-- What `spawnWave` does in a wave that is not a boss wave. -/
theorem spawnWave_regular (M : JsMath K) (s : Game K) (h : s.wave % 10 ≠ 0) :
    Game.spawnWave M s =
      { s with
        timers := s.timers ++ (List.range (Game.enemyCount s.wave)).map (fun j =>
          ({ id := s.nextId + j, due := s.now + (j : K) * 1000,
             action := TimerAction.spawnEnemy (Game.baseHealth s.wave) } : Timer K)),
        nextId := s.nextId + Game.enemyCount s.wave,
        waveInProgress := true } := by
  simp [Game.spawnWave, h, scheduleSpawns_eq]


/-- C6. In a wave whose number is a multiple of 10, `spawnWave` pushes exactly one enemy,
at once and without scheduling a timer: a boss with health and maximum health `50 + 5 w`,
damage `20 + ⌊w / 2⌋`, reward `100 + 5 w`, speed and base speed 40, placed on the first
waypoint with path index 0; it becomes `currentBoss`, and `waveInProgress` and `bossWave`
are set. Type, health, damage, reward and speed differ from what the constructor assigns to a
dragon. -/
theorem spawnWave_boss (M : JsMath K) (s : Game K) (h : s.wave % 10 = 0) :
    ∃ boss : Enemy K,
      (Game.spawnWave M s).enemies = s.enemies ++ [boss] ∧
      (Game.spawnWave M s).timers = s.timers ∧
      boss.type = EnemyType.boss ∧ boss.isBoss = true ∧
      boss.health = ((50 + 5 * s.wave : Nat) : K) ∧
      boss.maxHealth = ((50 + 5 * s.wave : Nat) : K) ∧
      boss.damage = 20 + s.wave / 2 ∧ boss.reward = 100 + 5 * s.wave ∧
      boss.speed = 40 ∧ boss.baseSpeed = 40 ∧
      (⟨boss.x, boss.y⟩ : Waypoint K) = Game.pathAt 0 ∧ boss.pathIndex = 0 ∧
      (Game.spawnWave M s).currentBoss = some boss.id ∧
      (Game.spawnWave M s).waveInProgress = true ∧
      (Game.spawnWave M s).bossWave = true ∧
      boss.type ≠ EnemyType.dragon ∧
      boss.health ≠ (((50 + 5 * s.wave) * 6 : Nat) : K) ∧
      boss.damage ≠ 12 ∧ boss.reward ≠ 50 ∧ boss.speed ≠ 60 := by
  have hb : Game.spawnWave M s = Game.spawnBossWave M s := by simp [Game.spawnWave, h]
  rw [hb]
  refine ⟨Game.newBoss M s, rfl, rfl, rfl, rfl, ?_, ?_, rfl, ?_, rfl, rfl, ?_, rfl, rfl, rfl,
    rfl, ?_, ?_, ?_, ?_, ?_⟩
  · show ((50 + s.wave * 5 : Nat) : K) = ((50 + 5 * s.wave : Nat) : K)
    rw [Nat.mul_comm]
  · show ((50 + s.wave * 5 : Nat) : K) = ((50 + 5 * s.wave : Nat) : K)
    rw [Nat.mul_comm]
  · show 100 + s.wave * 5 = 100 + 5 * s.wave
    rw [Nat.mul_comm]
  · simp only [Game.newBoss, Enemy.create, Enemy.setEnemyType, Enemy.init, pathAt_zero]
    split_ifs <;> rfl
  · show EnemyType.boss ≠ EnemyType.dragon
    decide
  · show ((50 + s.wave * 5 : Nat) : K) ≠ (((50 + 5 * s.wave) * 6 : Nat) : K)
    rw [Ne, Nat.cast_inj]
    omega
  · show 20 + s.wave / 2 ≠ 12
    omega
  · show 100 + s.wave * 5 ≠ 50
    omega
  · show (40 : K) ≠ 60
    norm_num

/-- The state in which wave 10 is about to be spawned. -/
theorem spawnWave_boss_witness :
    ({ (Game.fields : Game ℚ) with wave := 10 } : Game ℚ).wave % 10 = 0 ∧
    ∃ boss : Enemy ℚ,
      (Game.spawnWave mathQ { (Game.fields : Game ℚ) with wave := 10 }).enemies = [boss] ∧
      boss.health = 100 ∧ boss.damage = 25 ∧ boss.reward = 150 := by
  refine ⟨by decide, ?_⟩
  obtain ⟨b, h1, _, _, _, h5, _, h7, h8, _⟩ :=
    spawnWave_boss mathQ { (Game.fields : Game ℚ) with wave := 10 } (by decide)
  refine ⟨b, by simpa [Game.fields] using h1, ?_, by simpa using h7, by simpa using h8⟩
  rw [h5]
  norm_num


/-- The floor of `0.8 w`, as an integer, is the natural number `w * 4 / 5`. -/
theorem floor_0_8 (w : Nat) : ⌊(4 / 5 : ℚ) * w⌋ = ((w * 4 / 5 : Nat) : Int) := by
  rw [Int.floor_eq_iff]
  have h1 := Nat.div_add_mod (w * 4) 5
  have h2 := Nat.mod_lt (w * 4) (show 0 < 5 by norm_num)
  have h3 : ((w * 4 : Nat) : ℚ) = 5 * ((w * 4 / 5 : Nat) : ℚ) + ((w * 4 % 5 : Nat) : ℚ) := by
    exact_mod_cast h1.symm
  have h4 : ((w * 4 % 5 : Nat) : ℚ) < 5 := by exact_mod_cast h2
  have h5 : (0 : ℚ) ≤ ((w * 4 % 5 : Nat) : ℚ) := Nat.cast_nonneg _
  push_cast at h3
  rw [Int.cast_natCast]
  constructor <;> linarith

/-- C7. In a wave `w` that is not a multiple of 10, `spawnWave` schedules exactly
`3 + ⌊w / 3⌋` timers, the `i`-th with delay `i * 1000` ms, each carrying the base health
1 for `w ≤ 3`, 2 for `4 ≤ w ≤ 6` and `1 + ⌊0.8 w⌋` otherwise; it sets `waveInProgress` and
pushes no enemy itself. When such a timer fires, the enemy is constructed with that health on
the first waypoint `(50, 300)` and pushed with path index 0. Count and base health are at
least 1. -/
theorem spawnWave_stagger (M : JsMath K) (s s1 : Game K) (h : s.wave % 10 ≠ 0) :
    (Game.spawnWave M s).timers =
      s.timers ++ (List.range (3 + s.wave / 3)).map (fun i =>
        ({ id := s.nextId + i, due := s.now + (i : K) * 1000,
           action := TimerAction.spawnEnemy (Game.baseHealth s.wave) } : Timer K)) ∧
    (Game.spawnWave M s).waveInProgress = true ∧
    (Game.spawnWave M s).enemies = s.enemies ∧
    Game.baseHealth s.wave =
      (if s.wave ≤ 3 then 1 else if s.wave ≤ 6 then 2 else 1 + s.wave * 4 / 5) ∧
    ((s.wave * 4 / 5 : Nat) : Int) = ⌊(4 / 5 : ℚ) * s.wave⌋ ∧
    (Game.runTimer M (TimerAction.spawnEnemy (Game.baseHealth s.wave)) s1).enemies =
      s1.enemies ++ [{ Enemy.create s1.nextId 50 300 (Game.baseHealth s.wave) s1.wave
                        (M.random s1.draws) with pathIndex := 0 }] ∧
    (Enemy.create s1.nextId 50 300 (Game.baseHealth s.wave) s1.wave (M.random s1.draws)).x = 50 ∧
    (Enemy.create s1.nextId 50 300 (Game.baseHealth s.wave) s1.wave (M.random s1.draws)).y
      = 300 ∧
    1 ≤ 3 + s.wave / 3 ∧ 1 ≤ Game.baseHealth s.wave := by
  rw [spawnWave_regular M s h]
  refine ⟨rfl, rfl, rfl, rfl, (floor_0_8 s.wave).symm, rfl, ?_, ?_, by omega, ?_⟩
  · simp only [Enemy.create, Enemy.setEnemyType, Enemy.init]
    split_ifs <;> rfl
  · simp only [Enemy.create, Enemy.setEnemyType, Enemy.init]
    split_ifs <;> rfl
  · unfold Game.baseHealth
    split_ifs <;> omega

/-- Wave 7 schedules five enemies of base health 6. -/
theorem spawnWave_stagger_witness :
    ({ (Game.fields : Game ℚ) with wave := 7 } : Game ℚ).wave % 10 ≠ 0 ∧
    (Game.spawnWave mathQ { (Game.fields : Game ℚ) with wave := 7 }).timers =
      [⟨0, 0, TimerAction.spawnEnemy 6⟩, ⟨1, 1000, TimerAction.spawnEnemy 6⟩,
       ⟨2, 2000, TimerAction.spawnEnemy 6⟩, ⟨3, 3000, TimerAction.spawnEnemy 6⟩,
       ⟨4, 4000, TimerAction.spawnEnemy 6⟩] := by
  refine ⟨by decide, ?_⟩
  have h := (spawnWave_stagger mathQ { (Game.fields : Game ℚ) with wave := 7 } Game.fields
    (by decide)).1
  rw [h]
  decide!

/-- C8, refuted as stated: wave 5 is a knight wave. Its base health is 2, and the enemy
constructed from it is a knight with health 6 (the knight branch does not read the draw,
taken as 0 here). -/
theorem wave5_knight :
    Game.baseHealth 5 = 2 ∧
    (Enemy.create 0 50 300 (Game.baseHealth 5) 5 (0 : ℚ)).type = EnemyType.knight ∧
    (Enemy.create 0 50 300 (Game.baseHealth 5) 5 (0 : ℚ)).health = 6 := by decide!

/-- C8, amended. In waves 1 to 6 every timer that `spawnWave` schedules carries the base
health 1 (waves 1 to 3) or 2 (waves 4 to 6). The enemy it constructs while the wave counter
still reads that wave is, whatever `Math.random` returns, a goblin with exactly that health
in waves 1, 2, 3, 4 and 6, and a knight with health 6 in wave 5. -/
theorem early_waves_goblins (M : JsMath K) (s s1 : Game K) (h1 : 1 ≤ s.wave) (h6 : s.wave ≤ 6)
    (hw : s1.wave = s.wave) :
    ∃ new : List (Timer K),
      (Game.spawnWave M s).timers = s.timers ++ new ∧ new.length = 3 + s.wave / 3 ∧
      ∀ t ∈ new, ∃ e : Enemy K,
        (Game.runTimer M t.action s1).enemies = s1.enemies ++ [e] ∧
        (s.wave ≠ 5 → e.type = EnemyType.goblin ∧
          e.health = (if s.wave ≤ 3 then 1 else 2) ∧
          e.maxHealth = (if s.wave ≤ 3 then 1 else 2)) ∧
        (s.wave = 5 → e.type = EnemyType.knight ∧ e.health = 6 ∧ e.maxHealth = 6) := by
  have hne : s.wave % 10 ≠ 0 := by omega
  refine ⟨(List.range (Game.enemyCount s.wave)).map (fun j =>
      ({ id := s.nextId + j, due := s.now + (j : K) * 1000,
         action := TimerAction.spawnEnemy (Game.baseHealth s.wave) } : Timer K)),
    by rw [spawnWave_regular M s hne], by simp [Game.enemyCount], ?_⟩
  intro t ht
  simp only [List.mem_map, List.mem_range] at ht
  obtain ⟨i, _, rfl⟩ := ht
  refine ⟨_, rfl, ?_, ?_⟩
  · intro h5
    have h5' : ¬ s.wave % 5 = 0 := by omega
    simp only [Enemy.create, Enemy.setEnemyType, Enemy.init, Game.baseHealth, hw]
    split_ifs <;> first | omega | simp
  · intro h5
    simp only [Enemy.create, Enemy.setEnemyType, Enemy.init, Game.baseHealth, hw, h5]
    norm_num

/-- Wave 4: three plus one goblins of health 2; wave 5 is not excluded by the bounds. -/
theorem early_waves_goblins_witness :
    ∃ new : List (Timer ℚ),
      (Game.spawnWave mathQ { (Game.fields : Game ℚ) with wave := 4 }).timers = new ∧
      new.length = 4 ∧
      ∀ t ∈ new, ∃ e : Enemy ℚ,
        (Game.runTimer mathQ t.action { (Game.fields : Game ℚ) with wave := 4 }).enemies = [e] ∧
        e.type = EnemyType.goblin ∧ e.health = 2 := by
  obtain ⟨new, h1, h2, h3⟩ := early_waves_goblins mathQ
    { (Game.fields : Game ℚ) with wave := 4 } { (Game.fields : Game ℚ) with wave := 4 }
    (by decide) (by decide) rfl
  refine ⟨new, by simpa [Game.fields] using h1, by simpa using h2, ?_⟩
  intro t ht
  obtain ⟨e, h4, h5, _⟩ := h3 t ht
  have h6 := h5 (by decide)
  refine ⟨e, by simpa [Game.fields] using h4, h6.1, ?_⟩
  have h7 := h6.2.1
  simpa using h7

/-! ## Enemy types and the upgrade ladder -/

/-- C9, refuted as stated: in wave 112 the base health is 90, and a scout constructed from it
(draw 0.7) has health 62, not `max (1, ⌊0.7 * 90⌋) = 63`, because the double product
`90 * 0.7` is `62.99999999999999`. -/
theorem scout_health_wave112 :
    Game.baseHealth 112 = 90 ∧
    (Enemy.create 0 50 300 90 112 (7 / 10 : ℚ)).type = EnemyType.scout ∧
    (Enemy.create 0 50 300 90 112 (7 / 10 : ℚ)).health = 62 ∧
    max 1 ⌊(7 / 10 : ℚ) * 90⌋ = 63 := by
  refine ⟨by decide!, by decide!, by decide!, ?_⟩
  norm_num [Int.floor_eq_iff]

/-- C9, amended. The type assignment is a function of the wave `w`, the constructor health
`h` and the draw `r`, by the first branch that applies: (1) `w ≤ 3`: goblin, health `h`,
damage 1, reward 5, size 15, speed 100; (2) `w % 10 = 0`: dragon, health `6 h`, damage 12,
reward 50, speed 60; (3) `w % 5 = 0`: knight, health `3 h`, damage 5, reward 25, speed 70;
(4) `w ≤ 6` or `r < 0.6`: goblin, health `h`, damage 1, reward 5; (5) `r < 0.75`: scout,
health `max (1, F h)` with `F h` the floor of the double product `h * 0.7`, damage 2,
reward 8, speed 150; (6) `r < 0.85`: orc, health `⌊1.3 h⌋`, damage 3, reward 25, speed 70;
(7) otherwise demon, health `⌊1.1 h⌋`, damage 2, reward 10, speed 100. Always `maxHealth`
is the health and `speed` is `baseSpeed`; branches (2) and (3) ignore the draw. For
`h < 2 ^ 48`, `F h` is `⌊0.7 h⌋` or one less, and is `⌊0.7 h⌋` when `h` is not a multiple
of 10. -/
theorem setEnemyType_branches (id : Nat) (x y : K) (w h : Nat) (r r1 : K) :
    (w ≤ 3 →
      (Enemy.create id x y h w r).type = EnemyType.goblin ∧
      (Enemy.create id x y h w r).health = h ∧ (Enemy.create id x y h w r).damage = 1 ∧
      (Enemy.create id x y h w r).reward = 5 ∧ (Enemy.create id x y h w r).size = 15 ∧
      (Enemy.create id x y h w r).speed = 100) ∧
    (3 < w → w % 10 = 0 →
      (Enemy.create id x y h w r).type = EnemyType.dragon ∧
      (Enemy.create id x y h w r).health = ((6 * h : Nat) : K) ∧
      (Enemy.create id x y h w r).damage = 12 ∧ (Enemy.create id x y h w r).reward = 50 ∧
      (Enemy.create id x y h w r).speed = 60) ∧
    (3 < w → w % 10 ≠ 0 → w % 5 = 0 →
      (Enemy.create id x y h w r).type = EnemyType.knight ∧
      (Enemy.create id x y h w r).health = ((3 * h : Nat) : K) ∧
      (Enemy.create id x y h w r).damage = 5 ∧ (Enemy.create id x y h w r).reward = 25 ∧
      (Enemy.create id x y h w r).speed = 70) ∧
    (3 < w → w % 5 ≠ 0 → (w ≤ 6 ∨ r < lit0_6) →
      (Enemy.create id x y h w r).type = EnemyType.goblin ∧
      (Enemy.create id x y h w r).health = h ∧ (Enemy.create id x y h w r).damage = 1 ∧
      (Enemy.create id x y h w r).reward = 5) ∧
    (6 < w → w % 5 ≠ 0 → ¬ r < lit0_6 → r < 3 / 4 →
      (Enemy.create id x y h w r).type = EnemyType.scout ∧
      (Enemy.create id x y h w r).health = ((max 1 (f64MulFloor h mant0_7 52) : Nat) : K) ∧
      (Enemy.create id x y h w r).damage = 2 ∧ (Enemy.create id x y h w r).reward = 8 ∧
      (Enemy.create id x y h w r).speed = 150) ∧
    (6 < w → w % 5 ≠ 0 → ¬ r < lit0_6 → ¬ r < 3 / 4 → r < lit0_85 →
      (Enemy.create id x y h w r).type = EnemyType.orc ∧
      (Enemy.create id x y h w r).health = ((h * 13 / 10 : Nat) : K) ∧
      (Enemy.create id x y h w r).damage = 3 ∧ (Enemy.create id x y h w r).reward = 25 ∧
      (Enemy.create id x y h w r).speed = 70) ∧
    (6 < w → w % 5 ≠ 0 → ¬ r < lit0_6 → ¬ r < 3 / 4 → ¬ r < lit0_85 →
      (Enemy.create id x y h w r).type = EnemyType.demon ∧
      (Enemy.create id x y h w r).health = ((h * 11 / 10 : Nat) : K) ∧
      (Enemy.create id x y h w r).damage = 2 ∧ (Enemy.create id x y h w r).reward = 10 ∧
      (Enemy.create id x y h w r).speed = 100) ∧
    (Enemy.create id x y h w r).maxHealth = (Enemy.create id x y h w r).health ∧
    (Enemy.create id x y h w r).speed = (Enemy.create id x y h w r).baseSpeed ∧
    (3 < w → w % 5 = 0 → Enemy.create id x y h w r = Enemy.create id x y h w r1) ∧
    (h < 2 ^ 48 →
      h * 7 / 10 ≤ f64MulFloor h mant0_7 52 + 1 ∧ f64MulFloor h mant0_7 52 ≤ h * 7 / 10 ∧
      (h % 10 ≠ 0 → f64MulFloor h mant0_7 52 = h * 7 / 10)) := by
  refine ⟨?_, ?_, ?_, ?_, ?_, ?_, ?_, ?_, ?_, ?_, f64MulFloor_0_7 h⟩
  · intro h1
    simp [Enemy.create, Enemy.setEnemyType, Enemy.init, h1]
  · intro h1 h2
    have h3 : ¬ w ≤ 3 := by omega
    simp [Enemy.create, Enemy.setEnemyType, Enemy.init, h2, h3, Nat.mul_comm]
  · intro h1 h2 h3
    have h4 : ¬ w ≤ 3 := by omega
    simp [Enemy.create, Enemy.setEnemyType, Enemy.init, h2, h3, h4, Nat.mul_comm]
  · intro h1 h2 h3
    have h4 : ¬ w ≤ 3 := by omega
    have h5 : ¬ w % 10 = 0 := by omega
    simp [Enemy.create, Enemy.setEnemyType, Enemy.init, h2, h3, h4, h5]
  · intro h1 h2 h3 h4
    have h5 : ¬ w ≤ 3 := by omega
    have h6 : ¬ w % 10 = 0 := by omega
    have h7 : ¬ w ≤ 6 := by omega
    simp [Enemy.create, Enemy.setEnemyType, Enemy.init, h2, h3, h4, h5, h6, h7]
  · intro h1 h2 h3 h4 h8
    have h5 : ¬ w ≤ 3 := by omega
    have h6 : ¬ w % 10 = 0 := by omega
    have h7 : ¬ w ≤ 6 := by omega
    simp [Enemy.create, Enemy.setEnemyType, Enemy.init, h2, h3, h4, h5, h6, h7, h8]
  · intro h1 h2 h3 h4 h8
    have h5 : ¬ w ≤ 3 := by omega
    have h6 : ¬ w % 10 = 0 := by omega
    have h7 : ¬ w ≤ 6 := by omega
    simp [Enemy.create, Enemy.setEnemyType, Enemy.init, h2, h3, h4, h5, h6, h7, h8]
  · simp only [Enemy.create, Enemy.setEnemyType, Enemy.init]
    split_ifs <;> rfl
  · simp only [Enemy.create, Enemy.setEnemyType, Enemy.init]
    split_ifs <;> rfl
  · intro h1 h2
    have h3 : ¬ w ≤ 3 := by omega
    simp only [Enemy.create, Enemy.setEnemyType, Enemy.init, h2, h3, if_true, if_false]

/-- C10. The upgrade ladder of every tower type, with base cost 25 for basic, 50 for power
and 75 for the others: a new tower has level 1, its base damage and base range, and upgrade
cost `baseCost`; the first upgrade succeeds and gives level 2, twice the base damage, the
base range and cost `2 * baseCost`; the second succeeds and gives level 3, three times the
base damage, 1.3 times the base range and cost 0. For a basic tower the costs are 25, 50, 0. -/
theorem upgrade_ladder (id : Nat) (x y : K) (t : TowerType) :
    (Tower.create id x y t).level = 1 ∧
    (Tower.create id x y t).damage = (Tower.create id x y t).baseDamage ∧
    (Tower.create id x y t).range = (Tower.create id x y t).baseRange ∧
    (Tower.create id x y t).upgradeCost =
      (if t = TowerType.basic then 25 else if t = TowerType.power then 50 else 75) ∧
    (Tower.upgrade (Tower.create id x y t)).2 = true ∧
    (Tower.upgrade (Tower.create id x y t)).1.level = 2 ∧
    (Tower.upgrade (Tower.create id x y t)).1.damage =
      2 * (Tower.create id x y t).baseDamage ∧
    (Tower.upgrade (Tower.create id x y t)).1.range = (Tower.create id x y t).baseRange ∧
    (Tower.upgrade (Tower.create id x y t)).1.upgradeCost =
      2 * (if t = TowerType.basic then 25 else if t = TowerType.power then 50 else 75) ∧
    (Tower.upgrade (Tower.upgrade (Tower.create id x y t)).1).2 = true ∧
    (Tower.upgrade (Tower.upgrade (Tower.create id x y t)).1).1.level = 3 ∧
    (Tower.upgrade (Tower.upgrade (Tower.create id x y t)).1).1.damage =
      3 * (Tower.create id x y t).baseDamage ∧
    (Tower.upgrade (Tower.upgrade (Tower.create id x y t)).1).1.range =
      13 / 10 * ((Tower.create id x y t).baseRange : K) ∧
    (Tower.upgrade (Tower.upgrade (Tower.create id x y t)).1).1.upgradeCost = 0 ∧
    (Tower.create id x y TowerType.basic).upgradeCost = 25 ∧
    (Tower.upgrade (Tower.create id x y TowerType.basic)).1.upgradeCost = 50 ∧
    (Tower.upgrade (Tower.upgrade (Tower.create id x y TowerType.basic)).1).1.upgradeCost
      = 0 := by
  cases t <;>
    simp [Tower.create, Tower.upgrade, Tower.canUpgrade, Tower.calculateUpgradeCost] <;>
    norm_num

/-! ## The enemy filter of the tick -/

/-- The enemy filter on an enemy that has reached the end. -/
theorem reapEnemies_escaped (M : JsMath K) (dt : K) (e : Enemy K) (es : List (Enemy K))
    (s : Game K) (h : (Enemy.update M dt e).reachedEnd = true) :
    Game.reapEnemies M dt (e :: es) s =
      Game.reapEnemies M dt es
        (Game.showDamageText
          ((Game.pathAt ((Game.createPath (K := K)).length - 1) : Waypoint K).x + 30)
          ((Game.pathAt ((Game.createPath (K := K)).length - 1) : Waypoint K).y - 30)
          ((Enemy.update M dt e).damage + (Enemy.update M dt e).wave / 3)
          { s with
            castleHealth := s.castleHealth -
              (((Enemy.update M dt e).damage + (Enemy.update M dt e).wave / 3 : Nat) : Int),
            removed := s.removed ++ [Enemy.update M dt e] }) := by
  rw [Game.reapEnemies]
  simp only [h, if_true]

/-- The enemy filter on an enemy that has run out of health before the end. -/
theorem reapEnemies_dead (M : JsMath K) (dt : K) (e : Enemy K) (es : List (Enemy K))
    (s : Game K) (h1 : (Enemy.update M dt e).reachedEnd = false)
    (h2 : (Enemy.update M dt e).health ≤ 0) :
    Game.reapEnemies M dt (e :: es) s =
      Game.reapEnemies M dt es
        { s with
          gold := s.gold + (Enemy.update M dt e).reward,
          currentBoss := if (Enemy.update M dt e).isBoss then none else s.currentBoss,
          removed := s.removed ++ [Enemy.update M dt e] } := by
  rw [Game.reapEnemies]
  simp only [h1, h2, if_true, Bool.false_eq_true, if_false]

/-- The enemy filter on an enemy that stays. -/
theorem reapEnemies_alive (M : JsMath K) (dt : K) (e : Enemy K) (es : List (Enemy K))
    (s : Game K) (h1 : (Enemy.update M dt e).reachedEnd = false)
    (h2 : ¬ (Enemy.update M dt e).health ≤ 0) :
    Game.reapEnemies M dt (e :: es) s =
      ((Game.reapEnemies M dt es s).1, Enemy.update M dt e :: (Game.reapEnemies M dt es s).2) := by
  rw [Game.reapEnemies]
  simp only [h1, h2, Bool.false_eq_true, if_false]

/-- The enemy filter of `gameLoop` writes castle health, damage texts, gold, the boss
reference and the store of removed enemies, and nothing else. -/
theorem reapEnemies_frame (M : JsMath K) (dt : K) (es : List (Enemy K)) (s : Game K) :
    ∃ c d g b r, (Game.reapEnemies M dt es s).1 =
      { s with castleHealth := c, damageTexts := d, gold := g, currentBoss := b,
               removed := r } := by
  induction es generalizing s with
  | nil => exact ⟨_, _, _, _, _, rfl⟩
  | cons e es ih =>
    cases h1 : (Enemy.update M dt e).reachedEnd
    · by_cases h2 : (Enemy.update M dt e).health ≤ 0
      · rw [reapEnemies_dead M dt e es s h1 h2]
        obtain ⟨c, d, g, b, r, h⟩ := ih
          { s with
            gold := s.gold + (Enemy.update M dt e).reward,
            currentBoss := if (Enemy.update M dt e).isBoss then none else s.currentBoss,
            removed := s.removed ++ [Enemy.update M dt e] }
        exact ⟨c, d, g, b, r, by rw [h]⟩
      · rw [reapEnemies_alive M dt e es s h1 h2]
        exact ih s
    · rw [reapEnemies_escaped M dt e es s h1]
      obtain ⟨c, d, g, b, r, h⟩ := ih (Game.showDamageText
          ((Game.pathAt ((Game.createPath (K := K)).length - 1) : Waypoint K).x + 30)
          ((Game.pathAt ((Game.createPath (K := K)).length - 1) : Waypoint K).y - 30)
          ((Enemy.update M dt e).damage + (Enemy.update M dt e).wave / 3)
          { s with
            castleHealth := s.castleHealth -
              (((Enemy.update M dt e).damage + (Enemy.update M dt e).wave / 3 : Nat) : Int),
            removed := s.removed ++ [Enemy.update M dt e] })
      exact ⟨c, d, g, b, r, by rw [h]; rfl⟩

/-- Castle health after the enemy filter: every updated enemy with `reachedEnd` has taken
`damage + ⌊wave / 3⌋` from it. -/
theorem reapEnemies_castleHealth (M : JsMath K) (dt : K) (es : List (Enemy K)) (s : Game K) :
    (Game.reapEnemies M dt es s).1.castleHealth =
      s.castleHealth -
        ((((es.map (Enemy.update M dt)).filter (fun e => e.reachedEnd)).map
          (fun e => ((e.damage + e.wave / 3 : Nat) : Int))).sum) := by
  induction es generalizing s with
  | nil => simp [Game.reapEnemies]
  | cons e es ih =>
    cases h1 : (Enemy.update M dt e).reachedEnd
    · rw [List.map_cons, List.filter_cons_of_neg (by simp [h1])]
      by_cases h2 : (Enemy.update M dt e).health ≤ 0
      · rw [reapEnemies_dead M dt e es s h1 h2, ih]
      · rw [reapEnemies_alive M dt e es s h1 h2]
        exact ih s
    · rw [reapEnemies_escaped M dt e es s h1, ih, List.map_cons,
        List.filter_cons_of_pos (by simp [h1]), List.map_cons, List.sum_cons]
      simp only [Game.showDamageText]
      ring

/-- Gold after the enemy filter: every updated enemy that has not reached the end and has
health at most 0 has paid its reward. -/
theorem reapEnemies_gold (M : JsMath K) (dt : K) (es : List (Enemy K)) (s : Game K) :
    (Game.reapEnemies M dt es s).1.gold =
      s.gold +
        ((((es.map (Enemy.update M dt)).filter
            (fun e => !e.reachedEnd && decide (e.health ≤ 0))).map
          (fun e => (e.reward : Int))).sum) := by
  induction es generalizing s with
  | nil => simp [Game.reapEnemies]
  | cons e es ih =>
    cases h1 : (Enemy.update M dt e).reachedEnd
    · by_cases h2 : (Enemy.update M dt e).health ≤ 0
      · rw [reapEnemies_dead M dt e es s h1 h2, ih, List.map_cons,
          List.filter_cons_of_pos (by simp [h1, h2]), List.map_cons, List.sum_cons]
        ring
      · rw [reapEnemies_alive M dt e es s h1 h2, List.map_cons,
          List.filter_cons_of_neg (by simp [h1, h2])]
        exact ih s
    · rw [reapEnemies_escaped M dt e es s h1, ih, List.map_cons,
        List.filter_cons_of_neg (by simp [h1])]
      rfl

/-- The enemies the filter keeps: the updated enemies that have neither reached the end nor
run out of health, in their original order. -/
theorem reapEnemies_kept (M : JsMath K) (dt : K) (es : List (Enemy K)) (s : Game K) :
    (Game.reapEnemies M dt es s).2 =
      (es.map (Enemy.update M dt)).filter
        (fun e => !e.reachedEnd && !decide (e.health ≤ 0)) := by
  induction es generalizing s with
  | nil => simp [Game.reapEnemies]
  | cons e es ih =>
    cases h1 : (Enemy.update M dt e).reachedEnd
    · by_cases h2 : (Enemy.update M dt e).health ≤ 0
      · rw [reapEnemies_dead M dt e es s h1 h2, ih, List.map_cons,
          List.filter_cons_of_neg (by simp [h1, h2])]
      · rw [reapEnemies_alive M dt e es s h1 h2, List.map_cons,
          List.filter_cons_of_pos (by simp [h1, h2]), ih]
    · rw [reapEnemies_escaped M dt e es s h1, ih, List.map_cons,
        List.filter_cons_of_neg (by simp [h1])]

/-- The boss reference after the enemy filter: cleared as soon as one of the enemies removed
for lack of health is a boss, untouched otherwise. -/
theorem reapEnemies_currentBoss (M : JsMath K) (dt : K) (es : List (Enemy K)) (s : Game K) :
    (Game.reapEnemies M dt es s).1.currentBoss =
      if (((es.map (Enemy.update M dt)).filter
            (fun e => !e.reachedEnd && decide (e.health ≤ 0))).any (fun e => e.isBoss)) = true
      then none else s.currentBoss := by
  induction es generalizing s with
  | nil => simp [Game.reapEnemies]
  | cons e es ih =>
    cases h1 : (Enemy.update M dt e).reachedEnd
    · by_cases h2 : (Enemy.update M dt e).health ≤ 0
      · rw [reapEnemies_dead M dt e es s h1 h2, ih, List.map_cons,
          List.filter_cons_of_pos (by simp [h1, h2]), List.any_cons]
        cases h3 : (Enemy.update M dt e).isBoss <;> simp
      · rw [reapEnemies_alive M dt e es s h1 h2, List.map_cons,
          List.filter_cons_of_neg (by simp [h1, h2])]
        exact ih s
    · rw [reapEnemies_escaped M dt e es s h1, ih, List.map_cons,
        List.filter_cons_of_neg (by simp [h1])]
      rfl

/-! ## The tick -/

/-- A running game loop is one tick. -/
theorem gameLoop_running (M : JsMath K) (t : K) (s : Game K) (h : s.isPaused = false) :
    Game.gameLoop M t s = Game.tick M ((t - s.lastTime) / 1000) { s with lastTime := t } := by
  simp [Game.gameLoop, h]

/-- The state after the enemy filter, field by field. -/
theorem afterEnemies_frame (M : JsMath K) (dt : K) (s : Game K) :
    ∃ c d g b r, Game.afterEnemies M dt s =
      { s with castleHealth := c, damageTexts := d, gold := g, currentBoss := b, removed := r,
               towers := (Game.towersPhase M dt s).towers,
               enemies := ((Game.towersPhase M dt s).enemies.map (Enemy.update M dt)).filter
                 (fun e => !e.reachedEnd && !decide (e.health ≤ 0)) } := by
  obtain ⟨c, d, g, b, r, h⟩ := reapEnemies_frame M dt
    (Game.textsPhase dt (Game.towersPhase M dt s)).enemies
    (Game.textsPhase dt (Game.towersPhase M dt s))
  refine ⟨c, d, g, b, r, ?_⟩
  dsimp only [Game.afterEnemies, Game.enemiesPhase]
  rw [h, reapEnemies_kept]
  rfl

/-- Castle health after the enemy filter. -/
theorem afterEnemies_castleHealth (M : JsMath K) (dt : K) (s : Game K) :
    (Game.afterEnemies M dt s).castleHealth =
      s.castleHealth -
        (((((Game.towersPhase M dt s).enemies.map (Enemy.update M dt)).filter
            (fun e => e.reachedEnd)).map
          (fun e => ((e.damage + e.wave / 3 : Nat) : Int))).sum) := by
  show (Game.reapEnemies M dt _ _).1.castleHealth = _
  rw [reapEnemies_castleHealth]
  rfl

/-- Gold after the enemy filter. -/
theorem afterEnemies_gold (M : JsMath K) (dt : K) (s : Game K) :
    (Game.afterEnemies M dt s).gold =
      s.gold +
        (((((Game.towersPhase M dt s).enemies.map (Enemy.update M dt)).filter
            (fun e => !e.reachedEnd && decide (e.health ≤ 0))).map
          (fun e => (e.reward : Int))).sum) := by
  show (Game.reapEnemies M dt _ _).1.gold = _
  rw [reapEnemies_gold]
  rfl

/-- The boss reference after the enemy filter. -/
theorem afterEnemies_currentBoss (M : JsMath K) (dt : K) (s : Game K) :
    (Game.afterEnemies M dt s).currentBoss =
      if ((((Game.towersPhase M dt s).enemies.map (Enemy.update M dt)).filter
            (fun e => !e.reachedEnd && decide (e.health ≤ 0))).any (fun e => e.isBoss)) = true
      then none else s.currentBoss := by
  show (Game.reapEnemies M dt _ _).1.currentBoss = _
  rw [reapEnemies_currentBoss]
  rfl

/-- The end of `gameLoop` writes the start button, the level-complete timer and the frame
request only. -/
theorem finishFrame_frame (dt : K) (s : Game K) :
    ∃ b t f, Game.finishFrame dt s =
      { s with startButton := b, levelCompleteTimer := t, frameRequested := f } := by
  unfold Game.finishFrame
  by_cases h1 : s.gameStarted = false
  · simp only [if_pos h1]
    split_ifs <;> exact ⟨_, _, _, rfl⟩
  · simp only [if_neg h1]
    split_ifs <;> exact ⟨_, _, _, rfl⟩

/-- The boss that `spawnBossWave` builds: a live boss with positive health. -/
theorem newBoss_fields (M : JsMath K) (s : Game K) :
    (Game.newBoss M s).reachedEnd = false ∧ (Game.newBoss M s).isBoss = true ∧
    (Game.newBoss M s).type = EnemyType.boss ∧ 0 < (Game.newBoss M s).health := by
  refine ⟨?_, rfl, rfl, ?_⟩
  · simp only [Game.newBoss, Enemy.create, Enemy.setEnemyType, Enemy.init]
    split_ifs <;> rfl
  · show (0 : K) < ((50 + s.wave * 5 : Nat) : K)
    exact_mod_cast (by omega : 0 < 50 + s.wave * 5)

/-- What `spawnWave` does in a boss wave. -/
theorem spawnWave_bossWave (M : JsMath K) (s : Game K) (h : s.wave % 10 = 0) :
    Game.spawnWave M s =
      { s with bossWave := true, enemies := s.enemies ++ [Game.newBoss M s],
               currentBoss := some (Game.newBoss M s).id, waveInProgress := true,
               nextId := s.nextId + 1, draws := s.draws + 1 } := by
  simp [Game.spawnWave, h, Game.spawnBossWave]

/-- The completion block when it fires. -/
theorem checkWaveComplete_fires (s : Game K) (h1 : s.waveInProgress = true)
    (h2 : s.enemies = []) :
    Game.checkWaveComplete s =
      { s with
        waveInProgress := false, bossWave := false, currentBoss := none, wave := s.wave + 1,
        level := if (s.wave + 1) % 20 = 1 ∧ 1 < s.wave + 1 then s.level + 1 else s.level,
        levelCompleteTimer :=
          if (s.wave + 1) % 20 = 1 ∧ 1 < s.wave + 1 then 5 else s.levelCompleteTimer,
        timers := s.timers ++
          [{ id := s.nextId,
             due := s.now + (if (s.wave + 1) % 20 = 1 ∧ 1 < s.wave + 1 then 5000 else 3000),
             action := TimerAction.spawnWave }],
        nextId := s.nextId + 1 } := by
  unfold Game.checkWaveComplete
  rw [if_pos ⟨h1, by rw [h2]; rfl⟩]
  by_cases h3 : (s.wave + 1) % 20 = 1 ∧ 1 < s.wave + 1
  · simp only [if_pos h3, Game.setTimeout]
  · simp only [if_neg h3, Game.setTimeout]

/-- The completion block when it does not fire. -/
theorem checkWaveComplete_idle (s : Game K) (h : ¬ (s.waveInProgress = true ∧ s.enemies = [])) :
    Game.checkWaveComplete s = s := by
  unfold Game.checkWaveComplete
  rw [if_neg]
  simpa using h

/-- The completion block either does nothing or resets the wave flags, advances the wave
counter and schedules a timer. -/
theorem checkWaveComplete_cases (s : Game K) :
    Game.checkWaveComplete s = s ∨
    ∃ l t ts, Game.checkWaveComplete s =
      { s with waveInProgress := false, bossWave := false, currentBoss := none,
               wave := s.wave + 1, level := l, levelCompleteTimer := t, timers := ts,
               nextId := s.nextId + 1 } := by
  by_cases h : s.waveInProgress = true ∧ s.enemies = []
  · exact Or.inr ⟨_, _, _, checkWaveComplete_fires s h.1 h.2⟩
  · exact Or.inl (checkWaveComplete_idle s h)

/-- The first-wave block does nothing, or schedules a regular wave, or pushes a boss onto
the empty enemy list. -/
theorem startFirstWave_cases (M : JsMath K) (s : Game K) :
    Game.startFirstWave M s = s ∨
    (∃ ts n, Game.startFirstWave M s =
      { s with timers := ts, nextId := n, waveInProgress := true }) ∨
    (s.enemies = [] ∧ Game.startFirstWave M s =
      { s with bossWave := true, enemies := [Game.newBoss M s],
               currentBoss := some (Game.newBoss M s).id, waveInProgress := true,
               nextId := s.nextId + 1, draws := s.draws + 1 }) := by
  unfold Game.startFirstWave
  by_cases h : s.waveInProgress = false ∧ s.enemies.length = 0 ∧ s.gameStarted = true
  · rw [if_pos h]
    have he : s.enemies = [] := List.length_eq_zero.mp h.2.1
    by_cases hw : s.wave % 10 = 0
    · refine Or.inr (Or.inr ⟨he, ?_⟩)
      rw [spawnWave_bossWave M s hw, he]
      rfl
    · exact Or.inr (Or.inl ⟨_, _, spawnWave_regular M s hw⟩)
  · rw [if_neg h]
    exact Or.inl rfl

/-- C4. In a tick of the running game, castle health drops by exactly the sum of
`damage + ⌊wave / 3⌋` over the enemies whose `reachedEnd` flag is set after their update in
this tick (`wave` being the wave recorded in the enemy when it was constructed); no enemy
with `reachedEnd` set is left in the list, so none is charged twice; and a single escaped
enemy with damage 1 of wave 1 costs exactly 1. -/
theorem tick_castleHealth (M : JsMath K) (dt : K) (s : Game K) :
    (Game.tick M dt s).castleHealth =
      s.castleHealth -
        (((((Game.towersPhase M dt s).enemies.map (Enemy.update M dt)).filter
            (fun e => e.reachedEnd)).map
          (fun e => ((e.damage + e.wave / 3 : Nat) : Int))).sum) ∧
    (∀ e ∈ (Game.tick M dt s).enemies, e.reachedEnd = false) ∧
    (∀ e, ((Game.towersPhase M dt s).enemies.map (Enemy.update M dt)).filter
            (fun e => e.reachedEnd) = [e] →
          e.damage = 1 → e.wave = 1 →
          (Game.tick M dt s).castleHealth = s.castleHealth - 1) := by
  have hA := afterEnemies_castleHealth M dt s
  obtain ⟨c, d, g, b, r, hE⟩ := afterEnemies_frame M dt s
  have hkept : ∀ e ∈ (Game.afterEnemies M dt s).enemies, e.reachedEnd = false := by
    rw [hE]
    intro e he
    have h2 := (List.mem_filter.mp he).2
    simp only [Bool.and_eq_true, Bool.not_eq_true'] at h2
    exact h2.1
  have key : (Game.tick M dt s).castleHealth = (Game.afterEnemies M dt s).castleHealth ∧
      ∀ e ∈ (Game.tick M dt s).enemies, e.reachedEnd = false := by
    unfold Game.tick
    obtain ⟨b1, t1, f1, hF⟩ := finishFrame_frame dt
      (Game.startFirstWave M (Game.checkWaveComplete (Game.afterEnemies M dt s)))
    rw [hF]
    have hC : (Game.checkWaveComplete (Game.afterEnemies M dt s)).castleHealth =
          (Game.afterEnemies M dt s).castleHealth ∧
        (Game.checkWaveComplete (Game.afterEnemies M dt s)).enemies =
          (Game.afterEnemies M dt s).enemies := by
      rcases checkWaveComplete_cases (Game.afterEnemies M dt s) with h | ⟨l, t, ts, h⟩
      · rw [h]
        exact ⟨rfl, rfl⟩
      · rw [h]
        exact ⟨rfl, rfl⟩
    rcases startFirstWave_cases M (Game.checkWaveComplete (Game.afterEnemies M dt s)) with
      h | ⟨ts, n, h⟩ | ⟨_, h⟩
    · rw [h]
      refine ⟨hC.1, ?_⟩
      show ∀ e ∈ (Game.checkWaveComplete (Game.afterEnemies M dt s)).enemies, _
      rw [hC.2]
      exact hkept
    · rw [h]
      refine ⟨hC.1, ?_⟩
      show ∀ e ∈ (Game.checkWaveComplete (Game.afterEnemies M dt s)).enemies, _
      rw [hC.2]
      exact hkept
    · rw [h]
      refine ⟨hC.1, ?_⟩
      intro e he
      have he1 : e = Game.newBoss M (Game.checkWaveComplete (Game.afterEnemies M dt s)) :=
        List.mem_singleton.mp he
      rw [he1]
      exact (newBoss_fields M _).1
  refine ⟨by rw [key.1, hA], key.2, ?_⟩
  intro e h1 h2 h3
  rw [key.1, hA, h1]
  simp [h2, h3]

/-- The tick on a state in which the running wave is found complete and the game has been
started: the completion block fires and the first-wave block then calls `spawnWave` at
once. -/
theorem tick_completion (M : JsMath K) (dt : K) (s : Game K) (hs : s.gameStarted = true)
    (hw : s.waveInProgress = true) (he : (Game.afterEnemies M dt s).enemies = []) :
    Game.tick M dt s =
      Game.finishFrame dt (Game.spawnWave M
        { Game.afterEnemies M dt s with
          waveInProgress := false, bossWave := false, currentBoss := none, wave := s.wave + 1,
          level := if (s.wave + 1) % 20 = 1 ∧ 1 < s.wave + 1 then s.level + 1 else s.level,
          levelCompleteTimer :=
            if (s.wave + 1) % 20 = 1 ∧ 1 < s.wave + 1 then 5
            else (Game.afterEnemies M dt s).levelCompleteTimer,
          timers := s.timers ++
            [{ id := s.nextId,
               due := s.now + (if (s.wave + 1) % 20 = 1 ∧ 1 < s.wave + 1 then 5000 else 3000),
               action := TimerAction.spawnWave }],
          nextId := s.nextId + 1 }) := by
  obtain ⟨c, d, g, b, r, hE⟩ := afterEnemies_frame M dt s
  have hw1 : (Game.afterEnemies M dt s).waveInProgress = true := by rw [hE]; exact hw
  have hs1 : (Game.afterEnemies M dt s).gameStarted = true := by rw [hE]; exact hs
  have h1 : (Game.afterEnemies M dt s).wave = s.wave := by rw [hE]
  have h2 : (Game.afterEnemies M dt s).level = s.level := by rw [hE]
  have h3 : (Game.afterEnemies M dt s).timers = s.timers := by rw [hE]
  have h4 : (Game.afterEnemies M dt s).nextId = s.nextId := by rw [hE]
  have h5 : (Game.afterEnemies M dt s).now = s.now := by rw [hE]
  unfold Game.tick
  rw [checkWaveComplete_fires _ hw1 he]
  unfold Game.startFirstWave
  rw [if_pos ⟨rfl, by show (Game.afterEnemies M dt s).enemies.length = 0; rw [he]; rfl, hs1⟩]
  simp only [h1, h2, h3, h4, h5]

/-- C2, the divergence. In a tick that finds the running wave complete while the game is
started, the spawn controller runs inside that same tick: at the end of the tick the wave
counter is one higher, `waveInProgress` is `true` again, and the delayed `spawnWave` timer
(3 or 5 seconds) is pending as well, so the new wave number is due to be spawned a second
time. -/
theorem completion_tick_spawns_at_once (M : JsMath K) (dt : K) (s : Game K)
    (hs : s.gameStarted = true) (hw : s.waveInProgress = true)
    (he : (Game.afterEnemies M dt s).enemies = []) :
    (Game.tick M dt s).wave = s.wave + 1 ∧
    (Game.tick M dt s).waveInProgress = true ∧
    ∃ t ∈ (Game.tick M dt s).timers,
      t.id = s.nextId ∧ t.action = TimerAction.spawnWave ∧
      (t.due = s.now + 3000 ∨ t.due = s.now + 5000) := by
  rw [tick_completion M dt s hs hw he]
  obtain ⟨b1, t1, f1, hF⟩ := finishFrame_frame dt (Game.spawnWave M
        { Game.afterEnemies M dt s with
          waveInProgress := false, bossWave := false, currentBoss := none, wave := s.wave + 1,
          level := if (s.wave + 1) % 20 = 1 ∧ 1 < s.wave + 1 then s.level + 1 else s.level,
          levelCompleteTimer :=
            if (s.wave + 1) % 20 = 1 ∧ 1 < s.wave + 1 then 5
            else (Game.afterEnemies M dt s).levelCompleteTimer,
          timers := s.timers ++
            [{ id := s.nextId,
               due := s.now + (if (s.wave + 1) % 20 = 1 ∧ 1 < s.wave + 1 then 5000 else 3000),
               action := TimerAction.spawnWave }],
          nextId := s.nextId + 1 })
  rw [hF]
  have hdue : (s.now + (if (s.wave + 1) % 20 = 1 ∧ 1 < s.wave + 1 then (5000 : K) else 3000)
      = s.now + 3000) ∨ (s.now + (if (s.wave + 1) % 20 = 1 ∧ 1 < s.wave + 1 then (5000 : K)
        else 3000) = s.now + 5000) := by
    split_ifs
    · exact Or.inr rfl
    · exact Or.inl rfl
  by_cases h10 : (s.wave + 1) % 10 = 0
  · rw [spawnWave_bossWave M _ h10]
    refine ⟨rfl, rfl, Timer.mk s.nextId
      (s.now + (if (s.wave + 1) % 20 = 1 ∧ 1 < s.wave + 1 then 5000 else 3000))
      TimerAction.spawnWave, ?_, rfl, rfl, hdue⟩
    show _ ∈ s.timers ++ [_]
    simp
  · rw [spawnWave_regular M _ h10]
    refine ⟨rfl, rfl, Timer.mk s.nextId
      (s.now + (if (s.wave + 1) % 20 = 1 ∧ 1 < s.wave + 1 then 5000 else 3000))
      TimerAction.spawnWave, ?_, rfl, rfl, hdue⟩
    show _ ∈ (s.timers ++ [_]) ++ _
    simp

/-- C3, the divergence. When the completed wave is followed by a boss wave (the new wave
number is a multiple of 10) and the game is started, the tick does not end with the boss flag
cleared and no boss tracked: the boss is spawned in the same tick, `bossWave` is `true` and
`currentBoss` refers to it. -/
theorem completion_tick_before_boss_wave (M : JsMath K) (dt : K) (s : Game K)
    (hs : s.gameStarted = true) (hw : s.waveInProgress = true)
    (he : (Game.afterEnemies M dt s).enemies = []) (h10 : (s.wave + 1) % 10 = 0) :
    (Game.tick M dt s).wave = s.wave + 1 ∧
    (Game.tick M dt s).bossWave = true ∧
    ∃ boss : Enemy K, (Game.tick M dt s).enemies = [boss] ∧ boss.type = EnemyType.boss ∧
      (Game.tick M dt s).currentBoss = some boss.id := by
  rw [tick_completion M dt s hs hw he]
  obtain ⟨b1, t1, f1, hF⟩ := finishFrame_frame dt (Game.spawnWave M
        { Game.afterEnemies M dt s with
          waveInProgress := false, bossWave := false, currentBoss := none, wave := s.wave + 1,
          level := if (s.wave + 1) % 20 = 1 ∧ 1 < s.wave + 1 then s.level + 1 else s.level,
          levelCompleteTimer :=
            if (s.wave + 1) % 20 = 1 ∧ 1 < s.wave + 1 then 5
            else (Game.afterEnemies M dt s).levelCompleteTimer,
          timers := s.timers ++
            [{ id := s.nextId,
               due := s.now + (if (s.wave + 1) % 20 = 1 ∧ 1 < s.wave + 1 then 5000 else 3000),
               action := TimerAction.spawnWave }],
          nextId := s.nextId + 1 })
  rw [hF, spawnWave_bossWave M _ h10]
  refine ⟨rfl, rfl, _, ?_, (newBoss_fields M _).2.2.1, rfl⟩
  show (Game.afterEnemies M dt s).enemies ++ [_] = [_]
  rw [he]
  rfl

/-- C5. In a tick of the running game, gold rises by exactly the sum of the rewards of the
enemies that, after their update, have not reached the end and have health at most 0. The
enemy list after the tick consists of the updated enemies that have not reached the end and
have positive health, in their original order (followed by the boss of the next wave when
that list is empty and a boss wave is spawned in the same tick), so every rewarded enemy is
gone. When a rewarded enemy is a boss, the enemy filter leaves `currentBoss` null, and at the
end of the tick `currentBoss` is null or refers to a boss spawned in this very tick. -/
theorem tick_gold (M : JsMath K) (dt : K) (s : Game K) :
    (Game.tick M dt s).gold =
      s.gold +
        (((((Game.towersPhase M dt s).enemies.map (Enemy.update M dt)).filter
            (fun e => !e.reachedEnd && decide (e.health ≤ 0))).map
          (fun e => (e.reward : Int))).sum) ∧
    (∃ fresh : List (Enemy K),
      (Game.tick M dt s).enemies =
        ((Game.towersPhase M dt s).enemies.map (Enemy.update M dt)).filter
          (fun e => !e.reachedEnd && !decide (e.health ≤ 0)) ++ fresh ∧
      (fresh = [] ∨
        (((Game.towersPhase M dt s).enemies.map (Enemy.update M dt)).filter
            (fun e => !e.reachedEnd && !decide (e.health ≤ 0)) = [] ∧
          ∃ boss : Enemy K, fresh = [boss] ∧ boss.type = EnemyType.boss ∧
            (Game.tick M dt s).currentBoss = some boss.id))) ∧
    (∀ e ∈ (Game.tick M dt s).enemies, e.reachedEnd = false ∧ 0 < e.health) ∧
    ((∃ e ∈ ((Game.towersPhase M dt s).enemies.map (Enemy.update M dt)).filter
            (fun e => !e.reachedEnd && decide (e.health ≤ 0)), e.isBoss = true) →
      (Game.afterEnemies M dt s).currentBoss = none ∧
      ((Game.tick M dt s).currentBoss = none ∨
        ∃ boss : Enemy K, (Game.tick M dt s).enemies = [boss] ∧ boss.type = EnemyType.boss ∧
          (Game.tick M dt s).currentBoss = some boss.id)) := by
  have hG := afterEnemies_gold M dt s
  have hB := afterEnemies_currentBoss M dt s
  obtain ⟨c, d, g, b, r, hE⟩ := afterEnemies_frame M dt s
  have hEn : (Game.afterEnemies M dt s).enemies =
      ((Game.towersPhase M dt s).enemies.map (Enemy.update M dt)).filter
        (fun e => !e.reachedEnd && !decide (e.health ≤ 0)) := by rw [hE]
  have hkept : ∀ e ∈ (Game.afterEnemies M dt s).enemies, e.reachedEnd = false ∧ 0 < e.health := by
    rw [hEn]
    intro e he
    have h2 := (List.mem_filter.mp he).2
    simp only [Bool.and_eq_true, Bool.not_eq_true', decide_eq_false_iff_not, not_le] at h2
    exact h2
  rw [← hEn, ← hG]
  -- the state after the completion block
  have hC : (Game.checkWaveComplete (Game.afterEnemies M dt s)).gold =
        (Game.afterEnemies M dt s).gold ∧
      (Game.checkWaveComplete (Game.afterEnemies M dt s)).enemies =
        (Game.afterEnemies M dt s).enemies ∧
      ((Game.afterEnemies M dt s).currentBoss = none →
        (Game.checkWaveComplete (Game.afterEnemies M dt s)).currentBoss = none) := by
    rcases checkWaveComplete_cases (Game.afterEnemies M dt s) with h | ⟨l, t, ts, h⟩
    · rw [h]
      exact ⟨rfl, rfl, fun x => x⟩
    · rw [h]
      exact ⟨rfl, rfl, fun _ => rfl⟩
  have key : (Game.tick M dt s).gold = (Game.afterEnemies M dt s).gold ∧
      (((Game.tick M dt s).enemies = (Game.afterEnemies M dt s).enemies ∧
          (Game.tick M dt s).currentBoss =
            (Game.checkWaveComplete (Game.afterEnemies M dt s)).currentBoss) ∨
        ((Game.afterEnemies M dt s).enemies = [] ∧
          ∃ boss : Enemy K, (Game.tick M dt s).enemies = [boss] ∧
            boss.type = EnemyType.boss ∧ boss.reachedEnd = false ∧ 0 < boss.health ∧
            (Game.tick M dt s).currentBoss = some boss.id)) := by
    unfold Game.tick
    obtain ⟨b1, t1, f1, hF⟩ := finishFrame_frame dt
      (Game.startFirstWave M (Game.checkWaveComplete (Game.afterEnemies M dt s)))
    rw [hF]
    rcases startFirstWave_cases M (Game.checkWaveComplete (Game.afterEnemies M dt s)) with
      h | ⟨ts, n, h⟩ | ⟨h0, h⟩
    · rw [h]
      exact ⟨hC.1, Or.inl ⟨hC.2.1, rfl⟩⟩
    · rw [h]
      exact ⟨hC.1, Or.inl ⟨hC.2.1, rfl⟩⟩
    · rw [h]
      refine ⟨hC.1, Or.inr ⟨by rw [← hC.2.1]; exact h0, _, rfl, ?_, ?_, ?_, rfl⟩⟩
      · exact (newBoss_fields M _).2.2.1
      · exact (newBoss_fields M _).1
      · exact (newBoss_fields M _).2.2.2
  refine ⟨key.1, ?_, ?_, ?_⟩
  · rcases key.2 with ⟨h1, _⟩ | ⟨h0, boss, h1, h2, _, _, h5⟩
    · exact ⟨[], by rw [h1, List.append_nil], Or.inl rfl⟩
    · exact ⟨[boss], by rw [h1, h0]; rfl, Or.inr ⟨h0, boss, rfl, h2, h5⟩⟩
  · rcases key.2 with ⟨h1, _⟩ | ⟨h0, boss, h1, h2, h3, h4, h5⟩
    · rw [h1]
      exact hkept
    · rw [h1]
      intro e he
      rw [List.mem_singleton.mp he]
      exact ⟨h3, h4⟩
  · intro hdead
    have hnone : (Game.afterEnemies M dt s).currentBoss = none := by
      rw [hB, if_pos]
      obtain ⟨e, he, hb⟩ := hdead
      exact List.any_eq_true.mpr ⟨e, he, hb⟩
    refine ⟨hnone, ?_⟩
    rcases key.2 with ⟨_, h2⟩ | ⟨_, boss, h1, h2, _, _, h5⟩
    · exact Or.inl (by rw [h2]; exact hC.2.2 hnone)
    · exact Or.inr ⟨boss, h1, h2, h5⟩

/-! ## Towers: upgrades, placement, removal, selection -/

/-- `Tower.upgrade` on a tower that cannot be upgraded. -/
theorem upgrade_maxed (t : Tower K) (h : t.maxLevel ≤ t.level) : Tower.upgrade t = (t, false) := by
  have hc : t.canUpgrade = false := by simp [Tower.canUpgrade, h]
  simp [Tower.upgrade, hc]

/-- `Tower.upgrade` on a tower below its maximal level: level and maximal level after it. -/
theorem upgrade_below (t : Tower K) (h : t.level < t.maxLevel) :
    (Tower.upgrade t).2 = true ∧ (Tower.upgrade t).1.level = t.level + 1 ∧
    (Tower.upgrade t).1.maxLevel = t.maxLevel ∧
    (Tower.upgrade t).1.projectiles = t.projectiles := by
  have hc : ¬ (t.canUpgrade = false) := by simp [Tower.canUpgrade, h]
  unfold Tower.upgrade
  rw [if_neg hc]
  unfold Tower.calculateUpgradeCost
  refine ⟨rfl, ?_, ?_, ?_⟩ <;> (dsimp only; split_ifs <;> rfl)

/-- The level of a new tower after `n` calls of `upgrade`. -/
theorem upgrade_iterate (id : Nat) (x y : K) (ty : TowerType) (n : Nat) :
    ((fun t : Tower K => (Tower.upgrade t).1)^[n] (Tower.create id x y ty)).maxLevel = 3 ∧
    ((fun t : Tower K => (Tower.upgrade t).1)^[n] (Tower.create id x y ty)).level
      = min (1 + n) 3 := by
  induction n with
  | zero =>
    cases ty <;> exact ⟨rfl, rfl⟩
  | succ n ih =>
    rw [Function.iterate_succ_apply']
    obtain ⟨h1, h2⟩ := ih
    by_cases h : ((fun t : Tower K => (Tower.upgrade t).1)^[n] (Tower.create id x y ty)).level
        < ((fun t : Tower K => (Tower.upgrade t).1)^[n] (Tower.create id x y ty)).maxLevel
    · obtain ⟨_, h4, h5, _⟩ := upgrade_below _ h
      rw [h5, h4, h1, h2]
      rw [h1, h2] at h
      refine ⟨rfl, ?_⟩
      omega
    · rw [upgrade_maxed _ (by omega)]
      rw [h1, h2] at h
      refine ⟨h1, ?_⟩
      rw [h2]
      omega

/-- C11. `Tower.upgrade` on a tower at level 3 (the maximal level every tower is created
with) returns `false` and returns the tower as it was; below level 3 it returns `true` and
raises the level by exactly 1. Hence after any number of upgrade calls on a new tower the
level is 1, 2 or 3 and is at least what it was one call before. The function takes the tower
alone: it neither receives gold nor returns it, and replacing a tower of a game by its
upgrade leaves the gold of the game as it is. -/
theorem upgrade_levels (t : Tower K) (id : Nat) (x y : K) (ty : TowerType) (n : Nat)
    (s : Game K) :
    (t.maxLevel = 3 → t.level = 3 → Tower.upgrade t = (t, false)) ∧
    (t.maxLevel = 3 → t.level < 3 →
      (Tower.upgrade t).2 = true ∧ (Tower.upgrade t).1.level = t.level + 1) ∧
    (Tower.create id x y ty).maxLevel = 3 ∧
    (((fun t : Tower K => (Tower.upgrade t).1)^[n] (Tower.create id x y ty)).level = 1 ∨
     ((fun t : Tower K => (Tower.upgrade t).1)^[n] (Tower.create id x y ty)).level = 2 ∨
     ((fun t : Tower K => (Tower.upgrade t).1)^[n] (Tower.create id x y ty)).level = 3) ∧
    ((fun t : Tower K => (Tower.upgrade t).1)^[n] (Tower.create id x y ty)).level ≤
      ((fun t : Tower K => (Tower.upgrade t).1)^[n + 1] (Tower.create id x y ty)).level ∧
    ({ s with towers := s.towers.map (fun u => (Tower.upgrade u).1) } : Game K).gold = s.gold := by
  refine ⟨?_, ?_, ?_, ?_, ?_, rfl⟩
  · intro h1 h2
    exact upgrade_maxed t (by omega)
  · intro h1 h2
    have h := upgrade_below t (by omega)
    exact ⟨h.1, h.2.1⟩
  · cases ty <;> rfl
  · have h := (upgrade_iterate id x y ty n).2
    omega
  · have h := (upgrade_iterate id x y ty n).2
    have h' := (upgrade_iterate id x y ty (n + 1)).2
    omega

/-- A click in a started game does not reach the start button. -/
theorem handleClick_started (M : JsMath K) (x y : K) (s : Game K) (hs : s.gameStarted = true) :
    Game.handleClick M x y s =
      match s.selectedTower with
      | some Selection.remove =>
        match s.towers.find? (Game.towerAt M x y) with
        | some clickedTower =>
          { s with towers := s.towers.filter (fun t => t.id != clickedTower.id),
                   gold := s.gold + (Game.getTowerCost clickedTower.type / 2 : Nat),
                   selectedTower := none }
        | none => { s with selectedTower := none }
      | some (Selection.place type) =>
        if (Game.getTowerCost type : Int) ≤ s.gold then
          if Game.isValidTowerPlacement M x y = true then
            { s with towers := s.towers ++ [Tower.create s.nextId x y type],
                     gold := s.gold - Game.getTowerCost type,
                     nextId := s.nextId + 1 }
          else s
        else Game.selectAt M x y s
      | none => Game.selectAt M x y s := by
  have h0 : ¬ (s.gameStarted = false ∧ s.startButton = true ∧
      275 ≤ x ∧ x ≤ 275 + 250 ∧ 400 ≤ y ∧ y ≤ 400 + 60) := by
    rw [hs]
    simp
  have h1 : ¬ (s.gameStarted = false) := by rw [hs]; simp
  unfold Game.handleClick
  rw [if_neg h0, if_neg h1]

/-- A placement click on a valid point. -/
theorem handleClick_place_valid (M : JsMath K) (x y : K) (s : Game K) (ty : TowerType)
    (hs : s.gameStarted = true) (hp : s.selectedTower = some (Selection.place ty))
    (hg : (Game.getTowerCost ty : Int) ≤ s.gold)
    (hv : Game.isValidTowerPlacement M x y = true) :
    Game.handleClick M x y s =
      { s with towers := s.towers ++ [Tower.create s.nextId x y ty],
               gold := s.gold - Game.getTowerCost ty, nextId := s.nextId + 1 } := by
  rw [handleClick_started M x y s hs]
  simp only [hp, if_pos hg, if_pos hv]

/-- A placement click on an invalid point. -/
theorem handleClick_place_invalid (M : JsMath K) (x y : K) (s : Game K) (ty : TowerType)
    (hs : s.gameStarted = true) (hp : s.selectedTower = some (Selection.place ty))
    (hg : (Game.getTowerCost ty : Int) ≤ s.gold)
    (hv : Game.isValidTowerPlacement M x y = false) :
    Game.handleClick M x y s = s := by
  have hv' : ¬ (Game.isValidTowerPlacement M x y = true) := by rw [hv]; simp
  rw [handleClick_started M x y s hs]
  simp only [hp, if_pos hg, if_neg hv']

/-- A click with nothing pending, or with a pending type that gold does not cover, is a
selection click. -/
theorem handleClick_select (M : JsMath K) (x y : K) (s : Game K)
    (hs : s.gameStarted = true)
    (hp : s.selectedTower = none ∨
      ∃ ty, s.selectedTower = some (Selection.place ty) ∧ s.gold < Game.getTowerCost ty) :
    Game.handleClick M x y s = Game.selectAt M x y s := by
  rw [handleClick_started M x y s hs]
  rcases hp with hp | ⟨ty, hp, hg⟩
  · simp only [hp]
  · simp only [hp, if_neg (not_le.mpr hg)]

/-- The new tower: level 1, of the requested type, at the requested point. -/
theorem create_fields (id : Nat) (x y : K) (ty : TowerType) :
    (Tower.create id x y ty : Tower K).level = 1 ∧ (Tower.create id x y ty : Tower K).type = ty ∧
    (Tower.create id x y ty : Tower K).x = x ∧ (Tower.create id x y ty : Tower K).y = y ∧
    (Tower.create id x y ty : Tower K).id = id ∧
    (Tower.create id x y ty : Tower K).maxLevel = 3 := by
  cases ty <;> exact ⟨rfl, rfl, rfl, rfl, rfl, rfl⟩

/-- C16. With the game started, a tower type pending and at least its cost (50, 100, 150,
120, 180 for basic, power, freeze, cannon, lightning) in gold: a click on a valid point takes
exactly the cost from gold, appends one new level-1 tower of that type at the click to the
end of the tower list and leaves the selection pending; a click on an invalid point changes
nothing at all. -/
theorem handleClick_place (M : JsMath K) (x y : K) (s : Game K) (ty : TowerType)
    (hs : s.gameStarted = true) (hp : s.selectedTower = some (Selection.place ty))
    (hg : (Game.getTowerCost ty : Int) ≤ s.gold) :
    (Game.isValidTowerPlacement M x y = true →
      (Game.handleClick M x y s).gold = s.gold - Game.getTowerCost ty ∧
      (∃ t : Tower K, (Game.handleClick M x y s).towers = s.towers ++ [t] ∧
        t.level = 1 ∧ t.type = ty ∧ t.x = x ∧ t.y = y) ∧
      (Game.handleClick M x y s).selectedTower = some (Selection.place ty)) ∧
    (Game.isValidTowerPlacement M x y = false → Game.handleClick M x y s = s) ∧
    Game.getTowerCost TowerType.basic = 50 ∧ Game.getTowerCost TowerType.power = 100 ∧
    Game.getTowerCost TowerType.freeze = 150 ∧ Game.getTowerCost TowerType.cannon = 120 ∧
    Game.getTowerCost TowerType.lightning = 180 := by
  refine ⟨?_, handleClick_place_invalid M x y s ty hs hp hg, rfl, rfl, rfl, rfl, rfl⟩
  intro hv
  rw [handleClick_place_valid M x y s ty hs hp hg hv]
  have hc := create_fields s.nextId x y ty
  exact ⟨rfl, ⟨Tower.create s.nextId x y ty, rfl, hc.1, hc.2.1, hc.2.2.1, hc.2.2.2.1⟩, hp⟩

/-- C13. A point is a valid tower placement exactly when its distance, as
`pointToLineDistance` computes it, to each of the five segments between consecutive waypoints
is at least 25; it is invalid exactly when the distance to some segment is below 25. Validity
is monotone: a point at least as far from every segment as a valid point is valid. -/
theorem isValidTowerPlacement_iff (M : JsMath K) (x y x1 y1 : K) :
    (Game.isValidTowerPlacement M x y = true ↔
      ∀ i, i < 5 → 25 ≤ Game.pointToLineDistance M x y (Game.pathAt i : Waypoint K).x
        (Game.pathAt i : Waypoint K).y (Game.pathAt (i + 1) : Waypoint K).x
        (Game.pathAt (i + 1) : Waypoint K).y) ∧
    (Game.isValidTowerPlacement M x y = false ↔
      ∃ i, i < 5 ∧ Game.pointToLineDistance M x y (Game.pathAt i : Waypoint K).x
        (Game.pathAt i : Waypoint K).y (Game.pathAt (i + 1) : Waypoint K).x
        (Game.pathAt (i + 1) : Waypoint K).y < 25) ∧
    (Game.createPath (K := K)).length = 5 + 1 ∧
    (Game.isValidTowerPlacement M x y = true →
      (∀ i, i < 5 →
        Game.pointToLineDistance M x y (Game.pathAt i : Waypoint K).x
          (Game.pathAt i : Waypoint K).y (Game.pathAt (i + 1) : Waypoint K).x
          (Game.pathAt (i + 1) : Waypoint K).y ≤
        Game.pointToLineDistance M x1 y1 (Game.pathAt i : Waypoint K).x
          (Game.pathAt i : Waypoint K).y (Game.pathAt (i + 1) : Waypoint K).x
          (Game.pathAt (i + 1) : Waypoint K).y) →
      Game.isValidTowerPlacement M x1 y1 = true) := by
  have key : ∀ a b : K, Game.isValidTowerPlacement M a b = true ↔
      ∀ i, i < 5 → 25 ≤ Game.pointToLineDistance M a b (Game.pathAt i : Waypoint K).x
        (Game.pathAt i : Waypoint K).y (Game.pathAt (i + 1) : Waypoint K).x
        (Game.pathAt (i + 1) : Waypoint K).y := by
    intro a b
    constructor
    · intro h i hi
      simp only [Game.isValidTowerPlacement, Game.createPath, Game.segmentsClear] at h
      by_contra hc
      have hlt := not_le.mp hc
      interval_cases i <;>
        simp only [Game.pathAt, Game.createPath, List.getD_cons_zero, List.getD_cons_succ]
          at hlt <;>
        simp [hlt] at h
    · intro h
      have h0 := not_lt.mpr (h 0 (by norm_num))
      have h1 := not_lt.mpr (h 1 (by norm_num))
      have h2 := not_lt.mpr (h 2 (by norm_num))
      have h3 := not_lt.mpr (h 3 (by norm_num))
      have h4 := not_lt.mpr (h 4 (by norm_num))
      simp only [Game.pathAt, Game.createPath, List.getD_cons_zero, List.getD_cons_succ]
        at h0 h1 h2 h3 h4
      simp only [Game.isValidTowerPlacement, Game.createPath, Game.segmentsClear,
        if_neg h0, if_neg h1, if_neg h2, if_neg h3, if_neg h4]
  refine ⟨key x y, ?_, rfl, ?_⟩
  · rw [← Bool.not_eq_true, key x y]
    push_neg
    rfl
  · intro hv hm
    rw [key] at hv ⊢
    intro i hi
    exact le_trans (hv i hi) (hm i hi)

/-- A selection click leaves gold alone and changes no tower except for its `selected` flag:
the branch that upgrades is never taken, because every tower has just been deselected when
the clicked tower is tested for being selected. -/
theorem selectAt_keeps (M : JsMath K) (x y : K) (s : Game K) :
    (Game.selectAt M x y s).gold = s.gold ∧
    (Game.selectAt M x y s).towers.map (fun t => ({ t with selected := false } : Tower K)) =
      s.towers.map (fun t => ({ t with selected := false } : Tower K)) := by
  unfold Game.selectAt
  dsimp only
  cases hf : List.find? (Game.towerAt M x y)
      (s.towers.map (fun t => ({ t with selected := false } : Tower K))) with
  | none =>
    dsimp only
    cases s.selectedTowerTimeout with
    | none => exact ⟨rfl, by simp [List.map_map, Function.comp]⟩
    | some h => exact ⟨rfl, by simp [Game.clearTimeout, List.map_map, Function.comp]⟩
  | some c =>
    have hc : c.selected = false := by
      have hm := List.mem_of_find?_eq_some hf
      rw [List.mem_map] at hm
      obtain ⟨u, _, hu⟩ := hm
      rw [← hu]
    have hn : ¬ (c.selected = true ∧ c.canUpgrade = true ∧ (c.upgradeCost : Int) ≤ s.gold) := by
      rw [hc]
      simp
    dsimp only
    rw [if_neg hn]
    cases s.selectedTowerTimeout with
    | none =>
      refine ⟨rfl, ?_⟩
      simp only [Game.setTimeout, List.map_map]
      apply List.map_congr_left
      intro t _
      simp only [Function.comp]
      split_ifs <;> rfl
    | some h =>
      refine ⟨rfl, ?_⟩
      simp only [Game.setTimeout, Game.clearTimeout, List.map_map]
      apply List.map_congr_left
      intro t _
      simp only [Function.comp]
      split_ifs <;> rfl

/-- What the `selected` flag cannot hide: identities and levels. -/
theorem deselected_eq (l1 l2 : List (Tower K))
    (h : l1.map (fun t => ({ t with selected := false } : Tower K)) =
      l2.map (fun t => ({ t with selected := false } : Tower K))) :
    l1.map (fun t => t.id) = l2.map (fun t => t.id) ∧
    l1.map (fun t => t.level) = l2.map (fun t => t.level) ∧
    l1.length = l2.length := by
  have h1 := congrArg (List.map (fun t : Tower K => t.id)) h
  have h2 := congrArg (List.map (fun t : Tower K => t.level)) h
  have h3 := congrArg List.length h
  simp only [List.map_map, List.length_map] at h1 h2 h3
  exact ⟨h1, h2, h3⟩

/-- C12, the divergence. With the game started and nothing pending, or a pending type that
gold does not cover, a click changes neither gold nor any tower's level, wherever it lands
and whatever state the clicked tower is in: a click on a tower that is selected, below its
maximal level and affordable to upgrade does not upgrade it. -/
theorem click_never_upgrades (M : JsMath K) (x y : K) (s : Game K)
    (hs : s.gameStarted = true)
    (hp : s.selectedTower = none ∨
      ∃ ty, s.selectedTower = some (Selection.place ty) ∧ s.gold < Game.getTowerCost ty) :
    (Game.handleClick M x y s).gold = s.gold ∧
    (Game.handleClick M x y s).towers.map (fun t => t.level) =
      s.towers.map (fun t => t.level) := by
  rw [handleClick_select M x y s hs hp]
  exact ⟨(selectAt_keeps M x y s).1, (deselected_eq _ _ (selectAt_keeps M x y s).2).2.1⟩

/-- C15. With the game started, a tower type pending and less gold than its cost, a click
anywhere leaves gold unchanged, adds or removes no tower (same towers, same order) and
changes no tower's level. -/
theorem handleClick_unaffordable (M : JsMath K) (x y : K) (s : Game K) (ty : TowerType)
    (hs : s.gameStarted = true) (hp : s.selectedTower = some (Selection.place ty))
    (hg : s.gold < Game.getTowerCost ty) :
    (Game.handleClick M x y s).gold = s.gold ∧
    (Game.handleClick M x y s).towers.length = s.towers.length ∧
    (Game.handleClick M x y s).towers.map (fun t => t.id) = s.towers.map (fun t => t.id) ∧
    (Game.handleClick M x y s).towers.map (fun t => t.level) =
      s.towers.map (fun t => t.level) ∧
    (Game.handleClick M x y s).towers.map (fun t => ({ t with selected := false } : Tower K)) =
      s.towers.map (fun t => ({ t with selected := false } : Tower K)) := by
  rw [handleClick_select M x y s hs (Or.inr ⟨ty, hp, hg⟩)]
  have h := selectAt_keeps M x y s
  have h2 := deselected_eq _ _ h.2
  exact ⟨h.1, h2.2.2, h2.1, h2.2.1, h.2⟩

/-- Filtering out the identity of one tower of a list of distinct towers removes that
tower and nothing else. -/
theorem filter_id (l1 l2 : List (Tower K)) (c : Tower K)
    (hn : ((l1 ++ c :: l2).map (fun t => t.id)).Nodup) :
    (l1 ++ c :: l2).filter (fun t => t.id != c.id) = l1 ++ l2 := by
  rw [List.map_append, List.map_cons, List.nodup_append] at hn
  obtain ⟨_, h2, h3⟩ := hn
  rw [List.nodup_cons] at h2
  have e1 : l1.filter (fun t => t.id != c.id) = l1 := by
    rw [List.filter_eq_self]
    intro a ha
    have : a.id ≠ c.id := by
      intro he
      exact h3 (List.mem_map.mpr ⟨a, ha, rfl⟩) (by rw [he]; exact List.mem_cons_self _ _)
    simpa using this
  have e2 : l2.filter (fun t => t.id != c.id) = l2 := by
    rw [List.filter_eq_self]
    intro a ha
    have : a.id ≠ c.id := by
      intro he
      exact h2.1 (by rw [← he]; exact List.mem_map.mpr ⟨a, ha, rfl⟩)
    simpa using this
  rw [List.filter_append, List.filter_cons_of_neg (by simp), e1, e2]

/-- C17. In removal mode with the game started (towers being distinct objects): if some
tower lies at distance below 20 from the click, the first such tower in list order is removed,
the others stay in order, and gold rises by `⌊cost (type) / 2⌋` of the removed tower, which
is 25, 50, 75, 60, 90 by type and does not depend on its level; if no tower lies within 20,
gold and towers are unchanged. Either way the selection is cleared. -/
theorem handleClick_remove (M : JsMath K) (x y : K) (s : Game K)
    (hs : s.gameStarted = true) (hp : s.selectedTower = some Selection.remove)
    (hn : (s.towers.map (fun t => t.id)).Nodup) :
    ((∃ t ∈ s.towers, M.hypot (t.x - x) (t.y - y) < 20) →
      ∃ l1 c l2, s.towers = l1 ++ c :: l2 ∧
        (∀ u ∈ l1, ¬ M.hypot (u.x - x) (u.y - y) < 20) ∧ M.hypot (c.x - x) (c.y - y) < 20 ∧
        (Game.handleClick M x y s).towers = l1 ++ l2 ∧
        (Game.handleClick M x y s).gold = s.gold + (Game.getTowerCost c.type / 2 : Nat)) ∧
    ((∀ t ∈ s.towers, ¬ M.hypot (t.x - x) (t.y - y) < 20) →
      (Game.handleClick M x y s).towers = s.towers ∧
      (Game.handleClick M x y s).gold = s.gold) ∧
    (Game.handleClick M x y s).selectedTower = none ∧
    (∀ ty, ((Game.getTowerCost ty / 2 : Nat) : Int) = ⌊(1 / 2 : ℚ) * Game.getTowerCost ty⌋) ∧
    Game.getTowerCost TowerType.basic / 2 = 25 ∧ Game.getTowerCost TowerType.power / 2 = 50 ∧
    Game.getTowerCost TowerType.freeze / 2 = 75 ∧ Game.getTowerCost TowerType.cannon / 2 = 60 ∧
    Game.getTowerCost TowerType.lightning / 2 = 90 := by
  rw [handleClick_started M x y s hs]
  simp only [hp]
  refine ⟨?_, ?_, ?_, ?_, rfl, rfl, rfl, rfl, rfl⟩
  · rintro ⟨t, ht, hd⟩
    cases hf : List.find? (Game.towerAt M x y) s.towers with
    | none =>
      rw [List.find?_eq_none] at hf
      exact absurd (by simpa [Game.towerAt] using hd) (hf t ht)
    | some c =>
      obtain ⟨hc, l1, l2, hl, hb⟩ := List.find?_eq_some.mp hf
      refine ⟨l1, c, l2, hl, ?_, by simpa [Game.towerAt] using hc, ?_, rfl⟩
      · intro u hu
        have := hb u hu
        simpa [Game.towerAt] using this
      · show List.filter (fun t => t.id != c.id) s.towers = l1 ++ l2
        rw [hl] at hn ⊢
        exact filter_id l1 l2 c hn
  · intro hall
    have hf : List.find? (Game.towerAt M x y) s.towers = none := by
      rw [List.find?_eq_none]
      intro t ht
      simpa [Game.towerAt] using hall t ht
    rw [hf]
    exact ⟨rfl, rfl⟩
  · cases List.find? (Game.towerAt M x y) s.towers <;> rfl
  · intro ty
    cases ty <;> (simp only [Game.getTowerCost]; norm_num [Int.floor_eq_iff])

/-! ## Projectiles and the fire of towers -/

/-- `Projectile.update` on a projectile that has hit: nothing happens. -/
theorem Projectile_update_hit (M : JsMath K) (dt : K) (p : Projectile K)
    (live removed : List (Enemy K)) (h : p.hit = true) :
    Projectile.update M dt p live removed = (p, live, removed) := by
  unfold Projectile.update
  rw [if_pos h]

/-- `Projectile.update` on a projectile in flight: the three outcomes. -/
theorem Projectile_update_flying (M : JsMath K) (dt : K) (p : Projectile K)
    (live removed : List (Enemy K)) (h : p.hit = false) (target : Enemy K)
    (ht : findEnemy p.target live removed = some target) :
    (M.hypot (target.x - p.x) (target.y - p.y) < 5 →
      Projectile.update M dt p live removed =
        ({ p with hit := true }, hitEnemy p.target p.damage live,
          hitEnemy p.target p.damage removed)) ∧
    (¬ M.hypot (target.x - p.x) (target.y - p.y) < 5 →
      Projectile.update M dt p live removed =
        ({ p with
            x := p.x + (target.x - p.x) / M.hypot (target.x - p.x) (target.y - p.y)
              * p.speed * dt,
            y := p.y + (target.y - p.y) / M.hypot (target.x - p.x) (target.y - p.y)
              * p.speed * dt }, live, removed)) := by
  have hh : ¬ (p.hit = true) := by rw [h]; simp
  unfold Projectile.update
  rw [if_neg hh, ht]
  constructor
  · intro hd
    dsimp only
    rw [if_pos hd]
  · intro hd
    dsimp only
    rw [if_neg hd]

/-- Looking up an enemy in a list in which the health of that enemy was lowered. -/
theorem find_hitEnemy (id : Nat) (d : K) (es : List (Enemy K)) :
    (hitEnemy id d es).find? (fun e => e.id == id) =
      (es.find? (fun e => e.id == id)).map (fun e => { e with health := e.health - d }) := by
  induction es with
  | nil => rfl
  | cons a es ih =>
    have hcons : hitEnemy id d (a :: es) =
        (if a.id = id then { a with health := a.health - d } else a) :: hitEnemy id d es := rfl
    rw [hcons, List.find?_cons, List.find?_cons]
    by_cases ha : a.id = id
    · have h2 : (a.id == id) = true := by simp [ha]
      rw [if_pos ha]
      dsimp only
      rw [h2]
      rfl
    · have h2 : (a.id == id) = false := by simp [ha]
      rw [if_neg ha, h2]
      exact ih

/-- The target after the hit: the same enemy with `damage` less health. -/
theorem findEnemy_hitEnemy (id : Nat) (d : K) (live removed : List (Enemy K)) :
    findEnemy id (hitEnemy id d live) (hitEnemy id d removed) =
      (findEnemy id live removed).map (fun e => { e with health := e.health - d }) := by
  unfold findEnemy
  rw [find_hitEnemy, find_hitEnemy]
  cases List.find? (fun e => e.id == id) live <;> rfl

/-- An enemy that is not the target keeps its place and all its fields. -/
theorem hitEnemy_others (id : Nat) (d : K) (es : List (Enemy K)) :
    (hitEnemy id d es).length = es.length ∧
    ∀ i e, es.get? i = some e → e.id ≠ id → (hitEnemy id d es).get? i = some e := by
  constructor
  · simp [hitEnemy]
  · intro i e he hid
    simp [hitEnemy, List.get?_eq_getElem?, List.getElem?_map] at he ⊢
    rw [he]
    simp [hid]

/-- One call of `update` keeps target, damage and speed of the projectile. -/
theorem Projectile_update_const (M : JsMath K) (dt : K) (p : Projectile K)
    (live removed : List (Enemy K)) :
    (Projectile.update M dt p live removed).1.damage = p.damage ∧
    (Projectile.update M dt p live removed).1.target = p.target ∧
    (Projectile.update M dt p live removed).1.speed = p.speed := by
  unfold Projectile.update
  split_ifs
  · exact ⟨rfl, rfl, rfl⟩
  · cases findEnemy p.target live removed with
    | none => exact ⟨rfl, rfl, rfl⟩
    | some target =>
      dsimp only
      split_ifs <;> exact ⟨rfl, rfl, rfl⟩

/-- One call of `update`: either the stores are untouched and `hit` is as before, or the
projectile was in flight, is now marked hit, did not move, and the stores lost `damage` on
the target. -/
theorem Projectile_update_cases (M : JsMath K) (dt : K) (p : Projectile K)
    (live removed : List (Enemy K)) :
    ((Projectile.update M dt p live removed).1.hit = p.hit ∧
      (Projectile.update M dt p live removed).2 = (live, removed)) ∨
    (p.hit = false ∧
      Projectile.update M dt p live removed =
        ({ p with hit := true }, hitEnemy p.target p.damage live,
          hitEnemy p.target p.damage removed)) := by
  unfold Projectile.update
  split_ifs with h
  · exact Or.inl ⟨rfl, rfl⟩
  · cases findEnemy p.target live removed with
    | none => exact Or.inl ⟨rfl, rfl⟩
    | some target =>
      dsimp only
      split_ifs
      · exact Or.inr ⟨by simpa using h, rfl⟩
      · exact Or.inl ⟨rfl, rfl⟩

/-- A sequence of calls on a projectile that has hit: nothing happens. -/
theorem Projectile_updates_hit (M : JsMath K) (dts : List K) (p : Projectile K)
    (live removed : List (Enemy K)) (h : p.hit = true) :
    Projectile.updates M dts p live removed = (p, live, removed) := by
  induction dts with
  | nil => rfl
  | cons dt dts ih =>
    unfold Projectile.updates
    dsimp only
    rw [Projectile_update_hit M dt p live removed h]
    exact ih

/-- A sequence of calls on a projectile in flight: the stores are untouched and it is still
in flight, or it is marked hit and the stores lost `damage` on the target, once. -/
theorem Projectile_updates_cases (M : JsMath K) (dts : List K) (p : Projectile K)
    (live removed : List (Enemy K)) (h : p.hit = false) :
    ((Projectile.updates M dts p live removed).1.hit = false ∧
      (Projectile.updates M dts p live removed).2 = (live, removed)) ∨
    ((Projectile.updates M dts p live removed).1.hit = true ∧
      (Projectile.updates M dts p live removed).2 =
        (hitEnemy p.target p.damage live, hitEnemy p.target p.damage removed)) := by
  induction dts generalizing p live removed with
  | nil => exact Or.inl ⟨h, rfl⟩
  | cons dt dts ih =>
    unfold Projectile.updates
    dsimp only
    rcases Projectile_update_cases M dt p live removed with ⟨h1, h2⟩ | ⟨_, h2⟩
    · have hc := Projectile_update_const M dt p live removed
      have h3 := ih (Projectile.update M dt p live removed).1
        (Projectile.update M dt p live removed).2.1 (Projectile.update M dt p live removed).2.2
        (by rw [h1, h])
      rw [hc.1, hc.2.1] at h3
      have e1 : (Projectile.update M dt p live removed).2.1 = live := by rw [h2]
      have e2 : (Projectile.update M dt p live removed).2.2 = removed := by rw [h2]
      rw [e1, e2] at h3 ⊢
      exact h3
    · rw [h2]
      dsimp only
      rw [Projectile_updates_hit M dts _ _ _ rfl]
      exact Or.inr ⟨rfl, rfl⟩

/-- A sequence of calls keeps target and damage of the projectile. -/
theorem Projectile_updates_const (M : JsMath K) (dts : List K) (p : Projectile K)
    (live removed : List (Enemy K)) :
    (Projectile.updates M dts p live removed).1.damage = p.damage ∧
    (Projectile.updates M dts p live removed).1.target = p.target := by
  induction dts generalizing p live removed with
  | nil => exact ⟨rfl, rfl⟩
  | cons dt dts ih =>
    unfold Projectile.updates
    dsimp only
    have hc := Projectile_update_const M dt p live removed
    have h3 := ih (Projectile.update M dt p live removed).1
      (Projectile.update M dt p live removed).2.1 (Projectile.update M dt p live removed).2.2
    rw [hc.1, hc.2.1] at h3
    exact h3

/-- Lowering the health of the target moves no enemy and keeps every identity. -/
theorem hitEnemy_positions (id : Nat) (d : K) (es : List (Enemy K)) :
    (hitEnemy id d es).map (fun e => (e.id, e.x, e.y)) = es.map (fun e => (e.id, e.x, e.y)) := by
  unfold hitEnemy
  rw [List.map_map]
  apply List.map_congr_left
  intro e _
  simp only [Function.comp]
  split_ifs <;> rfl

/-- The projectile filter of `Tower.update` moves no enemy; the projectiles it keeps are
in flight and carry the target and the damage of a projectile of the list. -/
theorem updateProjectiles_spec (M : JsMath K) (dt : K) (ps : List (Projectile K))
    (live removed : List (Enemy K)) :
    (Tower.updateProjectiles M dt ps live removed).2.1.map (fun e => (e.id, e.x, e.y)) =
      live.map (fun e => (e.id, e.x, e.y)) ∧
    ∀ q ∈ (Tower.updateProjectiles M dt ps live removed).1,
      q.hit = false ∧ ∃ p ∈ ps, q.damage = p.damage ∧ q.target = p.target := by
  induction ps generalizing live removed with
  | nil => exact ⟨rfl, fun q hq => absurd hq (List.not_mem_nil q)⟩
  | cons p ps ih =>
    have hpos : (Projectile.update M dt p live removed).2.1.map (fun e => (e.id, e.x, e.y)) =
        live.map (fun e => (e.id, e.x, e.y)) := by
      rcases Projectile_update_cases M dt p live removed with ⟨_, h2⟩ | ⟨_, h2⟩
      · rw [h2]
      · rw [h2]
        exact hitEnemy_positions _ _ _
    have hc := Projectile_update_const M dt p live removed
    have h3 := ih (Projectile.update M dt p live removed).2.1
      (Projectile.update M dt p live removed).2.2
    unfold Tower.updateProjectiles
    dsimp only
    split_ifs with hh
    · refine ⟨h3.1.trans hpos, ?_⟩
      intro q hq
      obtain ⟨h4, p0, hp0, h5⟩ := h3.2 q hq
      exact ⟨h4, p0, List.mem_cons_of_mem _ hp0, h5⟩
    · refine ⟨h3.1.trans hpos, ?_⟩
      intro q hq
      rcases List.mem_cons.mp hq with hq | hq
      · rw [hq]
        exact ⟨by simpa using hh, p, List.mem_cons_self _ _, hc.1, hc.2.1⟩
      · obtain ⟨h4, p0, hp0, h5⟩ := h3.2 q hq
        exact ⟨h4, p0, List.mem_cons_of_mem _ hp0, h5⟩

/-- The scan for the closest enemy when no enemy is closer than the bound. -/
theorem closest_none (M : JsMath K) (u : Tower K) (es : List (Enemy K))
    (acc : K × Option (Enemy K))
    (h : ∀ e ∈ es, ¬ M.hypot (e.x - u.x) (e.y - u.y) < acc.1) :
    Tower.closest M u es acc = acc := by
  induction es with
  | nil => rfl
  | cons a es ih =>
    unfold Tower.closest
    dsimp only
    rw [if_neg (h a (List.mem_cons_self _ _))]
    exact ih (fun e he => h e (List.mem_cons_of_mem _ he))

/-- The scan for the closest enemy when some enemy is closer than the bound: the result is
the first enemy of the list among those at minimal distance. -/
theorem closest_some (M : JsMath K) (u : Tower K) (es : List (Enemy K))
    (acc : K × Option (Enemy K))
    (h : ∃ e ∈ es, M.hypot (e.x - u.x) (e.y - u.y) < acc.1) :
    ∃ l1 e l2, es = l1 ++ e :: l2 ∧ M.hypot (e.x - u.x) (e.y - u.y) < acc.1 ∧
      (∀ v ∈ l1, M.hypot (e.x - u.x) (e.y - u.y) < M.hypot (v.x - u.x) (v.y - u.y)) ∧
      (∀ v ∈ l2, M.hypot (e.x - u.x) (e.y - u.y) ≤ M.hypot (v.x - u.x) (v.y - u.y)) ∧
      Tower.closest M u es acc = (M.hypot (e.x - u.x) (e.y - u.y), some e) := by
  induction es generalizing acc with
  | nil =>
    obtain ⟨e, he, _⟩ := h
    exact absurd he (List.not_mem_nil e)
  | cons a es ih =>
    unfold Tower.closest
    dsimp only
    by_cases ha : M.hypot (a.x - u.x) (a.y - u.y) < acc.1
    · rw [if_pos ha]
      by_cases hex : ∃ e ∈ es, M.hypot (e.x - u.x) (e.y - u.y) < M.hypot (a.x - u.x) (a.y - u.y)
      · obtain ⟨l1, e, l2, h1, h2, h3, h4, h5⟩ :=
          ih (M.hypot (a.x - u.x) (a.y - u.y), some a) hex
        refine ⟨a :: l1, e, l2, by rw [h1]; rfl, lt_trans h2 ha, ?_, h4, h5⟩
        intro v hv
        rcases List.mem_cons.mp hv with hv | hv
        · rw [hv]
          exact h2
        · exact h3 v hv
      · refine ⟨[], a, es, rfl, ha, fun v hv => absurd hv (List.not_mem_nil v), ?_, ?_⟩
        · intro v hv
          exact not_lt.mp (fun hlt => hex ⟨v, hv, hlt⟩)
        · exact closest_none M u es _ (fun e he hlt => hex ⟨e, he, hlt⟩)
    · rw [if_neg ha]
      have hex : ∃ e ∈ es, M.hypot (e.x - u.x) (e.y - u.y) < acc.1 := by
        obtain ⟨e, he, hlt⟩ := h
        rcases List.mem_cons.mp he with he | he
        · rw [he] at hlt
          exact absurd hlt ha
        · exact ⟨e, he, hlt⟩
      obtain ⟨l1, e, l2, h1, h2, h3, h4, h5⟩ := ih acc hex
      refine ⟨a :: l1, e, l2, by rw [h1]; rfl, h2, ?_, h4, h5⟩
      intro v hv
      rcases List.mem_cons.mp hv with hv | hv
      · rw [hv]
        exact lt_of_lt_of_le h2 (not_lt.mp ha)
      · exact h3 v hv

/-- The scan for the closest enemy reads only the position of the tower. -/
theorem closest_congr (M : JsMath K) (u v : Tower K) (es : List (Enemy K))
    (acc : K × Option (Enemy K)) (hx : u.x = v.x) (hy : u.y = v.y) :
    Tower.closest M u es acc = Tower.closest M v es acc := by
  induction es generalizing acc with
  | nil => rfl
  | cons a es ih =>
    unfold Tower.closest
    dsimp only
    rw [hx, hy]
    split_ifs
    · exact ih _
    · exact ih _

/-- `Tower.update` written out on the tower itself. -/
theorem Tower_update_eq (M : JsMath K) (dt : K) (t : Tower K) (live removed : List (Enemy K)) :
    Tower.update M dt t live removed =
      match (Tower.closest M t (Tower.updateProjectiles M dt t.projectiles live removed).2.1
          (t.range, none)).2 with
      | some closestEnemy =>
        ({ t with projectiles :=
            (Tower.updateProjectiles M dt t.projectiles live removed).1 ++
              [Projectile.create t.x t.y closestEnemy.id t.damage] },
          (Tower.updateProjectiles M dt t.projectiles live removed).2.1,
          (Tower.updateProjectiles M dt t.projectiles live removed).2.2)
      | none =>
        ({ t with projectiles := (Tower.updateProjectiles M dt t.projectiles live removed).1 },
          (Tower.updateProjectiles M dt t.projectiles live removed).2.1,
          (Tower.updateProjectiles M dt t.projectiles live removed).2.2) := by
  unfold Tower.update
  dsimp only
  rw [closest_congr M
    { t with projectiles := (Tower.updateProjectiles M dt t.projectiles live removed).1 } t
    _ _ rfl rfl]

/-- `Tower.upgrade` leaves the projectiles of the tower alone. -/
theorem upgrade_projectiles (t : Tower K) : (Tower.upgrade t).1.projectiles = t.projectiles := by
  by_cases h : t.level < t.maxLevel
  · exact (upgrade_below t h).2.2.2
  · rw [upgrade_maxed t (not_lt.mp h)]

/-- C18. A projectile subtracts its damage from the health of its target at most once. A
call of `update` on a projectile marked hit changes nothing (stores and position). A call
on a projectile in flight at distance below 5 from its target marks it hit, leaves its
position alone and lowers the health of the target from `H` to `H - damage`; at distance 5
or more it changes no enemy. After any sequence of calls the stores are those at the start
(projectile still in flight) or those at the start with `damage` subtracted once from the
target (projectile marked hit), and the damage of the projectile is the one it was created
with. A projectile created by `Tower.update` carries the damage of the tower at that time;
`Tower.upgrade` does not touch projectiles, and later calls of `Tower.update` keep the
damage of the projectiles they keep. -/
theorem projectile_damage_once (M : JsMath K) (dt : K) (dts : List K) (p : Projectile K)
    (live removed : List (Enemy K)) (t : Tower K) (x y d : K) (tg : Nat) :
    (p.hit = true → Projectile.update M dt p live removed = (p, live, removed)) ∧
    (∀ target, p.hit = false → findEnemy p.target live removed = some target →
      M.hypot (target.x - p.x) (target.y - p.y) < 5 →
      (Projectile.update M dt p live removed).1 = { p with hit := true } ∧
      findEnemy p.target (Projectile.update M dt p live removed).2.1
          (Projectile.update M dt p live removed).2.2 =
        some { target with health := target.health - p.damage }) ∧
    (∀ target, p.hit = false → findEnemy p.target live removed = some target →
      ¬ M.hypot (target.x - p.x) (target.y - p.y) < 5 →
      (Projectile.update M dt p live removed).1.hit = false ∧
      (Projectile.update M dt p live removed).2 = (live, removed)) ∧
    (p.hit = true → Projectile.updates M dts p live removed = (p, live, removed)) ∧
    (p.hit = false →
      ((Projectile.updates M dts p live removed).1.hit = false ∧
        (Projectile.updates M dts p live removed).2 = (live, removed)) ∨
      ((Projectile.updates M dts p live removed).1.hit = true ∧
        (Projectile.updates M dts p live removed).2 =
          (hitEnemy p.target p.damage live, hitEnemy p.target p.damage removed))) ∧
    (Projectile.updates M dts p live removed).1.damage = p.damage ∧
    (Projectile.create x y tg d).damage = d ∧ (Projectile.create x y tg d).hit = false ∧
    (∀ q ∈ (Tower.update M dt t live removed).1.projectiles,
      (∃ p0 ∈ t.projectiles, q.damage = p0.damage) ∨ q.damage = t.damage) ∧
    (Tower.upgrade t).1.projectiles = t.projectiles := by
  refine ⟨Projectile_update_hit M dt p live removed, ?_, ?_,
    Projectile_updates_hit M dts p live removed, Projectile_updates_cases M dts p live removed,
    (Projectile_updates_const M dts p live removed).1, rfl, rfl, ?_, upgrade_projectiles t⟩
  · intro target h ht hd
    rw [(Projectile_update_flying M dt p live removed h target ht).1 hd]
    refine ⟨rfl, ?_⟩
    dsimp only
    rw [findEnemy_hitEnemy, ht]
    rfl
  · intro target h ht hd
    rw [(Projectile_update_flying M dt p live removed h target ht).2 hd]
    exact ⟨h, rfl⟩
  · intro q hq
    rw [Tower_update_eq] at hq
    have hk := (updateProjectiles_spec M dt t.projectiles live removed).2
    cases hcl : (Tower.closest M t (Tower.updateProjectiles M dt t.projectiles live removed).2.1
        (t.range, none)).2 with
    | none =>
      rw [hcl] at hq
      obtain ⟨_, p0, hp0, h5, _⟩ := hk q hq
      exact Or.inl ⟨p0, hp0, h5⟩
    | some c =>
      rw [hcl] at hq
      rcases List.mem_append.mp hq with hq | hq
      · obtain ⟨_, p0, hp0, h5, _⟩ := hk q hq
        exact Or.inl ⟨p0, hp0, h5⟩
      · rw [List.mem_singleton.mp hq]
        exact Or.inr rfl

/-- The identity and position of the enemy a lookup finds depend only on the identities and
positions in the two stores. -/
theorem findEnemy_positions (id : Nat) (live removed live0 removed0 : List (Enemy K))
    (h1 : live.map (fun e => (e.id, e.x, e.y)) = live0.map (fun e => (e.id, e.x, e.y)))
    (h2 : removed.map (fun e => (e.id, e.x, e.y)) =
      removed0.map (fun e => (e.id, e.x, e.y))) :
    (findEnemy id live removed).map (fun e => (e.id, e.x, e.y)) =
      (findEnemy id live0 removed0).map (fun e => (e.id, e.x, e.y)) := by
  have key : ∀ l r : List (Enemy K),
      (findEnemy id l r).map (fun e => (e.id, e.x, e.y)) =
        match (l.map (fun e => (e.id, e.x, e.y))).find? (fun k => k.1 == id) with
        | some k => some k
        | none => (r.map (fun e => (e.id, e.x, e.y))).find? (fun k => k.1 == id) := by
    intro l r
    rw [List.find?_map, List.find?_map]
    unfold findEnemy
    have e : ((fun k : Nat × K × K => k.1 == id) ∘ fun e : Enemy K => (e.id, e.x, e.y)) =
        fun e : Enemy K => e.id == id := rfl
    rw [e]
    cases l.find? (fun e => e.id == id) <;> rfl
  rw [key, key, h1, h2]

/-- The projectile after `Projectile.update` depends only on the identities and positions
in the two stores. -/
theorem Projectile_update_congr (M : JsMath K) (dt : K) (p : Projectile K)
    (live removed live0 removed0 : List (Enemy K))
    (h1 : live.map (fun e => (e.id, e.x, e.y)) = live0.map (fun e => (e.id, e.x, e.y)))
    (h2 : removed.map (fun e => (e.id, e.x, e.y)) =
      removed0.map (fun e => (e.id, e.x, e.y))) :
    (Projectile.update M dt p live removed).1 = (Projectile.update M dt p live0 removed0).1 := by
  have key : ∀ l r : List (Enemy K), (Projectile.update M dt p l r).1 =
      if p.hit then p
      else
        match (findEnemy p.target l r).map (fun e => (e.id, e.x, e.y)) with
        | none => p
        | some k =>
          if M.hypot (k.2.1 - p.x) (k.2.2 - p.y) < 5 then { p with hit := true }
          else { p with
            x := p.x + (k.2.1 - p.x) / M.hypot (k.2.1 - p.x) (k.2.2 - p.y) * p.speed * dt,
            y := p.y + (k.2.2 - p.y) / M.hypot (k.2.1 - p.x) (k.2.2 - p.y) * p.speed * dt } := by
    intro l r
    unfold Projectile.update
    split_ifs with h
    · rfl
    · cases findEnemy p.target l r with
      | none => rfl
      | some target =>
        dsimp only [Option.map]
        split_ifs <;> rfl
  rw [key, key, findEnemy_positions p.target live removed live0 removed0 h1 h2]

/-- One call of `Projectile.update` moves no enemy of either store. -/
theorem Projectile_update_positions (M : JsMath K) (dt : K) (p : Projectile K)
    (live removed : List (Enemy K)) :
    (Projectile.update M dt p live removed).2.1.map (fun e => (e.id, e.x, e.y)) =
      live.map (fun e => (e.id, e.x, e.y)) ∧
    (Projectile.update M dt p live removed).2.2.map (fun e => (e.id, e.x, e.y)) =
      removed.map (fun e => (e.id, e.x, e.y)) := by
  rcases Projectile_update_cases M dt p live removed with ⟨_, h2⟩ | ⟨_, h2⟩
  · rw [h2]
    exact ⟨rfl, rfl⟩
  · rw [h2]
    exact ⟨hitEnemy_positions _ _ _, hitEnemy_positions _ _ _⟩

/-- The projectile filter of `Tower.update`, from stores that agree in identities and
positions with given ones: the list it leaves holds the projectiles after
`Projectile.update` against the given stores, in order, without those marked hit. -/
theorem updateProjectiles_list (M : JsMath K) (dt : K) (ps : List (Projectile K))
    (live0 removed0 : List (Enemy K)) (live removed : List (Enemy K))
    (h1 : live.map (fun e => (e.id, e.x, e.y)) = live0.map (fun e => (e.id, e.x, e.y)))
    (h2 : removed.map (fun e => (e.id, e.x, e.y)) =
      removed0.map (fun e => (e.id, e.x, e.y))) :
    (Tower.updateProjectiles M dt ps live removed).1 =
      (ps.map (fun p => (Projectile.update M dt p live0 removed0).1)).filter
        (fun q => !q.hit) := by
  induction ps generalizing live removed with
  | nil => rfl
  | cons p ps ih =>
    have hp := Projectile_update_positions M dt p live removed
    have h3 := ih (Projectile.update M dt p live removed).2.1
      (Projectile.update M dt p live removed).2.2 (hp.1.trans h1) (hp.2.trans h2)
    have hc := Projectile_update_congr M dt p live removed live0 removed0 h1 h2
    unfold Tower.updateProjectiles
    dsimp only
    rw [List.map_cons, List.filter_cons, ← hc]
    split_ifs with hh hh2 hh2
    · rw [hh] at hh2
      exact absurd hh2 (by decide)
    · exact h3
    · rw [h3]
    · exfalso
      apply hh2
      cases hv : (Projectile.update M dt p live removed).1.hit
      · rfl
      · exact absurd hv hh

/-- The projectile filter of `Tower.update` passes the stores from one projectile to the
next. -/
theorem updateProjectiles_stores (M : JsMath K) (dt : K) (ps : List (Projectile K))
    (live removed : List (Enemy K)) :
    (Tower.updateProjectiles M dt ps live removed).2 =
      ps.foldl (fun s p => (Projectile.update M dt p s.1 s.2).2) (live, removed) := by
  induction ps generalizing live removed with
  | nil => rfl
  | cons p ps ih =>
    have h3 := ih (Projectile.update M dt p live removed).2.1
      (Projectile.update M dt p live removed).2.2
    unfold Tower.updateProjectiles
    dsimp only
    rw [List.foldl_cons]
    split_ifs
    · exact h3
    · exact h3

/-- Two enemy lists with the same identities and positions have an enemy in a region
together. -/
theorem exists_of_positions (l1 l2 : List (Enemy K)) (P : K → K → Prop)
    (h : l1.map (fun e => (e.id, e.x, e.y)) = l2.map (fun e => (e.id, e.x, e.y)))
    (hex : ∃ e ∈ l1, P e.x e.y) : ∃ e ∈ l2, P e.x e.y := by
  obtain ⟨e, he, hP⟩ := hex
  have hm : (e.id, e.x, e.y) ∈ l2.map (fun e => (e.id, e.x, e.y)) := by
    rw [← h]
    exact List.mem_map.mpr ⟨e, he, rfl⟩
  obtain ⟨v, hv, hk⟩ := List.mem_map.mp hm
  have hx : v.x = e.x := congrArg (fun k => k.2.1) hk
  have hy : v.y = e.y := congrArg (fun k => k.2.2) hk
  refine ⟨v, hv, ?_⟩
  rw [hx, hy]
  exact hP

/-- C19. `Tower.update` first advances the projectiles of the tower and drops those marked
hit: the list it keeps holds, in the old order, every projectile of the tower after its
`Projectile.update` (the projectile an update leaves depends only on the identities and
positions of the enemies, which no update changes, so each is the update against the
enemies as passed in), without those marked hit, and the enemy stores go from the update of
one projectile to the update of the next. This moves no enemy. Then, if some enemy of the
list is at distance strictly below the range, it appends exactly one projectile, at the
position of the tower, with the damage of the tower, aimed at the first enemy in list order
among those at minimal distance; if no enemy is at distance strictly below the range
(distance equal to the range included), it appends nothing. Neither `fireRate` nor
`lastShot` has any influence. -/
theorem tower_update_fires (M : JsMath K) (dt : K) (t : Tower K)
    (live removed : List (Enemy K)) (f l : K) :
    (Tower.updateProjectiles M dt t.projectiles live removed).2.1.map
        (fun e => (e.id, e.x, e.y)) = live.map (fun e => (e.id, e.x, e.y)) ∧
    (∀ q ∈ (Tower.updateProjectiles M dt t.projectiles live removed).1, q.hit = false) ∧
    (Tower.updateProjectiles M dt t.projectiles live removed).1 =
      (t.projectiles.map (fun p => (Projectile.update M dt p live removed).1)).filter
        (fun q => !q.hit) ∧
    (Tower.updateProjectiles M dt t.projectiles live removed).2 =
      t.projectiles.foldl (fun s p => (Projectile.update M dt p s.1 s.2).2) (live, removed) ∧
    ((∃ e ∈ live, M.hypot (e.x - t.x) (e.y - t.y) < t.range) ↔
      ∃ e ∈ (Tower.updateProjectiles M dt t.projectiles live removed).2.1,
        M.hypot (e.x - t.x) (e.y - t.y) < t.range) ∧
    ((∃ e ∈ (Tower.updateProjectiles M dt t.projectiles live removed).2.1,
        M.hypot (e.x - t.x) (e.y - t.y) < t.range) →
      ∃ l1 e l2, (Tower.updateProjectiles M dt t.projectiles live removed).2.1 = l1 ++ e :: l2 ∧
        M.hypot (e.x - t.x) (e.y - t.y) < t.range ∧
        (∀ v ∈ l1, M.hypot (e.x - t.x) (e.y - t.y) < M.hypot (v.x - t.x) (v.y - t.y)) ∧
        (∀ v ∈ l2, M.hypot (e.x - t.x) (e.y - t.y) ≤ M.hypot (v.x - t.x) (v.y - t.y)) ∧
        (Tower.update M dt t live removed).1 =
          { t with projectiles :=
              (Tower.updateProjectiles M dt t.projectiles live removed).1 ++
                [{ x := t.x, y := t.y, target := e.id, damage := t.damage, speed := 300,
                   hit := false }] }) ∧
    ((∀ e ∈ (Tower.updateProjectiles M dt t.projectiles live removed).2.1,
        ¬ M.hypot (e.x - t.x) (e.y - t.y) < t.range) →
      (Tower.update M dt t live removed).1 =
        { t with projectiles := (Tower.updateProjectiles M dt t.projectiles live removed).1 }) ∧
    (Tower.update M dt t live removed).2 =
      (Tower.updateProjectiles M dt t.projectiles live removed).2 ∧
    Tower.update M dt { t with fireRate := f, lastShot := l } live removed =
      ({ (Tower.update M dt t live removed).1 with fireRate := f, lastShot := l },
        (Tower.update M dt t live removed).2) := by
  refine ⟨(updateProjectiles_spec M dt t.projectiles live removed).1,
    fun q hq => ((updateProjectiles_spec M dt t.projectiles live removed).2 q hq).1,
    updateProjectiles_list M dt t.projectiles live removed live removed rfl rfl,
    updateProjectiles_stores M dt t.projectiles live removed,
    ⟨exists_of_positions _ _ (fun a b => M.hypot (a - t.x) (b - t.y) < t.range)
        (updateProjectiles_spec M dt t.projectiles live removed).1.symm,
      exists_of_positions _ _ (fun a b => M.hypot (a - t.x) (b - t.y) < t.range)
        (updateProjectiles_spec M dt t.projectiles live removed).1⟩,
    ?_, ?_, ?_, ?_⟩
  · intro h
    obtain ⟨l1, e, l2, h1, h2, h3, h4, h5⟩ := closest_some M t _ (t.range, none) h
    refine ⟨l1, e, l2, h1, h2, h3, h4, ?_⟩
    rw [Tower_update_eq, h5]
    rfl
  · intro h
    rw [Tower_update_eq, closest_none M t _ (t.range, none) h]
  · rw [Tower_update_eq]
    cases (Tower.closest M t (Tower.updateProjectiles M dt t.projectiles live removed).2.1
      (t.range, none)).2 <;> rfl
  · rw [Tower_update_eq, Tower_update_eq]
    rw [closest_congr M { t with fireRate := f, lastShot := l } t _ _ rfl rfl]
    cases (Tower.closest M t (Tower.updateProjectiles M dt t.projectiles live removed).2.1
      (t.range, none)).2 <;> rfl

/-! ## Geometry and movement -/

/-- The point of the segment that `pointToLineDistance` measures to: its parameter `t` lies
in `[0, 1]` and no point of the segment is closer (squared distances, any ordered field). -/
theorem pointToLineDistance_foot (M : JsMath K) (x y x1 y1 x2 y2 : K) :
    ∃ ts : K, 0 ≤ ts ∧ ts ≤ 1 ∧
      Game.pointToLineDistance M x y x1 y1 x2 y2 =
        M.sqrt ((x - (x1 + ts * (x2 - x1))) * (x - (x1 + ts * (x2 - x1))) +
          (y - (y1 + ts * (y2 - y1))) * (y - (y1 + ts * (y2 - y1)))) ∧
      (x1 = x2 → y1 = y2 → ts = 0) ∧
      ∀ t : K, 0 ≤ t → t ≤ 1 →
        (x - (x1 + ts * (x2 - x1))) * (x - (x1 + ts * (x2 - x1))) +
          (y - (y1 + ts * (y2 - y1))) * (y - (y1 + ts * (y2 - y1))) ≤
        (x - (x1 + t * (x2 - x1))) * (x - (x1 + t * (x2 - x1))) +
          (y - (y1 + t * (y2 - y1))) * (y - (y1 + t * (y2 - y1))) := by
  unfold Game.pointToLineDistance
  dsimp only
  by_cases hL : (x2 - x1) * (x2 - x1) + (y2 - y1) * (y2 - y1) ≠ 0
  · have hLpos : 0 < (x2 - x1) * (x2 - x1) + (y2 - y1) * (y2 - y1) :=
      lt_of_le_of_ne (add_nonneg (mul_self_nonneg _) (mul_self_nonneg _)) (Ne.symm hL)
    have hne : ¬ (x1 = x2 ∧ y1 = y2) := by
      rintro ⟨h1, h2⟩
      apply hL
      rw [h1, h2]
      ring
    simp only [if_pos hL]
    obtain ⟨p, hp⟩ : ∃ p, p = ((x - x1) * (x2 - x1) + (y - y1) * (y2 - y1)) /
        ((x2 - x1) * (x2 - x1) + (y2 - y1) * (y2 - y1)) := ⟨_, rfl⟩
    rw [← hp]
    have hdot : (x - x1) * (x2 - x1) + (y - y1) * (y2 - y1) =
        p * ((x2 - x1) * (x2 - x1) + (y2 - y1) * (y2 - y1)) := by
      rw [hp]
      field_simp
    by_cases h0 : p < 0
    · simp only [if_pos h0]
      refine ⟨0, le_refl 0, zero_le_one, by ring_nf, fun h1 h2 => absurd ⟨h1, h2⟩ hne, ?_⟩
      intro t ht0 _
      have hid : (x - (x1 + t * (x2 - x1))) * (x - (x1 + t * (x2 - x1))) +
          (y - (y1 + t * (y2 - y1))) * (y - (y1 + t * (y2 - y1))) -
          ((x - (x1 + 0 * (x2 - x1))) * (x - (x1 + 0 * (x2 - x1))) +
          (y - (y1 + 0 * (y2 - y1))) * (y - (y1 + 0 * (y2 - y1)))) =
          t * (((x2 - x1) * (x2 - x1) + (y2 - y1) * (y2 - y1)) * (t - 2 * p)) := by
        have e : t * (((x2 - x1) * (x2 - x1) + (y2 - y1) * (y2 - y1)) * (t - 2 * p)) =
            t * (((x2 - x1) * (x2 - x1) + (y2 - y1) * (y2 - y1)) * t -
              2 * (p * ((x2 - x1) * (x2 - x1) + (y2 - y1) * (y2 - y1)))) := by ring
        rw [e, ← hdot]
        ring
      have hnn : 0 ≤ t * (((x2 - x1) * (x2 - x1) + (y2 - y1) * (y2 - y1)) * (t - 2 * p)) :=
        mul_nonneg ht0 (mul_nonneg hLpos.le (by linarith))
      linarith
    · simp only [if_neg h0]
      by_cases h1 : 1 < p
      · simp only [if_pos h1]
        refine ⟨1, zero_le_one, le_refl 1, by ring_nf, fun h1 h2 => absurd ⟨h1, h2⟩ hne, ?_⟩
        intro t _ ht1
        have hid : (x - (x1 + t * (x2 - x1))) * (x - (x1 + t * (x2 - x1))) +
            (y - (y1 + t * (y2 - y1))) * (y - (y1 + t * (y2 - y1))) -
            ((x - (x1 + 1 * (x2 - x1))) * (x - (x1 + 1 * (x2 - x1))) +
            (y - (y1 + 1 * (y2 - y1))) * (y - (y1 + 1 * (y2 - y1)))) =
            (1 - t) * (((x2 - x1) * (x2 - x1) + (y2 - y1) * (y2 - y1)) * (2 * p - 1 - t)) := by
          have e : (1 - t) * (((x2 - x1) * (x2 - x1) + (y2 - y1) * (y2 - y1)) * (2 * p - 1 - t)) =
              (1 - t) * (2 * (p * ((x2 - x1) * (x2 - x1) + (y2 - y1) * (y2 - y1))) -
                ((x2 - x1) * (x2 - x1) + (y2 - y1) * (y2 - y1)) * (1 + t)) := by ring
          rw [e, ← hdot]
          ring
        have hnn : 0 ≤ (1 - t) *
            (((x2 - x1) * (x2 - x1) + (y2 - y1) * (y2 - y1)) * (2 * p - 1 - t)) :=
          mul_nonneg (by linarith) (mul_nonneg hLpos.le (by linarith))
        linarith
      · simp only [if_neg h1]
        refine ⟨p, not_lt.mp h0, not_lt.mp h1, rfl, fun h1 h2 => absurd ⟨h1, h2⟩ hne, ?_⟩
        intro t _ _
        have hid : (x - (x1 + t * (x2 - x1))) * (x - (x1 + t * (x2 - x1))) +
            (y - (y1 + t * (y2 - y1))) * (y - (y1 + t * (y2 - y1))) -
            ((x - (x1 + p * (x2 - x1))) * (x - (x1 + p * (x2 - x1))) +
            (y - (y1 + p * (y2 - y1))) * (y - (y1 + p * (y2 - y1)))) =
            ((x2 - x1) * (x2 - x1) + (y2 - y1) * (y2 - y1)) * ((t - p) * (t - p)) := by
          have e : ((x2 - x1) * (x2 - x1) + (y2 - y1) * (y2 - y1)) * ((t - p) * (t - p)) =
              ((x2 - x1) * (x2 - x1) + (y2 - y1) * (y2 - y1)) * (t * t) -
                2 * t * (p * ((x2 - x1) * (x2 - x1) + (y2 - y1) * (y2 - y1))) +
                2 * p * (p * ((x2 - x1) * (x2 - x1) + (y2 - y1) * (y2 - y1))) -
                ((x2 - x1) * (x2 - x1) + (y2 - y1) * (y2 - y1)) * (p * p) := by ring
          rw [e, ← hdot]
          ring
        have hnn : 0 ≤ ((x2 - x1) * (x2 - x1) + (y2 - y1) * (y2 - y1)) * ((t - p) * (t - p)) :=
          mul_nonneg hLpos.le (mul_self_nonneg _)
        linarith
  · have hL0 : (x2 - x1) * (x2 - x1) + (y2 - y1) * (y2 - y1) = 0 := not_not.mp hL
    have hC : x2 - x1 = 0 := by
      have h := mul_self_nonneg (x2 - x1)
      have h' := mul_self_nonneg (y2 - y1)
      exact mul_self_eq_zero.mp (by linarith)
    have hD : y2 - y1 = 0 := by
      have h := mul_self_nonneg (x2 - x1)
      have h' := mul_self_nonneg (y2 - y1)
      exact mul_self_eq_zero.mp (by linarith)
    have hm : (-1 : K) < 0 := by norm_num
    simp only [if_neg hL, if_pos hm]
    refine ⟨0, le_refl 0, zero_le_one, by ring_nf, fun _ _ => rfl, ?_⟩
    intro t _ _
    rw [hC, hD]
    simp

/-- `Enemy.update` on an enemy that has not reached the last waypoint: the freeze timer is
served first, giving an enemy `e1` at the same place; then `e1` advances its `pathIndex` or
moves. -/
theorem Enemy_update_served (M : JsMath K) (dt : K) (e : Enemy K)
    (h : e.pathIndex < 5) :
    ∃ e1 : Enemy K, e1.x = e.x ∧ e1.y = e.y ∧ e1.pathIndex = e.pathIndex ∧
      e1.reachedEnd = e.reachedEnd ∧
      (e.freezeTimer ≤ 0 ∨ dt < e.freezeTimer → e1.speed = e.speed) ∧
      (0 < e.freezeTimer → e.freezeTimer ≤ dt → e1.speed = e.baseSpeed) ∧
      (e.freezeTimer = 0 → e1.freezeTimer = 0) ∧
      Enemy.update M dt e =
        if M.hypot ((Game.pathAt (e.pathIndex + 1)).x - e.x)
            ((Game.pathAt (e.pathIndex + 1)).y - e.y) < 5 then
          { e1 with pathIndex := e.pathIndex + 1 }
        else
          { e1 with
            x := e.x + ((Game.pathAt (e.pathIndex + 1)).x - e.x) /
              M.hypot ((Game.pathAt (e.pathIndex + 1)).x - e.x)
                ((Game.pathAt (e.pathIndex + 1)).y - e.y) * e1.speed * dt,
            y := e.y + ((Game.pathAt (e.pathIndex + 1)).y - e.y) /
              M.hypot ((Game.pathAt (e.pathIndex + 1)).x - e.x)
                ((Game.pathAt (e.pathIndex + 1)).y - e.y) * e1.speed * dt } := by
  have hlen : ¬ ((Game.createPath (K := K)).length - 1 ≤ e.pathIndex) := by
    have : (Game.createPath (K := K)).length - 1 = 5 := rfl
    rw [this]
    omega
  by_cases hf : 0 < e.freezeTimer
  · by_cases hx : e.freezeTimer - dt ≤ 0
    · refine ⟨{ e with freezeTimer := e.freezeTimer - dt, speed := e.baseSpeed },
        rfl, rfl, rfl, rfl, ?_, fun _ _ => rfl, ?_, ?_⟩
      · rintro (h1 | h1)
        · exact absurd hf (not_lt.mpr h1)
        · exact absurd hx (not_le.mpr (sub_pos.mpr h1))
      · intro h0
        rw [h0] at hf
        exact absurd hf (lt_irrefl 0)
      · unfold Enemy.update
        rw [if_neg hlen]
        dsimp only
        simp only [if_pos hf, if_pos hx]
    · refine ⟨{ e with freezeTimer := e.freezeTimer - dt },
        rfl, rfl, rfl, rfl, fun _ => rfl, ?_, ?_, ?_⟩
      · intro _ h1
        exact absurd (sub_nonpos.mpr h1) hx
      · intro h0
        rw [h0] at hf
        exact absurd hf (lt_irrefl 0)
      · unfold Enemy.update
        rw [if_neg hlen]
        dsimp only
        simp only [if_pos hf, if_neg hx]
  · refine ⟨e, rfl, rfl, rfl, rfl, fun _ => rfl, ?_, fun h0 => h0, ?_⟩
    · intro h1 _
      exact absurd h1 hf
    · unfold Enemy.update
      rw [if_neg hlen]
      dsimp only
      simp only [if_neg hf]

/-! ## Towers are distinct objects -/

/-- Steps that keep the identities of the towers and do not lower the identity counter
compose. -/
theorem keeps_trans (a b c : Game K)
    (h1 : b.towers.map (fun t => t.id) = a.towers.map (fun t => t.id) ∧ a.nextId ≤ b.nextId)
    (h2 : c.towers.map (fun t => t.id) = b.towers.map (fun t => t.id) ∧ b.nextId ≤ c.nextId) :
    c.towers.map (fun t => t.id) = a.towers.map (fun t => t.id) ∧ a.nextId ≤ c.nextId :=
  ⟨h2.1.trans h1.1, le_trans h1.2 h2.2⟩

/-- Towers stay distinct objects, older than the identity counter, across a step that keeps
their identities and does not lower the counter. -/
theorem distinct_of_keeps (a b : Game K)
    (h : b.towers.map (fun t => t.id) = a.towers.map (fun t => t.id) ∧ a.nextId ≤ b.nextId)
    (ha : (a.towers.map (fun t => t.id)).Nodup ∧ ∀ i ∈ a.towers.map (fun t => t.id), i < a.nextId) :
    (b.towers.map (fun t => t.id)).Nodup ∧ ∀ i ∈ b.towers.map (fun t => t.id), i < b.nextId := by
  rw [h.1]
  exact ⟨ha.1, fun i hi => lt_of_lt_of_le (ha.2 i hi) h.2⟩

/-- `setTimeout` keeps the towers. -/
theorem setTimeout_keeps (a : TimerAction) (delay : K) (s : Game K) :
    (Game.setTimeout a delay s).towers.map (fun t => t.id) = s.towers.map (fun t => t.id) ∧
    s.nextId ≤ (Game.setTimeout a delay s).nextId :=
  ⟨rfl, Nat.le_succ _⟩

/-- `scheduleSpawns` only adds timers. -/
theorem scheduleSpawns_keeps (bh n i : Nat) (s : Game K) :
    (Game.scheduleSpawns bh n i s).towers.map (fun t => t.id) = s.towers.map (fun t => t.id) ∧
    s.nextId ≤ (Game.scheduleSpawns bh n i s).nextId := by
  induction n generalizing i s with
  | zero => exact ⟨rfl, le_refl _⟩
  | succ n ih =>
    unfold Game.scheduleSpawns
    exact keeps_trans s _ _ (setTimeout_keeps _ _ s) (ih (i + 1) _)

/-- `spawnWave` keeps the towers. -/
theorem spawnWave_keeps (M : JsMath K) (s : Game K) :
    (Game.spawnWave M s).towers.map (fun t => t.id) = s.towers.map (fun t => t.id) ∧
    s.nextId ≤ (Game.spawnWave M s).nextId := by
  unfold Game.spawnWave
  split_ifs
  · exact ⟨rfl, Nat.le_succ _⟩
  · exact scheduleSpawns_keeps _ _ 0 s

/-- `checkWaveComplete` keeps the towers. -/
theorem checkWaveComplete_keeps (s : Game K) :
    (Game.checkWaveComplete s).towers.map (fun t => t.id) = s.towers.map (fun t => t.id) ∧
    s.nextId ≤ (Game.checkWaveComplete s).nextId := by
  unfold Game.checkWaveComplete
  dsimp only
  split_ifs
  · exact ⟨rfl, Nat.le_succ _⟩
  · exact ⟨rfl, Nat.le_succ _⟩
  · exact ⟨rfl, le_refl _⟩

/-- `startFirstWave` keeps the towers. -/
theorem startFirstWave_keeps (M : JsMath K) (s : Game K) :
    (Game.startFirstWave M s).towers.map (fun t => t.id) = s.towers.map (fun t => t.id) ∧
    s.nextId ≤ (Game.startFirstWave M s).nextId := by
  unfold Game.startFirstWave
  split_ifs
  · exact spawnWave_keeps M s
  · exact ⟨rfl, le_refl _⟩

/-- `finishFrame` keeps the towers. -/
theorem finishFrame_keeps (dt : K) (s : Game K) :
    (Game.finishFrame dt s).towers.map (fun t => t.id) = s.towers.map (fun t => t.id) ∧
    s.nextId ≤ (Game.finishFrame dt s).nextId := by
  unfold Game.finishFrame
  dsimp only
  split_ifs <;> exact ⟨rfl, le_refl _⟩

/-- `Tower.update` keeps the identity of the tower. -/
theorem Tower_update_id (M : JsMath K) (dt : K) (t : Tower K) (live removed : List (Enemy K)) :
    (Tower.update M dt t live removed).1.id = t.id := by
  rw [Tower_update_eq]
  cases (Tower.closest M t (Tower.updateProjectiles M dt t.projectiles live removed).2.1
    (t.range, none)).2 <;> rfl

/-- The loop over the towers keeps their identities, in order. -/
theorem updateTowers_ids (M : JsMath K) (dt : K) (ts : List (Tower K))
    (live removed : List (Enemy K)) :
    (Game.updateTowers M dt ts live removed).1.map (fun t => t.id) = ts.map (fun t => t.id) := by
  induction ts generalizing live removed with
  | nil => rfl
  | cons t ts ih =>
    unfold Game.updateTowers
    dsimp only
    rw [List.map_cons, List.map_cons, Tower_update_id, ih]

/-- The simulation tick keeps the towers. -/
theorem tick_keeps (M : JsMath K) (dt : K) (s : Game K) :
    (Game.tick M dt s).towers.map (fun t => t.id) = s.towers.map (fun t => t.id) ∧
    s.nextId ≤ (Game.tick M dt s).nextId := by
  have h1 : (Game.afterEnemies M dt s).towers.map (fun t => t.id) =
      s.towers.map (fun t => t.id) ∧ s.nextId ≤ (Game.afterEnemies M dt s).nextId := by
    obtain ⟨c, d, g, b, r, h⟩ := afterEnemies_frame M dt s
    rw [h]
    exact ⟨updateTowers_ids M dt s.towers s.enemies s.removed, le_refl _⟩
  unfold Game.tick
  exact keeps_trans _ _ _ (keeps_trans _ _ _ (keeps_trans _ _ _ h1 (checkWaveComplete_keeps _))
    (startFirstWave_keeps M _)) (finishFrame_keeps dt _)

/-- `gameLoop` keeps the towers. -/
theorem gameLoop_keeps (M : JsMath K) (time : K) (s : Game K) :
    (Game.gameLoop M time s).towers.map (fun t => t.id) = s.towers.map (fun t => t.id) ∧
    s.nextId ≤ (Game.gameLoop M time s).nextId := by
  unfold Game.gameLoop
  dsimp only
  split_ifs
  · exact ⟨rfl, le_refl _⟩
  · exact tick_keeps M _ _

/-- A timer callback keeps the towers. -/
theorem runTimer_keeps (M : JsMath K) (a : TimerAction) (s : Game K) :
    (Game.runTimer M a s).towers.map (fun t => t.id) = s.towers.map (fun t => t.id) ∧
    s.nextId ≤ (Game.runTimer M a s).nextId := by
  cases a with
  | spawnWave => exact spawnWave_keeps M s
  | spawnEnemy bh => exact ⟨rfl, Nat.le_succ _⟩
  | forceFirstWave =>
    unfold Game.runTimer
    dsimp only
    split_ifs
    · exact spawnWave_keeps M s
    · exact ⟨rfl, le_refl _⟩
  | deselect tower =>
    refine ⟨?_, le_refl _⟩
    unfold Game.runTimer
    dsimp only
    rw [List.map_map]
    apply List.map_congr_left
    intro t _
    simp only [Function.comp]
    split_ifs <;> rfl

/-- A selection click does not lower the identity counter. -/
theorem selectAt_nextId (M : JsMath K) (x y : K) (s : Game K) :
    s.nextId ≤ (Game.selectAt M x y s).nextId := by
  unfold Game.selectAt
  dsimp only
  cases List.find? (Game.towerAt M x y)
      (s.towers.map (fun t => ({ t with selected := false } : Tower K))) with
  | none =>
    dsimp only
    cases s.selectedTowerTimeout <;> exact le_refl _
  | some c =>
    dsimp only
    split_ifs
    · exact le_refl _
    · cases s.selectedTowerTimeout <;> exact Nat.le_succ _

/-- A click keeps the towers distinct objects, older than the identity counter. -/
theorem handleClick_distinct (M : JsMath K) (x y : K) (s : Game K)
    (hs : (s.towers.map (fun t => t.id)).Nodup ∧ ∀ i ∈ s.towers.map (fun t => t.id), i < s.nextId) :
    ((Game.handleClick M x y s).towers.map (fun t => t.id)).Nodup ∧
    ∀ i ∈ (Game.handleClick M x y s).towers.map (fun t => t.id),
      i < (Game.handleClick M x y s).nextId := by
  have hsel : ((Game.selectAt M x y s).towers.map (fun t => t.id)).Nodup ∧
      ∀ i ∈ (Game.selectAt M x y s).towers.map (fun t => t.id),
        i < (Game.selectAt M x y s).nextId :=
    distinct_of_keeps s _
      ⟨(deselected_eq _ _ (selectAt_keeps M x y s).2).1, selectAt_nextId M x y s⟩ hs
  by_cases hg : s.gameStarted = true
  · rw [handleClick_started M x y s hg]
    cases hsel' : s.selectedTower with
    | none => exact hsel
    | some sel =>
      cases sel with
      | remove =>
        dsimp only
        cases s.towers.find? (Game.towerAt M x y) with
        | none => exact hs
        | some c =>
          dsimp only
          have hsub : List.Sublist ((s.towers.filter (fun t => t.id != c.id)).map (fun t => t.id))
              (s.towers.map (fun t => t.id)) := (List.filter_sublist _).map _
          exact ⟨hs.1.sublist hsub, fun i hi => hs.2 i (hsub.subset hi)⟩
      | place ty =>
        dsimp only
        split_ifs
        · dsimp only
          rw [List.map_append, List.map_cons, List.map_nil]
          have hid : (Tower.create s.nextId x y ty : Tower K).id = s.nextId :=
            (create_fields s.nextId x y ty).2.2.2.2.1
          rw [hid]
          constructor
          · rw [List.nodup_append]
            refine ⟨hs.1, List.nodup_singleton _, ?_⟩
            intro i hi hi'
            rw [List.mem_singleton] at hi'
            have := hs.2 i hi
            omega
          · intro i hi
            rcases List.mem_append.mp hi with hi | hi
            · exact Nat.lt_succ_of_lt (hs.2 i hi)
            · rw [List.mem_singleton] at hi
              omega
        · exact hs
        · exact hsel
  · have hg' : s.gameStarted = false := by simpa using hg
    unfold Game.handleClick
    split_ifs
    · exact hs
    · exact hs

/-- A key press keeps the towers. -/
theorem handleKeyPress_keeps (k : Key) (s : Game K) :
    (Game.handleKeyPress k s).towers.map (fun t => t.id) = s.towers.map (fun t => t.id) ∧
    s.nextId ≤ (Game.handleKeyPress k s).nextId := by
  unfold Game.handleKeyPress
  split_ifs
  · exact ⟨rfl, le_refl _⟩
  · cases k <;> exact ⟨rfl, le_refl _⟩

/-- An event keeps the towers distinct objects, older than the identity counter. -/
theorem step_distinct (M : JsMath K) (ev : Event K) (s s1 : Game K)
    (h : Game.step M ev s = some s1)
    (hs : (s.towers.map (fun t => t.id)).Nodup ∧ ∀ i ∈ s.towers.map (fun t => t.id), i < s.nextId) :
    (s1.towers.map (fun t => t.id)).Nodup ∧ ∀ i ∈ s1.towers.map (fun t => t.id), i < s1.nextId := by
  have hnow : (({ s with now := ev.time } : Game K).towers.map (fun t => t.id)).Nodup ∧
      ∀ i ∈ ({ s with now := ev.time } : Game K).towers.map (fun t => t.id),
        i < ({ s with now := ev.time } : Game K).nextId := hs
  unfold Game.step at h
  dsimp only at h
  repeat' (first | split_ifs at h | split at h)
  all_goals first
    | exact Option.noConfusion h
    | (have e := Option.some.inj h
       subst e
       first
         | exact distinct_of_keeps _ _ (runTimer_keeps M _ _) hnow
         | exact distinct_of_keeps _ _ (gameLoop_keeps M _ _) hnow
         | exact handleClick_distinct M _ _ _ hnow
         | exact distinct_of_keeps _ _ (handleKeyPress_keeps _ _) hnow
         | exact hnow)

/-- A session keeps the towers distinct objects, older than the identity counter. -/
theorem run_distinct (M : JsMath K) (evs : List (Event K)) (s s1 : Game K)
    (h : Game.run M evs s = some s1)
    (hs : (s.towers.map (fun t => t.id)).Nodup ∧ ∀ i ∈ s.towers.map (fun t => t.id), i < s.nextId) :
    (s1.towers.map (fun t => t.id)).Nodup ∧ ∀ i ∈ s1.towers.map (fun t => t.id), i < s1.nextId := by
  induction evs generalizing s with
  | nil =>
    have e := Option.some.inj h
    subst e
    exact hs
  | cons ev evs ih =>
    unfold Game.run at h
    cases hst : Game.step M ev s with
    | none =>
      rw [hst] at h
      exact Option.noConfusion h
    | some s2 =>
      rw [hst] at h
      exact ih s2 h (step_distinct M ev s s2 hst hs)

/-- In every state of every session from page load on, the towers are distinct objects: the
hypothesis of the removal theorem holds. -/
theorem reachable_towers_distinct (M : JsMath K) (evs : List (Event K)) (s : Game K)
    (h : Game.run M evs (Game.load M) = some s) :
    (s.towers.map (fun t => t.id)).Nodup := by
  have h0 : ((Game.load M).towers.map (fun t => t.id)).Nodup ∧
      ∀ i ∈ (Game.load M).towers.map (fun t => t.id), i < (Game.load M).nextId := by
    have hf : ((Game.fields : Game K).towers.map (fun t => t.id)).Nodup ∧
        ∀ i ∈ (Game.fields : Game K).towers.map (fun t => t.id), i < (Game.fields : Game K).nextId :=
      ⟨List.nodup_nil, fun i hi => absurd hi (List.not_mem_nil i)⟩
    unfold Game.load
    exact distinct_of_keeps _ _
      (keeps_trans _ _ _ (gameLoop_keeps M 0 Game.fields) (setTimeout_keeps _ _ _)) hf
  exact (run_distinct M evs _ s h h0).1

/-! ## Sessions: what an event can change -/

/-- What an accepted event does: it advances the clock and then runs one timer callback,
one call of `gameLoop`, or one input handler. -/
theorem step_cases (M : JsMath K) (ev : Event K) (s s1 : Game K)
    (h : Game.step M ev s = some s1) :
    (∃ t : Timer K, ev.input = Input.timeout ∧ Game.nextTimer s.timers = some t ∧
      s1 = Game.runTimer M t.action (Game.clearTimeout t.id { s with now := ev.time })) ∨
    (ev.input = Input.frame ∧ s.frameRequested = true ∧
      s1 = Game.gameLoop M ev.time { s with now := ev.time, frameRequested := false }) ∨
    (∃ x y, ev.input = Input.click x y ∧ s1 = Game.handleClick M x y { s with now := ev.time }) ∨
    (∃ sel, ev.input = Input.select sel ∧
      s1 = Game.selectTowerForPlacement sel { s with now := ev.time }) ∨
    (ev.input = Input.pauseButton ∧ s1 = Game.togglePause { s with now := ev.time }) ∨
    (∃ k, ev.input = Input.key k ∧ s1 = Game.handleKeyPress k { s with now := ev.time }) := by
  unfold Game.step at h
  dsimp only at h
  repeat' (first | split_ifs at h | split at h)
  all_goals first
    | exact Option.noConfusion h
    | (have e := Option.some.inj h
       subst e
       first
         | exact Or.inl ⟨_, by assumption, by assumption, rfl⟩
         | exact Or.inr (Or.inl ⟨by assumption, by assumption, rfl⟩)
         | exact Or.inr (Or.inr (Or.inl ⟨_, _, by assumption, rfl⟩))
         | exact Or.inr (Or.inr (Or.inr (Or.inl ⟨_, by assumption, rfl⟩)))
         | exact Or.inr (Or.inr (Or.inr (Or.inr (Or.inl ⟨by assumption, rfl⟩))))
         | exact Or.inr (Or.inr (Or.inr (Or.inr (Or.inr ⟨_, by assumption, rfl⟩)))))

/-- A property of states that every accepted event preserves holds along every session. -/
theorem run_invariant (M : JsMath K) (P : Game K → Prop)
    (hP : ∀ ev s s1, P s → Game.step M ev s = some s1 → P s1)
    (evs : List (Event K)) (s s1 : Game K) (h0 : P s) (h : Game.run M evs s = some s1) :
    P s1 := by
  induction evs generalizing s with
  | nil =>
    have e := Option.some.inj h
    subst e
    exact h0
  | cons ev evs ih =>
    unfold Game.run at h
    cases hst : Game.step M ev s with
    | none =>
      rw [hst] at h
      exact Option.noConfusion h
    | some s2 =>
      rw [hst] at h
      exact ih s2 (hP ev s s2 h0 hst) h

/-- Sessions compose. -/
theorem run_append (M : JsMath K) (evs1 evs2 : List (Event K)) (s : Game K) :
    Game.run M (evs1 ++ evs2) s = (Game.run M evs1 s).bind (Game.run M evs2) := by
  induction evs1 generalizing s with
  | nil => rfl
  | cons ev evs ih =>
    rw [List.cons_append, Game.run, Game.run]
    cases Game.step M ev s with
    | none => rfl
    | some s2 => exact ih s2

/-- A paused `gameLoop` records the time and asks for the next frame, nothing else. -/
theorem gameLoop_paused (M : JsMath K) (t : K) (s : Game K) (h : s.isPaused = true) :
    Game.gameLoop M t s = { s with lastTime := t, frameRequested := true } := by
  unfold Game.gameLoop
  dsimp only
  rw [if_pos h]

/-- The input handlers other than the canvas click write the pending selection and the
pause flag only. -/
theorem controls_frame (sel : Selection) (k : Key) (s : Game K) :
    (∃ o, Game.selectTowerForPlacement sel s = { s with selectedTower := o }) ∧
    (∃ p, Game.togglePause s = { s with isPaused := p }) ∧
    (∃ o p, Game.handleKeyPress k s = { s with selectedTower := o, isPaused := p }) := by
  refine ⟨⟨_, rfl⟩, ⟨_, rfl⟩, ?_⟩
  unfold Game.handleKeyPress
  split_ifs
  · exact ⟨_, _, rfl⟩
  · cases k <;> exact ⟨_, _, rfl⟩

/-- A selection click writes the towers, the timers, the identity counter and the handle of
the deselect timer; the gold it writes is the gold it found. -/
theorem selectAt_frame (M : JsMath K) (x y : K) (s : Game K) :
    ∃ ts tm n sto, Game.selectAt M x y s =
      { s with towers := ts, timers := tm, nextId := n, selectedTowerTimeout := sto } := by
  unfold Game.selectAt
  dsimp only
  cases hf : List.find? (Game.towerAt M x y)
      (s.towers.map (fun t => ({ t with selected := false } : Tower K))) with
  | none =>
    dsimp only
    cases s.selectedTowerTimeout <;> exact ⟨_, _, _, _, rfl⟩
  | some c =>
    have hc : c.selected = false := by
      have hm := List.mem_of_find?_eq_some hf
      rw [List.mem_map] at hm
      obtain ⟨u, _, hu⟩ := hm
      rw [← hu]
    have hn : ¬ (c.selected = true ∧ c.canUpgrade = true ∧ (c.upgradeCost : Int) ≤ s.gold) := by
      rw [hc]
      simp
    dsimp only
    rw [if_neg hn]
    cases s.selectedTowerTimeout <;> exact ⟨_, _, _, _, rfl⟩

/-- A canvas click writes gold, towers, the pending selection, the deselect timer, the
identity counter and the start of the game, and nothing else; gold never goes below zero
by it, and it rises by a refund or falls by a cost that was covered. -/
theorem handleClick_frame (M : JsMath K) (x y : K) (s : Game K) :
    (∃ g ts n sel tm sto gs sb, Game.handleClick M x y s =
      { s with gold := g, towers := ts, nextId := n, selectedTower := sel, timers := tm,
               selectedTowerTimeout := sto, gameStarted := gs, startButton := sb }) ∧
    (0 ≤ s.gold → 0 ≤ (Game.handleClick M x y s).gold) := by
  by_cases hg : s.gameStarted = true
  · rw [handleClick_started M x y s hg]
    obtain ⟨ts, tm, n, sto, hsel⟩ := selectAt_frame M x y s
    cases s.selectedTower with
    | none =>
      dsimp only
      rw [hsel]
      exact ⟨⟨_, _, _, _, _, _, _, _, rfl⟩, fun h => h⟩
    | some sel =>
      cases sel with
      | remove =>
        dsimp only
        cases s.towers.find? (Game.towerAt M x y) with
        | none => exact ⟨⟨_, _, _, _, _, _, _, _, rfl⟩, fun h => h⟩
        | some c =>
          refine ⟨⟨_, _, _, _, _, _, _, _, rfl⟩, fun h => ?_⟩
          dsimp only
          have : (0 : Int) ≤ (Game.getTowerCost c.type / 2 : Nat) := Int.natCast_nonneg _
          omega
      | place ty =>
        dsimp only
        split_ifs with h1 h2
        · refine ⟨⟨_, _, _, _, _, _, _, _, rfl⟩, fun _ => ?_⟩
          dsimp only
          omega
        · exact ⟨⟨_, _, _, _, _, _, _, _, rfl⟩, fun h => h⟩
        · rw [hsel]
          exact ⟨⟨_, _, _, _, _, _, _, _, rfl⟩, fun h => h⟩
  · have hg' : s.gameStarted = false := by simpa using hg
    unfold Game.handleClick
    split_ifs
    · exact ⟨⟨_, _, _, _, _, _, _, _, rfl⟩, fun h => h⟩
    · exact ⟨⟨_, _, _, _, _, _, _, _, rfl⟩, fun h => h⟩

/-- `scheduleSpawns` writes the timers and the identity counter only. -/
theorem scheduleSpawns_frame (bh n i : Nat) (s : Game K) :
    ∃ tm m, Game.scheduleSpawns bh n i s = { s with timers := tm, nextId := m } := by
  induction n generalizing i s with
  | zero => exact ⟨_, _, rfl⟩
  | succ n ih =>
    unfold Game.scheduleSpawns
    obtain ⟨tm, m, h⟩ := ih (i + 1) (Game.setTimeout (TimerAction.spawnEnemy bh) ((i : K) * 1000) s)
    rw [h]
    exact ⟨_, _, rfl⟩

/-- `spawnWave` either pushes the boss of the wave or schedules spawns; it writes nothing
but the wave flags, the boss reference, the timers and the counters. -/
theorem spawnWave_frame (M : JsMath K) (s : Game K) :
    (s.wave % 10 = 0 ∧ Game.spawnWave M s =
      { s with bossWave := true, enemies := s.enemies ++ [Game.newBoss M s],
               currentBoss := some (Game.newBoss M s).id, waveInProgress := true,
               nextId := s.nextId + 1, draws := s.draws + 1 }) ∨
    (s.wave % 10 ≠ 0 ∧ ∃ tm m, Game.spawnWave M s =
      { s with timers := tm, nextId := m, waveInProgress := true }) := by
  by_cases h : s.wave % 10 = 0
  · exact Or.inl ⟨h, spawnWave_bossWave M s h⟩
  · refine Or.inr ⟨h, ?_⟩
    unfold Game.spawnWave
    rw [if_neg h]
    obtain ⟨tm, m, h1⟩ := scheduleSpawns_frame (Game.baseHealth s.wave) (Game.enemyCount s.wave) 0 s
    dsimp only
    rw [h1]
    exact ⟨_, _, rfl⟩

/-- A timer callback leaves gold, castle health, wave, level, the frame request and the
removed enemies alone; the enemy list stays or gets one enemy appended: the boss of
`spawnBossWave` or the enemy a stagger callback constructs from the current wave. -/
theorem runTimer_frame (M : JsMath K) (a : TimerAction) (s : Game K) :
    (∃ ts sto bw es cb wp n d tm, Game.runTimer M a s =
      { s with towers := ts, selectedTowerTimeout := sto, bossWave := bw, enemies := es,
               currentBoss := cb, waveInProgress := wp, nextId := n, draws := d,
               timers := tm }) ∧
    ((Game.runTimer M a s).enemies = s.enemies ∨
      (Game.runTimer M a s).enemies = s.enemies ++ [Game.newBoss M s] ∨
      ∃ bh, a = TimerAction.spawnEnemy bh ∧ (Game.runTimer M a s).enemies = s.enemies ++
        [{ Enemy.create s.nextId (Game.pathAt 0 : Waypoint K).x (Game.pathAt 0 : Waypoint K).y
            bh s.wave (M.random s.draws) with pathIndex := 0 }]) := by
  have hsw : (∃ ts sto bw es cb wp n d tm, Game.spawnWave M s =
      { s with towers := ts, selectedTowerTimeout := sto, bossWave := bw, enemies := es,
               currentBoss := cb, waveInProgress := wp, nextId := n, draws := d,
               timers := tm }) ∧
      ((Game.spawnWave M s).enemies = s.enemies ∨
        (Game.spawnWave M s).enemies = s.enemies ++ [Game.newBoss M s]) := by
    rcases spawnWave_frame M s with ⟨_, h⟩ | ⟨_, tm, m, h⟩
    · rw [h]
      exact ⟨⟨_, _, _, _, _, _, _, _, _, rfl⟩, Or.inr rfl⟩
    · rw [h]
      exact ⟨⟨_, _, _, _, _, _, _, _, _, rfl⟩, Or.inl rfl⟩
  cases a with
  | spawnWave => exact ⟨hsw.1, hsw.2.elim Or.inl (fun h => Or.inr (Or.inl h))⟩
  | spawnEnemy bh =>
    exact ⟨⟨_, _, _, _, _, _, _, _, _, rfl⟩, Or.inr (Or.inr ⟨bh, rfl, rfl⟩)⟩
  | forceFirstWave =>
    unfold Game.runTimer
    dsimp only
    split_ifs
    · exact ⟨hsw.1, hsw.2.elim Or.inl (fun h => Or.inr (Or.inl h))⟩
    · exact ⟨⟨_, _, _, _, _, _, _, _, _, rfl⟩, Or.inl rfl⟩
  | deselect tower => exact ⟨⟨_, _, _, _, _, _, _, _, _, rfl⟩, Or.inl rfl⟩

/-- The blocks of the tick after the enemy filter: gold, castle health, the towers and
the removed enemies are those the filter left; the wave counter stays or advances by one,
the level counter with it when the new wave is one past a multiple of 20; the enemy list is
the filtered one, or the single boss that `spawnBossWave` pushes onto the empty list; the
frame is requested unless castle health is at most zero. -/
theorem tick_after (M : JsMath K) (dt : K) (s : Game K) :
    (Game.tick M dt s).gold = (Game.afterEnemies M dt s).gold ∧
    (Game.tick M dt s).castleHealth = (Game.afterEnemies M dt s).castleHealth ∧
    (Game.tick M dt s).removed = (Game.afterEnemies M dt s).removed ∧
    (Game.tick M dt s).towers = (Game.afterEnemies M dt s).towers ∧
    (((Game.tick M dt s).wave = s.wave ∧ (Game.tick M dt s).level = s.level) ∨
      ((Game.tick M dt s).wave = s.wave + 1 ∧
        (Game.tick M dt s).level =
          if (s.wave + 1) % 20 = 1 ∧ 1 < s.wave + 1 then s.level + 1 else s.level)) ∧
    ((Game.tick M dt s).enemies = (Game.afterEnemies M dt s).enemies ∨
      ∃ s0 : Game K, (Game.tick M dt s).enemies = [Game.newBoss M s0]) ∧
    ((Game.tick M dt s).frameRequested =
      if (Game.tick M dt s).castleHealth ≤ 0 then s.frameRequested else true) := by
  obtain ⟨c, d, g, b, r, hA⟩ := afterEnemies_frame M dt s
  have hA1 : (Game.afterEnemies M dt s).wave = s.wave ∧
      (Game.afterEnemies M dt s).level = s.level ∧
      (Game.afterEnemies M dt s).frameRequested = s.frameRequested := by
    rw [hA]
    exact ⟨rfl, rfl, rfl⟩
  have hC : (Game.checkWaveComplete (Game.afterEnemies M dt s)).gold =
        (Game.afterEnemies M dt s).gold ∧
      (Game.checkWaveComplete (Game.afterEnemies M dt s)).castleHealth =
        (Game.afterEnemies M dt s).castleHealth ∧
      (Game.checkWaveComplete (Game.afterEnemies M dt s)).removed =
        (Game.afterEnemies M dt s).removed ∧
      (Game.checkWaveComplete (Game.afterEnemies M dt s)).towers =
        (Game.afterEnemies M dt s).towers ∧
      (Game.checkWaveComplete (Game.afterEnemies M dt s)).enemies =
        (Game.afterEnemies M dt s).enemies ∧
      (Game.checkWaveComplete (Game.afterEnemies M dt s)).frameRequested =
        s.frameRequested ∧
      (((Game.checkWaveComplete (Game.afterEnemies M dt s)).wave = s.wave ∧
          (Game.checkWaveComplete (Game.afterEnemies M dt s)).level = s.level) ∨
        ((Game.checkWaveComplete (Game.afterEnemies M dt s)).wave = s.wave + 1 ∧
          (Game.checkWaveComplete (Game.afterEnemies M dt s)).level =
            if (s.wave + 1) % 20 = 1 ∧ 1 < s.wave + 1 then s.level + 1 else s.level)) := by
    by_cases h : (Game.afterEnemies M dt s).waveInProgress = true ∧
        (Game.afterEnemies M dt s).enemies = []
    · rw [checkWaveComplete_fires _ h.1 h.2]
      refine ⟨rfl, rfl, rfl, rfl, rfl, hA1.2.2, Or.inr ⟨?_, ?_⟩⟩
      · show (Game.afterEnemies M dt s).wave + 1 = s.wave + 1
        rw [hA1.1]
      · show (if ((Game.afterEnemies M dt s).wave + 1) % 20 = 1 ∧
            1 < (Game.afterEnemies M dt s).wave + 1 then (Game.afterEnemies M dt s).level + 1
          else (Game.afterEnemies M dt s).level) = _
        rw [hA1.1, hA1.2.1]
    · rw [checkWaveComplete_idle _ h]
      exact ⟨rfl, rfl, rfl, rfl, rfl, hA1.2.2, Or.inl ⟨hA1.1, hA1.2.1⟩⟩
  have hS : (Game.startFirstWave M (Game.checkWaveComplete (Game.afterEnemies M dt s))).gold =
        (Game.checkWaveComplete (Game.afterEnemies M dt s)).gold ∧
      (Game.startFirstWave M (Game.checkWaveComplete (Game.afterEnemies M dt s))).castleHealth =
        (Game.checkWaveComplete (Game.afterEnemies M dt s)).castleHealth ∧
      (Game.startFirstWave M (Game.checkWaveComplete (Game.afterEnemies M dt s))).removed =
        (Game.checkWaveComplete (Game.afterEnemies M dt s)).removed ∧
      (Game.startFirstWave M (Game.checkWaveComplete (Game.afterEnemies M dt s))).towers =
        (Game.checkWaveComplete (Game.afterEnemies M dt s)).towers ∧
      (Game.startFirstWave M (Game.checkWaveComplete (Game.afterEnemies M dt s))).wave =
        (Game.checkWaveComplete (Game.afterEnemies M dt s)).wave ∧
      (Game.startFirstWave M (Game.checkWaveComplete (Game.afterEnemies M dt s))).level =
        (Game.checkWaveComplete (Game.afterEnemies M dt s)).level ∧
      (Game.startFirstWave M (Game.checkWaveComplete (Game.afterEnemies M dt s))).frameRequested =
        (Game.checkWaveComplete (Game.afterEnemies M dt s)).frameRequested ∧
      ((Game.startFirstWave M (Game.checkWaveComplete (Game.afterEnemies M dt s))).enemies =
          (Game.checkWaveComplete (Game.afterEnemies M dt s)).enemies ∨
        ∃ s0 : Game K,
          (Game.startFirstWave M (Game.checkWaveComplete (Game.afterEnemies M dt s))).enemies =
            [Game.newBoss M s0]) := by
    rcases startFirstWave_cases M (Game.checkWaveComplete (Game.afterEnemies M dt s)) with
      h | ⟨ts, n, h⟩ | ⟨_, h⟩
    · rw [h]
      exact ⟨rfl, rfl, rfl, rfl, rfl, rfl, rfl, Or.inl rfl⟩
    · rw [h]
      exact ⟨rfl, rfl, rfl, rfl, rfl, rfl, rfl, Or.inl rfl⟩
    · rw [h]
      exact ⟨rfl, rfl, rfl, rfl, rfl, rfl, rfl, Or.inr ⟨_, rfl⟩⟩
  have hF : (Game.tick M dt s).gold =
        (Game.startFirstWave M (Game.checkWaveComplete (Game.afterEnemies M dt s))).gold ∧
      (Game.tick M dt s).castleHealth =
        (Game.startFirstWave M (Game.checkWaveComplete (Game.afterEnemies M dt s))).castleHealth ∧
      (Game.tick M dt s).removed =
        (Game.startFirstWave M (Game.checkWaveComplete (Game.afterEnemies M dt s))).removed ∧
      (Game.tick M dt s).towers =
        (Game.startFirstWave M (Game.checkWaveComplete (Game.afterEnemies M dt s))).towers ∧
      (Game.tick M dt s).wave =
        (Game.startFirstWave M (Game.checkWaveComplete (Game.afterEnemies M dt s))).wave ∧
      (Game.tick M dt s).level =
        (Game.startFirstWave M (Game.checkWaveComplete (Game.afterEnemies M dt s))).level ∧
      (Game.tick M dt s).enemies =
        (Game.startFirstWave M (Game.checkWaveComplete (Game.afterEnemies M dt s))).enemies ∧
      (Game.tick M dt s).frameRequested =
        if (Game.tick M dt s).castleHealth ≤ 0 then
          (Game.startFirstWave M
            (Game.checkWaveComplete (Game.afterEnemies M dt s))).frameRequested
        else true := by
    unfold Game.tick Game.finishFrame
    dsimp only
    split_ifs <;> exact ⟨rfl, rfl, rfl, rfl, rfl, rfl, rfl, rfl⟩
  refine ⟨by rw [hF.1, hS.1, hC.1], by rw [hF.2.1, hS.2.1, hC.2.1],
    by rw [hF.2.2.1, hS.2.2.1, hC.2.2.1], by rw [hF.2.2.2.1, hS.2.2.2.1, hC.2.2.2.1], ?_, ?_, ?_⟩
  · rw [hF.2.2.2.2.1, hF.2.2.2.2.2.1, hS.2.2.2.2.1, hS.2.2.2.2.2.1]
    exact hC.2.2.2.2.2.2
  · rw [hF.2.2.2.2.2.2.1]
    rcases hS.2.2.2.2.2.2.2 with h | ⟨s0, h⟩
    · rw [h, hC.2.2.2.2.1]
      exact Or.inl rfl
    · exact Or.inr ⟨s0, h⟩
  · rw [hF.2.2.2.2.2.2.2, hS.2.2.2.2.2.2.1, hC.2.2.2.2.2.1]

/-! ## Properties of all enemies -/

/-- A property of enemies that a loss of health preserves survives `hitEnemy`. -/
theorem hitEnemy_all (P : Enemy K → Prop)
    (hhit : ∀ (e : Enemy K) (d : K), P e → P { e with health := e.health - d })
    (id : Nat) (d : K) (es : List (Enemy K)) (h : ∀ e ∈ es, P e) :
    ∀ e ∈ hitEnemy id d es, P e := by
  intro e he
  unfold hitEnemy at he
  obtain ⟨u, hu, rfl⟩ := List.mem_map.mp he
  split_ifs
  · exact hhit u d (h u hu)
  · exact h u hu

/-- The projectile filter of a tower preserves such a property on both enemy stores. -/
theorem updateProjectiles_all (M : JsMath K) (P : Enemy K → Prop)
    (hhit : ∀ (e : Enemy K) (d : K), P e → P { e with health := e.health - d })
    (dt : K) (ps : List (Projectile K)) (live removed : List (Enemy K))
    (h : (∀ e ∈ live, P e) ∧ (∀ e ∈ removed, P e)) :
    (∀ e ∈ (Tower.updateProjectiles M dt ps live removed).2.1, P e) ∧
    (∀ e ∈ (Tower.updateProjectiles M dt ps live removed).2.2, P e) := by
  induction ps generalizing live removed with
  | nil => exact h
  | cons p ps ih =>
    have h1 : (∀ e ∈ (Projectile.update M dt p live removed).2.1, P e) ∧
        (∀ e ∈ (Projectile.update M dt p live removed).2.2, P e) := by
      rcases Projectile_update_cases M dt p live removed with ⟨_, h2⟩ | ⟨_, h2⟩
      · rw [h2]
        exact h
      · rw [h2]
        exact ⟨hitEnemy_all P hhit _ _ _ h.1, hitEnemy_all P hhit _ _ _ h.2⟩
    have h3 := ih _ _ h1
    unfold Tower.updateProjectiles
    dsimp only
    split_ifs
    · exact h3
    · exact h3

/-- The loop over the towers preserves such a property on both enemy stores. -/
theorem updateTowers_all (M : JsMath K) (P : Enemy K → Prop)
    (hhit : ∀ (e : Enemy K) (d : K), P e → P { e with health := e.health - d })
    (dt : K) (ts : List (Tower K)) (live removed : List (Enemy K))
    (h : (∀ e ∈ live, P e) ∧ (∀ e ∈ removed, P e)) :
    (∀ e ∈ (Game.updateTowers M dt ts live removed).2.1, P e) ∧
    (∀ e ∈ (Game.updateTowers M dt ts live removed).2.2, P e) := by
  induction ts generalizing live removed with
  | nil => exact h
  | cons t ts ih =>
    have h1 : (∀ e ∈ (Tower.update M dt t live removed).2.1, P e) ∧
        (∀ e ∈ (Tower.update M dt t live removed).2.2, P e) := by
      have h2 := updateProjectiles_all M P hhit dt t.projectiles live removed h
      rw [Tower_update_eq]
      cases (Tower.closest M t (Tower.updateProjectiles M dt t.projectiles live removed).2.1
        (t.range, none)).2 <;> exact h2
    unfold Game.updateTowers
    exact ih _ _ h1

/-- The enemy filter preserves a property that `Enemy.update` preserves, on the enemies it
keeps and on those it removes. -/
theorem reapEnemies_all (M : JsMath K) (P : Enemy K → Prop)
    (hupd : ∀ (dt : K) (e : Enemy K), P e → P (Enemy.update M dt e))
    (dt : K) (es : List (Enemy K)) (s : Game K)
    (h : (∀ e ∈ es, P e) ∧ (∀ e ∈ s.removed, P e)) :
    (∀ e ∈ (Game.reapEnemies M dt es s).2, P e) ∧
    (∀ e ∈ (Game.reapEnemies M dt es s).1.removed, P e) := by
  induction es generalizing s with
  | nil => exact ⟨fun e he => absurd he (List.not_mem_nil e), h.2⟩
  | cons a es ih =>
    have ha : P (Enemy.update M dt a) := hupd dt a (h.1 a (List.mem_cons_self _ _))
    have hes : ∀ e ∈ es, P e := fun e he => h.1 e (List.mem_cons_of_mem _ he)
    have hrem : ∀ e ∈ s.removed ++ [Enemy.update M dt a], P e := by
      intro e he
      rcases List.mem_append.mp he with he | he
      · exact h.2 e he
      · rw [List.mem_singleton.mp he]
        exact ha
    cases h1 : (Enemy.update M dt a).reachedEnd
    · by_cases h2 : (Enemy.update M dt a).health ≤ 0
      · rw [reapEnemies_dead M dt a es s h1 h2]
        exact ih _ ⟨hes, hrem⟩
      · rw [reapEnemies_alive M dt a es s h1 h2]
        have h3 := ih s ⟨hes, h.2⟩
        refine ⟨?_, h3.2⟩
        intro e he
        rcases List.mem_cons.mp he with he | he
        · rw [he]
          exact ha
        · exact h3.1 e he
    · rw [reapEnemies_escaped M dt a es s h1]
      exact ih _ ⟨hes, hrem⟩

/-- The tick preserves, on the live and on the removed enemies, a property that
`Enemy.update` and a loss of health preserve and that every boss has. -/
theorem tick_all (M : JsMath K) (P : Enemy K → Prop)
    (hupd : ∀ (dt : K) (e : Enemy K), P e → P (Enemy.update M dt e))
    (hhit : ∀ (e : Enemy K) (d : K), P e → P { e with health := e.health - d })
    (hboss : ∀ s : Game K, P (Game.newBoss M s))
    (dt : K) (s : Game K) (h : (∀ e ∈ s.enemies, P e) ∧ (∀ e ∈ s.removed, P e)) :
    (∀ e ∈ (Game.tick M dt s).enemies, P e) ∧ (∀ e ∈ (Game.tick M dt s).removed, P e) := by
  have h1 := updateTowers_all M P hhit dt s.towers s.enemies s.removed h
  have h2 : (∀ e ∈ (Game.afterEnemies M dt s).enemies, P e) ∧
      (∀ e ∈ (Game.afterEnemies M dt s).removed, P e) :=
    reapEnemies_all M P hupd dt (Game.textsPhase dt (Game.towersPhase M dt s)).enemies
      (Game.textsPhase dt (Game.towersPhase M dt s)) h1
  have h3 := tick_after M dt s
  refine ⟨?_, by rw [h3.2.2.1]; exact h2.2⟩
  rcases h3.2.2.2.2.2.1 with h4 | ⟨s0, h4⟩
  · rw [h4]
    exact h2.1
  · rw [h4]
    intro e he
    rw [List.mem_singleton.mp he]
    exact hboss s0

/-- In every state of every session from page load on, every enemy, live or removed, has
each property that the constructor calls of `spawnWave` and `spawnBossWave` establish and
that `Enemy.update` and a loss of health preserve. -/
theorem reachable_enemies (M : JsMath K) (P : Enemy K → Prop)
    (hupd : ∀ (dt : K) (e : Enemy K), P e → P (Enemy.update M dt e))
    (hhit : ∀ (e : Enemy K) (d : K), P e → P { e with health := e.health - d })
    (hnew : ∀ (id : Nat) (x y : K) (bh w : Nat) (r : K),
      P { Enemy.create id x y bh w r with pathIndex := 0 })
    (hboss : ∀ s : Game K, P (Game.newBoss M s))
    (evs : List (Event K)) (s : Game K) (h : Game.run M evs (Game.load M) = some s) :
    (∀ e ∈ s.enemies, P e) ∧ (∀ e ∈ s.removed, P e) := by
  have hloop : ∀ (t : K) (s : Game K),
      ((∀ e ∈ s.enemies, P e) ∧ (∀ e ∈ s.removed, P e)) →
      (∀ e ∈ (Game.gameLoop M t s).enemies, P e) ∧
        (∀ e ∈ (Game.gameLoop M t s).removed, P e) := by
    intro t s hs
    unfold Game.gameLoop
    dsimp only
    split_ifs
    · exact hs
    · exact tick_all M P hupd hhit hboss _ _ hs
  refine run_invariant M (fun s => (∀ e ∈ s.enemies, P e) ∧ (∀ e ∈ s.removed, P e)) ?_ evs
    (Game.load M) s ?_ h
  · intro ev s s1 hs hst
    rcases step_cases M ev s s1 hst with ⟨t, _, _, h1⟩ | ⟨_, _, h1⟩ | ⟨x, y, _, h1⟩ |
      ⟨sel, _, h1⟩ | ⟨_, h1⟩ | ⟨k, _, h1⟩
    · obtain ⟨⟨ts, sto, bw, es, cb, wp, n, d, tm, hf⟩, he⟩ :=
        runTimer_frame M t.action (Game.clearTimeout t.id { s with now := ev.time })
      rw [h1]
      refine ⟨?_, by rw [hf]; exact hs.2⟩
      rcases he with he | he | ⟨bh, _, he⟩
      · rw [he]
        exact hs.1
      · rw [he]
        intro e hm
        rcases List.mem_append.mp hm with hm | hm
        · exact hs.1 e hm
        · rw [List.mem_singleton.mp hm]
          exact hboss _
      · rw [he]
        intro e hm
        rcases List.mem_append.mp hm with hm | hm
        · exact hs.1 e hm
        · rw [List.mem_singleton.mp hm]
          exact hnew _ _ _ _ _ _
    · rw [h1]
      exact hloop _ _ hs
    · obtain ⟨⟨g, ts, n, sel, tm, sto, gs, sb, hf⟩, _⟩ :=
        handleClick_frame M x y { s with now := ev.time }
      rw [h1, hf]
      exact hs
    · rw [h1]
      exact hs
    · rw [h1]
      exact hs
    · obtain ⟨o, p, hf⟩ := (controls_frame Selection.remove k { s with now := ev.time }).2.2
      rw [h1, hf]
      exact hs
  · have h0 : (∀ e ∈ (Game.fields : Game K).enemies, P e) ∧
        (∀ e ∈ (Game.fields : Game K).removed, P e) :=
      ⟨fun e he => absurd he (List.not_mem_nil e), fun e he => absurd he (List.not_mem_nil e)⟩
    exact hloop 0 _ h0

/-! ## Pause, game over and the counters -/

/-- C21. A call of `gameLoop` while the game is paused changes nothing but the recorded
time of the last call and the request for the next frame: gold, castle health, wave, level,
the wave flags, the enemies (live and removed), the towers with their projectiles, the
damage texts, the pending timers and the counters are the same before and after, so no wave
is spawned or scheduled. -/
theorem paused_tick (M : JsMath K) (t : K) (s : Game K) (h : s.isPaused = true) :
    Game.gameLoop M t s = { s with lastTime := t, frameRequested := true } ∧
    (Game.gameLoop M t s).gold = s.gold ∧
    (Game.gameLoop M t s).castleHealth = s.castleHealth ∧
    (Game.gameLoop M t s).wave = s.wave ∧
    (Game.gameLoop M t s).level = s.level ∧
    (Game.gameLoop M t s).waveInProgress = s.waveInProgress ∧
    (Game.gameLoop M t s).enemies = s.enemies ∧
    (Game.gameLoop M t s).removed = s.removed ∧
    (Game.gameLoop M t s).towers = s.towers ∧
    (Game.gameLoop M t s).damageTexts = s.damageTexts ∧
    (Game.gameLoop M t s).timers = s.timers ∧
    (Game.gameLoop M t s).bossWave = s.bossWave ∧
    (Game.gameLoop M t s).currentBoss = s.currentBoss ∧
    (Game.gameLoop M t s).isPaused = true := by
  rw [gameLoop_paused M t s h]
  exact ⟨rfl, rfl, rfl, rfl, rfl, rfl, rfl, rfl, rfl, rfl, rfl, rfl, rfl, h⟩

/-- An accepted event never raises castle health; it changes castle health, the wave or
the level only if it is a frame; and after a frame that finds the game running, a frame is
requested exactly when castle health is above zero. -/
theorem step_castle (M : JsMath K) (ev : Event K) (s s1 : Game K)
    (h : Game.step M ev s = some s1) :
    s1.castleHealth ≤ s.castleHealth ∧
    (s.frameRequested = false →
      s1.castleHealth = s.castleHealth ∧ s1.wave = s.wave ∧ s1.level = s.level ∧
      s1.frameRequested = false) ∧
    ((s.castleHealth ≤ 0 → s.frameRequested = false) →
      (s1.castleHealth ≤ 0 → s1.frameRequested = false)) := by
  rcases step_cases M ev s s1 h with ⟨t, _, _, h1⟩ | ⟨_, hf, h1⟩ | ⟨x, y, _, h1⟩ |
    ⟨sel, _, h1⟩ | ⟨_, h1⟩ | ⟨k, _, h1⟩
  · obtain ⟨⟨ts, sto, bw, es, cb, wp, n, d, tm, hf⟩, _⟩ :=
      runTimer_frame M t.action (Game.clearTimeout t.id { s with now := ev.time })
    rw [h1, hf]
    exact ⟨le_refl _, fun h2 => ⟨rfl, rfl, rfl, h2⟩, fun h2 => h2⟩
  · have hfr : ¬ (s.frameRequested = false) := by rw [hf]; simp
    refine ⟨?_, fun h2 => absurd h2 hfr, ?_⟩
    · rw [h1]
      unfold Game.gameLoop
      dsimp only
      split_ifs
      · exact le_refl _
      · rw [(tick_after M _ _).2.1, afterEnemies_castleHealth]
        have hnn : (0 : Int) ≤ (((((Game.towersPhase M ((ev.time - s.lastTime) / 1000)
            { s with now := ev.time, frameRequested := false, lastTime := ev.time }).enemies.map
            (Enemy.update M ((ev.time - s.lastTime) / 1000))).filter
            (fun e => e.reachedEnd)).map
            (fun e => ((e.damage + e.wave / 3 : Nat) : Int))).sum) := by
          apply List.sum_nonneg
          intro i hi
          obtain ⟨e, _, rfl⟩ := List.mem_map.mp hi
          exact Int.natCast_nonneg _
        show s.castleHealth - _ ≤ s.castleHealth
        omega
    · intro h2 h3
      rw [h1] at h3 ⊢
      unfold Game.gameLoop at h3 ⊢
      dsimp only at h3 ⊢
      split_ifs at h3 ⊢
      · have h4 : s.castleHealth ≤ 0 := h3
        have := h2 h4
        exact absurd this hfr
      · rw [(tick_after M _ _).2.2.2.2.2.2, if_pos h3]
  · obtain ⟨⟨g, ts, n, sel, tm, sto, gs, sb, hf⟩, _⟩ :=
      handleClick_frame M x y { s with now := ev.time }
    rw [h1, hf]
    exact ⟨le_refl _, fun h2 => ⟨rfl, rfl, rfl, h2⟩, fun h2 => h2⟩
  · rw [h1]
    exact ⟨le_refl _, fun h2 => ⟨rfl, rfl, rfl, h2⟩, fun h2 => h2⟩
  · rw [h1]
    exact ⟨le_refl _, fun h2 => ⟨rfl, rfl, rfl, h2⟩, fun h2 => h2⟩
  · obtain ⟨o, p, hf⟩ := (controls_frame Selection.remove k { s with now := ev.time }).2.2
    rw [h1, hf]
    exact ⟨le_refl _, fun h2 => ⟨rfl, rfl, rfl, h2⟩, fun h2 => h2⟩

/-- C22. Game over is terminal. From a state with castle health at most zero and no frame
requested, every session leaves castle health, wave and level as they are, contains no
frame, and ends in a state that accepts no frame, so no tick runs again and no kill is
rewarded again. Such is the state at the end of a tick of the running game that ends with
castle health at most zero: that tick requests no frame. No event ever raises castle
health, and in every state of every session from page load on, castle health at most zero
means that no frame is requested. -/
theorem game_over_terminal (M : JsMath K) (evs : List (Event K)) (s s1 : Game K)
    (h1 : s.castleHealth ≤ 0) (h2 : s.frameRequested = false)
    (h : Game.run M evs s = some s1) :
    s1.castleHealth ≤ 0 ∧
    s1.castleHealth = s.castleHealth ∧ s1.wave = s.wave ∧ s1.level = s.level ∧
    s1.frameRequested = false ∧
    (∀ ev ∈ evs, ev.input ≠ Input.frame) ∧
    (∀ t : K, Game.step M ⟨t, Input.frame⟩ s1 = none) ∧
    (∀ (t : K) (a : Game K), a.isPaused = false → a.frameRequested = false →
      (Game.gameLoop M t a).castleHealth ≤ 0 → (Game.gameLoop M t a).frameRequested = false) ∧
    (∀ (ev : Event K) (a b : Game K), Game.step M ev a = some b →
      b.castleHealth ≤ a.castleHealth) ∧
    (∀ (evs0 : List (Event K)) (a : Game K), Game.run M evs0 (Game.load M) = some a →
      a.castleHealth ≤ 0 → a.frameRequested = false) := by
  have hrun : s1.castleHealth = s.castleHealth ∧ s1.wave = s.wave ∧ s1.level = s.level ∧
      s1.frameRequested = false ∧ ∀ ev ∈ evs, ev.input ≠ Input.frame := by
    clear h1
    induction evs generalizing s with
    | nil =>
      have e := Option.some.inj h
      subst e
      exact ⟨rfl, rfl, rfl, h2, fun ev hev => absurd hev (List.not_mem_nil ev)⟩
    | cons ev evs ih =>
      rw [Game.run] at h
      cases hst : Game.step M ev s with
      | none =>
        rw [hst] at h
        exact Option.noConfusion h
      | some s2 =>
        rw [hst] at h
        obtain ⟨e1, e2, e3, e4⟩ := (step_castle M ev s s2 hst).2.1 h2
        obtain ⟨i1, i2, i3, i4, i5⟩ := ih s2 e4 h
        refine ⟨i1.trans e1, i2.trans e2, i3.trans e3, i4, ?_⟩
        intro ev' hev'
        rcases List.mem_cons.mp hev' with hev' | hev'
        · rw [hev']
          intro hfr
          rcases step_cases M ev s s2 hst with ⟨t, c, _⟩ | ⟨_, c, _⟩ | ⟨x, y, c, _⟩ |
            ⟨sel, c, _⟩ | ⟨c, _⟩ | ⟨k, c, _⟩
          · rw [hfr] at c
            exact Input.noConfusion c
          · rw [h2] at c
            exact Bool.noConfusion c
          · rw [hfr] at c
            exact Input.noConfusion c
          · rw [hfr] at c
            exact Input.noConfusion c
          · rw [hfr] at c
            exact Input.noConfusion c
          · rw [hfr] at c
            exact Input.noConfusion c
        · exact i5 ev' hev'
  refine ⟨by rw [hrun.1]; exact h1, hrun.1, hrun.2.1, hrun.2.2.1, hrun.2.2.2.1, hrun.2.2.2.2,
    ?_, ?_, ?_, ?_⟩
  · intro t
    cases hst : Game.step M ⟨t, Input.frame⟩ s1 with
    | none => rfl
    | some s2 =>
      rcases step_cases M _ s1 s2 hst with ⟨t, c, _⟩ | ⟨_, c, _⟩ | ⟨x, y, c, _⟩ |
        ⟨sel, c, _⟩ | ⟨c, _⟩ | ⟨k, c, _⟩
      · exact Input.noConfusion c
      · rw [hrun.2.2.2.1] at c
        exact Bool.noConfusion c
      · exact Input.noConfusion c
      · exact Input.noConfusion c
      · exact Input.noConfusion c
      · exact Input.noConfusion c
  · intro t a ha hb hc
    rw [gameLoop_running M t a ha] at hc ⊢
    rw [(tick_after M _ _).2.2.2.2.2.2, if_pos hc]
    exact hb
  · intro ev a b hst
    exact (step_castle M ev a b hst).1
  · intro evs0 a hr
    refine run_invariant M (fun a => a.castleHealth ≤ 0 → a.frameRequested = false)
      (fun ev a b ha hst => (step_castle M ev a b hst).2.2 ha) evs0 (Game.load M) a ?_ hr
    intro hc
    exfalso
    revert hc
    show ¬ (Game.gameLoop M 0 (Game.fields : Game K)).castleHealth ≤ 0
    rw [gameLoop_running M 0 _ rfl, (tick_after M _ _).2.1, afterEnemies_castleHealth]
    simp [Game.towersPhase, Game.updateTowers, Game.fields]

/-- An accepted event leaves wave and level alone or advances the wave by one, and with it
the level exactly when the new wave is one past a multiple of 20. -/
theorem step_wave (M : JsMath K) (ev : Event K) (s s1 : Game K)
    (h : Game.step M ev s = some s1) :
    (s1.wave = s.wave ∧ s1.level = s.level) ∨
    (s1.wave = s.wave + 1 ∧
      s1.level = if (s.wave + 1) % 20 = 1 ∧ 1 < s.wave + 1 then s.level + 1 else s.level) := by
  rcases step_cases M ev s s1 h with ⟨t, _, _, h1⟩ | ⟨_, hf, h1⟩ | ⟨x, y, _, h1⟩ |
    ⟨sel, _, h1⟩ | ⟨_, h1⟩ | ⟨k, _, h1⟩
  · obtain ⟨⟨ts, sto, bw, es, cb, wp, n, d, tm, hf⟩, _⟩ :=
      runTimer_frame M t.action (Game.clearTimeout t.id { s with now := ev.time })
    rw [h1, hf]
    exact Or.inl ⟨rfl, rfl⟩
  · rw [h1]
    by_cases hp : s.isPaused = true
    · rw [gameLoop_paused M ev.time { s with now := ev.time, frameRequested := false } hp]
      exact Or.inl ⟨rfl, rfl⟩
    · rw [gameLoop_running M ev.time { s with now := ev.time, frameRequested := false }
        (by simpa using hp)]
      exact (tick_after M _ _).2.2.2.2.1
  · obtain ⟨⟨g, ts, n, sel, tm, sto, gs, sb, hf⟩, _⟩ :=
      handleClick_frame M x y { s with now := ev.time }
    rw [h1, hf]
    exact Or.inl ⟨rfl, rfl⟩
  · rw [h1]
    exact Or.inl ⟨rfl, rfl⟩
  · rw [h1]
    exact Or.inl ⟨rfl, rfl⟩
  · obtain ⟨o, p, hf⟩ := (controls_frame Selection.remove k { s with now := ev.time }).2.2
    rw [h1, hf]
    exact Or.inl ⟨rfl, rfl⟩

/-- Wave and level right after page load. -/
theorem load_wave (M : JsMath K) : (Game.load M).wave = 1 ∧ (Game.load M).level = 1 := by
  have h := (tick_after M ((0 - (Game.fields : Game K).lastTime) / 1000)
    { (Game.fields : Game K) with lastTime := 0 }).2.2.2.2.1
  have e : Game.load M = Game.setTimeout TimerAction.forceFirstWave 1000
      (Game.tick M ((0 - (Game.fields : Game K).lastTime) / 1000)
        { (Game.fields : Game K) with lastTime := 0 }) := by
    unfold Game.load
    rw [gameLoop_running M 0 _ rfl]
  rw [e]
  have hA : (Game.afterEnemies M ((0 - (Game.fields : Game K).lastTime) / 1000)
      { (Game.fields : Game K) with lastTime := 0 }).waveInProgress = false := by
    obtain ⟨c, d, g, b, r, hA⟩ := afterEnemies_frame M
      ((0 - (Game.fields : Game K).lastTime) / 1000) { (Game.fields : Game K) with lastTime := 0 }
    rw [hA]
    rfl
  rcases h with h | h
  · exact h
  · exfalso
    have hw : (Game.tick M ((0 - (Game.fields : Game K).lastTime) / 1000)
        { (Game.fields : Game K) with lastTime := 0 }).wave = 1 := by
      unfold Game.tick
      rw [checkWaveComplete_idle _ (by rw [hA]; simp)]
      obtain ⟨b1, t1, f1, hF⟩ := finishFrame_frame
        ((0 - (Game.fields : Game K).lastTime) / 1000) (Game.startFirstWave M
          (Game.afterEnemies M ((0 - (Game.fields : Game K).lastTime) / 1000)
            { (Game.fields : Game K) with lastTime := 0 }))
      rw [hF]
      obtain ⟨c, d, g, b, r, hA2⟩ := afterEnemies_frame M
        ((0 - (Game.fields : Game K).lastTime) / 1000)
        { (Game.fields : Game K) with lastTime := 0 }
      rcases startFirstWave_cases M (Game.afterEnemies M
          ((0 - (Game.fields : Game K).lastTime) / 1000)
          { (Game.fields : Game K) with lastTime := 0 }) with h3 | ⟨ts, n, h3⟩ | ⟨_, h3⟩
      · rw [h3, hA2]
        rfl
      · rw [h3, hA2]
        rfl
      · rw [h3, hA2]
        rfl
    rw [hw] at h
    have h5 : (1 : Nat) = 1 + 1 := h.1
    omega

/-- C23. In every state of every session from page load on, the wave counter is at least 1
and `level = 1 + ⌊(wave - 1) / 20⌋`; an event leaves both counters alone or advances the
wave by one, and then the level rises by one exactly when the wave left is a multiple
of 20. -/
theorem level_of_wave (M : JsMath K) (evs : List (Event K)) (s : Game K)
    (h : Game.run M evs (Game.load M) = some s) :
    1 ≤ s.wave ∧ s.level = 1 + (s.wave - 1) / 20 ∧
    (∀ (ev : Event K) (s1 : Game K), Game.step M ev s = some s1 →
      (s1.wave = s.wave ∧ s1.level = s.level) ∨
      (s1.wave = s.wave + 1 ∧
        s1.level = if s.wave % 20 = 0 then s.level + 1 else s.level)) := by
  have hinv : 1 ≤ s.wave ∧ s.level = 1 + (s.wave - 1) / 20 := by
    refine run_invariant M (fun a => 1 ≤ a.wave ∧ a.level = 1 + (a.wave - 1) / 20) ?_ evs
      (Game.load M) s ?_ h
    · intro ev a b ha hst
      rcases step_wave M ev a b hst with ⟨e1, e2⟩ | ⟨e1, e2⟩
      · rw [e1, e2]
        exact ha
      · rw [e1, e2]
        obtain ⟨ha1, ha2⟩ := ha
        refine ⟨by omega, ?_⟩
        split_ifs with hc
        · rw [ha2]
          omega
        · rw [ha2]
          have : ¬ (a.wave % 20 = 0) := by
            intro h0
            apply hc
            omega
          omega
    · show 1 ≤ (Game.load M).wave ∧ (Game.load M).level = 1 + ((Game.load M).wave - 1) / 20
      rw [(load_wave M).1, (load_wave M).2]
      exact ⟨le_refl 1, rfl⟩
  refine ⟨hinv.1, hinv.2, ?_⟩
  intro ev s1 hst
  rcases step_wave M ev s s1 hst with h1 | ⟨e1, e2⟩
  · exact Or.inl h1
  · refine Or.inr ⟨e1, ?_⟩
    rw [e2]
    have h1 := hinv.1
    by_cases hc : s.wave % 20 = 0
    · rw [if_pos hc, if_pos (by omega)]
    · rw [if_neg hc, if_neg (by omega)]

/-- `gameLoop` never lowers gold: its only write adds the rewards of the enemies it
removes for lack of health. -/
theorem gameLoop_gold (M : JsMath K) (t : K) (s : Game K) :
    s.gold ≤ (Game.gameLoop M t s).gold := by
  by_cases hp : s.isPaused = true
  · rw [gameLoop_paused M t s hp]
  · rw [gameLoop_running M t s (by simpa using hp), (tick_after M _ _).1, afterEnemies_gold]
    have hnn : (0 : Int) ≤ (((((Game.towersPhase M ((t - s.lastTime) / 1000)
        { s with lastTime := t }).enemies.map
        (Enemy.update M ((t - s.lastTime) / 1000))).filter
        (fun e => !e.reachedEnd && decide (e.health ≤ 0))).map
        (fun e => (e.reward : Int))).sum) := by
      apply List.sum_nonneg
      intro i hi
      obtain ⟨e, _, rfl⟩ := List.mem_map.mp hi
      exact Int.natCast_nonneg _
    show s.gold ≤ s.gold + _
    omega

/-- Gold right after page load. -/
theorem load_gold (M : JsMath K) : (Game.load M).gold = 75 := by
  show (Game.gameLoop M 0 (Game.fields : Game K)).gold = 75
  rw [gameLoop_running M 0 _ rfl, (tick_after M _ _).1, afterEnemies_gold]
  simp [Game.towersPhase, Game.updateTowers, Game.fields]

/-- C24. Gold is never negative: it is 75 after page load and at least zero in every state
of every session. A click keeps gold at or above zero (it debits only a cost that gold
covers, and otherwise adds a refund or nothing), `gameLoop` never lowers gold, and timer
callbacks and the other input handlers do not write it. -/
theorem gold_nonneg (M : JsMath K) (evs : List (Event K)) (s : Game K)
    (h : Game.run M evs (Game.load M) = some s) :
    0 ≤ s.gold ∧ (Game.load M).gold = 75 ∧
    (∀ (x y : K) (a : Game K), 0 ≤ a.gold → 0 ≤ (Game.handleClick M x y a).gold) ∧
    (∀ (t : K) (a : Game K), a.gold ≤ (Game.gameLoop M t a).gold) ∧
    (∀ (c : TimerAction) (a : Game K), (Game.runTimer M c a).gold = a.gold) ∧
    (∀ (sel : Selection) (k : Key) (a : Game K),
      (Game.selectTowerForPlacement sel a).gold = a.gold ∧ (Game.togglePause a).gold = a.gold ∧
      (Game.handleKeyPress k a).gold = a.gold) := by
  have htimer : ∀ (c : TimerAction) (a : Game K), (Game.runTimer M c a).gold = a.gold := by
    intro c a
    obtain ⟨⟨ts, sto, bw, es, cb, wp, n, d, tm, hf⟩, _⟩ := runTimer_frame M c a
    rw [hf]
  have hkey : ∀ (k : Key) (a : Game K), (Game.handleKeyPress k a).gold = a.gold := by
    intro k a
    obtain ⟨o, p, hf⟩ := (controls_frame Selection.remove k a).2.2
    rw [hf]
  refine ⟨?_, load_gold M, fun x y a => (handleClick_frame M x y a).2, gameLoop_gold M, htimer,
    fun sel k a => ⟨rfl, rfl, hkey k a⟩⟩
  refine run_invariant M (fun a => 0 ≤ a.gold) ?_ evs (Game.load M) s ?_ h
  · intro ev a b ha hst
    have ha' : 0 ≤ a.gold := ha
    show 0 ≤ b.gold
    rcases step_cases M ev a b hst with ⟨t, _, _, h1⟩ | ⟨_, hf, h1⟩ | ⟨x, y, _, h1⟩ |
      ⟨sel, _, h1⟩ | ⟨_, h1⟩ | ⟨k, _, h1⟩
    · rw [h1, htimer]
      exact ha'
    · rw [h1]
      exact le_trans ha'
        (gameLoop_gold M ev.time { a with now := ev.time, frameRequested := false })
    · rw [h1]
      exact (handleClick_frame M x y { a with now := ev.time }).2 ha'
    · rw [h1]
      exact ha'
    · rw [h1]
      exact ha'
    · rw [h1, hkey]
      exact ha'
  · show 0 ≤ (Game.load M).gold
    rw [load_gold]
    decide

/-- `Enemy.update` and the path index: it stays or rises by one, stays within the path,
and an enemy on the last waypoint only gets `reachedEnd` set. -/
theorem Enemy_update_pathIndex (M : JsMath K) (dt : K) (e : Enemy K) :
    e.pathIndex ≤ (Enemy.update M dt e).pathIndex ∧
    (Enemy.update M dt e).pathIndex ≤ e.pathIndex + 1 ∧
    (e.pathIndex ≤ 5 → (Enemy.update M dt e).pathIndex ≤ 5) ∧
    (5 ≤ e.pathIndex → Enemy.update M dt e = { e with reachedEnd := true }) ∧
    (e.pathIndex < 5 → (Enemy.update M dt e).reachedEnd = e.reachedEnd) := by
  have hlen : (Game.createPath (K := K)).length - 1 = 5 := rfl
  by_cases h : e.pathIndex < 5
  · obtain ⟨e1, _, _, hp, hr, _, _, _, hu⟩ := Enemy_update_served M dt e h
    rw [hu]
    refine ⟨?_, ?_, ?_, fun h5 => absurd h5 (by omega), ?_⟩
    · split_ifs
      · exact Nat.le_succ _
      · show e.pathIndex ≤ e1.pathIndex
        rw [hp]
    · split_ifs
      · exact le_refl _
      · show e1.pathIndex ≤ e.pathIndex + 1
        rw [hp]
        exact Nat.le_succ _
    · intro _
      split_ifs
      · show e.pathIndex + 1 ≤ 5
        omega
      · show e1.pathIndex ≤ 5
        rw [hp]
        omega
    · intro _
      split_ifs
      · exact hr
      · exact hr
  · have h5 : 5 ≤ e.pathIndex := not_lt.mp h
    have hu : Enemy.update M dt e = { e with reachedEnd := true } := by
      unfold Enemy.update
      rw [if_pos (by rw [hlen]; exact h5)]
    rw [hu]
    exact ⟨le_refl _, Nat.le_succ _, fun h6 => h6, fun _ => rfl, fun h6 => absurd h6 h⟩

/-- A new enemy: on the first waypoint, not at the end, unfrozen, at its base speed. -/
theorem create_fresh (id : Nat) (x y : K) (bh w : Nat) (r : K) :
    (Enemy.create id x y bh w r).pathIndex = 0 ∧
    (Enemy.create id x y bh w r).reachedEnd = false ∧
    (Enemy.create id x y bh w r).freezeTimer = 0 ∧
    (Enemy.create id x y bh w r).speed = (Enemy.create id x y bh w r).baseSpeed := by
  simp only [Enemy.create, Enemy.setEnemyType, Enemy.init]
  split_ifs <;> exact ⟨rfl, rfl, rfl, rfl⟩

/-- C25. In every state of every session from page load on, every enemy, live or removed,
has `pathIndex` at most 5, the number of waypoints minus one, and one with `reachedEnd` set
has `pathIndex` equal to 5, so that further updates leave it exactly as it is. An update
never lowers `pathIndex` and raises it by at most one, keeps it at or below 5, never clears
`reachedEnd`, and reads `path[pathIndex + 1]` only when `pathIndex + 1` is an index of the
path. -/
theorem pathIndex_bounds (M : JsMath K) (evs : List (Event K)) (s : Game K)
    (h : Game.run M evs (Game.load M) = some s) :
    (∀ e ∈ s.enemies ++ s.removed,
      e.pathIndex ≤ (Game.createPath (K := K)).length - 1 ∧
      (e.reachedEnd = true → e.pathIndex = (Game.createPath (K := K)).length - 1) ∧
      (e.reachedEnd = true → ∀ (n : Nat) (dt : K), (Enemy.update M dt)^[n] e = e)) ∧
    (∀ (dt : K) (e : Enemy K), e.pathIndex ≤ (Enemy.update M dt e).pathIndex ∧
      (Enemy.update M dt e).pathIndex ≤ e.pathIndex + 1) ∧
    (∀ (dt : K) (e : Enemy K), e.pathIndex ≤ (Game.createPath (K := K)).length - 1 →
      (Enemy.update M dt e).pathIndex ≤ (Game.createPath (K := K)).length - 1) ∧
    (∀ (dt : K) (e : Enemy K), e.reachedEnd = true → (Enemy.update M dt e).reachedEnd = true) ∧
    (∀ e : Enemy K, ¬ ((Game.createPath (K := K)).length - 1 ≤ e.pathIndex) →
      e.pathIndex + 1 < (Game.createPath (K := K)).length ∧
      (Game.pathAt (e.pathIndex + 1) : Waypoint K) ∈ (Game.createPath (K := K))) := by
  have hlen : (Game.createPath (K := K)).length = 6 := rfl
  have hlen1 : (Game.createPath (K := K)).length - 1 = 5 := rfl
  have hreach : ∀ (dt : K) (e : Enemy K), e.reachedEnd = true →
      (Enemy.update M dt e).reachedEnd = true := by
    intro dt e he
    by_cases h5 : e.pathIndex < 5
    · rw [(Enemy_update_pathIndex M dt e).2.2.2.2 h5]
      exact he
    · rw [(Enemy_update_pathIndex M dt e).2.2.2.1 (not_lt.mp h5)]
  have hall := reachable_enemies M
    (fun e => e.pathIndex ≤ 5 ∧ (e.reachedEnd = true → 5 ≤ e.pathIndex))
    (fun dt e he => by
      refine ⟨(Enemy_update_pathIndex M dt e).2.2.1 he.1, fun hr => ?_⟩
      by_cases h5 : e.pathIndex < 5
      · rw [(Enemy_update_pathIndex M dt e).2.2.2.2 h5] at hr
        exact absurd (he.2 hr) (not_le.mpr h5)
      · exact le_trans (not_lt.mp h5) (Enemy_update_pathIndex M dt e).1)
    (fun e d he => he)
    (fun id x y bh w r => ⟨Nat.zero_le _, fun hr => by
      have h0 : (Enemy.create id x y bh w r).reachedEnd = true := hr
      rw [(create_fresh id x y bh w r).2.1] at h0
      exact Bool.noConfusion h0⟩)
    (fun s0 => ⟨Nat.zero_le _, fun hr => by
      rw [(newBoss_fields M s0).1] at hr
      exact Bool.noConfusion hr⟩)
    evs s h
  refine ⟨?_, fun dt e => ⟨(Enemy_update_pathIndex M dt e).1, (Enemy_update_pathIndex M dt e).2.1⟩,
    ?_, hreach, ?_⟩
  · intro e he
    have hP : e.pathIndex ≤ 5 ∧ (e.reachedEnd = true → 5 ≤ e.pathIndex) := by
      rcases List.mem_append.mp he with he | he
      · exact hall.1 e he
      · exact hall.2 e he
    rw [hlen1]
    refine ⟨hP.1, fun hr => le_antisymm hP.1 (hP.2 hr), ?_⟩
    intro hr n dt
    have hfix : Enemy.update M dt e = e := by
      rw [(Enemy_update_pathIndex M dt e).2.2.2.1 (hP.2 hr)]
      cases e
      simp only at hr
      rw [hr]
    induction n with
    | zero => rfl
    | succ n ih => rw [Function.iterate_succ_apply, hfix, ih]
  · intro dt e he
    rw [hlen1] at he ⊢
    exact (Enemy_update_pathIndex M dt e).2.2.1 he
  · intro e he
    rw [hlen1] at he
    rw [hlen]
    have h5 : e.pathIndex < 5 := not_le.mp he
    refine ⟨by omega, ?_⟩
    unfold Game.pathAt
    have hi : e.pathIndex + 1 < (Game.createPath (K := K)).length := by rw [hlen]; omega
    rw [List.getD_eq_getElem _ _ hi]
    exact List.getElem_mem _

/-- C26. No freeze effect is ever applied: in every state of every session from page load
on, every enemy, live or removed, has `freezeTimer = 0` and `speed = baseSpeed`. A call of
`Projectile.update`, whatever tower fired the projectile, leaves both enemy stores as they
are or lowers the health of the target and writes no other field; the freeze tower carries
the flag `freezeEffect`, which nothing reads. -/
theorem no_freeze (M : JsMath K) (evs : List (Event K)) (s : Game K)
    (h : Game.run M evs (Game.load M) = some s) :
    (∀ e ∈ s.enemies ++ s.removed, e.freezeTimer = 0 ∧ e.speed = e.baseSpeed) ∧
    (∀ (dt : K) (p : Projectile K) (live removed : List (Enemy K)),
      (Projectile.update M dt p live removed).2 = (live, removed) ∨
      (Projectile.update M dt p live removed).2 =
        (live.map (fun e => if e.id = p.target then { e with health := e.health - p.damage }
            else e),
         removed.map (fun e => if e.id = p.target then { e with health := e.health - p.damage }
            else e))) ∧
    (∀ (id : Nat) (x y : K), (Tower.create id x y TowerType.freeze).freezeEffect = true) ∧
    (∀ (dt : K) (e : Enemy K), e.freezeTimer = 0 → e.speed = e.baseSpeed →
      (Enemy.update M dt e).freezeTimer = 0 ∧
      (Enemy.update M dt e).speed = (Enemy.update M dt e).baseSpeed) := by
  have hupd : ∀ (dt : K) (e : Enemy K), e.freezeTimer = 0 ∧ e.speed = e.baseSpeed →
      (Enemy.update M dt e).freezeTimer = 0 ∧
      (Enemy.update M dt e).speed = (Enemy.update M dt e).baseSpeed := by
    intro dt e he
    have hnf : ¬ (0 < e.freezeTimer) := by rw [he.1]; exact lt_irrefl 0
    unfold Enemy.update
    dsimp only
    rw [if_neg hnf]
    split_ifs <;> exact he
  have hall := reachable_enemies M (fun e => e.freezeTimer = 0 ∧ e.speed = e.baseSpeed) hupd
    (fun e d he => he)
    (fun id x y bh w r =>
      ⟨(create_fresh id x y bh w r).2.2.1, (create_fresh id x y bh w r).2.2.2⟩)
    (fun s0 => ⟨(create_fresh _ _ _ _ _ _).2.2.1, rfl⟩) evs s h
  refine ⟨?_, ?_, fun id x y => rfl, fun dt e h1 h2 => hupd dt e ⟨h1, h2⟩⟩
  · intro e he
    rcases List.mem_append.mp he with he | he
    · exact hall.1 e he
    · exact hall.2 e he
  · intro dt p live removed
    rcases Projectile_update_cases M dt p live removed with ⟨_, h2⟩ | ⟨_, h2⟩
    · exact Or.inl h2
    · rw [h2]
      exact Or.inr rfl

/-! ## The enemy filter: escaped before dead -/

/-- C27. In the enemy filter of a tick, an enemy that after its update has both reached the
end and run out of health is handled as escaped only: it passes the health test of the death
branch, yet is not among the rewarded. Compared with the same filter run
without it, castle health is lower by its `damage + ⌊wave / 3⌋`, while gold, the boss
reference and the enemies kept are the same: it pays no reward and, boss or not, does not
clear `currentBoss`. In general castle health falls by the charge of the updated enemies with
`reachedEnd`, gold rises by the rewards of those without `reachedEnd` and with health at most
0, and no enemy belongs to both groups. -/
theorem escaped_before_dead (M : JsMath K) (dt : K) (e : Enemy K) (es : List (Enemy K))
    (s : Game K) (h1 : (Enemy.update M dt e).reachedEnd = true)
    (h2 : (Enemy.update M dt e).health ≤ 0) :
    (Game.reapEnemies M dt (e :: es) s).1.castleHealth =
      (Game.reapEnemies M dt es s).1.castleHealth -
        (((Enemy.update M dt e).damage + (Enemy.update M dt e).wave / 3 : Nat) : Int) ∧
    (Game.reapEnemies M dt (e :: es) s).1.gold = (Game.reapEnemies M dt es s).1.gold ∧
    (Game.reapEnemies M dt (e :: es) s).1.currentBoss =
      (Game.reapEnemies M dt es s).1.currentBoss ∧
    (Game.reapEnemies M dt (e :: es) s).2 = (Game.reapEnemies M dt es s).2 ∧
    (decide ((Enemy.update M dt e).health ≤ 0) = true ∧
      (!(Enemy.update M dt e).reachedEnd && decide ((Enemy.update M dt e).health ≤ 0)) =
        false) ∧
    (Game.reapEnemies M dt [e] s).1.gold = s.gold ∧
    (Game.reapEnemies M dt [e] s).1.currentBoss = s.currentBoss ∧
    (Game.reapEnemies M dt [e] s).1.castleHealth = s.castleHealth -
        (((Enemy.update M dt e).damage + (Enemy.update M dt e).wave / 3 : Nat) : Int) ∧
    (∀ (l : List (Enemy K)) (a : Game K),
      (Game.reapEnemies M dt l a).1.castleHealth =
        a.castleHealth -
          ((((l.map (Enemy.update M dt)).filter (fun u => u.reachedEnd)).map
            (fun u => ((u.damage + u.wave / 3 : Nat) : Int))).sum) ∧
      (Game.reapEnemies M dt l a).1.gold =
        a.gold +
          ((((l.map (Enemy.update M dt)).filter
              (fun u => !u.reachedEnd && decide (u.health ≤ 0))).map
            (fun u => (u.reward : Int))).sum) ∧
      ∀ u : Enemy K, ¬ (u.reachedEnd = true ∧
        (!u.reachedEnd && decide (u.health ≤ 0)) = true)) := by
  have hcons : ∀ a : Game K,
      (Game.reapEnemies M dt (e :: es) a).1.castleHealth =
        (Game.reapEnemies M dt es a).1.castleHealth -
          (((Enemy.update M dt e).damage + (Enemy.update M dt e).wave / 3 : Nat) : Int) ∧
      (Game.reapEnemies M dt (e :: es) a).1.gold = (Game.reapEnemies M dt es a).1.gold ∧
      (Game.reapEnemies M dt (e :: es) a).1.currentBoss =
        (Game.reapEnemies M dt es a).1.currentBoss ∧
      (Game.reapEnemies M dt (e :: es) a).2 = (Game.reapEnemies M dt es a).2 := by
    intro a
    refine ⟨?_, ?_, ?_, ?_⟩
    · rw [reapEnemies_castleHealth, reapEnemies_castleHealth, List.map_cons,
        List.filter_cons_of_pos (by simp [h1]), List.map_cons, List.sum_cons]
      ring
    · rw [reapEnemies_gold, reapEnemies_gold, List.map_cons,
        List.filter_cons_of_neg (by simp [h1])]
    · rw [reapEnemies_currentBoss, reapEnemies_currentBoss, List.map_cons,
        List.filter_cons_of_neg (by simp [h1])]
    · rw [reapEnemies_kept, reapEnemies_kept, List.map_cons,
        List.filter_cons_of_neg (by simp [h1])]
  refine ⟨(hcons s).1, (hcons s).2.1, (hcons s).2.2.1, (hcons s).2.2.2,
    ⟨decide_eq_true h2, by rw [h1]; rfl⟩, ?_, ?_, ?_, ?_⟩
  · rw [reapEnemies_gold, List.map_cons, List.filter_cons_of_neg (by simp [h1])]
    simp
  · rw [reapEnemies_currentBoss, List.map_cons, List.filter_cons_of_neg (by simp [h1])]
    simp
  · rw [reapEnemies_castleHealth, List.map_cons, List.filter_cons_of_pos (by simp [h1])]
    simp
  · intro l a
    refine ⟨reapEnemies_castleHealth M dt l a, reapEnemies_gold M dt l a, ?_⟩
    intro u hu
    rw [hu.1] at hu
    exact Bool.noConfusion hu.2

/-! ## Stagger callbacks and the wave counter -/

/-- The enemy that a stagger callback of `spawnWave` pushes: built for the wave counter as it
reads when the callback fires, and a dragon exactly when that counter is a multiple of 10
above 3. -/
theorem spawnEnemy_pushes (M : JsMath K) (bh : Nat) (s : Game K) :
    ∃ e : Enemy K, Game.spawnEnemy M bh s =
        { s with enemies := s.enemies ++ [e], nextId := s.nextId + 1, draws := s.draws + 1 } ∧
      e.wave = s.wave ∧ e.isBoss = false ∧
      (e.type = EnemyType.dragon ↔ 3 < s.wave ∧ s.wave % 10 = 0) ∧
      (3 < s.wave → s.wave % 10 = 0 → e.health = ((bh * 6 : Nat) : K)) := by
  refine ⟨_, rfl, ?_, ?_, ?_, ?_⟩
  · simp only [Enemy.create, Enemy.setEnemyType, Enemy.init]
    split_ifs <;> rfl
  · simp only [Enemy.create, Enemy.setEnemyType, Enemy.init]
    split_ifs <;> rfl
  · simp only [Enemy.create, Enemy.setEnemyType, Enemy.init]
    split_ifs with h1 h2 h3 h4 h5 h6 <;> simp <;> omega
  · intro h3 h10
    simp only [Enemy.create, Enemy.setEnemyType, Enemy.init]
    rw [if_neg (by omega), if_pos h10]

/-- C28, the divergence. A stagger callback of `spawnWave` constructs its enemy with the wave
counter as it reads when the callback fires. When the timer that fires next is such a
callback and the counter is by then a multiple of 10 above 3, the enemy appended to the
enemy list is a dragon: type `dragon`, not a boss, health six times the base health the
callback captured. `spawnWave` itself, called at such a counter, appends the boss and
schedules nothing. -/
theorem stale_spawn_dragon (M : JsMath K) (bh : Nat) (s : Game K)
    (h3 : 3 < s.wave) (h10 : s.wave % 10 = 0) :
    (∃ e : Enemy K,
      (Game.runTimer M (TimerAction.spawnEnemy bh) s).enemies = s.enemies ++ [e] ∧
      e.type = EnemyType.dragon ∧ e.isBoss = false ∧ e.wave = s.wave ∧
      e.health = ((bh * 6 : Nat) : K)) ∧
    (∀ (t : K) (tm : Timer K) (s1 : Game K), Game.nextTimer s.timers = some tm →
      tm.action = TimerAction.spawnEnemy bh → Game.step M ⟨t, Input.timeout⟩ s = some s1 →
      ∃ e : Enemy K, s1.enemies = s.enemies ++ [e] ∧ e.type = EnemyType.dragon ∧
        e.isBoss = false ∧ e.health = ((bh * 6 : Nat) : K) ∧ s1.wave = s.wave) ∧
    (Game.spawnWave M s).enemies = s.enemies ++ [Game.newBoss M s] ∧
    (Game.newBoss M s).type = EnemyType.boss ∧
    (Game.spawnWave M s).timers = s.timers := by
  refine ⟨?_, ?_, ?_, rfl, ?_⟩
  · obtain ⟨e, he, hw, hb, ht, hh⟩ := spawnEnemy_pushes M bh s
    refine ⟨e, ?_, ht.mpr ⟨h3, h10⟩, hb, hw, hh h3 h10⟩
    show (Game.spawnEnemy M bh s).enemies = _
    rw [he]
  · intro t tm s1 hn ha hst
    have hcase : s1 = Game.runTimer M tm.action (Game.clearTimeout tm.id { s with now := t }) := by
      rcases step_cases M ⟨t, Input.timeout⟩ s s1 hst with ⟨u, _, hu, h1⟩ | ⟨hc, _⟩ |
        ⟨x, y, hc, _⟩ | ⟨sel, hc, _⟩ | ⟨hc, _⟩ | ⟨k, hc, _⟩
      · rw [hn] at hu
        rw [Option.some.inj hu]
        exact h1
      · exact Input.noConfusion hc
      · exact Input.noConfusion hc
      · exact Input.noConfusion hc
      · exact Input.noConfusion hc
      · exact Input.noConfusion hc
    rw [ha] at hcase
    obtain ⟨e, he, hw, hb, ht, hh⟩ := spawnEnemy_pushes M bh
      (Game.clearTimeout tm.id { s with now := t })
    have hw0 : (Game.clearTimeout tm.id { s with now := t }).wave = s.wave := rfl
    rw [hw0] at ht hh
    have hs1 : s1 = Game.spawnEnemy M bh (Game.clearTimeout tm.id { s with now := t }) := hcase
    rw [he] at hs1
    refine ⟨e, ?_, ht.mpr ⟨h3, h10⟩, hb, hh h3 h10, ?_⟩
    · rw [hs1]
      rfl
    · rw [hs1]
      rfl
  · unfold Game.spawnWave
    rw [if_pos h10]
    rfl
  · unfold Game.spawnWave
    rw [if_pos h10]
    rfl

/-! ## Placing and removing towers: gold -/

/-- Removing the clicked tower from the list takes at least its refund out of the sum of
the refunds. -/
theorem filter_refund (c : Tower K) (l : List (Tower K)) (hc : c ∈ l) :
    ((l.filter (fun t => t.id != c.id)).map
        (fun t => ((Game.getTowerCost t.type / 2 : Nat) : Int))).sum +
      ((Game.getTowerCost c.type / 2 : Nat) : Int) ≤
    (l.map (fun t => ((Game.getTowerCost t.type / 2 : Nat) : Int))).sum := by
  have hle : ∀ l : List (Tower K),
      ((l.filter (fun t => t.id != c.id)).map
        (fun t => ((Game.getTowerCost t.type / 2 : Nat) : Int))).sum ≤
      (l.map (fun t => ((Game.getTowerCost t.type / 2 : Nat) : Int))).sum := by
    intro l
    induction l with
    | nil => exact le_refl _
    | cons a l ih =>
      have ha : (0 : Int) ≤ ((Game.getTowerCost a.type / 2 : Nat) : Int) := Int.natCast_nonneg _
      by_cases h : a.id = c.id
      · rw [List.filter_cons_of_neg (by simp [h]), List.map_cons, List.sum_cons]
        omega
      · rw [List.filter_cons_of_pos (by simp [h]), List.map_cons, List.map_cons, List.sum_cons,
          List.sum_cons]
        omega
  induction l with
  | nil => exact absurd hc (List.not_mem_nil c)
  | cons a l ih =>
    have ha : (0 : Int) ≤ ((Game.getTowerCost a.type / 2 : Nat) : Int) := Int.natCast_nonneg _
    by_cases h : a.id = c.id
    · rw [List.filter_cons_of_neg (by simp [h]), List.map_cons, List.sum_cons]
      rcases List.mem_cons.mp hc with hc | hc
      · rw [← hc]
        have := hle l
        omega
      · have := ih hc
        omega
    · rw [List.filter_cons_of_pos (by simp [h]), List.map_cons, List.map_cons, List.sum_cons,
        List.sum_cons]
      rcases List.mem_cons.mp hc with hc | hc
      · rw [hc] at h
        exact absurd rfl h
      · have := ih hc
        omega

/-- Towers that differ in their `selected` flags only have the same refunds. -/
theorem refund_of_deselected (l1 l2 : List (Tower K))
    (h : l1.map (fun t => ({ t with selected := false } : Tower K)) =
      l2.map (fun t => ({ t with selected := false } : Tower K))) :
    (l1.map (fun t => ((Game.getTowerCost t.type / 2 : Nat) : Int))).sum =
      (l2.map (fun t => ((Game.getTowerCost t.type / 2 : Nat) : Int))).sum := by
  have h1 := congrArg
    (List.map (fun t : Tower K => ((Game.getTowerCost t.type / 2 : Nat) : Int))) h
  simp only [List.map_map] at h1
  exact congrArg List.sum h1

/-- A click never raises gold plus the refunds of the towers on the board. -/
theorem handleClick_potential (M : JsMath K) (x y : K) (s : Game K) :
    (Game.handleClick M x y s).gold +
      ((Game.handleClick M x y s).towers.map
        (fun t => ((Game.getTowerCost t.type / 2 : Nat) : Int))).sum ≤
    s.gold + (s.towers.map (fun t => ((Game.getTowerCost t.type / 2 : Nat) : Int))).sum := by
  have hsel : (Game.selectAt M x y s).gold +
      ((Game.selectAt M x y s).towers.map
        (fun t => ((Game.getTowerCost t.type / 2 : Nat) : Int))).sum ≤
      s.gold + (s.towers.map (fun t => ((Game.getTowerCost t.type / 2 : Nat) : Int))).sum := by
    rw [(selectAt_keeps M x y s).1, refund_of_deselected _ _ (selectAt_keeps M x y s).2]
  by_cases hg : s.gameStarted = true
  · rw [handleClick_started M x y s hg]
    cases s.selectedTower with
    | none => exact hsel
    | some sel =>
      cases sel with
      | remove =>
        dsimp only
        cases hf : s.towers.find? (Game.towerAt M x y) with
        | none => exact le_refl _
        | some c =>
          dsimp only
          have := filter_refund c s.towers (List.mem_of_find?_eq_some hf)
          omega
      | place ty =>
        dsimp only
        split_ifs
        · dsimp only
          rw [List.map_append, List.sum_append, List.map_cons, List.map_nil, List.sum_cons,
            List.sum_nil, (create_fields s.nextId x y ty).2.1]
          have : ((Game.getTowerCost ty / 2 : Nat) : Int) ≤ (Game.getTowerCost ty : Int) := by
            exact_mod_cast Nat.div_le_self _ _
          omega
        · exact le_refl _
        · exact hsel
  · have hg' : s.gameStarted = false := by simpa using hg
    unfold Game.handleClick
    split_ifs
    · exact le_refl _
    · exact le_refl _

/-- A timer callback leaves gold and the refunds of the towers on the board alone. -/
theorem runTimer_potential (M : JsMath K) (a : TimerAction) (s : Game K) :
    (Game.runTimer M a s).gold +
      ((Game.runTimer M a s).towers.map
        (fun t => ((Game.getTowerCost t.type / 2 : Nat) : Int))).sum =
    s.gold + (s.towers.map (fun t => ((Game.getTowerCost t.type / 2 : Nat) : Int))).sum := by
  cases a with
  | spawnWave =>
    have e : Game.runTimer M TimerAction.spawnWave s = Game.spawnWave M s := rfl
    rcases spawnWave_frame M s with ⟨_, h⟩ | ⟨_, tm, m, h⟩
    · rw [e, h]
    · rw [e, h]
  | spawnEnemy bh => rfl
  | forceFirstWave =>
    unfold Game.runTimer
    dsimp only
    split_ifs
    · rcases spawnWave_frame M s with ⟨_, h⟩ | ⟨_, tm, m, h⟩
      · rw [h]
      · rw [h]
    · rfl
  | deselect tower =>
    unfold Game.runTimer
    dsimp only
    rw [List.map_map]
    congr 2
    apply List.map_congr_left
    intro t _
    simp only [Function.comp]
    split_ifs <;> rfl

/-- An accepted event other than a frame never raises gold plus the refunds of the towers on
the board. -/
theorem step_potential (M : JsMath K) (ev : Event K) (s s1 : Game K)
    (hf : ev.input ≠ Input.frame) (h : Game.step M ev s = some s1) :
    s1.gold + (s1.towers.map (fun t => ((Game.getTowerCost t.type / 2 : Nat) : Int))).sum ≤
    s.gold + (s.towers.map (fun t => ((Game.getTowerCost t.type / 2 : Nat) : Int))).sum := by
  rcases step_cases M ev s s1 h with ⟨t, _, _, h1⟩ | ⟨c, _, _⟩ | ⟨x, y, _, h1⟩ |
    ⟨sel, _, h1⟩ | ⟨_, h1⟩ | ⟨k, _, h1⟩
  · rw [h1, runTimer_potential]
    exact le_refl _
  · exact absurd c hf
  · rw [h1]
    exact handleClick_potential M x y { s with now := ev.time }
  · rw [h1]
    exact le_refl _
  · rw [h1]
    exact le_refl _
  · obtain ⟨o, p, hk⟩ := (controls_frame Selection.remove k { s with now := ev.time }).2.2
    rw [h1, hk]

/-- C30. Placing and removing towers never create gold. Along a session without frames
(clicks, tower buttons, keys, pause, timers), gold plus the sum of the removal refunds
`⌊cost / 2⌋` of the towers on the board never rises; so a session that starts with no tower
on the board never ends with more gold than it started with. For every type the refund is
below the cost, the difference being 25, 50, 75, 60, 90 for basic, power, freeze, cannon,
lightning; and a successful placement followed by the removal of that very tower leaves gold
lower by exactly that difference. -/
theorem place_remove_no_gain (M : JsMath K) (evs : List (Event K)) (s s1 : Game K)
    (hf : ∀ ev ∈ evs, ev.input ≠ Input.frame) (h : Game.run M evs s = some s1) :
    s1.gold + (s1.towers.map (fun t => ((Game.getTowerCost t.type / 2 : Nat) : Int))).sum ≤
      s.gold + (s.towers.map (fun t => ((Game.getTowerCost t.type / 2 : Nat) : Int))).sum ∧
    (s.towers = [] → s1.gold ≤ s.gold) ∧
    (∀ ty, Game.getTowerCost ty / 2 < Game.getTowerCost ty) ∧
    Game.getTowerCost TowerType.basic - Game.getTowerCost TowerType.basic / 2 = 25 ∧
    Game.getTowerCost TowerType.power - Game.getTowerCost TowerType.power / 2 = 50 ∧
    Game.getTowerCost TowerType.freeze - Game.getTowerCost TowerType.freeze / 2 = 75 ∧
    Game.getTowerCost TowerType.cannon - Game.getTowerCost TowerType.cannon / 2 = 60 ∧
    Game.getTowerCost TowerType.lightning - Game.getTowerCost TowerType.lightning / 2 = 90 ∧
    (∀ (x y x1 y1 : K) (a : Game K) (ty : TowerType), a.gameStarted = true →
      a.selectedTower = some (Selection.place ty) → (Game.getTowerCost ty : Int) ≤ a.gold →
      Game.isValidTowerPlacement M x y = true →
      (∀ u ∈ a.towers, ¬ M.hypot (u.x - x1) (u.y - y1) < 20) → M.hypot (x - x1) (y - y1) < 20 →
      (Game.handleClick M x1 y1
        (Game.selectTowerForPlacement Selection.remove (Game.handleClick M x y a))).gold =
        a.gold - ((Game.getTowerCost ty - Game.getTowerCost ty / 2 : Nat) : Int)) := by
  have hpot : s1.gold +
      (s1.towers.map (fun t => ((Game.getTowerCost t.type / 2 : Nat) : Int))).sum ≤
      s.gold + (s.towers.map (fun t => ((Game.getTowerCost t.type / 2 : Nat) : Int))).sum := by
    induction evs generalizing s with
    | nil =>
      have e := Option.some.inj h
      subst e
      exact le_refl _
    | cons ev evs ih =>
      rw [Game.run] at h
      cases hst : Game.step M ev s with
      | none =>
        rw [hst] at h
        exact Option.noConfusion h
      | some s2 =>
        rw [hst] at h
        exact le_trans (ih s2 (fun e he => hf e (List.mem_cons_of_mem _ he)) h)
          (step_potential M ev s s2 (hf ev (List.mem_cons_self _ _)) hst)
  refine ⟨hpot, ?_, fun ty => by cases ty <;> decide, rfl, rfl, rfl, rfl, rfl, ?_⟩
  · intro h0
    rw [h0] at hpot
    have hnn : (0 : Int) ≤
        (s1.towers.map (fun t => ((Game.getTowerCost t.type / 2 : Nat) : Int))).sum := by
      apply List.sum_nonneg
      intro i hi
      obtain ⟨e, _, rfl⟩ := List.mem_map.mp hi
      exact Int.natCast_nonneg _
    simp only [List.map_nil, List.sum_nil, add_zero] at hpot
    omega
  · intro x y x1 y1 a ty hs hp hg hv hfar hnear
    have hb : Game.selectTowerForPlacement Selection.remove (Game.handleClick M x y a) =
        { a with towers := a.towers ++ [Tower.create a.nextId x y ty],
                 gold := a.gold - Game.getTowerCost ty, nextId := a.nextId + 1,
                 selectedTower := some Selection.remove } := by
      rw [handleClick_place_valid M x y a ty hs hp hg hv]
      rfl
    have hfind : List.find? (Game.towerAt M x1 y1) (a.towers ++ [Tower.create a.nextId x y ty]) =
        some (Tower.create a.nextId x y ty) := by
      rw [List.find?_append]
      have hnone : List.find? (Game.towerAt M x1 y1) a.towers = none := by
        rw [List.find?_eq_none]
        intro u hu
        simpa [Game.towerAt] using hfar u hu
      rw [hnone]
      have hc := create_fields a.nextId x y ty
      simp [Game.towerAt, hc.2.2.1, hc.2.2.2.1, hnear]
    rw [hb, handleClick_started M x1 y1
      { a with towers := a.towers ++ [Tower.create a.nextId x y ty],
               gold := a.gold - Game.getTowerCost ty, nextId := a.nextId + 1,
               selectedTower := some Selection.remove } hs]
    dsimp only
    rw [hfind]
    show a.gold - (Game.getTowerCost ty : Int) +
      ((Game.getTowerCost (Tower.create a.nextId x y ty : Tower K).type / 2 : Nat) : Int) = _
    rw [(create_fields a.nextId x y ty).2.1]
    have : Game.getTowerCost ty / 2 ≤ Game.getTowerCost ty := Nat.div_le_self _ _
    omega

end Theorems

/-! ## Concrete sessions -/

/-- C1, the divergence. In the session `earlyKill` the frame at 216 ms starts wave 1 and
schedules its three goblins for 216, 1216 and 2216 ms; the first one is shot, and the frame
at 436 ms raises the wave counter to 2 while the timers of the other two goblins of wave 1
are still pending. -/
theorem wave_two_while_goblins_pending :
    (Game.run mathQ (earlyKill.take 4) (Game.load mathQ)).map
        (fun s => (s.wave, s.enemies, s.timers)) =
      some (1, [], [⟨0, 1000, TimerAction.forceFirstWave⟩, ⟨1, 216, TimerAction.spawnEnemy 1⟩,
        ⟨2, 1216, TimerAction.spawnEnemy 1⟩, ⟨3, 2216, TimerAction.spawnEnemy 1⟩]) ∧
    (Game.run mathQ earlyKill (Game.load mathQ)).map
        (fun s => (s.wave, s.now, s.enemies,
          s.timers.filter (fun t => t.id == 2 || t.id == 3))) =
      some (2, 436, [], [⟨2, 1216, TimerAction.spawnEnemy 1⟩,
        ⟨3, 2216, TimerAction.spawnEnemy 1⟩]) := by
  decide!

/-- The last frame of the session `earlyKill` is a tick that finds wave 1 complete. -/
theorem completion_tick_spawns_at_once_witness :
    earlyKillState.gameStarted = true ∧ earlyKillState.waveInProgress = true ∧
    (Game.afterEnemies mathQ (1 / 50) earlyKillState).enemies = [] ∧
    earlyKillState.wave = 1 ∧
    (Game.tick mathQ (1 / 50) earlyKillState).wave = 2 ∧
    (Game.tick mathQ (1 / 50) earlyKillState).waveInProgress = true :=
  have h := completion_tick_spawns_at_once mathQ (1 / 50) earlyKillState
    (by decide!) (by decide!) (by decide!)
  ⟨by decide!, by decide!, by decide!, by decide!, by decide!, h.2.1⟩

/-- The tick that completes wave 9 spawns the boss of wave 10. -/
theorem completion_tick_before_boss_wave_witness :
    wave9Cleared.gameStarted = true ∧ wave9Cleared.waveInProgress = true ∧
    (Game.afterEnemies mathQ (1 / 50) wave9Cleared).enemies = [] ∧
    (wave9Cleared.wave + 1) % 10 = 0 ∧
    (Game.tick mathQ (1 / 50) wave9Cleared).bossWave = true ∧
    (Game.tick mathQ (1 / 50) wave9Cleared).currentBoss = some 1 :=
  have h := completion_tick_before_boss_wave mathQ (1 / 50) wave9Cleared
    (by decide!) (by decide!) (by decide!) (by decide!)
  ⟨by decide!, by decide!, by decide!, by decide!, h.2.1, by decide!⟩

/-- A goblin of wave 1 on the last waypoint costs the castle exactly 1, and is gone. -/
theorem tick_castleHealth_witness :
    (Game.tick mathQ (1 / 50) goblinAtEnd).castleHealth = goblinAtEnd.castleHealth - 1 ∧
    goblinAtEnd.castleHealth = 100 ∧ (Game.tick mathQ (1 / 50) goblinAtEnd).enemies = [] :=
  ⟨(tick_castleHealth mathQ (1 / 50) goblinAtEnd).2.2
      { Enemy.create 0 50 300 1 1 (0 : ℚ) with x := 700, y := 450, pathIndex := 5,
                                                 reachedEnd := true }
      (by decide!) (by decide!) (by decide!),
    by decide!, by decide!⟩

/-- A goblin without health pays its reward of 5 once, and is gone. -/
theorem tick_gold_witness :
    (Game.tick mathQ (1 / 50) goblinShot).gold = 80 ∧ goblinShot.gold = 75 ∧
    (Game.tick mathQ (1 / 50) goblinShot).enemies = [] := by
  have h := (tick_gold mathQ (1 / 50) goblinShot).1
  refine ⟨?_, by decide!, by decide!⟩
  rw [h]
  decide!

/-! ## Clicks in a running session -/

/-- The divergence of C12 in a session: the tower at `(20, 300)` is selected, at level 1 of
3, and its upgrade cost of 25 is covered by the 25 gold at hand; the basic tower pending
costs 50. A click on the tower leaves gold and level as they are. -/
theorem click_never_upgrades_witness :
    towerSelected.gameStarted = true ∧
    towerSelected.selectedTower = some (Selection.place TowerType.basic) ∧
    towerSelected.gold = 25 ∧
    (∃ t ∈ towerSelected.towers, mathQ.hypot (t.x - 20) (t.y - 300) < 20 ∧
      t.selected = true ∧ t.canUpgrade = true ∧ (t.upgradeCost : Int) ≤ towerSelected.gold ∧
      t.upgradeCost = 25 ∧ t.level = 1) ∧
    (Game.handleClick mathQ 20 300 towerSelected).gold = towerSelected.gold ∧
    (Game.handleClick mathQ 20 300 towerSelected).towers.map (fun t => t.level) =
      towerSelected.towers.map (fun t => t.level) :=
  ⟨by decide!, by decide!, by decide!, by decide!,
    click_never_upgrades mathQ 20 300 towerSelected (by decide!)
      (Or.inr ⟨TowerType.basic, by decide!, by decide!⟩)⟩

/-- C15 in a session: the lightning tower (cost 180) pending with 75 gold; a click at
`(20, 300)` leaves gold at 75 and the towers as they are. -/
theorem handleClick_unaffordable_witness :
    lightningPending.gameStarted = true ∧
    lightningPending.selectedTower = some (Selection.place TowerType.lightning) ∧
    lightningPending.gold = 75 ∧ Game.getTowerCost TowerType.lightning = 180 ∧
    (Game.handleClick mathQ 20 300 lightningPending).gold = lightningPending.gold ∧
    (Game.handleClick mathQ 20 300 lightningPending).towers.length =
      lightningPending.towers.length ∧
    (Game.handleClick mathQ 20 300 lightningPending).towers.map (fun t => t.id) =
      lightningPending.towers.map (fun t => t.id) ∧
    (Game.handleClick mathQ 20 300 lightningPending).towers.map (fun t => t.level) =
      lightningPending.towers.map (fun t => t.level) ∧
    (Game.handleClick mathQ 20 300 lightningPending).towers.map
        (fun t => ({ t with selected := false } : Tower ℚ)) =
      lightningPending.towers.map (fun t => ({ t with selected := false } : Tower ℚ)) :=
  ⟨by decide!, by decide!, by decide!, rfl,
    handleClick_unaffordable mathQ 20 300 lightningPending TowerType.lightning
      (by decide!) (by decide!) (by decide!)⟩

/-- C16 in a session: the basic tower pending with 75 gold; the click at `(20, 300)`, 30
units from the path, costs 50 and appends the tower; the click at `(60, 300)`, on the path,
changes nothing. -/
theorem handleClick_place_witness :
    wave1Started.gameStarted = true ∧
    wave1Started.selectedTower = some (Selection.place TowerType.basic) ∧
    wave1Started.gold = 75 ∧
    Game.isValidTowerPlacement mathQ 20 300 = true ∧
    Game.isValidTowerPlacement mathQ 60 300 = false ∧
    ((Game.handleClick mathQ 20 300 wave1Started).gold =
        wave1Started.gold - Game.getTowerCost TowerType.basic ∧
      (∃ t : Tower ℚ, (Game.handleClick mathQ 20 300 wave1Started).towers =
          wave1Started.towers ++ [t] ∧
        t.level = 1 ∧ t.type = TowerType.basic ∧ t.x = 20 ∧ t.y = 300) ∧
      (Game.handleClick mathQ 20 300 wave1Started).selectedTower =
        some (Selection.place TowerType.basic)) ∧
    Game.handleClick mathQ 60 300 wave1Started = wave1Started :=
  ⟨by decide!, by decide!, by decide!, by decide!, by decide!,
    (handleClick_place mathQ 20 300 wave1Started TowerType.basic
      (by decide!) (by decide!) (by decide!)).1 (by decide!),
    (handleClick_place mathQ 60 300 wave1Started TowerType.basic
      (by decide!) (by decide!) (by decide!)).2.1 (by decide!)⟩

/-- C17 in a session: removal pending with 25 gold and the basic tower at `(20, 300)`; a
click on it removes it, and a click at `(400, 20)`, far from it, removes nothing. -/
theorem handleClick_remove_witness :
    removalPending.gameStarted = true ∧
    removalPending.selectedTower = some Selection.remove ∧
    (removalPending.towers.map (fun t => t.id)).Nodup ∧
    removalPending.gold = 25 ∧
    (∃ l1 c l2, removalPending.towers = l1 ++ c :: l2 ∧
      (∀ u ∈ l1, ¬ mathQ.hypot (u.x - 20) (u.y - 300) < 20) ∧
      mathQ.hypot (c.x - 20) (c.y - 300) < 20 ∧
      (Game.handleClick mathQ 20 300 removalPending).towers = l1 ++ l2 ∧
      (Game.handleClick mathQ 20 300 removalPending).gold =
        removalPending.gold + (Game.getTowerCost c.type / 2 : Nat)) ∧
    ((Game.handleClick mathQ 400 20 removalPending).towers = removalPending.towers ∧
      (Game.handleClick mathQ 400 20 removalPending).gold = removalPending.gold) ∧
    (Game.handleClick mathQ 20 300 removalPending).selectedTower = none :=
  ⟨by decide!, by decide!, by decide!, by decide!,
    (handleClick_remove mathQ 20 300 removalPending (by decide!) (by decide!) (by decide!)).1
      (by decide!),
    (handleClick_remove mathQ 400 20 removalPending (by decide!) (by decide!) (by decide!)).2.1
      (by decide!),
    (handleClick_remove mathQ 20 300 removalPending (by decide!) (by decide!)
      (by decide!)).2.2.1⟩

/-! ## Geometry and movement over the reals -/

/-- The distance left after a step of length `s` towards a point at distance `d > 0`. -/
theorem step_towards (dx dy s : ℝ) (hd : 0 < Real.sqrt (dx * dx + dy * dy)) :
    (dx / Real.sqrt (dx * dx + dy * dy)) ^ 2 + (dy / Real.sqrt (dx * dx + dy * dy)) ^ 2 = 1 ∧
    Real.sqrt ((dx - dx / Real.sqrt (dx * dx + dy * dy) * s) *
        (dx - dx / Real.sqrt (dx * dx + dy * dy) * s) +
      (dy - dy / Real.sqrt (dx * dx + dy * dy) * s) *
        (dy - dy / Real.sqrt (dx * dx + dy * dy) * s)) =
      |Real.sqrt (dx * dx + dy * dy) - s| := by
  have hnn : 0 ≤ dx * dx + dy * dy := add_nonneg (mul_self_nonneg _) (mul_self_nonneg _)
  obtain ⟨d, hdef⟩ : ∃ d, d = Real.sqrt (dx * dx + dy * dy) := ⟨_, rfl⟩
  have hsq : d * d = dx * dx + dy * dy := by
    rw [hdef]
    exact Real.mul_self_sqrt hnn
  rw [← hdef] at hd ⊢
  have hne : d ≠ 0 := ne_of_gt hd
  constructor
  · field_simp
    nlinarith [hsq]
  · have e1 : (dx - dx / d * s) * (dx - dx / d * s) + (dy - dy / d * s) * (dy - dy / d * s) =
        (d - s) ^ 2 := by
      have e2 : (dx - dx / d * s) * (dx - dx / d * s) + (dy - dy / d * s) * (dy - dy / d * s) =
          (dx * dx + dy * dy) * ((d - s) / d) ^ 2 := by
        field_simp
        ring
      rw [e2, ← hsq]
      field_simp
      ring
    rw [e1]
    exact Real.sqrt_sq_eq_abs _

/-- `pointToLineDistance` in exact arithmetic. Over the reals, with `Math.sqrt` the square
root: the value of
`pointToLineDistance (x, y, x1, y1, x2, y2)` is the Euclidean distance from `(x, y)` to some
point of the closed segment from `(x1, y1)` to `(x2, y2)` and is at most the distance to
every point of that segment, hence the minimum; when the endpoints coincide it is the
distance to that point; it is never negative, and it is zero exactly when `(x, y)` lies on
the segment. -/
theorem pointToLineDistance_min (rnd : Nat → ℝ) (x y x1 y1 x2 y2 : ℝ) :
    (∃ t : ℝ, 0 ≤ t ∧ t ≤ 1 ∧
      Game.pointToLineDistance (JsMath.ofSqrt Real.sqrt rnd) x y x1 y1 x2 y2 =
        Real.sqrt ((x - (x1 + t * (x2 - x1))) ^ 2 + (y - (y1 + t * (y2 - y1))) ^ 2)) ∧
    (∀ t : ℝ, 0 ≤ t → t ≤ 1 →
      Game.pointToLineDistance (JsMath.ofSqrt Real.sqrt rnd) x y x1 y1 x2 y2 ≤
        Real.sqrt ((x - (x1 + t * (x2 - x1))) ^ 2 + (y - (y1 + t * (y2 - y1))) ^ 2)) ∧
    (x1 = x2 → y1 = y2 →
      Game.pointToLineDistance (JsMath.ofSqrt Real.sqrt rnd) x y x1 y1 x2 y2 =
        Real.sqrt ((x - x1) ^ 2 + (y - y1) ^ 2)) ∧
    0 ≤ Game.pointToLineDistance (JsMath.ofSqrt Real.sqrt rnd) x y x1 y1 x2 y2 ∧
    (Game.pointToLineDistance (JsMath.ofSqrt Real.sqrt rnd) x y x1 y1 x2 y2 = 0 ↔
      ∃ t : ℝ, 0 ≤ t ∧ t ≤ 1 ∧ x = x1 + t * (x2 - x1) ∧ y = y1 + t * (y2 - y1)) := by
  obtain ⟨ts, h0, h1, hd, hc, hmin⟩ :=
    pointToLineDistance_foot (JsMath.ofSqrt Real.sqrt rnd) x y x1 y1 x2 y2
  have hs : (JsMath.ofSqrt Real.sqrt rnd).sqrt = Real.sqrt := rfl
  rw [hs] at hd
  have hsq : ∀ a b : ℝ, a * a + b * b = a ^ 2 + b ^ 2 := fun a b => by ring
  rw [hsq] at hd
  refine ⟨⟨ts, h0, h1, hd⟩, ?_, ?_, ?_, ?_⟩
  · intro t ht0 ht1
    rw [hd]
    apply Real.sqrt_le_sqrt
    have h := hmin t ht0 ht1
    rw [hsq, hsq] at h
    exact h
  · intro e1 e2
    rw [hd, hc e1 e2]
    congr 1
    ring
  · rw [hd]
    exact Real.sqrt_nonneg _
  · constructor
    · intro hz
      rw [hd] at hz
      have hnn : 0 ≤ (x - (x1 + ts * (x2 - x1))) ^ 2 + (y - (y1 + ts * (y2 - y1))) ^ 2 :=
        add_nonneg (sq_nonneg _) (sq_nonneg _)
      have hz2 := (Real.sqrt_eq_zero hnn).mp hz
      have ha : (x - (x1 + ts * (x2 - x1))) ^ 2 = 0 := by
        have := sq_nonneg (x - (x1 + ts * (x2 - x1)))
        have := sq_nonneg (y - (y1 + ts * (y2 - y1)))
        linarith
      have hb : (y - (y1 + ts * (y2 - y1))) ^ 2 = 0 := by
        have := sq_nonneg (x - (x1 + ts * (x2 - x1)))
        have := sq_nonneg (y - (y1 + ts * (y2 - y1)))
        linarith
      have ha2 := pow_eq_zero_iff (two_ne_zero) |>.mp ha
      have hb2 := pow_eq_zero_iff (two_ne_zero) |>.mp hb
      exact ⟨ts, h0, h1, by linarith, by linarith⟩
    · rintro ⟨t, ht0, ht1, hx, hy⟩
      apply le_antisymm
      · have h := hmin t ht0 ht1
        rw [hsq, hsq] at h
        rw [hd]
        have hz : (x - (x1 + t * (x2 - x1))) ^ 2 + (y - (y1 + t * (y2 - y1))) ^ 2 = 0 := by
          rw [← hx, ← hy]
          ring
        rw [hz] at h
        calc Real.sqrt ((x - (x1 + ts * (x2 - x1))) ^ 2 + (y - (y1 + ts * (y2 - y1))) ^ 2)
            ≤ Real.sqrt 0 := Real.sqrt_le_sqrt h
          _ = 0 := Real.sqrt_zero
      · rw [hd]
        exact Real.sqrt_nonneg _

/-- `Enemy.update` in exact arithmetic. Over the reals, with `Math.hypot` the Euclidean
norm. An enemy at the last waypoint
or beyond (`pathIndex` at least 5, the number of waypoints minus one) only gets `reachedEnd`
set. Otherwise, with `d` its distance to waypoint `pathIndex + 1`: if `d < 5` its `pathIndex`
rises by one and its position is unchanged; if not, `pathIndex` is unchanged, the enemy moves
by the unit vector towards the waypoint times `speed * dt`, and its new distance to the
waypoint is `|d - speed * dt|`. Here `speed` is the value used by the move, read after the
freeze timer has been served: it is the speed on entry unless a positive freeze timer
expires in this call, in which case it is `baseSpeed`; the timer of a new enemy is zero and
a zero timer stays zero. -/
theorem enemy_update_moves (rnd : Nat → ℝ) (dt : ℝ) (e : Enemy ℝ) :
    (Game.createPath (K := ℝ)).length - 1 = 5 ∧
    (5 ≤ e.pathIndex →
      Enemy.update (JsMath.ofSqrt Real.sqrt rnd) dt e = { e with reachedEnd := true }) ∧
    (e.pathIndex < 5 →
      (JsMath.ofSqrt Real.sqrt rnd).hypot ((Game.pathAt (e.pathIndex + 1)).x - e.x)
        ((Game.pathAt (e.pathIndex + 1)).y - e.y) < 5 →
      (Enemy.update (JsMath.ofSqrt Real.sqrt rnd) dt e).pathIndex = e.pathIndex + 1 ∧
      (Enemy.update (JsMath.ofSqrt Real.sqrt rnd) dt e).x = e.x ∧
      (Enemy.update (JsMath.ofSqrt Real.sqrt rnd) dt e).y = e.y ∧
      (Enemy.update (JsMath.ofSqrt Real.sqrt rnd) dt e).reachedEnd = e.reachedEnd) ∧
    (e.pathIndex < 5 →
      ¬ (JsMath.ofSqrt Real.sqrt rnd).hypot ((Game.pathAt (e.pathIndex + 1)).x - e.x)
        ((Game.pathAt (e.pathIndex + 1)).y - e.y) < 5 →
      (Enemy.update (JsMath.ofSqrt Real.sqrt rnd) dt e).pathIndex = e.pathIndex ∧
      (Enemy.update (JsMath.ofSqrt Real.sqrt rnd) dt e).reachedEnd = e.reachedEnd ∧
      (Enemy.update (JsMath.ofSqrt Real.sqrt rnd) dt e).x - e.x =
        ((Game.pathAt (e.pathIndex + 1)).x - e.x) /
          (JsMath.ofSqrt Real.sqrt rnd).hypot ((Game.pathAt (e.pathIndex + 1)).x - e.x)
            ((Game.pathAt (e.pathIndex + 1)).y - e.y) *
          ((Enemy.update (JsMath.ofSqrt Real.sqrt rnd) dt e).speed * dt) ∧
      (Enemy.update (JsMath.ofSqrt Real.sqrt rnd) dt e).y - e.y =
        ((Game.pathAt (e.pathIndex + 1)).y - e.y) /
          (JsMath.ofSqrt Real.sqrt rnd).hypot ((Game.pathAt (e.pathIndex + 1)).x - e.x)
            ((Game.pathAt (e.pathIndex + 1)).y - e.y) *
          ((Enemy.update (JsMath.ofSqrt Real.sqrt rnd) dt e).speed * dt) ∧
      (((Game.pathAt (e.pathIndex + 1)).x - e.x) /
          (JsMath.ofSqrt Real.sqrt rnd).hypot ((Game.pathAt (e.pathIndex + 1)).x - e.x)
            ((Game.pathAt (e.pathIndex + 1)).y - e.y)) ^ 2 +
        (((Game.pathAt (e.pathIndex + 1)).y - e.y) /
          (JsMath.ofSqrt Real.sqrt rnd).hypot ((Game.pathAt (e.pathIndex + 1)).x - e.x)
            ((Game.pathAt (e.pathIndex + 1)).y - e.y)) ^ 2 = 1 ∧
      (JsMath.ofSqrt Real.sqrt rnd).hypot
          ((Game.pathAt (e.pathIndex + 1)).x - (Enemy.update (JsMath.ofSqrt Real.sqrt rnd) dt e).x)
          ((Game.pathAt (e.pathIndex + 1)).y - (Enemy.update (JsMath.ofSqrt Real.sqrt rnd) dt e).y) =
        |(JsMath.ofSqrt Real.sqrt rnd).hypot ((Game.pathAt (e.pathIndex + 1)).x - e.x)
            ((Game.pathAt (e.pathIndex + 1)).y - e.y) -
          (Enemy.update (JsMath.ofSqrt Real.sqrt rnd) dt e).speed * dt|) ∧
    (e.freezeTimer ≤ 0 ∨ dt < e.freezeTimer →
      (Enemy.update (JsMath.ofSqrt Real.sqrt rnd) dt e).speed = e.speed) ∧
    (e.pathIndex < 5 → 0 < e.freezeTimer → e.freezeTimer ≤ dt →
      (Enemy.update (JsMath.ofSqrt Real.sqrt rnd) dt e).speed = e.baseSpeed) ∧
    (e.freezeTimer = 0 →
      (Enemy.update (JsMath.ofSqrt Real.sqrt rnd) dt e).freezeTimer = 0) := by
  have hlen : (Game.createPath (K := ℝ)).length - 1 = 5 := rfl
  have hend : 5 ≤ e.pathIndex →
      Enemy.update (JsMath.ofSqrt Real.sqrt rnd) dt e = { e with reachedEnd := true } := by
    intro h
    unfold Enemy.update
    rw [if_pos (by rw [hlen]; exact h)]
  refine ⟨hlen, hend, ?_, ?_, ?_, ?_, ?_⟩
  · intro h hd
    obtain ⟨e1, hx, hy, _, hr, _, _, _, hu⟩ :=
      Enemy_update_served (JsMath.ofSqrt Real.sqrt rnd) dt e h
    rw [hu, if_pos hd]
    exact ⟨rfl, hx, hy, hr⟩
  · intro h hd
    obtain ⟨e1, hx, hy, hp, hr, _, _, _, hu⟩ :=
      Enemy_update_served (JsMath.ofSqrt Real.sqrt rnd) dt e h
    rw [hu, if_neg hd]
    have hpos : 0 < Real.sqrt (((Game.pathAt (e.pathIndex + 1)).x - e.x) *
        ((Game.pathAt (e.pathIndex + 1)).x - e.x) +
        ((Game.pathAt (e.pathIndex + 1)).y - e.y) * ((Game.pathAt (e.pathIndex + 1)).y - e.y)) :=
      lt_of_lt_of_le (by norm_num) (not_lt.mp hd)
    have hst := step_towards ((Game.pathAt (e.pathIndex + 1)).x - e.x)
      ((Game.pathAt (e.pathIndex + 1)).y - e.y) (e1.speed * dt) hpos
    refine ⟨hp, hr, ?_, ?_, hst.1, ?_⟩
    · show e.x + _ - e.x = _
      ring
    · show e.y + _ - e.y = _
      ring
    · refine Eq.trans ?_ hst.2
      dsimp only [JsMath.ofSqrt]
      congr 1
      ring
  · intro hft
    by_cases h : e.pathIndex < 5
    · obtain ⟨e1, _, _, _, _, hs, _, _, hu⟩ :=
        Enemy_update_served (JsMath.ofSqrt Real.sqrt rnd) dt e h
      rw [hu]
      split_ifs
      · exact hs hft
      · exact hs hft
    · rw [hend (not_lt.mp h)]
  · intro h h0 h1
    obtain ⟨e1, _, _, _, _, _, hs, _, hu⟩ :=
      Enemy_update_served (JsMath.ofSqrt Real.sqrt rnd) dt e h
    rw [hu]
    split_ifs
    · exact hs h0 h1
    · exact hs h0 h1
  · intro h0
    by_cases h : e.pathIndex < 5
    · obtain ⟨e1, _, _, _, _, _, _, hz, hu⟩ :=
        Enemy_update_served (JsMath.ofSqrt Real.sqrt rnd) dt e h
      rw [hu]
      split_ifs
      · exact hz h0
      · exact hz h0
    · rw [hend (not_lt.mp h)]
      exact h0

/-! ## Sessions: pause, game over and the counters -/

/-- A session that returns a state returns the state `getD` reads off. -/
theorem run_getD {K : Type} (o : Option (Game K)) (d : Game K) (h : o.isSome = true) :
    o = some (o.getD d) := by
  cases o with
  | none => exact Bool.noConfusion h
  | some a => rfl

/-- The session `earlyKill` is accepted. -/
theorem earlyKillEnd_run : Game.run mathQ earlyKill (Game.load mathQ) = some earlyKillEnd :=
  run_getD _ _ (by decide!)

/-- The session `earlyKill` without its last frame is accepted. -/
theorem earlyKillState_run :
    Game.run mathQ (earlyKill.take 16) (Game.load mathQ) = some earlyKillState :=
  run_getD _ _ (by decide!)

/-- The events of `afterFall` are accepted after the castle has fallen. -/
theorem afterFall_run : Game.run mathQ afterFall castleFallen = some afterFallEnd :=
  run_getD _ _ (by decide!)

/-- C21 on the paused game `pausedGame`: a call of `gameLoop` leaves the dying goblin in
the list and gold at 75, whereas the same call in the running game removes the goblin and
pays its reward. -/
theorem paused_tick_witness :
    pausedGame.isPaused = true ∧
    (Game.gameLoop mathQ 20 pausedGame).enemies = pausedGame.enemies ∧
    (Game.gameLoop mathQ 20 pausedGame).gold = pausedGame.gold ∧
    (Game.gameLoop mathQ 20 pausedGame).wave = pausedGame.wave ∧
    (Game.gameLoop mathQ 20 goblinShot).enemies = [] ∧
    (Game.gameLoop mathQ 20 goblinShot).gold = 80 :=
  have h := paused_tick mathQ 20 pausedGame rfl
  ⟨rfl, h.2.2.2.2.2.2.1, h.2.1, h.2.2.2.1, by decide!, by decide!⟩

/-- C22 on a fallen castle: the spawn timers, the click and the pause button are accepted
and leave castle health, wave and level alone, and no frame is accepted after them. -/
theorem game_over_terminal_witness :
    castleFallen.castleHealth ≤ 0 ∧ castleFallen.frameRequested = false ∧
    Game.run mathQ afterFall castleFallen = some afterFallEnd ∧
    afterFallEnd.castleHealth = castleFallen.castleHealth ∧
    afterFallEnd.wave = castleFallen.wave ∧
    afterFallEnd.frameRequested = false ∧
    (∀ t : ℚ, Game.step mathQ ⟨t, Input.frame⟩ afterFallEnd = none) :=
  have h1 : castleFallen.castleHealth ≤ 0 := by decide!
  have h2 : castleFallen.frameRequested = false := by decide!
  have h := game_over_terminal mathQ afterFall castleFallen afterFallEnd h1 h2 afterFall_run
  ⟨h1, h2, afterFall_run, h.2.1, h.2.2.1, h.2.2.2.2.1, h.2.2.2.2.2.2.1⟩

/-- C23 at the end of the session `earlyKill`. -/
theorem level_of_wave_witness :
    Game.run mathQ earlyKill (Game.load mathQ) = some earlyKillEnd ∧
    1 ≤ earlyKillEnd.wave ∧ earlyKillEnd.level = 1 + (earlyKillEnd.wave - 1) / 20 :=
  have h := level_of_wave mathQ earlyKill earlyKillEnd earlyKillEnd_run
  ⟨earlyKillEnd_run, h.1, h.2.1⟩

/-- C24 at the end of the session `earlyKill`. -/
theorem gold_nonneg_witness :
    Game.run mathQ earlyKill (Game.load mathQ) = some earlyKillEnd ∧
    0 ≤ earlyKillEnd.gold :=
  ⟨earlyKillEnd_run, (gold_nonneg mathQ earlyKill earlyKillEnd earlyKillEnd_run).1⟩

/-- C25 in the session `earlyKill` before its last frame, with one goblin on its way. -/
theorem pathIndex_bounds_witness :
    Game.run mathQ (earlyKill.take 16) (Game.load mathQ) = some earlyKillState ∧
    (∀ e ∈ earlyKillState.enemies ++ earlyKillState.removed,
      e.pathIndex ≤ (Game.createPath (K := ℚ)).length - 1 ∧
      (e.reachedEnd = true → e.pathIndex = (Game.createPath (K := ℚ)).length - 1) ∧
      (e.reachedEnd = true → ∀ (n : Nat) (dt : ℚ), (Enemy.update mathQ dt)^[n] e = e)) :=
  ⟨earlyKillState_run,
    (pathIndex_bounds mathQ (earlyKill.take 16) earlyKillState earlyKillState_run).1⟩

/-- C26 at the end of the session `earlyKill`: the goblin that was shot is in the store of
removed enemies, unfrozen. -/
theorem no_freeze_witness :
    Game.run mathQ earlyKill (Game.load mathQ) = some earlyKillEnd ∧
    (∀ e ∈ earlyKillEnd.enemies ++ earlyKillEnd.removed,
      e.freezeTimer = 0 ∧ e.speed = e.baseSpeed) :=
  ⟨earlyKillEnd_run, (no_freeze mathQ earlyKill earlyKillEnd earlyKillEnd_run).1⟩

/-- C27 on a goblin that stands on the last waypoint with no health left: the filter takes
its charge from castle health and pays nothing. -/
theorem escaped_before_dead_witness :
    (Enemy.update mathQ (1 / 50) goblinSpent).reachedEnd = true ∧
    (Enemy.update mathQ (1 / 50) goblinSpent).health ≤ 0 ∧
    (Game.reapEnemies mathQ (1 / 50) [goblinSpent] goblinAtEnd).1.gold = goblinAtEnd.gold ∧
    (Game.reapEnemies mathQ (1 / 50) [goblinSpent] goblinAtEnd).1.castleHealth =
      goblinAtEnd.castleHealth -
        (((Enemy.update mathQ (1 / 50) goblinSpent).damage +
          (Enemy.update mathQ (1 / 50) goblinSpent).wave / 3 : Nat) : Int) :=
  have h1 : (Enemy.update mathQ (1 / 50) goblinSpent).reachedEnd = true := by decide!
  have h2 : (Enemy.update mathQ (1 / 50) goblinSpent).health ≤ 0 := by decide!
  have h := escaped_before_dead mathQ (1 / 50) goblinSpent [] goblinAtEnd h1 h2
  ⟨h1, h2, h.2.2.2.2.2.1, h.2.2.2.2.2.2.2.1⟩

/-! ## Sessions: a stale stagger callback -/

/-- C28 in a session. From `wave9Stale` the frame at 16 ms completes wave 9, raises the
counter to 10 and spawns the boss at once; the pending callback of wave 9 is still there, and
when it fires at 1000 ms it appends a dragon with health 48 behind the boss. -/
theorem stale_spawn_dragon_witness :
    3 < staleTen.wave ∧ staleTen.wave % 10 = 0 ∧
    Game.run mathQ [⟨16, Input.frame⟩] wave9Stale = some staleTen ∧
    Game.nextTimer staleTen.timers = some ⟨1, 1000, TimerAction.spawnEnemy 8⟩ ∧
    staleTen.enemies.map (fun e => e.type) = [EnemyType.boss] ∧
    (Game.run mathQ [⟨1000, Input.timeout⟩] staleTen).map
        (fun s => s.enemies.map (fun e => (e.type, e.health, e.isBoss))) =
      some [(EnemyType.boss, 100, true), (EnemyType.dragon, 48, false)] ∧
    (∃ e : Enemy ℚ,
      (Game.runTimer mathQ (TimerAction.spawnEnemy 8) staleTen).enemies =
        staleTen.enemies ++ [e] ∧
      e.type = EnemyType.dragon ∧ e.isBoss = false ∧ e.wave = staleTen.wave ∧
      e.health = ((8 * 6 : Nat) : ℚ)) :=
  have h3 : 3 < staleTen.wave := by decide!
  have h10 : staleTen.wave % 10 = 0 := by decide!
  ⟨h3, h10, by decide!, by decide!, by decide!, by decide!,
    (stale_spawn_dragon mathQ 8 staleTen h3 h10).1⟩

/-! ## Sessions: placing and removing -/

/-- The events of `roundTrip` are accepted. -/
theorem roundTrip_run : Game.run mathQ roundTrip wave1Started = some roundTripEnd :=
  run_getD _ _ (by decide!)

/-- C30, the clause on sequences as worded. In the state `removalPending` of the session
`earlyKill` (the tower bought at 220 ms stands at `(20, 300)`, removal is pending, 25 gold),
the sequence that consists of the one removal click on that tower starts with 25 gold and
ends with 50. -/
theorem removal_click_gains_gold :
    (Game.run mathQ (earlyKill.take 6 ++ [⟨230, Input.select Selection.remove⟩])
      (Game.load mathQ)).map (fun s => (s.gold, s.towers.length)) = some (25, 1) ∧
    removalPending.gold = 25 ∧
    (Game.run mathQ [⟨240, Input.click 20 300⟩] removalPending).map
      (fun s => (s.gold, s.towers.length)) = some (50, 0) := by
  decide!

/-- C30 on the round trip `roundTrip`: it starts without towers and ends without towers
and with 50 gold of the 75, the 25 gold between cost and refund of the basic tower lost. -/
theorem place_remove_no_gain_witness :
    (∀ ev ∈ roundTrip, ev.input ≠ Input.frame) ∧
    Game.run mathQ roundTrip wave1Started = some roundTripEnd ∧
    wave1Started.towers = [] ∧ roundTripEnd.gold ≤ wave1Started.gold ∧
    (Game.run mathQ roundTrip wave1Started).map (fun s => (s.gold, s.towers.length)) =
      some (50, 0) :=
  have h0 : wave1Started.towers = [] := by decide!
  ⟨by decide, roundTrip_run, h0,
    (place_remove_no_gain mathQ roundTrip wave1Started roundTripEnd (by decide)
      roundTrip_run).2.1 h0, by decide!⟩

/-! ## Projectiles over the reals -/

/-- One update of a projectile in flight at distance at least 5 from a target that stays
where it is: the projectile moves by `300 * dt` towards the target, the stores are untouched,
and the distance left is `|d - 300 * dt|`. -/
theorem projectile_step (rnd : Nat → ℝ) (dt : ℝ) (p : Projectile ℝ)
    (live removed : List (Enemy ℝ)) (target : Enemy ℝ)
    (hh : p.hit = false) (hs : p.speed = 300)
    (ht : findEnemy p.target live removed = some target)
    (hd : ¬ (JsMath.ofSqrt Real.sqrt rnd).hypot (target.x - p.x) (target.y - p.y) < 5) :
    Projectile.update (JsMath.ofSqrt Real.sqrt rnd) dt p live removed =
      ({ p with
          x := p.x + (target.x - p.x) /
            (JsMath.ofSqrt Real.sqrt rnd).hypot (target.x - p.x) (target.y - p.y) * (300 * dt),
          y := p.y + (target.y - p.y) /
            (JsMath.ofSqrt Real.sqrt rnd).hypot (target.x - p.x) (target.y - p.y) * (300 * dt) },
        live, removed) ∧
    (JsMath.ofSqrt Real.sqrt rnd).hypot
        (target.x - (Projectile.update (JsMath.ofSqrt Real.sqrt rnd) dt p live removed).1.x)
        (target.y - (Projectile.update (JsMath.ofSqrt Real.sqrt rnd) dt p live removed).1.y) =
      |(JsMath.ofSqrt Real.sqrt rnd).hypot (target.x - p.x) (target.y - p.y) - 300 * dt| := by
  have hu := (Projectile_update_flying (JsMath.ofSqrt Real.sqrt rnd) dt p live removed hh
    target ht).2 hd
  have hu' : Projectile.update (JsMath.ofSqrt Real.sqrt rnd) dt p live removed =
      ({ p with
          x := p.x + (target.x - p.x) /
            (JsMath.ofSqrt Real.sqrt rnd).hypot (target.x - p.x) (target.y - p.y) * (300 * dt),
          y := p.y + (target.y - p.y) /
            (JsMath.ofSqrt Real.sqrt rnd).hypot (target.x - p.x) (target.y - p.y) * (300 * dt) },
        live, removed) := by
    rw [hu, hs]
    have e1 : ∀ a : ℝ, a * 300 * dt = a * (300 * dt) := fun a => by ring
    rw [e1, e1]
  refine ⟨hu', ?_⟩
  rw [hu']
  have hpos : 0 < Real.sqrt ((target.x - p.x) * (target.x - p.x) +
      (target.y - p.y) * (target.y - p.y)) :=
    lt_of_lt_of_le (by norm_num) (not_lt.mp hd)
  have hst := (step_towards (target.x - p.x) (target.y - p.y) (300 * dt) hpos).2
  refine Eq.trans ?_ hst
  dsimp only [JsMath.ofSqrt]
  congr 1
  ring

/-- A projectile in flight at distance at most `k * (300 * dt)` from a target that stays
where it is, with `0 < 300 * dt < 10`, is marked hit after at most `k + 1` updates. -/
theorem projectile_within (rnd : Nat → ℝ) (dt : ℝ) (live removed : List (Enemy ℝ))
    (target : Enemy ℝ) (h1 : 300 * dt < 10) (k : Nat) :
    ∀ p : Projectile ℝ, p.hit = false → p.speed = 300 →
      findEnemy p.target live removed = some target →
      (JsMath.ofSqrt Real.sqrt rnd).hypot (target.x - p.x) (target.y - p.y) ≤ k * (300 * dt) →
      ∃ n, n ≤ k + 1 ∧
        (Projectile.updates (JsMath.ofSqrt Real.sqrt rnd) (List.replicate n dt) p live
          removed).1.hit = true := by
  have hitnow : ∀ p : Projectile ℝ, p.hit = false →
      findEnemy p.target live removed = some target →
      (JsMath.ofSqrt Real.sqrt rnd).hypot (target.x - p.x) (target.y - p.y) < 5 →
      (Projectile.updates (JsMath.ofSqrt Real.sqrt rnd) (List.replicate 1 dt) p live
        removed).1.hit = true := by
    intro p hh ht hd
    have hu := (Projectile_update_flying (JsMath.ofSqrt Real.sqrt rnd) dt p live removed hh
      target ht).1 hd
    show (Projectile.updates (JsMath.ofSqrt Real.sqrt rnd) [dt] p live removed).1.hit = true
    rw [Projectile.updates, hu]
    rfl
  induction k with
  | zero =>
    intro p hh _ ht hd
    refine ⟨1, le_refl _, hitnow p hh ht ?_⟩
    have : (JsMath.ofSqrt Real.sqrt rnd).hypot (target.x - p.x) (target.y - p.y) ≤ 0 := by
      simpa using hd
    linarith
  | succ k ih =>
    intro p hh hs ht hd
    by_cases h5 : (JsMath.ofSqrt Real.sqrt rnd).hypot (target.x - p.x) (target.y - p.y) < 5
    · exact ⟨1, by omega, hitnow p hh ht h5⟩
    · obtain ⟨hu, hdist⟩ := projectile_step rnd dt p live removed target hh hs ht h5
      have hnext : ∀ n, Projectile.updates (JsMath.ofSqrt Real.sqrt rnd)
          (List.replicate (n + 1) dt) p live removed =
          Projectile.updates (JsMath.ofSqrt Real.sqrt rnd) (List.replicate n dt)
            (Projectile.update (JsMath.ofSqrt Real.sqrt rnd) dt p live removed).1 live
            removed := by
        intro n
        rw [List.replicate_succ, Projectile.updates, hu]
      have hh' : (Projectile.update (JsMath.ofSqrt Real.sqrt rnd) dt p live removed).1.hit =
          false := by rw [hu]; exact hh
      have hs' : (Projectile.update (JsMath.ofSqrt Real.sqrt rnd) dt p live removed).1.speed =
          300 := by rw [hu]; exact hs
      have ht' : findEnemy
          (Projectile.update (JsMath.ofSqrt Real.sqrt rnd) dt p live removed).1.target live
          removed = some target := by rw [hu]; exact ht
      by_cases hge : 300 * dt ≤
          (JsMath.ofSqrt Real.sqrt rnd).hypot (target.x - p.x) (target.y - p.y)
      · have hd' : (JsMath.ofSqrt Real.sqrt rnd).hypot
            (target.x - (Projectile.update (JsMath.ofSqrt Real.sqrt rnd) dt p live removed).1.x)
            (target.y - (Projectile.update (JsMath.ofSqrt Real.sqrt rnd) dt p live removed).1.y)
            ≤ k * (300 * dt) := by
          rw [hdist, abs_of_nonneg (by linarith)]
          push_cast at hd
          linarith
        obtain ⟨n, hn, hhit⟩ := ih _ hh' hs' ht' hd'
        exact ⟨n + 1, by omega, by rw [hnext]; exact hhit⟩
      · have hd' : (JsMath.ofSqrt Real.sqrt rnd).hypot
            (target.x - (Projectile.update (JsMath.ofSqrt Real.sqrt rnd) dt p live removed).1.x)
            (target.y - (Projectile.update (JsMath.ofSqrt Real.sqrt rnd) dt p live removed).1.y)
            < 5 := by
          rw [hdist, abs_of_nonpos (by linarith)]
          have := not_lt.mp h5
          linarith
        exact ⟨1 + 1, by omega, by rw [hnext]; exact hitnow _ hh' ht' hd'⟩

/-- With `300 * dt = 10` a projectile at distance exactly 5 from a target that stays where it
is jumps from one side of the target to the other for ever. -/
theorem projectile_swings (rnd : Nat → ℝ) (n : Nat) :
    ∀ p : Projectile ℝ, p.hit = false → p.speed = 300 → p.target = 7 → p.y = 0 →
      (p.x = 0 ∨ p.x = 10) →
      (Projectile.updates (JsMath.ofSqrt Real.sqrt rnd) (List.replicate n (1 / 30)) p
        [Enemy.init 7 5 0 1 1] []).1.hit = false := by
  induction n with
  | zero =>
    intro p hh _ _ _ _
    exact hh
  | succ n ih =>
    intro p hh hs ht hy hx
    have hf : findEnemy p.target [Enemy.init 7 5 0 1 1] ([] : List (Enemy ℝ)) =
        some (Enemy.init 7 5 0 1 1) := by
      rw [ht]
      rfl
    have h25 : Real.sqrt 25 = 5 := by
      rw [show (25 : ℝ) = 5 * 5 by norm_num]
      exact Real.sqrt_mul_self (by norm_num)
    have hd : (JsMath.ofSqrt Real.sqrt rnd).hypot ((Enemy.init 7 5 0 1 1 : Enemy ℝ).x - p.x)
        ((Enemy.init 7 5 0 1 1 : Enemy ℝ).y - p.y) = 5 := by
      show Real.sqrt ((5 - p.x) * (5 - p.x) + (0 - p.y) * (0 - p.y)) = 5
      rw [hy]
      rcases hx with hx | hx
      · rw [hx]
        norm_num
        exact h25
      · rw [hx]
        norm_num
        exact h25
    have h5 : ¬ (JsMath.ofSqrt Real.sqrt rnd).hypot ((Enemy.init 7 5 0 1 1 : Enemy ℝ).x - p.x)
        ((Enemy.init 7 5 0 1 1 : Enemy ℝ).y - p.y) < 5 := by
      rw [hd]
      exact lt_irrefl 5
    have hu := (projectile_step rnd (1 / 30) p [Enemy.init 7 5 0 1 1] [] (Enemy.init 7 5 0 1 1)
      hh hs hf h5).1
    rw [List.replicate_succ, Projectile.updates, hu]
    apply ih
    · exact hh
    · exact hs
    · exact ht
    · show p.y + (0 - p.y) / _ * (300 * (1 / 30)) = 0
      rw [hy]
      norm_num
    · have hx5 : (Enemy.init 7 5 0 1 1 : Enemy ℝ).x = 5 := rfl
      show p.x + ((Enemy.init 7 5 0 1 1 : Enemy ℝ).x - p.x) /
          (JsMath.ofSqrt Real.sqrt rnd).hypot
          ((Enemy.init 7 5 0 1 1 : Enemy ℝ).x - p.x) ((Enemy.init 7 5 0 1 1 : Enemy ℝ).y - p.y) *
          (300 * (1 / 30)) = 0 ∨ _ = 10
      rw [hd, hx5]
      rcases hx with hx | hx
      · right
        rw [hx]
        norm_num
      · left
        rw [hx]
        norm_num

/-- `Projectile.update` in exact arithmetic. Over the reals, with `Math.hypot` the
Euclidean norm. A projectile in flight with
the speed 300 of the constructor, at distance `d ≥ 5` from a target that stays where it is,
and a time step with `0 < 300 * dt < 10`: one update touches no enemy, moves the projectile
along the line to the target by `300 * dt`, and leaves it at distance `|d - 300 * dt|`, which
is less than `d`; and after at most `⌈d / (300 * dt)⌉ + 1` updates the projectile is marked
hit. With `300 * dt = 10` and `d = 5` it is never marked hit. -/
theorem projectile_arrives (rnd : Nat → ℝ) (dt : ℝ) (p : Projectile ℝ)
    (live removed : List (Enemy ℝ)) (target : Enemy ℝ)
    (hh : p.hit = false) (hs : p.speed = 300)
    (ht : findEnemy p.target live removed = some target)
    (hd : 5 ≤ (JsMath.ofSqrt Real.sqrt rnd).hypot (target.x - p.x) (target.y - p.y))
    (h0 : 0 < 300 * dt) (h1 : 300 * dt < 10) :
    (Projectile.update (JsMath.ofSqrt Real.sqrt rnd) dt p live removed).2 = (live, removed) ∧
    (Projectile.update (JsMath.ofSqrt Real.sqrt rnd) dt p live removed).1.x - p.x =
      (target.x - p.x) / (JsMath.ofSqrt Real.sqrt rnd).hypot (target.x - p.x) (target.y - p.y) *
        (300 * dt) ∧
    (Projectile.update (JsMath.ofSqrt Real.sqrt rnd) dt p live removed).1.y - p.y =
      (target.y - p.y) / (JsMath.ofSqrt Real.sqrt rnd).hypot (target.x - p.x) (target.y - p.y) *
        (300 * dt) ∧
    (JsMath.ofSqrt Real.sqrt rnd).hypot
        (target.x - (Projectile.update (JsMath.ofSqrt Real.sqrt rnd) dt p live removed).1.x)
        (target.y - (Projectile.update (JsMath.ofSqrt Real.sqrt rnd) dt p live removed).1.y) =
      |(JsMath.ofSqrt Real.sqrt rnd).hypot (target.x - p.x) (target.y - p.y) - 300 * dt| ∧
    |(JsMath.ofSqrt Real.sqrt rnd).hypot (target.x - p.x) (target.y - p.y) - 300 * dt| <
      (JsMath.ofSqrt Real.sqrt rnd).hypot (target.x - p.x) (target.y - p.y) ∧
    (∃ n, n ≤ ⌈(JsMath.ofSqrt Real.sqrt rnd).hypot (target.x - p.x) (target.y - p.y) /
          (300 * dt)⌉₊ + 1 ∧
      (Projectile.updates (JsMath.ofSqrt Real.sqrt rnd) (List.replicate n dt) p live
        removed).1.hit = true) ∧
    (∀ n, (Projectile.updates (JsMath.ofSqrt Real.sqrt rnd) (List.replicate n (1 / 30))
      (Projectile.create 0 0 7 1) [Enemy.init 7 5 0 1 1] []).1.hit = false) := by
  have h5 : ¬ (JsMath.ofSqrt Real.sqrt rnd).hypot (target.x - p.x) (target.y - p.y) < 5 :=
    not_lt.mpr hd
  obtain ⟨hu, hdist⟩ := projectile_step rnd dt p live removed target hh hs ht h5
  refine ⟨by rw [hu], ?_, ?_, hdist, ?_, ?_, ?_⟩
  · rw [hu]
    show p.x + _ - p.x = _
    ring
  · rw [hu]
    show p.y + _ - p.y = _
    ring
  · rw [abs_lt]
    constructor <;> linarith
  · apply projectile_within rnd dt live removed target h1 _ p hh hs ht
    have hc := Nat.le_ceil ((JsMath.ofSqrt Real.sqrt rnd).hypot (target.x - p.x)
      (target.y - p.y) / (300 * dt))
    rw [div_le_iff₀ h0] at hc
    exact hc
  · intro n
    exact projectile_swings rnd n (Projectile.create 0 0 7 1) rfl rfl rfl rfl (Or.inl rfl)

/-- The exact flight at a point: a projectile 20 units from its target, steps of 10 ms
(3 units). -/
theorem projectile_arrives_witness :
    (Projectile.create (0 : ℝ) 0 7 1).hit = false ∧
    (Projectile.create (0 : ℝ) 0 7 1).speed = 300 ∧
    (0 : ℝ) < 300 * (1 / 100) ∧ (300 : ℝ) * (1 / 100) < 10 ∧
    (JsMath.ofSqrt Real.sqrt (fun _ => 0)).hypot ((Enemy.init 7 20 0 1 1 : Enemy ℝ).x - 0)
      ((Enemy.init 7 20 0 1 1 : Enemy ℝ).y - 0) = 20 ∧
    ∃ n, n ≤ ⌈(JsMath.ofSqrt Real.sqrt (fun _ => 0)).hypot
          ((Enemy.init 7 20 0 1 1 : Enemy ℝ).x - (Projectile.create (0 : ℝ) 0 7 1).x)
          ((Enemy.init 7 20 0 1 1 : Enemy ℝ).y - (Projectile.create (0 : ℝ) 0 7 1).y) /
          (300 * (1 / 100))⌉₊ + 1 ∧
      (Projectile.updates (JsMath.ofSqrt Real.sqrt (fun _ => 0)) (List.replicate n (1 / 100))
        (Projectile.create 0 0 7 1) [Enemy.init 7 20 0 1 1] []).1.hit = true := by
  have h20 : (JsMath.ofSqrt Real.sqrt (fun _ => 0)).hypot ((Enemy.init 7 20 0 1 1 : Enemy ℝ).x - 0)
      ((Enemy.init 7 20 0 1 1 : Enemy ℝ).y - 0) = 20 := by
    show Real.sqrt ((20 - 0) * (20 - 0) + (0 - 0) * (0 - 0)) = 20
    rw [show ((20 : ℝ) - 0) * (20 - 0) + (0 - 0) * (0 - 0) = 20 * 20 by norm_num]
    exact Real.sqrt_mul_self (by norm_num)
  exact ⟨rfl, rfl, by norm_num, by norm_num, h20,
    (projectile_arrives (fun _ => 0) (1 / 100) (Projectile.create 0 0 7 1)
      [Enemy.init 7 20 0 1 1] [] (Enemy.init 7 20 0 1 1) rfl rfl rfl
      (by
        show (5 : ℝ) ≤ (JsMath.ofSqrt Real.sqrt (fun _ => 0)).hypot
          ((Enemy.init 7 20 0 1 1 : Enemy ℝ).x - 0) ((Enemy.init 7 20 0 1 1 : Enemy ℝ).y - 0)
        rw [h20]
        norm_num)
      (by norm_num) (by norm_num)).2.2.2.2.2.1⟩

/-! ## Double arithmetic: the rounding error -/

/-- With enough fuel, `log2Fuel` is the binary logarithm rounded down. -/
theorem log2Fuel_spec (fuel n : Nat) (h0 : 0 < n) (h : n < 2 ^ fuel) :
    2 ^ log2Fuel fuel n ≤ n ∧ n < 2 ^ (log2Fuel fuel n + 1) := by
  induction fuel generalizing n with
  | zero =>
    simp at h
    omega
  | succ f ih =>
    unfold log2Fuel
    split_ifs with h2
    · have h3 : n / 2 < 2 ^ f := by
        rw [pow_succ] at h
        omega
      obtain ⟨i1, i2⟩ := ih (n / 2) (by omega) h3
      constructor
      · rw [pow_succ]
        omega
      · rw [pow_succ]
        omega
    · constructor
      · simp
        omega
      · simp
        omega

/-- The binary logarithm of a positive number: `2 ^ log2Nat n ≤ n < 2 ^ (log2Nat n + 1)`. -/
theorem log2Nat_spec (n : Nat) (h0 : n ≠ 0) :
    2 ^ log2Nat n ≤ n ∧ n < 2 ^ (log2Nat n + 1) :=
  log2Fuel_spec n n (Nat.pos_of_ne_zero h0) (Nat.lt_two_pow n)

section DoublesTheorems

variable {K : Type} [LinearOrderedField K] [FloorRing K]

/-- Rounding to the nearest integer moves a number by at most one half. -/
theorem roundEven_err (t : K) : |(roundEven t : K) - t| ≤ 1 / 2 := by
  have h0 := Int.fract_nonneg t
  have h1 := Int.fract_lt_one t
  have hf : (⌊t⌋ : K) = t - Int.fract t := by
    rw [Int.fract]
    ring
  unfold roundEven
  split_ifs with c1 c2 c3
  · rw [hf, abs_le]
    constructor <;> linarith
  · push_cast
    rw [hf, abs_le]
    constructor <;> linarith
  · rw [hf, abs_le]
    constructor <;> linarith
  · push_cast
    rw [hf, abs_le]
    constructor <;> linarith

/-- Rounding to the nearest integer keeps numbers that are not negative that way. -/
theorem roundEven_nonneg (t : K) (h : 0 ≤ t) : 0 ≤ roundEven t := by
  have h0 : 0 ≤ ⌊t⌋ := Int.floor_nonneg.mpr h
  unfold roundEven
  split_ifs <;> omega

/-- The binary exponent of a positive number `a`: `2 ^ binExp a ≤ a < 2 ^ (binExp a + 1)`. -/
theorem binExp_spec (a : K) (h : 0 < a) :
    (2 : K) ^ binExp a ≤ a ∧ a < (2 : K) ^ (binExp a + 1) := by
  have h2 : (0 : K) < 2 := by norm_num
  unfold binExp
  split_ifs with c1 c2
  · have hn : ⌊a⌋₊ ≠ 0 := by
      have : 1 ≤ ⌊a⌋₊ := Nat.one_le_floor_iff _ |>.mpr c1
      omega
    have hl : 2 ^ log2Nat ⌊a⌋₊ ≤ ⌊a⌋₊ := (log2Nat_spec _ hn).1
    have hu : ⌊a⌋₊ < 2 ^ (log2Nat ⌊a⌋₊ + 1) := (log2Nat_spec _ hn).2
    constructor
    · rw [zpow_natCast]
      calc (2 : K) ^ log2Nat ⌊a⌋₊ = ((2 ^ log2Nat ⌊a⌋₊ : ℕ) : K) := by push_cast; rfl
        _ ≤ (⌊a⌋₊ : K) := by exact_mod_cast hl
        _ ≤ a := Nat.floor_le h.le
    · have e : ((log2Nat ⌊a⌋₊ : ℤ) + 1) = ((log2Nat ⌊a⌋₊ + 1 : ℕ) : ℤ) := by push_cast; rfl
      rw [e, zpow_natCast]
      calc a < (⌊a⌋₊ : K) + 1 := Nat.lt_floor_add_one a
        _ ≤ ((2 ^ (log2Nat ⌊a⌋₊ + 1) : ℕ) : K) := by exact_mod_cast hu
        _ = (2 : K) ^ (log2Nat ⌊a⌋₊ + 1) := by push_cast; rfl
  · constructor
    · rw [zpow_neg, zpow_natCast]
      exact c2.ge
    · rw [zpow_add₀ h2.ne', zpow_neg, zpow_natCast, zpow_one, ← c2]
      linarith
  · have ha1 : a < 1 := not_le.mp c1
    have hinv : 1 < a⁻¹ := one_lt_inv₀ h |>.mpr ha1
    have hn : ⌊a⁻¹⌋₊ ≠ 0 := by
      have : 1 ≤ ⌊a⁻¹⌋₊ := Nat.one_le_floor_iff _ |>.mpr hinv.le
      omega
    have hl : 2 ^ log2Nat ⌊a⁻¹⌋₊ ≤ ⌊a⁻¹⌋₊ := (log2Nat_spec _ hn).1
    have hu : ⌊a⁻¹⌋₊ < 2 ^ (log2Nat ⌊a⁻¹⌋₊ + 1) := (log2Nat_spec _ hn).2
    have hl' : (2 : K) ^ log2Nat ⌊a⁻¹⌋₊ ≤ a⁻¹ :=
      calc (2 : K) ^ log2Nat ⌊a⁻¹⌋₊ = ((2 ^ log2Nat ⌊a⁻¹⌋₊ : ℕ) : K) := by push_cast; rfl
        _ ≤ (⌊a⁻¹⌋₊ : K) := by exact_mod_cast hl
        _ ≤ a⁻¹ := Nat.floor_le (inv_pos.mpr h).le
    have hu' : a⁻¹ < (2 : K) ^ (log2Nat ⌊a⁻¹⌋₊ + 1) :=
      calc a⁻¹ < (⌊a⁻¹⌋₊ : K) + 1 := Nat.lt_floor_add_one _
        _ ≤ ((2 ^ (log2Nat ⌊a⁻¹⌋₊ + 1) : ℕ) : K) := by exact_mod_cast hu
        _ = (2 : K) ^ (log2Nat ⌊a⁻¹⌋₊ + 1) := by push_cast; rfl
    have hp : (0 : K) < (2 : K) ^ log2Nat ⌊a⁻¹⌋₊ := by positivity
    have hp1 : (0 : K) < (2 : K) ^ (log2Nat ⌊a⁻¹⌋₊ + 1) := by positivity
    constructor
    · have e : -((log2Nat ⌊a⁻¹⌋₊ : ℤ) + 1) = -((log2Nat ⌊a⁻¹⌋₊ + 1 : ℕ) : ℤ) := by
        push_cast; rfl
      rw [e, zpow_neg, zpow_natCast]
      rw [inv_le_comm₀ hp1 h]
      exact hu'.le
    · have e : -((log2Nat ⌊a⁻¹⌋₊ : ℤ) + 1) + 1 = -(log2Nat ⌊a⁻¹⌋₊ : ℤ) := by ring
      rw [e, zpow_neg, zpow_natCast]
      have hle : a ≤ ((2 : K) ^ log2Nat ⌊a⁻¹⌋₊)⁻¹ := by
        rw [le_inv_comm₀ h hp]
        exact hl'
      exact lt_of_le_of_ne hle c2

/-- Zero is a double. -/
theorem f64_zero : f64 (0 : K) = 0 := by
  unfold f64 roundEven
  simp

/-- The rounding error of `f64`: half a unit in the last place, which is at most the relative
error `2 ^ -53` for normal numbers and the absolute error `2 ^ -1075` for subnormal ones. -/
theorem f64_err (q : K) : |f64 q - q| ≤ |q| / 2 ^ 53 + 1 / 2 ^ 1075 := by
  have h2 : (0 : K) < 2 := by norm_num
  have hP : (0 : K) < (2 : K) ^ f64Exp q := zpow_pos h2 _
  have hr := roundEven_err (q / (2 : K) ^ f64Exp q)
  have hdiff : f64 q - q =
      ((roundEven (q / (2 : K) ^ f64Exp q) : K) - q / (2 : K) ^ f64Exp q) * (2 : K) ^ f64Exp q := by
    unfold f64
    field_simp
  have hhalf : |f64 q - q| ≤ (2 : K) ^ f64Exp q / 2 := by
    rw [hdiff, abs_mul, abs_of_pos hP]
    calc _ ≤ 1 / 2 * (2 : K) ^ f64Exp q := mul_le_mul_of_nonneg_right hr hP.le
      _ = _ := by ring
  by_cases hq : q = 0
  · rw [hq, f64_zero]
    simp
  have hq' : 0 < |q| := abs_pos.mpr hq
  have hb := (binExp_spec |q| hq').1
  rcases max_cases (binExp |q| - 52) (-1074) with ⟨he, _⟩ | ⟨he, _⟩
  · have he' : f64Exp q = binExp |q| - 52 := he
    rw [he'] at hhalf
    have e1 : (2 : K) ^ (binExp |q| - 52) = (2 : K) ^ binExp |q| / 2 ^ 52 := by
      rw [zpow_sub₀ h2.ne']
      norm_cast
    rw [e1] at hhalf
    have : (2 : K) ^ binExp |q| / 2 ^ 52 / 2 ≤ |q| / 2 ^ 53 := by
      rw [div_div, div_le_div_iff₀ (by positivity) (by positivity)]
      nlinarith
    have h3 : (0 : K) ≤ 1 / 2 ^ 1075 := by positivity
    linarith
  · have he' : f64Exp q = -1074 := he
    rw [he'] at hhalf
    have e1 : (2 : K) ^ (-1074 : ℤ) / 2 = 1 / 2 ^ 1075 := by
      have e2 : (-1074 : ℤ) = -((1074 : ℕ) : ℤ) := rfl
      rw [e2, zpow_neg, zpow_natCast, show (2 : K) ^ 1075 = 2 ^ 1074 * 2 from pow_succ _ _]
      field_simp
    rw [e1] at hhalf
    have h3 : (0 : K) ≤ |q| / 2 ^ 53 := by positivity
    linarith

/-- The double nearest to a number that is not negative is not negative. -/
theorem f64_nonneg (q : K) (h : 0 ≤ q) : 0 ≤ f64 q := by
  have h2 : (0 : K) < 2 := by norm_num
  have hP : (0 : K) < (2 : K) ^ f64Exp q := zpow_pos h2 _
  unfold f64
  apply mul_nonneg _ hP.le
  exact_mod_cast roundEven_nonneg _ (div_nonneg h hP.le)

/-- Rounding to the nearest integer keeps numbers that are not positive that way. -/
theorem roundEven_nonpos (t : K) (h : t ≤ 0) : roundEven t ≤ 0 := by
  have h0 : ⌊t⌋ ≤ 0 := Int.floor_nonpos h
  have h1 : 0 < Int.fract t → ⌊t⌋ + 1 ≤ 0 := by
    intro hf
    have h2 : (⌊t⌋ : K) < t := by
      have := Int.self_sub_floor t
      linarith
    have h3 : (⌊t⌋ : K) < ((0 : ℤ) : K) := by
      rw [Int.cast_zero]
      exact lt_of_lt_of_le h2 h
    have h4 : ⌊t⌋ < 0 := Int.cast_lt.mp h3
    omega
  unfold roundEven
  split_ifs with c1 c2 c3
  · exact h0
  · exact h1 (by linarith)
  · exact h0
  · exact h1 (by linarith)

/-- The double nearest to a number that is not positive is not positive. -/
theorem f64_nonpos (q : K) (h : q ≤ 0) : f64 q ≤ 0 := by
  have h2 : (0 : K) < 2 := by norm_num
  have hP : (0 : K) < (2 : K) ^ f64Exp q := zpow_pos h2 _
  unfold f64
  apply mul_nonpos_of_nonpos_of_nonneg _ hP.le
  exact_mod_cast roundEven_nonpos _ (div_nonpos_of_nonpos_of_nonneg h hP.le)

end DoublesTheorems

/-- The rounding error of `f64` with a coarser absolute term. -/
theorem f64_near {K : Type} [LinearOrderedField K] [FloorRing K] (q Z : K) (h : |q| ≤ Z) :
    |f64 q - q| ≤ Z / 2 ^ 53 + 1 / 2 ^ 200 := by
  have h1 := f64_err q
  have h2 : (1 : K) / 2 ^ 1075 ≤ 1 / 2 ^ 200 :=
    one_div_le_one_div_of_le (by positivity) (pow_le_pow_right₀ (by norm_num) (by norm_num))
  have h3 : |q| / 2 ^ 53 ≤ Z / 2 ^ 53 := div_le_div_of_nonneg_right h (by positivity)
  linarith

/-- Distances in the plane: moving both points changes the distance by at most the sum of
the coordinate changes. -/
theorem hyp_sub_le (p q r t : ℝ) :
    |Real.sqrt (p * p + q * q) - Real.sqrt (r * r + t * t)| ≤ |p - r| + |q - t| := by
  have h1 : Real.sqrt (p * p + q * q) = Complex.abs ⟨p, q⟩ := by
    rw [Complex.abs_apply, Complex.normSq_mk]
  have h2 : Real.sqrt (r * r + t * t) = Complex.abs ⟨r, t⟩ := by
    rw [Complex.abs_apply, Complex.normSq_mk]
  rw [h1, h2]
  calc |Complex.abs ⟨p, q⟩ - Complex.abs ⟨r, t⟩|
      ≤ Complex.abs ((⟨p, q⟩ : ℂ) - ⟨r, t⟩) := Complex.abs.abs_abv_sub_le_abv_sub _ _
    _ ≤ |((⟨p, q⟩ : ℂ) - ⟨r, t⟩).re| + |((⟨p, q⟩ : ℂ) - ⟨r, t⟩).im| :=
        Complex.abs_le_abs_re_add_abs_im _
    _ = |p - r| + |q - t| := by simp

/-- A coordinate is at most the distance. -/
theorem abs_le_hyp (a b : ℝ) : |a| ≤ Real.sqrt (a * a + b * b) := by
  apply Real.abs_le_sqrt
  nlinarith [mul_self_nonneg b]

/-- The distance `Math.hypot` computes from the rounded differences, for a `Math.hypot` whose
error is at most `2 ^ -50` of the true value plus `2 ^ -1074`. -/
theorem hypot_near (hyp : ℝ → ℝ → ℝ)
    (hh : ∀ a b : ℝ, |hyp a b - Real.sqrt (a * a + b * b)| ≤
      Real.sqrt (a * a + b * b) / 2 ^ 50 + 1 / 2 ^ 1074)
    (a b : ℝ) :
    |hyp (f64 a) (f64 b) - Real.sqrt (a * a + b * b)| ≤
      Real.sqrt (a * a + b * b) / 2 ^ 49 + 1 / 2 ^ 190 := by
  have hd0 : 0 ≤ Real.sqrt (a * a + b * b) := Real.sqrt_nonneg _
  have ha := f64_near a _ (abs_le_hyp a b)
  have hb2 : |b| ≤ Real.sqrt (a * a + b * b) := by
    rw [add_comm]
    exact abs_le_hyp b a
  have hb := f64_near b _ hb2
  have hn := hyp_sub_le (f64 a) (f64 b) a b
  have hD := hh (f64 a) (f64 b)
  have hn1 := (abs_le.mp hn).2
  have hn2 := (abs_le.mp hn).1
  have hD1 := abs_le.mp hD
  have t1 : (1 : ℝ) / 2 ^ 200 ≤ 1 / 2 ^ 192 :=
    one_div_le_one_div_of_le (by positivity) (pow_le_pow_right₀ (by norm_num) (by norm_num))
  have t2 : (1 : ℝ) / 2 ^ 190 = 4 * (1 / 2 ^ 192) := by norm_num
  have t3 : (1 : ℝ) / 2 ^ 1074 ≤ 1 / 2 ^ 192 :=
    one_div_le_one_div_of_le (by positivity) (pow_le_pow_right₀ (by norm_num) (by norm_num))
  rw [abs_le]
  constructor
  · have : Real.sqrt (f64 a * f64 a + f64 b * f64 b) / 2 ^ 50 ≤
        (Real.sqrt (a * a + b * b) + (|f64 a - a| + |f64 b - b|)) / 2 ^ 50 :=
      div_le_div_of_nonneg_right (by linarith) (by positivity)
    have h50 : (Real.sqrt (a * a + b * b) + (|f64 a - a| + |f64 b - b|)) / 2 ^ 50 ≤
        Real.sqrt (a * a + b * b) + (|f64 a - a| + |f64 b - b|) := by
      apply div_le_self (by positivity)
      norm_num
    linarith
  · have : Real.sqrt (f64 a * f64 a + f64 b * f64 b) / 2 ^ 50 ≤
        (Real.sqrt (a * a + b * b) + (|f64 a - a| + |f64 b - b|)) / 2 ^ 50 :=
      div_le_div_of_nonneg_right (by linarith) (by positivity)
    have h50 : (Real.sqrt (a * a + b * b) + (|f64 a - a| + |f64 b - b|)) / 2 ^ 50 =
        Real.sqrt (a * a + b * b) / 2 ^ 50 + (|f64 a - a| + |f64 b - b|) / 2 ^ 50 := by ring
    have h51 : (|f64 a - a| + |f64 b - b|) / 2 ^ 50 ≤ |f64 a - a| + |f64 b - b| := by
      apply div_le_self (by positivity)
      norm_num
    linarith

/-- The step `(n / distance) * speed * deltaTime` in doubles, for a numerator `n` that is a
rounded coordinate difference and a computed distance of at least 5 that is accurate to
`2 ^ -49`: it differs from the exact step by at most `2 ^ -36`. -/
theorem step_near (n0 d0 D v dt : ℝ) (hn : |n0| ≤ d0) (hD5 : 5 ≤ D)
    (hDd : |D - d0| ≤ d0 / 2 ^ 49 + 1 / 2 ^ 190) (hv0 : 0 ≤ v) (hv : v ≤ 512)
    (ht0 : 0 ≤ dt) (ht : dt ≤ 1) :
    |f64 (f64 (f64 (f64 n0 / D) * v) * dt) - n0 / d0 * (v * dt)| ≤ 1 / 2 ^ 36 ∧
    |f64 (f64 (f64 (f64 n0 / D) * v) * dt)| ≤ 1026 := by
  have hD1 := (abs_le.mp hDd).1
  have hD2 := (abs_le.mp hDd).2
  have t1 : (1 : ℝ) / 2 ^ 190 ≤ 1 / 2 ^ 100 := by norm_num
  have t2 : (1 : ℝ) / 2 ^ 200 ≤ 1 / 2 ^ 100 := by norm_num
  have hd4 : 4 ≤ d0 := by
    by_contra hc
    push_neg at hc
    linarith
  have hd0 : 0 < d0 := by linarith
  have hDpos : 0 < D := by linarith
  have hd0D : d0 ≤ 2 * D := by linarith
  have hfn := f64_near n0 d0 hn
  have key : |f64 n0 * d0 - n0 * D| ≤ 1 / 2 ^ 47 * (D * d0) := by
    have e : f64 n0 * d0 - n0 * D = (f64 n0 - n0) * d0 + n0 * (d0 - D) := by ring
    have b1 : |f64 n0 - n0| * d0 ≤ (d0 / 2 ^ 53 + 1 / 2 ^ 200) * d0 :=
      mul_le_mul_of_nonneg_right hfn hd0.le
    have b2 : |n0| * |d0 - D| ≤ d0 * (d0 / 2 ^ 49 + 1 / 2 ^ 190) := by
      rw [abs_sub_comm d0 D]
      exact mul_le_mul hn hDd (abs_nonneg _) hd0.le
    have b3 : d0 * (d0 / 2 ^ 53 + 1 / 2 ^ 200 + (d0 / 2 ^ 49 + 1 / 2 ^ 190)) ≤
        d0 * (1 / 2 ^ 47 * D) :=
      mul_le_mul_of_nonneg_left (by linarith) hd0.le
    calc |f64 n0 * d0 - n0 * D| = |(f64 n0 - n0) * d0 + n0 * (d0 - D)| := by rw [e]
      _ ≤ |(f64 n0 - n0) * d0| + |n0 * (d0 - D)| := abs_add _ _
      _ = |f64 n0 - n0| * d0 + |n0| * |d0 - D| := by
          rw [abs_mul, abs_mul, abs_of_pos hd0]
      _ ≤ 1 / 2 ^ 47 * (D * d0) := by nlinarith
  have hq0 : |f64 n0 / D - n0 / d0| ≤ 1 / 2 ^ 47 := by
    have e : f64 n0 / D - n0 / d0 = (f64 n0 * d0 - n0 * D) / (D * d0) := by
      field_simp
      ring
    rw [e, abs_div, abs_of_pos (mul_pos hDpos hd0), div_le_iff₀ (mul_pos hDpos hd0)]
    exact key
  have hc : |n0 / d0| ≤ 1 := by
    rw [abs_div, abs_of_pos hd0, div_le_one hd0]
    exact hn
  have hq0a : |f64 n0 / D| ≤ 2 := by
    have := abs_sub_abs_le_abs_sub (f64 n0 / D) (n0 / d0)
    have h47 : (1 : ℝ) / 2 ^ 47 ≤ 1 := by norm_num
    linarith
  have hq1 := f64_near (f64 n0 / D) 2 hq0a
  have hq1c : |f64 (f64 n0 / D) - n0 / d0| ≤ 1 / 2 ^ 46 := by
    have e : f64 (f64 n0 / D) - n0 / d0 =
        (f64 (f64 n0 / D) - f64 n0 / D) + (f64 n0 / D - n0 / d0) := by ring
    rw [e]
    have := abs_add (f64 (f64 n0 / D) - f64 n0 / D) (f64 n0 / D - n0 / d0)
    have h3 : (2 : ℝ) / 2 ^ 53 + 1 / 2 ^ 200 + 1 / 2 ^ 47 ≤ 1 / 2 ^ 46 := by norm_num
    linarith
  have hq1a : |f64 (f64 n0 / D)| ≤ 2 := by
    have := abs_sub_abs_le_abs_sub (f64 (f64 n0 / D)) (n0 / d0)
    have h46 : (1 : ℝ) / 2 ^ 46 ≤ 1 := by norm_num
    linarith
  have hp0 : |f64 (f64 n0 / D) * v - n0 / d0 * v| ≤ 1 / 2 ^ 37 := by
    have e : f64 (f64 n0 / D) * v - n0 / d0 * v = (f64 (f64 n0 / D) - n0 / d0) * v := by ring
    rw [e, abs_mul, abs_of_nonneg hv0]
    have : |f64 (f64 n0 / D) - n0 / d0| * v ≤ 1 / 2 ^ 46 * 512 :=
      mul_le_mul hq1c hv hv0 (by norm_num)
    have h3 : (1 : ℝ) / 2 ^ 46 * 512 = 1 / 2 ^ 37 := by norm_num
    linarith
  have hp0a : |f64 (f64 n0 / D) * v| ≤ 1024 := by
    rw [abs_mul, abs_of_nonneg hv0]
    have : |f64 (f64 n0 / D)| * v ≤ 2 * 512 := mul_le_mul hq1a hv hv0 (by norm_num)
    linarith
  have hp1 := f64_near (f64 (f64 n0 / D) * v) 1024 hp0a
  have hp1c : |f64 (f64 (f64 n0 / D) * v) - n0 / d0 * v| ≤ 1 / 2 ^ 37 + 1 / 2 ^ 42 := by
    have e : f64 (f64 (f64 n0 / D) * v) - n0 / d0 * v =
        (f64 (f64 (f64 n0 / D) * v) - f64 (f64 n0 / D) * v) +
          (f64 (f64 n0 / D) * v - n0 / d0 * v) := by ring
    rw [e]
    have := abs_add (f64 (f64 (f64 n0 / D) * v) - f64 (f64 n0 / D) * v)
      (f64 (f64 n0 / D) * v - n0 / d0 * v)
    have h3 : (1024 : ℝ) / 2 ^ 53 + 1 / 2 ^ 200 ≤ 1 / 2 ^ 42 := by norm_num
    linarith
  have hp1a : |f64 (f64 (f64 n0 / D) * v)| ≤ 1025 := by
    have := abs_sub_abs_le_abs_sub (f64 (f64 (f64 n0 / D) * v)) (f64 (f64 n0 / D) * v)
    have h3 : (1024 : ℝ) / 2 ^ 53 + 1 / 2 ^ 200 ≤ 1 := by norm_num
    linarith
  have hr0 : |f64 (f64 (f64 n0 / D) * v) * dt - n0 / d0 * (v * dt)| ≤
      1 / 2 ^ 37 + 1 / 2 ^ 42 := by
    have e : f64 (f64 (f64 n0 / D) * v) * dt - n0 / d0 * (v * dt) =
        (f64 (f64 (f64 n0 / D) * v) - n0 / d0 * v) * dt := by ring
    rw [e, abs_mul, abs_of_nonneg ht0]
    have : |f64 (f64 (f64 n0 / D) * v) - n0 / d0 * v| * dt ≤ (1 / 2 ^ 37 + 1 / 2 ^ 42) * 1 :=
      mul_le_mul hp1c ht ht0 (by positivity)
    linarith
  have hr0a : |f64 (f64 (f64 n0 / D) * v) * dt| ≤ 1025 := by
    rw [abs_mul, abs_of_nonneg ht0]
    have : |f64 (f64 (f64 n0 / D) * v)| * dt ≤ 1025 * 1 :=
      mul_le_mul hp1a ht ht0 (by norm_num)
    linarith
  have hr := f64_near (f64 (f64 (f64 n0 / D) * v) * dt) 1025 hr0a
  have h3 : (1025 : ℝ) / 2 ^ 53 + 1 / 2 ^ 200 ≤ 1 / 2 ^ 42 := by norm_num
  constructor
  · have e : f64 (f64 (f64 (f64 n0 / D) * v) * dt) - n0 / d0 * (v * dt) =
        (f64 (f64 (f64 (f64 n0 / D) * v) * dt) - f64 (f64 (f64 n0 / D) * v) * dt) +
          (f64 (f64 (f64 n0 / D) * v) * dt - n0 / d0 * (v * dt)) := by ring
    rw [e]
    have := abs_add (f64 (f64 (f64 (f64 n0 / D) * v) * dt) - f64 (f64 (f64 n0 / D) * v) * dt)
      (f64 (f64 (f64 n0 / D) * v) * dt - n0 / d0 * (v * dt))
    have h4 : (1 : ℝ) / 2 ^ 42 + (1 / 2 ^ 37 + 1 / 2 ^ 42) ≤ 1 / 2 ^ 36 := by norm_num
    linarith
  · have := abs_sub_abs_le_abs_sub (f64 (f64 (f64 (f64 n0 / D) * v) * dt))
      (f64 (f64 (f64 n0 / D) * v) * dt)
    have h5 : (1 : ℝ) / 2 ^ 42 ≤ 1 := by norm_num
    linarith

/-! ## A move towards a point in doubles -/

/-- One move towards a point in doubles. With `d` the distance from `(x, y)` to `(tx, ty)` and
a computed distance that is not below 5, each new coordinate is within `2 ^ -35` of the exact
step of length `v * dt` along the unit vector to the point; the length of the move is within
`2 ^ -34` of `v * dt`, and the new distance to the point within `2 ^ -34` of `|d - v * dt|`. -/
theorem move_near (hyp : ℝ → ℝ → ℝ)
    (hh : ∀ a b : ℝ, |hyp a b - Real.sqrt (a * a + b * b)| ≤
      Real.sqrt (a * a + b * b) / 2 ^ 50 + 1 / 2 ^ 1074)
    (x y tx ty v dt x1 y1 : ℝ) (hx : |x| ≤ 2048) (hy : |y| ≤ 2048) (hv0 : 0 ≤ v) (hv : v ≤ 512)
    (ht0 : 0 ≤ dt) (ht : dt ≤ 1) (hD : ¬ hyp (f64 (tx - x)) (f64 (ty - y)) < 5)
    (hx1 : x1 =
      f64 (x + f64 (f64 (f64 (f64 (tx - x) / hyp (f64 (tx - x)) (f64 (ty - y))) * v) * dt)))
    (hy1 : y1 =
      f64 (y + f64 (f64 (f64 (f64 (ty - y) / hyp (f64 (tx - x)) (f64 (ty - y))) * v) * dt))) :
    0 < Real.sqrt ((tx - x) * (tx - x) + (ty - y) * (ty - y)) ∧
    |x1 - (x + (tx - x) / Real.sqrt ((tx - x) * (tx - x) + (ty - y) * (ty - y)) * (v * dt))| ≤
      1 / 2 ^ 35 ∧
    |y1 - (y + (ty - y) / Real.sqrt ((tx - x) * (tx - x) + (ty - y) * (ty - y)) * (v * dt))| ≤
      1 / 2 ^ 35 ∧
    |Real.sqrt ((x1 - x) * (x1 - x) + (y1 - y) * (y1 - y)) - v * dt| ≤ 1 / 2 ^ 34 ∧
    |Real.sqrt ((tx - x1) * (tx - x1) + (ty - y1) * (ty - y1)) -
      abs (Real.sqrt ((tx - x) * (tx - x) + (ty - y) * (ty - y)) - v * dt)| ≤ 1 / 2 ^ 34 := by
  rw [hx1, hy1]
  clear hx1 hy1
  obtain ⟨a, ha⟩ : ∃ a, a = tx - x := ⟨_, rfl⟩
  obtain ⟨b, hb⟩ : ∃ b, b = ty - y := ⟨_, rfl⟩
  rw [← ha, ← hb] at hD ⊢
  obtain ⟨d0, hd⟩ : ∃ d0, d0 = Real.sqrt (a * a + b * b) := ⟨_, rfl⟩
  obtain ⟨D, hDdef⟩ : ∃ D, D = hyp (f64 a) (f64 b) := ⟨_, rfl⟩
  have hDd : |D - d0| ≤ d0 / 2 ^ 49 + 1 / 2 ^ 190 := by
    rw [hDdef, hd]
    exact hypot_near hyp hh a b
  rw [← hDdef] at hD ⊢
  rw [← hd]
  have hD5 : 5 ≤ D := not_lt.mp hD
  have han : |a| ≤ d0 := by
    rw [hd]
    exact abs_le_hyp a b
  have hbn : |b| ≤ d0 := by
    rw [hd, add_comm]
    exact abs_le_hyp b a
  have hd0pos : 0 < d0 := by
    have h2 := (abs_le.mp hDd).2
    have t1 : (1 : ℝ) / 2 ^ 190 ≤ 1 / 2 ^ 100 := by norm_num
    by_contra hc
    push_neg at hc
    linarith
  obtain ⟨hrx, hrxa⟩ := step_near a d0 D v dt han hD5 hDd hv0 hv ht0 ht
  obtain ⟨hry, hrya⟩ := step_near b d0 D v dt hbn hD5 hDd hv0 hv ht0 ht
  obtain ⟨rx, hrxdef⟩ : ∃ r, r = f64 (f64 (f64 (f64 a / D) * v) * dt) := ⟨_, rfl⟩
  obtain ⟨ry, hrydef⟩ : ∃ r, r = f64 (f64 (f64 (f64 b / D) * v) * dt) := ⟨_, rfl⟩
  rw [← hrxdef] at hrx hrxa ⊢
  rw [← hrydef] at hry hrya ⊢
  have h3 : (4096 : ℝ) / 2 ^ 53 + 1 / 2 ^ 200 + 1 / 2 ^ 36 ≤ 1 / 2 ^ 35 := by norm_num
  have hxs : |x + rx| ≤ 4096 := by
    have := abs_add x rx
    linarith
  have hys : |y + ry| ≤ 4096 := by
    have := abs_add y ry
    linarith
  have hx1 := f64_near (x + rx) 4096 hxs
  have hy1 := f64_near (y + ry) 4096 hys
  have hX : |f64 (x + rx) - (x + a / d0 * (v * dt))| ≤ 1 / 2 ^ 35 := by
    have e : f64 (x + rx) - (x + a / d0 * (v * dt)) =
        (f64 (x + rx) - (x + rx)) + (rx - a / d0 * (v * dt)) := by ring
    rw [e]
    have := abs_add (f64 (x + rx) - (x + rx)) (rx - a / d0 * (v * dt))
    linarith
  have hY : |f64 (y + ry) - (y + b / d0 * (v * dt))| ≤ 1 / 2 ^ 35 := by
    have e : f64 (y + ry) - (y + b / d0 * (v * dt)) =
        (f64 (y + ry) - (y + ry)) + (ry - b / d0 * (v * dt)) := by ring
    rw [e]
    have := abs_add (f64 (y + ry) - (y + ry)) (ry - b / d0 * (v * dt))
    linarith
  have hst := step_towards a b (v * dt) (by rw [← hd]; exact hd0pos)
  rw [← hd] at hst
  have h34 : (1 : ℝ) / 2 ^ 35 + 1 / 2 ^ 35 = 1 / 2 ^ 34 := by norm_num
  have hs0 : 0 ≤ v * dt := mul_nonneg hv0 ht0
  refine ⟨hd0pos, hX, hY, ?_, ?_⟩
  · have hlen : Real.sqrt (a / d0 * (v * dt) * (a / d0 * (v * dt)) +
        b / d0 * (v * dt) * (b / d0 * (v * dt))) = v * dt := by
      have e : a / d0 * (v * dt) * (a / d0 * (v * dt)) +
          b / d0 * (v * dt) * (b / d0 * (v * dt)) =
          ((a / d0) ^ 2 + (b / d0) ^ 2) * (v * dt) ^ 2 := by ring
      rw [e, hst.1, one_mul, Real.sqrt_sq hs0]
    have := hyp_sub_le (f64 (x + rx) - x) (f64 (y + ry) - y) (a / d0 * (v * dt))
      (b / d0 * (v * dt))
    rw [hlen] at this
    have e1 : f64 (x + rx) - x - a / d0 * (v * dt) = f64 (x + rx) - (x + a / d0 * (v * dt)) := by
      ring
    have e2 : f64 (y + ry) - y - b / d0 * (v * dt) = f64 (y + ry) - (y + b / d0 * (v * dt)) := by
      ring
    rw [e1, e2] at this
    linarith
  · have := hyp_sub_le (tx - f64 (x + rx)) (ty - f64 (y + ry)) (a - a / d0 * (v * dt))
      (b - b / d0 * (v * dt))
    rw [hst.2] at this
    have e1 : tx - f64 (x + rx) - (a - a / d0 * (v * dt)) =
        -(f64 (x + rx) - (x + a / d0 * (v * dt))) := by
      rw [ha]
      ring
    have e2 : ty - f64 (y + ry) - (b - b / d0 * (v * dt)) =
        -(f64 (y + ry) - (y + b / d0 * (v * dt))) := by
      rw [hb]
      ring
    rw [e1, e2, abs_neg, abs_neg] at this
    linarith

/-! ## Projectiles in doubles -/

/-- `Projectile.updateF64` on a projectile in flight: the two outcomes. -/
theorem Projectile_updateF64_flying {K : Type} [LinearOrderedField K] [FloorRing K]
    (M : JsMath K) (dt : K) (p : Projectile K)
    (live removed : List (Enemy K)) (h : p.hit = false) (target : Enemy K)
    (ht : findEnemy p.target live removed = some target) :
    (M.hypot (f64 (target.x - p.x)) (f64 (target.y - p.y)) < 5 →
      Projectile.updateF64 M dt p live removed =
        ({ p with hit := true }, hitEnemyF64 p.target p.damage live,
          hitEnemyF64 p.target p.damage removed)) ∧
    (¬ M.hypot (f64 (target.x - p.x)) (f64 (target.y - p.y)) < 5 →
      Projectile.updateF64 M dt p live removed =
        ({ p with
            x := f64 (p.x + f64 (f64 (f64 (f64 (target.x - p.x) /
              M.hypot (f64 (target.x - p.x)) (f64 (target.y - p.y))) * p.speed) * dt)),
            y := f64 (p.y + f64 (f64 (f64 (f64 (target.y - p.y) /
              M.hypot (f64 (target.x - p.x)) (f64 (target.y - p.y))) * p.speed) * dt)) },
          live, removed)) := by
  have hh : ¬ (p.hit = true) := by rw [h]; simp
  constructor
  · intro hd
    unfold Projectile.updateF64
    rw [if_neg hh, ht]
    dsimp only
    rw [if_pos hd]
  · intro hd
    unfold Projectile.updateF64
    rw [if_neg hh, ht]
    dsimp only
    rw [if_neg hd]

/-- In doubles, a projectile in flight whose distance to a target that stays in place is at
most `k * (300 * dt - 2 ^ -34) + 4.9` is marked hit within `k + 1` updates. -/
theorem projectile_within_doubles (M : JsMath ℝ)
    (hh : ∀ a b : ℝ, |M.hypot a b - Real.sqrt (a * a + b * b)| ≤
      Real.sqrt (a * a + b * b) / 2 ^ 50 + 1 / 2 ^ 1074)
    (dt : ℝ) (live removed : List (Enemy ℝ)) (target : Enemy ℝ)
    (htx : |target.x| ≤ 1024) (hty : |target.y| ≤ 1024)
    (h0 : 1 / 2 ^ 20 ≤ 300 * dt) (h1 : 300 * dt ≤ 49 / 5) (k : Nat) :
    ∀ p : Projectile ℝ, p.hit = false → p.speed = 300 →
      findEnemy p.target live removed = some target →
      Real.sqrt ((target.x - p.x) * (target.x - p.x) + (target.y - p.y) * (target.y - p.y)) ≤
        1000 →
      Real.sqrt ((target.x - p.x) * (target.x - p.x) + (target.y - p.y) * (target.y - p.y)) ≤
        k * (300 * dt - 1 / 2 ^ 34) + 49 / 10 →
      ∃ n : Nat, n ≤ k + 1 ∧
        (Projectile.updatesF64 M (List.replicate n dt) p live removed).1.hit = true := by
  have t1 : (1 : ℝ) / 2 ^ 190 ≤ 1 / 2 ^ 100 := by norm_num
  have hdt0 : 0 ≤ dt := by
    have : (0 : ℝ) < 1 / 2 ^ 20 := by positivity
    linarith
  have hdt1 : dt ≤ 1 := by linarith
  have hone : ∀ p : Projectile ℝ, p.hit = false →
      findEnemy p.target live removed = some target →
      M.hypot (f64 (target.x - p.x)) (f64 (target.y - p.y)) < 5 →
      ∃ n : Nat, n ≤ 1 ∧
        (Projectile.updatesF64 M (List.replicate n dt) p live removed).1.hit = true := by
    intro p hp ht hd
    refine ⟨1, le_refl _, ?_⟩
    have hu := (Projectile_updateF64_flying M dt p live removed hp target ht).1 hd
    show (Projectile.updatesF64 M [dt] p live removed).1.hit = true
    rw [Projectile.updatesF64, hu]
    rfl
  induction k with
  | zero =>
    intro p hp hs ht hd hk
    have hn := hypot_near M.hypot hh (target.x - p.x) (target.y - p.y)
    have hn2 := (abs_le.mp hn).2
    have hd0 : 0 ≤ Real.sqrt ((target.x - p.x) * (target.x - p.x) +
        (target.y - p.y) * (target.y - p.y)) := Real.sqrt_nonneg _
    simp only [Nat.cast_zero, zero_mul, zero_add] at hk
    obtain ⟨n, hn1, hn3⟩ := hone p hp ht (by linarith)
    exact ⟨n, by omega, hn3⟩
  | succ k ih =>
    intro p hp hs ht hd hk
    by_cases hD : M.hypot (f64 (target.x - p.x)) (f64 (target.y - p.y)) < 5
    · obtain ⟨n, hn1, hn3⟩ := hone p hp ht hD
      exact ⟨n, by omega, hn3⟩
    · have hu := (Projectile_updateF64_flying M dt p live removed hp target ht).2 hD
      have hax : |target.x - p.x| ≤ 1000 :=
        le_trans (abs_le_hyp (target.x - p.x) (target.y - p.y)) hd
      have hay : |target.y - p.y| ≤ 1000 := by
        refine le_trans ?_ hd
        rw [add_comm]
        exact abs_le_hyp (target.y - p.y) (target.x - p.x)
      have hpx : |p.x| ≤ 2048 := by
        have e : p.x = target.x - (target.x - p.x) := by ring
        rw [e]
        have := abs_sub target.x (target.x - p.x)
        linarith
      have hpy : |p.y| ≤ 2048 := by
        have e : p.y = target.y - (target.y - p.y) := by ring
        rw [e]
        have := abs_sub target.y (target.y - p.y)
        linarith
      obtain ⟨hpos, _, _, _, hnew⟩ := move_near M.hypot hh p.x p.y target.x target.y p.speed dt
        _ _ hpx hpy (by rw [hs]; norm_num) (by rw [hs]; norm_num) hdt0 hdt1 hD rfl rfl
      have es : p.speed * dt = 300 * dt := by rw [hs]
      rw [es] at hnew
      have hn := hypot_near M.hypot hh (target.x - p.x) (target.y - p.y)
      have hn1 := (abs_le.mp hn).2
      have hD5 : 5 ≤ M.hypot (f64 (target.x - p.x)) (f64 (target.y - p.y)) := not_lt.mp hD
      obtain ⟨d, hddef⟩ : ∃ d, d = Real.sqrt ((target.x - p.x) * (target.x - p.x) +
        (target.y - p.y) * (target.y - p.y)) := ⟨_, rfl⟩
      rw [← hddef] at hd hk hnew hn1 hpos
      have hd499 : 499 / 100 ≤ d := by
        have : d / 2 ^ 49 ≤ 1000 / 2 ^ 49 := div_le_div_of_nonneg_right hd (by positivity)
        have h3 : (1000 : ℝ) / 2 ^ 49 + 1 / 2 ^ 100 ≤ 1 / 100 := by norm_num
        linarith
      have hnew2 := (abs_le.mp hnew).2
      have h34 : (1 : ℝ) / 2 ^ 34 ≤ 1 / 1000 := by norm_num
      have h34' : (0 : ℝ) < 1 / 2 ^ 34 := by positivity
      have h20 : (1 : ℝ) / 2 ^ 34 ≤ 1 / 2 ^ 20 := by norm_num
      have hk' : d ≤ (k : ℝ) * (300 * dt - 1 / 2 ^ 34) + (300 * dt - 1 / 2 ^ 34) + 49 / 10 := by
        push_cast at hk
        linarith
      have hkσ : 0 ≤ (k : ℝ) * (300 * dt - 1 / 2 ^ 34) :=
        mul_nonneg (Nat.cast_nonneg k) (by linarith)
      have habs : |d - 300 * dt| ≤ max (d - 300 * dt) (300 * dt - d) := by
        rw [abs_le]
        constructor
        · have := le_max_right (d - 300 * dt) (300 * dt - d)
          linarith
        · exact le_max_left _ _
      have hcase : |d - 300 * dt| + 1 / 2 ^ 34 ≤
          (k : ℝ) * (300 * dt - 1 / 2 ^ 34) + 49 / 10 ∧ |d - 300 * dt| + 1 / 2 ^ 34 ≤ 1000 := by
        rcases le_total (300 * dt) d with hc | hc
        · rw [abs_of_nonneg (by linarith)]
          constructor <;> linarith
        · rw [abs_of_nonpos (by linarith)]
          constructor <;> linarith
      obtain ⟨n, hn2, hn3⟩ := ih
        { p with
            x := f64 (p.x + f64 (f64 (f64 (f64 (target.x - p.x) /
              M.hypot (f64 (target.x - p.x)) (f64 (target.y - p.y))) * p.speed) * dt)),
            y := f64 (p.y + f64 (f64 (f64 (f64 (target.y - p.y) /
              M.hypot (f64 (target.x - p.x)) (f64 (target.y - p.y))) * p.speed) * dt)) }
        hp hs ht (by dsimp only; linarith [hcase.2]) (by dsimp only; linarith [hcase.1])
      refine ⟨n + 1, by omega, ?_⟩
      rw [List.replicate_succ, Projectile.updatesF64, hu]
      exact hn3

/-- C29, amended. `Projectile.updateF64` rounds every operation to a double, and
`Math.hypot` is any function whose error is at most `2 ^ -50` of the true value plus
`2 ^ -1074`, as that of the correctly rounded function is. A projectile in flight is
aimed at a target that stays in place, with coordinates of absolute value at most 1024, at
true distance `d ≤ 1000`; the time step satisfies `2 ^ -20 ≤ 300 * dt ≤ 9.8`. If the computed
distance is not below 5, one update leaves the enemy stores alone and puts the projectile
within `2 ^ -35` per coordinate of the point `300 * dt` further along the unit vector to the
target; its new distance to the target is within `2 ^ -34` of `|d - 300 * dt|` and strictly
below `d`. In any case the projectile is marked hit after at most `⌈d / (300 * dt)⌉ + 1`
updates. -/
theorem projectile_arrives_doubles (M : JsMath ℝ)
    (hh : ∀ a b : ℝ, |M.hypot a b - Real.sqrt (a * a + b * b)| ≤
      Real.sqrt (a * a + b * b) / 2 ^ 50 + 1 / 2 ^ 1074)
    (dt : ℝ) (p : Projectile ℝ) (live removed : List (Enemy ℝ)) (target : Enemy ℝ)
    (hp : p.hit = false) (hs : p.speed = 300)
    (ht : findEnemy p.target live removed = some target)
    (htx : |target.x| ≤ 1024) (hty : |target.y| ≤ 1024)
    (hd : Real.sqrt ((target.x - p.x) * (target.x - p.x) +
      (target.y - p.y) * (target.y - p.y)) ≤ 1000)
    (h0 : 1 / 2 ^ 20 ≤ 300 * dt) (h1 : 300 * dt ≤ 49 / 5) :
    (¬ M.hypot (f64 (target.x - p.x)) (f64 (target.y - p.y)) < 5 →
      (Projectile.updateF64 M dt p live removed).2 = (live, removed) ∧
      (Projectile.updateF64 M dt p live removed).1.hit = false ∧
      |(Projectile.updateF64 M dt p live removed).1.x -
        (p.x + (target.x - p.x) / Real.sqrt ((target.x - p.x) * (target.x - p.x) +
          (target.y - p.y) * (target.y - p.y)) * (300 * dt))| ≤ 1 / 2 ^ 35 ∧
      |(Projectile.updateF64 M dt p live removed).1.y -
        (p.y + (target.y - p.y) / Real.sqrt ((target.x - p.x) * (target.x - p.x) +
          (target.y - p.y) * (target.y - p.y)) * (300 * dt))| ≤ 1 / 2 ^ 35 ∧
      |Real.sqrt
          ((target.x - (Projectile.updateF64 M dt p live removed).1.x) *
            (target.x - (Projectile.updateF64 M dt p live removed).1.x) +
          (target.y - (Projectile.updateF64 M dt p live removed).1.y) *
            (target.y - (Projectile.updateF64 M dt p live removed).1.y)) -
        abs (Real.sqrt ((target.x - p.x) * (target.x - p.x) +
          (target.y - p.y) * (target.y - p.y)) - 300 * dt)| ≤ 1 / 2 ^ 34 ∧
      Real.sqrt
          ((target.x - (Projectile.updateF64 M dt p live removed).1.x) *
            (target.x - (Projectile.updateF64 M dt p live removed).1.x) +
          (target.y - (Projectile.updateF64 M dt p live removed).1.y) *
            (target.y - (Projectile.updateF64 M dt p live removed).1.y)) <
        Real.sqrt ((target.x - p.x) * (target.x - p.x) +
          (target.y - p.y) * (target.y - p.y))) ∧
    ∃ n : Nat,
      n ≤ ⌈Real.sqrt ((target.x - p.x) * (target.x - p.x) +
        (target.y - p.y) * (target.y - p.y)) / (300 * dt)⌉₊ + 1 ∧
      (Projectile.updatesF64 M (List.replicate n dt) p live removed).1.hit = true := by
  have hdt0 : 0 ≤ dt := by
    have : (0 : ℝ) < 1 / 2 ^ 20 := by positivity
    linarith
  have hdt1 : dt ≤ 1 := by linarith
  have hspos : (0 : ℝ) < 300 * dt := lt_of_lt_of_le (by positivity) h0
  constructor
  · intro hD
    have hu := (Projectile_updateF64_flying M dt p live removed hp target ht).2 hD
    have hax : |target.x - p.x| ≤ 1000 :=
      le_trans (abs_le_hyp (target.x - p.x) (target.y - p.y)) hd
    have hay : |target.y - p.y| ≤ 1000 := by
      refine le_trans ?_ hd
      rw [add_comm]
      exact abs_le_hyp (target.y - p.y) (target.x - p.x)
    have hpx : |p.x| ≤ 2048 := by
      have e : p.x = target.x - (target.x - p.x) := by ring
      rw [e]
      have := abs_sub target.x (target.x - p.x)
      linarith
    have hpy : |p.y| ≤ 2048 := by
      have e : p.y = target.y - (target.y - p.y) := by ring
      rw [e]
      have := abs_sub target.y (target.y - p.y)
      linarith
    obtain ⟨hpos, hX, hY, _, hnew⟩ := move_near M.hypot hh p.x p.y target.x target.y p.speed dt
      _ _ hpx hpy (by rw [hs]; norm_num) (by rw [hs]; norm_num) hdt0 hdt1 hD rfl rfl
    have es : p.speed * dt = 300 * dt := by rw [hs]
    rw [es] at hnew hX hY
    rw [hu]
    refine ⟨rfl, hp, hX, hY, hnew, ?_⟩
    have hn := hypot_near M.hypot hh (target.x - p.x) (target.y - p.y)
    have hn1 := (abs_le.mp hn).2
    have hD5 : 5 ≤ M.hypot (f64 (target.x - p.x)) (f64 (target.y - p.y)) := not_lt.mp hD
    obtain ⟨d, hddef⟩ : ∃ d, d = Real.sqrt ((target.x - p.x) * (target.x - p.x) +
      (target.y - p.y) * (target.y - p.y)) := ⟨_, rfl⟩
    rw [← hddef] at hd hnew hn1 hpos ⊢
    have t1 : (1 : ℝ) / 2 ^ 190 ≤ 1 / 2 ^ 100 := by norm_num
    have hd499 : 499 / 100 ≤ d := by
      have : d / 2 ^ 49 ≤ 1000 / 2 ^ 49 := div_le_div_of_nonneg_right hd (by positivity)
      have h3 : (1000 : ℝ) / 2 ^ 49 + 1 / 2 ^ 100 ≤ 1 / 100 := by norm_num
      linarith
    have hnew2 := (abs_le.mp hnew).2
    have h34 : (1 : ℝ) / 2 ^ 34 < 1 / 2 ^ 20 := by norm_num
    have h20 : (1 : ℝ) / 2 ^ 20 ≤ 1 / 1000 := by norm_num
    rcases le_total (300 * dt) d with hc | hc
    · rw [abs_of_nonneg (by linarith)] at hnew2
      dsimp only
      linarith
    · rw [abs_of_nonpos (by linarith)] at hnew2
      dsimp only
      linarith
  · obtain ⟨d, hddef⟩ : ∃ d, d = Real.sqrt ((target.x - p.x) * (target.x - p.x) +
      (target.y - p.y) * (target.y - p.y)) := ⟨_, rfl⟩
    have hd0 : 0 ≤ d := by
      rw [hddef]
      exact Real.sqrt_nonneg _
    have hk := projectile_within_doubles M hh dt live removed target htx hty h0 h1
      ⌈d / (300 * dt)⌉₊ p hp hs ht hd
    rw [← hddef] at hk hd ⊢
    apply hk
    have hc1 : d / (300 * dt) ≤ (⌈d / (300 * dt)⌉₊ : ℝ) := Nat.le_ceil _
    have hc2 : (⌈d / (300 * dt)⌉₊ : ℝ) < d / (300 * dt) + 1 := Nat.ceil_lt_add_one
      (div_nonneg hd0 hspos.le)
    have hc3 : d ≤ (⌈d / (300 * dt)⌉₊ : ℝ) * (300 * dt) := (div_le_iff₀ hspos).mp hc1
    have hc4 : d / (300 * dt) ≤ 1000 / (1 / 2 ^ 20) :=
      div_le_div₀ (by norm_num) hd (by positivity) h0
    have hc5 : (⌈d / (300 * dt)⌉₊ : ℝ) * (1 / 2 ^ 34) ≤ 1 := by
      have h6 : (⌈d / (300 * dt)⌉₊ : ℝ) ≤ 1000 / (1 / 2 ^ 20) + 1 := by linarith
      have h7 : ((1000 : ℝ) / (1 / 2 ^ 20) + 1) * (1 / 2 ^ 34) ≤ 1 := by norm_num
      have h8 : (⌈d / (300 * dt)⌉₊ : ℝ) * (1 / 2 ^ 34) ≤
          (1000 / (1 / 2 ^ 20) + 1) * (1 / 2 ^ 34) :=
        mul_le_mul_of_nonneg_right h6 (by positivity)
      linarith
    have e : (⌈d / (300 * dt)⌉₊ : ℝ) * (300 * dt - 1 / 2 ^ 34) =
        (⌈d / (300 * dt)⌉₊ : ℝ) * (300 * dt) - (⌈d / (300 * dt)⌉₊ : ℝ) * (1 / 2 ^ 34) := by ring
    rw [e]
    linarith

/-- The correctly rounded `Math.sqrt` and the `Math.hypot` that rounds the exact root of
the sum of squares correctly meet the accuracy assumed of the two functions, and this
`Math.sqrt` returns no negative number. -/
theorem rounded_accurate (rnd : Nat → ℝ) :
    (∀ a b : ℝ, |(JsMath.ofSqrt (fun s => f64 (Real.sqrt s)) rnd).hypot a b -
      Real.sqrt (a * a + b * b)| ≤ Real.sqrt (a * a + b * b) / 2 ^ 50 + 1 / 2 ^ 1074) ∧
    (∀ s : ℝ, 0 ≤ s → |(JsMath.ofSqrt (fun s => f64 (Real.sqrt s)) rnd).sqrt s -
      Real.sqrt s| ≤ Real.sqrt s / 2 ^ 50 + 1 / 2 ^ 1074) ∧
    ∀ s : ℝ, 0 ≤ s → 0 ≤ (JsMath.ofSqrt (fun s => f64 (Real.sqrt s)) rnd).sqrt s := by
  have key : ∀ r : ℝ, 0 ≤ r → |f64 r - r| ≤ r / 2 ^ 50 + 1 / 2 ^ 1074 := by
    intro r hr
    have h1 := f64_err r
    rw [abs_of_nonneg hr] at h1
    have h2 : r / 2 ^ 53 ≤ r / 2 ^ 50 :=
      div_le_div_of_nonneg_left hr (by positivity)
        (pow_le_pow_right₀ (by norm_num) (by norm_num))
    have h3 : (1 : ℝ) / 2 ^ 1075 ≤ 1 / 2 ^ 1074 :=
      one_div_le_one_div_of_le (by positivity) (pow_le_pow_right₀ (by norm_num) (by norm_num))
    linarith
  exact ⟨fun a b => key _ (Real.sqrt_nonneg _), fun s _ => key _ (Real.sqrt_nonneg _),
    fun s _ => f64_nonneg _ (Real.sqrt_nonneg _)⟩

/-- In doubles a number that is at least 1 rounds to at least half of it. -/
theorem f64_ge_half (q : ℝ) (h : 1 ≤ q) : q ≤ 2 * f64 q := by
  have h1 := f64_near q q (by rw [abs_of_nonneg (by linarith)])
  have h2 := (abs_le.mp h1).1
  have h3 : q / 2 ^ 53 ≤ q / 4 := by
    apply div_le_div_of_nonneg_left (by linarith) (by norm_num) (by norm_num)
  have h4 : (1 : ℝ) / 2 ^ 200 ≤ 1 / 4 := by norm_num
  linarith

/-- C29 at a point, with the correctly rounded `Math.hypot`: a projectile 20 units from its
target, steps of 10 ms (3 units). -/
theorem projectile_arrives_doubles_witness :
    (Projectile.create (0 : ℝ) 0 7 1).hit = false ∧
    (Projectile.create (0 : ℝ) 0 7 1).speed = 300 ∧
    (1 : ℝ) / 2 ^ 20 ≤ 300 * (1 / 100) ∧ (300 : ℝ) * (1 / 100) ≤ 49 / 5 ∧
    Real.sqrt (((Enemy.init 7 20 0 1 1 : Enemy ℝ).x - (Projectile.create (0 : ℝ) 0 7 1).x) *
        ((Enemy.init 7 20 0 1 1 : Enemy ℝ).x - (Projectile.create (0 : ℝ) 0 7 1).x) +
      ((Enemy.init 7 20 0 1 1 : Enemy ℝ).y - (Projectile.create (0 : ℝ) 0 7 1).y) *
        ((Enemy.init 7 20 0 1 1 : Enemy ℝ).y - (Projectile.create (0 : ℝ) 0 7 1).y)) = 20 ∧
    ∃ n : Nat,
      n ≤ ⌈Real.sqrt
          (((Enemy.init 7 20 0 1 1 : Enemy ℝ).x - (Projectile.create (0 : ℝ) 0 7 1).x) *
            ((Enemy.init 7 20 0 1 1 : Enemy ℝ).x - (Projectile.create (0 : ℝ) 0 7 1).x) +
          ((Enemy.init 7 20 0 1 1 : Enemy ℝ).y - (Projectile.create (0 : ℝ) 0 7 1).y) *
            ((Enemy.init 7 20 0 1 1 : Enemy ℝ).y - (Projectile.create (0 : ℝ) 0 7 1).y)) /
          (300 * (1 / 100))⌉₊ + 1 ∧
      (Projectile.updatesF64 (JsMath.ofSqrt (fun s => f64 (Real.sqrt s)) (fun _ => 0))
        (List.replicate n (1 / 100)) (Projectile.create 0 0 7 1)
        [Enemy.init 7 20 0 1 1] []).1.hit = true := by
  have h20 : Real.sqrt
      (((Enemy.init 7 20 0 1 1 : Enemy ℝ).x - (Projectile.create (0 : ℝ) 0 7 1).x) *
        ((Enemy.init 7 20 0 1 1 : Enemy ℝ).x - (Projectile.create (0 : ℝ) 0 7 1).x) +
      ((Enemy.init 7 20 0 1 1 : Enemy ℝ).y - (Projectile.create (0 : ℝ) 0 7 1).y) *
        ((Enemy.init 7 20 0 1 1 : Enemy ℝ).y - (Projectile.create (0 : ℝ) 0 7 1).y)) = 20 := by
    show Real.sqrt ((20 - 0) * (20 - 0) + (0 - 0) * (0 - 0)) = 20
    rw [show ((20 : ℝ) - 0) * (20 - 0) + (0 - 0) * (0 - 0) = 20 * 20 by norm_num]
    exact Real.sqrt_mul_self (by norm_num)
  exact ⟨rfl, rfl, by norm_num, by norm_num, h20,
    (projectile_arrives_doubles (JsMath.ofSqrt (fun s => f64 (Real.sqrt s)) (fun _ => 0))
      (rounded_accurate _).1 (1 / 100) (Projectile.create 0 0 7 1)
      [Enemy.init 7 20 0 1 1] [] (Enemy.init 7 20 0 1 1) rfl rfl rfl
      (by show |(20 : ℝ)| ≤ 1024; norm_num) (by show |(0 : ℝ)| ≤ 1024; norm_num)
      (by rw [h20]; norm_num) (by norm_num) (by norm_num)).2⟩

/-- In doubles, with `dt` the double nearest to `1 / 30`, a projectile 5 units from the target
at `(700, 450)` jumps to the point 5 units on the other side. -/
theorem swing_step :
    Projectile.updateF64 mathF64 (f64 (1 / 30)) swingLeft [Enemy.init 7 700 450 1 1] [] =
      (swingRight, [Enemy.init 7 700 450 1 1], []) ∧
    Projectile.updateF64 mathF64 (f64 (1 / 30)) swingRight [Enemy.init 7 700 450 1 1] [] =
      (swingLeft, [Enemy.init 7 700 450 1 1], []) := by
  decide!

/-- C29, refuted as stated in doubles. With `dt` the double nearest to `1 / 30` (which is below
`1 / 30`, so that `0 < 300 * dt < 10`), a projectile at `(695, 450)` is at distance `d = 5`
from a target that stays at `(700, 450)`. The product `300 * dt` rounds to 10, the projectile
lands at `(705, 450)`, at distance 5 again and not below `d`, then back at `(695, 450)`, and
so on: it is never marked hit, although `⌈d / (300 * dt)⌉ + 1 = 2`. -/
theorem projectile_swings_doubles :
    swingLeft.hit = false ∧
    mathF64.hypot (f64 ((Enemy.init 7 700 450 1 1 : Enemy ℚ).x - swingLeft.x))
      (f64 ((Enemy.init 7 700 450 1 1 : Enemy ℚ).y - swingLeft.y)) = 5 ∧
    (0 : ℚ) < 300 * f64 (1 / 30) ∧ (300 : ℚ) * f64 (1 / 30) < 10 ∧
    ⌈(5 : ℚ) / (300 * f64 (1 / 30))⌉₊ + 1 = 2 ∧
    mathF64.hypot
      ((Enemy.init 7 700 450 1 1 : Enemy ℚ).x -
        (Projectile.updateF64 mathF64 (f64 (1 / 30)) swingLeft
          [Enemy.init 7 700 450 1 1] []).1.x)
      ((Enemy.init 7 700 450 1 1 : Enemy ℚ).y -
        (Projectile.updateF64 mathF64 (f64 (1 / 30)) swingLeft
          [Enemy.init 7 700 450 1 1] []).1.y) = 5 ∧
    ∀ n : Nat,
      (Projectile.updatesF64 mathF64 (List.replicate n (f64 (1 / 30))) swingLeft
        [Enemy.init 7 700 450 1 1] []).1.hit = false := by
  refine ⟨rfl, by decide!, by decide!, by decide!, by decide!, by decide!, ?_⟩
  have hboth : ∀ n : Nat,
      (Projectile.updatesF64 mathF64 (List.replicate n (f64 (1 / 30))) swingLeft
        [Enemy.init 7 700 450 1 1] []).1.hit = false ∧
      (Projectile.updatesF64 mathF64 (List.replicate n (f64 (1 / 30))) swingRight
        [Enemy.init 7 700 450 1 1] []).1.hit = false := by
    intro n
    induction n with
    | zero => exact ⟨rfl, rfl⟩
    | succ n ih =>
      constructor
      · rw [List.replicate_succ, Projectile.updatesF64, swing_step.1]
        exact ih.2
      · rw [List.replicate_succ, Projectile.updatesF64, swing_step.2]
        exact ih.1
  exact fun n => (hboth n).1

/-- C20, refuted as stated in doubles. An enemy at `(50, 300)` with speed 100 heads for the
waypoint `(200, 300)`, at distance 150; `dt` is the double nearest to `0.016`. The enemy moves
by `1.6000000000000014`, which is neither the product `speed * dt` nor the double nearest to
it, and its new distance to the waypoint is not `|d - speed * dt|`. -/
theorem enemy_step_not_exact :
    (Enemy.init 0 50 300 1 1 : Enemy ℚ).speed = 100 ∧
    (Enemy.init 0 50 300 1 1 : Enemy ℚ).pathIndex < 5 ∧
    (Enemy.updateF64 mathF64 (f64 (2 / 125)) (Enemy.init 0 50 300 1 1)).pathIndex = 0 ∧
    (Enemy.updateF64 mathF64 (f64 (2 / 125)) (Enemy.init 0 50 300 1 1)).x - 50 ≠
      f64 (100 * f64 (2 / 125)) ∧
    mathF64.hypot (f64 ((Game.pathAt 1 : Waypoint ℚ).x - 50))
      (f64 ((Game.pathAt 1 : Waypoint ℚ).y - 300)) = 150 ∧
    (Enemy.updateF64 mathF64 (f64 (2 / 125)) (Enemy.init 0 50 300 1 1)).x - 50 =
      225179981368525 / 140737488355328 ∧
    (100 : ℚ) * f64 (2 / 125) = 28823037615171175 / 18014398509481984 ∧
    (Enemy.updateF64 mathF64 (f64 (2 / 125)) (Enemy.init 0 50 300 1 1)).x - 50 ≠
      100 * f64 (2 / 125) ∧
    mathF64.hypot
        (f64 ((Game.pathAt 1 : Waypoint ℚ).x -
          (Enemy.updateF64 mathF64 (f64 (2 / 125)) (Enemy.init 0 50 300 1 1)).x))
        (f64 ((Game.pathAt 1 : Waypoint ℚ).y -
          (Enemy.updateF64 mathF64 (f64 (2 / 125)) (Enemy.init 0 50 300 1 1)).y)) ≠
      |150 - 100 * f64 (2 / 125)| ∧
    (Game.pathAt 1 : Waypoint ℚ).x -
        (Enemy.updateF64 mathF64 (f64 (2 / 125)) (Enemy.init 0 50 300 1 1)).x ≠
      |150 - 100 * f64 (2 / 125)| := by
  decide!

/-! ## Enemies in doubles -/

/-- `Enemy.updateF64` on an enemy that has not reached the last waypoint: the freeze timer
is served first, giving an enemy `e1` at the same place; then `e1` advances its `pathIndex`
or moves. -/
theorem Enemy_updateF64_served {K : Type} [LinearOrderedField K] [FloorRing K]
    (M : JsMath K) (dt : K) (e : Enemy K) (h : e.pathIndex < 5) :
    ∃ e1 : Enemy K, e1.x = e.x ∧ e1.y = e.y ∧ e1.pathIndex = e.pathIndex ∧
      e1.reachedEnd = e.reachedEnd ∧
      (e1.speed = e.speed ∨ e1.speed = e.baseSpeed) ∧
      (e.freezeTimer ≤ 0 ∨ 0 < f64 (e.freezeTimer - dt) → e1.speed = e.speed) ∧
      (0 < e.freezeTimer → f64 (e.freezeTimer - dt) ≤ 0 → e1.speed = e.baseSpeed) ∧
      (e.freezeTimer = 0 → e1.freezeTimer = 0) ∧
      Enemy.updateF64 M dt e =
        if M.hypot (f64 ((Game.pathAt (e.pathIndex + 1)).x - e.x))
            (f64 ((Game.pathAt (e.pathIndex + 1)).y - e.y)) < 5 then
          { e1 with pathIndex := e.pathIndex + 1 }
        else
          { e1 with
            x := f64 (e.x + f64 (f64 (f64 (f64 ((Game.pathAt (e.pathIndex + 1)).x - e.x) /
              M.hypot (f64 ((Game.pathAt (e.pathIndex + 1)).x - e.x))
                (f64 ((Game.pathAt (e.pathIndex + 1)).y - e.y))) * e1.speed) * dt)),
            y := f64 (e.y + f64 (f64 (f64 (f64 ((Game.pathAt (e.pathIndex + 1)).y - e.y) /
              M.hypot (f64 ((Game.pathAt (e.pathIndex + 1)).x - e.x))
                (f64 ((Game.pathAt (e.pathIndex + 1)).y - e.y))) * e1.speed) * dt)) } := by
  have hlen : ¬ ((Game.createPath (K := K)).length - 1 ≤ e.pathIndex) := by
    have : (Game.createPath (K := K)).length - 1 = 5 := rfl
    rw [this]
    omega
  by_cases hf : 0 < e.freezeTimer
  · by_cases hx : f64 (e.freezeTimer - dt) ≤ 0
    · refine ⟨{ e with freezeTimer := f64 (e.freezeTimer - dt), speed := e.baseSpeed },
        rfl, rfl, rfl, rfl, Or.inr rfl, ?_, fun _ _ => rfl, ?_, ?_⟩
      · rintro (h1 | h1)
        · exact absurd hf (not_lt.mpr h1)
        · exact absurd hx (not_le.mpr h1)
      · intro h0
        rw [h0] at hf
        exact absurd hf (lt_irrefl 0)
      · unfold Enemy.updateF64
        rw [if_neg hlen]
        dsimp only
        simp only [if_pos hf, if_pos hx]
    · refine ⟨{ e with freezeTimer := f64 (e.freezeTimer - dt) },
        rfl, rfl, rfl, rfl, Or.inl rfl, fun _ => rfl, ?_, ?_, ?_⟩
      · intro _ h1
        exact absurd h1 hx
      · intro h0
        rw [h0] at hf
        exact absurd hf (lt_irrefl 0)
      · unfold Enemy.updateF64
        rw [if_neg hlen]
        dsimp only
        simp only [if_pos hf, if_neg hx]
  · refine ⟨e, rfl, rfl, rfl, rfl, Or.inl rfl, fun _ => rfl, ?_, fun h0 => h0, ?_⟩
    · intro h0
      exact absurd h0 hf
    · unfold Enemy.updateF64
      rw [if_neg hlen]
      dsimp only
      simp only [if_neg hf]

/-- C20, amended. `Enemy.updateF64` rounds every operation to a double, and
`Math.hypot` is any function whose error is at most `2 ^ -50` of the true value plus
`2 ^ -1074`, as that of the correctly rounded function is, so that the computed distance to waypoint `pathIndex + 1` is within `d / 2 ^ 49 + 2 ^ -190` of the true distance
`d`. An enemy at the last waypoint or beyond (`pathIndex` at least 5) only gets `reachedEnd`
set. Otherwise: if the computed distance is below 5, `pathIndex` rises by one and the position
is unchanged; if not, `pathIndex` and `reachedEnd` are unchanged and, for coordinates of
absolute value at most 2048, `speed` and `baseSpeed` between 0 and 512 and `0 ≤ dt ≤ 1`, each
new coordinate is within `2 ^ -35` of the old one plus `speed * dt` times the unit vector to
the waypoint, the length of the move is within `2 ^ -34` of `speed * dt`, and the new distance
to the waypoint is within `2 ^ -34` of `|d - speed * dt|`. Here `speed` is the value the move
reads, after the freeze timer has been served: the speed on entry, unless a positive timer
runs out in this call, which gives `baseSpeed`; a zero timer stays zero. -/
theorem enemy_update_doubles (M : JsMath ℝ)
    (hh : ∀ a b : ℝ, |M.hypot a b - Real.sqrt (a * a + b * b)| ≤
      Real.sqrt (a * a + b * b) / 2 ^ 50 + 1 / 2 ^ 1074)
    (dt : ℝ) (e : Enemy ℝ)
    (hx : |e.x| ≤ 2048) (hy : |e.y| ≤ 2048) (hv0 : 0 ≤ e.speed) (hv : e.speed ≤ 512)
    (hb0 : 0 ≤ e.baseSpeed) (hb : e.baseSpeed ≤ 512) (ht0 : 0 ≤ dt) (ht : dt ≤ 1) :
    |M.hypot (f64 ((Game.pathAt (e.pathIndex + 1)).x - e.x))
        (f64 ((Game.pathAt (e.pathIndex + 1)).y - e.y)) -
      Real.sqrt (((Game.pathAt (e.pathIndex + 1)).x - e.x) *
          ((Game.pathAt (e.pathIndex + 1)).x - e.x) +
        ((Game.pathAt (e.pathIndex + 1)).y - e.y) *
          ((Game.pathAt (e.pathIndex + 1)).y - e.y))| ≤
      Real.sqrt (((Game.pathAt (e.pathIndex + 1)).x - e.x) *
          ((Game.pathAt (e.pathIndex + 1)).x - e.x) +
        ((Game.pathAt (e.pathIndex + 1)).y - e.y) *
          ((Game.pathAt (e.pathIndex + 1)).y - e.y)) / 2 ^ 49 + 1 / 2 ^ 190 ∧
    (5 ≤ e.pathIndex → Enemy.updateF64 M dt e = { e with reachedEnd := true }) ∧
    (e.pathIndex < 5 →
      M.hypot (f64 ((Game.pathAt (e.pathIndex + 1)).x - e.x))
        (f64 ((Game.pathAt (e.pathIndex + 1)).y - e.y)) < 5 →
      (Enemy.updateF64 M dt e).pathIndex = e.pathIndex + 1 ∧
      (Enemy.updateF64 M dt e).x = e.x ∧
      (Enemy.updateF64 M dt e).y = e.y ∧
      (Enemy.updateF64 M dt e).reachedEnd = e.reachedEnd) ∧
    (e.pathIndex < 5 →
      ¬ M.hypot (f64 ((Game.pathAt (e.pathIndex + 1)).x - e.x))
        (f64 ((Game.pathAt (e.pathIndex + 1)).y - e.y)) < 5 →
      (Enemy.updateF64 M dt e).pathIndex = e.pathIndex ∧
      (Enemy.updateF64 M dt e).reachedEnd = e.reachedEnd ∧
      0 < Real.sqrt (((Game.pathAt (e.pathIndex + 1)).x - e.x) *
          ((Game.pathAt (e.pathIndex + 1)).x - e.x) +
        ((Game.pathAt (e.pathIndex + 1)).y - e.y) * ((Game.pathAt (e.pathIndex + 1)).y - e.y)) ∧
      |(Enemy.updateF64 M dt e).x -
        (e.x + ((Game.pathAt (e.pathIndex + 1)).x - e.x) /
          Real.sqrt (((Game.pathAt (e.pathIndex + 1)).x - e.x) *
              ((Game.pathAt (e.pathIndex + 1)).x - e.x) +
            ((Game.pathAt (e.pathIndex + 1)).y - e.y) *
              ((Game.pathAt (e.pathIndex + 1)).y - e.y)) *
          ((Enemy.updateF64 M dt e).speed * dt))| ≤ 1 / 2 ^ 35 ∧
      |(Enemy.updateF64 M dt e).y -
        (e.y + ((Game.pathAt (e.pathIndex + 1)).y - e.y) /
          Real.sqrt (((Game.pathAt (e.pathIndex + 1)).x - e.x) *
              ((Game.pathAt (e.pathIndex + 1)).x - e.x) +
            ((Game.pathAt (e.pathIndex + 1)).y - e.y) *
              ((Game.pathAt (e.pathIndex + 1)).y - e.y)) *
          ((Enemy.updateF64 M dt e).speed * dt))| ≤ 1 / 2 ^ 35 ∧
      |Real.sqrt (((Enemy.updateF64 M dt e).x - e.x) * ((Enemy.updateF64 M dt e).x - e.x) +
          ((Enemy.updateF64 M dt e).y - e.y) * ((Enemy.updateF64 M dt e).y - e.y)) -
        (Enemy.updateF64 M dt e).speed * dt| ≤ 1 / 2 ^ 34 ∧
      |Real.sqrt
          (((Game.pathAt (e.pathIndex + 1)).x - (Enemy.updateF64 M dt e).x) *
            ((Game.pathAt (e.pathIndex + 1)).x - (Enemy.updateF64 M dt e).x) +
          ((Game.pathAt (e.pathIndex + 1)).y - (Enemy.updateF64 M dt e).y) *
            ((Game.pathAt (e.pathIndex + 1)).y - (Enemy.updateF64 M dt e).y)) -
        abs (Real.sqrt (((Game.pathAt (e.pathIndex + 1)).x - e.x) *
            ((Game.pathAt (e.pathIndex + 1)).x - e.x) +
          ((Game.pathAt (e.pathIndex + 1)).y - e.y) *
            ((Game.pathAt (e.pathIndex + 1)).y - e.y)) -
          (Enemy.updateF64 M dt e).speed * dt)| ≤ 1 / 2 ^ 34) ∧
    (e.freezeTimer ≤ 0 ∨ 0 < f64 (e.freezeTimer - dt) →
      (Enemy.updateF64 M dt e).speed = e.speed) ∧
    (e.pathIndex < 5 → 0 < e.freezeTimer → e.freezeTimer ≤ dt →
      (Enemy.updateF64 M dt e).speed = e.baseSpeed) ∧
    (e.freezeTimer = 0 → (Enemy.updateF64 M dt e).freezeTimer = 0) := by
  have hend : 5 ≤ e.pathIndex → Enemy.updateF64 M dt e = { e with reachedEnd := true } := by
    intro h
    have hlen : (Game.createPath (K := ℝ)).length - 1 = 5 := rfl
    unfold Enemy.updateF64
    rw [if_pos (by rw [hlen]; exact h)]
  refine ⟨hypot_near M.hypot hh _ _, hend, ?_, ?_, ?_, ?_, ?_⟩
  · intro h hd
    obtain ⟨e1, h1, h2, _, hr, _, _, _, _, hu⟩ := Enemy_updateF64_served M dt e h
    rw [hu, if_pos hd]
    exact ⟨rfl, h1, h2, hr⟩
  · intro h hd
    obtain ⟨e1, _, _, hp, hr, hsp, _, _, _, hu⟩ := Enemy_updateF64_served M dt e h
    rw [hu, if_neg hd]
    have hs0 : 0 ≤ e1.speed := by
      rcases hsp with h3 | h3 <;> rw [h3] <;> assumption
    have hs1 : e1.speed ≤ 512 := by
      rcases hsp with h3 | h3 <;> rw [h3] <;> assumption
    obtain ⟨hpos, hX, hY, hlen, hnew⟩ := move_near M.hypot hh e.x e.y
      (Game.pathAt (e.pathIndex + 1)).x (Game.pathAt (e.pathIndex + 1)).y e1.speed dt _ _
      hx hy hs0 hs1 ht0 ht hd rfl rfl
    exact ⟨hp, hr, hpos, hX, hY, hlen, hnew⟩
  · intro hft
    by_cases h : e.pathIndex < 5
    · obtain ⟨e1, _, _, _, _, _, hs, _, _, hu⟩ := Enemy_updateF64_served M dt e h
      rw [hu]
      split_ifs
      · exact hs hft
      · exact hs hft
    · rw [hend (not_lt.mp h)]
  · intro h h0 h1
    obtain ⟨e1, _, _, _, _, _, _, hs, _, hu⟩ := Enemy_updateF64_served M dt e h
    rw [hu]
    have h2 : f64 (e.freezeTimer - dt) ≤ 0 := f64_nonpos _ (by linarith)
    split_ifs
    · exact hs h0 h2
    · exact hs h0 h2
  · intro h0
    by_cases h : e.pathIndex < 5
    · obtain ⟨e1, _, _, _, _, _, _, _, hz, hu⟩ := Enemy_updateF64_served M dt e h
      rw [hu]
      split_ifs
      · exact hz h0
      · exact hz h0
    · rw [hend (not_lt.mp h)]
      exact h0

/-- C20 at a point, with the correctly rounded `Math.hypot`: the enemy at `(50, 300)` with
speed 100 heads for the waypoint `(200, 300)` with a step of `1 / 64` s. -/
theorem enemy_update_doubles_witness :
    |(Enemy.init 0 50 300 1 1 : Enemy ℝ).x| ≤ 2048 ∧
    |(Enemy.init 0 50 300 1 1 : Enemy ℝ).y| ≤ 2048 ∧
    0 ≤ (Enemy.init 0 50 300 1 1 : Enemy ℝ).speed ∧
    (Enemy.init 0 50 300 1 1 : Enemy ℝ).speed ≤ 512 ∧
    0 ≤ (Enemy.init 0 50 300 1 1 : Enemy ℝ).baseSpeed ∧
    (Enemy.init 0 50 300 1 1 : Enemy ℝ).baseSpeed ≤ 512 ∧
    (Enemy.init 0 50 300 1 1 : Enemy ℝ).pathIndex < 5 ∧
    ¬ (JsMath.ofSqrt (fun s => f64 (Real.sqrt s)) (fun _ => 0)).hypot
        (f64 ((Game.pathAt ((Enemy.init 0 50 300 1 1 : Enemy ℝ).pathIndex + 1)).x -
          (Enemy.init 0 50 300 1 1 : Enemy ℝ).x))
        (f64 ((Game.pathAt ((Enemy.init 0 50 300 1 1 : Enemy ℝ).pathIndex + 1)).y -
          (Enemy.init 0 50 300 1 1 : Enemy ℝ).y)) < 5 ∧
    (Enemy.updateF64 (JsMath.ofSqrt (fun s => f64 (Real.sqrt s)) (fun _ => 0)) (1 / 64)
      (Enemy.init 0 50 300 1 1)).speed = (Enemy.init 0 50 300 1 1 : Enemy ℝ).speed ∧
    |Real.sqrt
        (((Enemy.updateF64 (JsMath.ofSqrt (fun s => f64 (Real.sqrt s)) (fun _ => 0)) (1 / 64)
            (Enemy.init 0 50 300 1 1)).x - (Enemy.init 0 50 300 1 1 : Enemy ℝ).x) *
          ((Enemy.updateF64 (JsMath.ofSqrt (fun s => f64 (Real.sqrt s)) (fun _ => 0)) (1 / 64)
            (Enemy.init 0 50 300 1 1)).x - (Enemy.init 0 50 300 1 1 : Enemy ℝ).x) +
        ((Enemy.updateF64 (JsMath.ofSqrt (fun s => f64 (Real.sqrt s)) (fun _ => 0)) (1 / 64)
            (Enemy.init 0 50 300 1 1)).y - (Enemy.init 0 50 300 1 1 : Enemy ℝ).y) *
          ((Enemy.updateF64 (JsMath.ofSqrt (fun s => f64 (Real.sqrt s)) (fun _ => 0)) (1 / 64)
            (Enemy.init 0 50 300 1 1)).y - (Enemy.init 0 50 300 1 1 : Enemy ℝ).y)) -
      (Enemy.updateF64 (JsMath.ofSqrt (fun s => f64 (Real.sqrt s)) (fun _ => 0)) (1 / 64)
        (Enemy.init 0 50 300 1 1)).speed * (1 / 64)| ≤ 1 / 2 ^ 34 := by
  have hx : |(Enemy.init 0 50 300 1 1 : Enemy ℝ).x| ≤ 2048 := by
    show |(50 : ℝ)| ≤ 2048
    norm_num
  have hy : |(Enemy.init 0 50 300 1 1 : Enemy ℝ).y| ≤ 2048 := by
    show |(300 : ℝ)| ≤ 2048
    norm_num
  have hv0 : 0 ≤ (Enemy.init 0 50 300 1 1 : Enemy ℝ).speed := by
    show (0 : ℝ) ≤ 100
    norm_num
  have hv : (Enemy.init 0 50 300 1 1 : Enemy ℝ).speed ≤ 512 := by
    show (100 : ℝ) ≤ 512
    norm_num
  have hb0 : 0 ≤ (Enemy.init 0 50 300 1 1 : Enemy ℝ).baseSpeed := by
    show (0 : ℝ) ≤ 100
    norm_num
  have hb : (Enemy.init 0 50 300 1 1 : Enemy ℝ).baseSpeed ≤ 512 := by
    show (100 : ℝ) ≤ 512
    norm_num
  have hp : (Enemy.init 0 50 300 1 1 : Enemy ℝ).pathIndex < 5 := by
    show 0 < 5
    norm_num
  have hd : ¬ (JsMath.ofSqrt (fun s => f64 (Real.sqrt s)) (fun _ => 0)).hypot
      (f64 ((Game.pathAt ((Enemy.init 0 50 300 1 1 : Enemy ℝ).pathIndex + 1)).x -
        (Enemy.init 0 50 300 1 1 : Enemy ℝ).x))
      (f64 ((Game.pathAt ((Enemy.init 0 50 300 1 1 : Enemy ℝ).pathIndex + 1)).y -
        (Enemy.init 0 50 300 1 1 : Enemy ℝ).y)) < 5 := by
    show ¬ f64 (Real.sqrt (f64 ((200 : ℝ) - 50) * f64 ((200 : ℝ) - 50) +
      f64 ((300 : ℝ) - 300) * f64 ((300 : ℝ) - 300))) < 5
    have h1 := f64_ge_half ((200 : ℝ) - 50) (by norm_num)
    have h5 : (150 : ℝ) ≤ 2 * f64 ((200 : ℝ) - 50) := le_trans (by norm_num) h1
    have h2 := abs_le_hyp (f64 ((200 : ℝ) - 50)) (f64 ((300 : ℝ) - 300))
    have h3 := le_abs_self (f64 ((200 : ℝ) - 50))
    have h4 := f64_ge_half (Real.sqrt (f64 ((200 : ℝ) - 50) * f64 ((200 : ℝ) - 50) +
      f64 ((300 : ℝ) - 300) * f64 ((300 : ℝ) - 300))) (by linarith)
    exact not_lt.mpr (by linarith)
  have h := enemy_update_doubles (JsMath.ofSqrt (fun s => f64 (Real.sqrt s)) (fun _ => 0))
    (rounded_accurate _).1 (1 / 64) (Enemy.init 0 50 300 1 1) hx hy hv0 hv hb0 hb
    (by norm_num) (by norm_num)
  exact ⟨hx, hy, hv0, hv, hb0, hb, hp, hd, h.2.2.2.2.1 (Or.inl (le_of_eq rfl)),
    (h.2.2.2.1 hp hd).2.2.2.2.2.1⟩

/-! ## The distance to a segment in doubles -/

/-- Clamping to `[0, 1]` does not increase distances. -/
theorem clamp_near (p q : ℝ) : |max 0 (min 1 p) - max 0 (min 1 q)| ≤ |p - q| := by
  have h1 := le_abs_self (p - q)
  have h2 := neg_abs_le (p - q)
  rw [abs_le]
  simp only [max_def, min_def]
  split_ifs <;> constructor <;> linarith

/-- The clamp lies in `[0, 1]`. -/
theorem clamp_range (p : ℝ) : 0 ≤ max 0 (min 1 p) ∧ max 0 (min 1 p) ≤ 1 :=
  ⟨le_max_left _ _, max_le zero_le_one (min_le_left _ _)⟩

/-- The three branches of `pointToLineDistance` for a coordinate of the closest point, as
one formula with the clamped parameter. -/
theorem foot_exact (x1 x2 p : ℝ) :
    (if p < 0 then x1 else if 1 < p then x2 else x1 + p * (x2 - x1)) =
      x1 + max 0 (min 1 p) * (x2 - x1) := by
  by_cases h0 : p < 0
  · rw [if_pos h0, min_eq_right (by linarith), max_eq_left h0.le]
    ring
  · rw [if_neg h0]
    by_cases h1 : 1 < p
    · rw [if_pos h1, min_eq_left h1.le, max_eq_right zero_le_one]
      ring
    · rw [if_neg h1, min_eq_right (not_lt.mp h1), max_eq_right (not_lt.mp h0)]

/-- The same coordinate in double arithmetic is within `2 ^ -39` of the formula. -/
theorem foot_round (x1 x2 p : ℝ) (h1 : |x1| ≤ 1024) (h2 : |x2| ≤ 1024) :
    |(if p < 0 then x1 else if 1 < p then x2 else f64 (x1 + f64 (p * f64 (x2 - x1)))) -
      (x1 + max 0 (min 1 p) * (x2 - x1))| ≤ 1 / 2 ^ 39 := by
  by_cases h0 : p < 0
  · rw [if_pos h0, min_eq_right (by linarith), max_eq_left h0.le]
    have e : x1 - (x1 + 0 * (x2 - x1)) = 0 := by ring
    rw [e, abs_zero]
    positivity
  · rw [if_neg h0]
    by_cases hp1 : 1 < p
    · rw [if_pos hp1, min_eq_left hp1.le, max_eq_right zero_le_one]
      have e : x2 - (x1 + 1 * (x2 - x1)) = 0 := by ring
      rw [e, abs_zero]
      positivity
    · rw [if_neg hp1, min_eq_right (not_lt.mp hp1), max_eq_right (not_lt.mp h0)]
      have hp0 : 0 ≤ p := not_lt.mp h0
      have hp1' : p ≤ 1 := not_lt.mp hp1
      have hc : |x2 - x1| ≤ 2048 := by
        have := abs_sub x2 x1
        linarith
      have hC := f64_near (x2 - x1) 2048 hc
      have hCa : |f64 (x2 - x1)| ≤ 2049 := by
        have := abs_sub_abs_le_abs_sub (f64 (x2 - x1)) (x2 - x1)
        norm_num at hC ⊢
        linarith
      have hpa : |p| ≤ 1 := by
        rw [abs_of_nonneg hp0]
        exact hp1'
      have hpC : |p * f64 (x2 - x1) - p * (x2 - x1)| ≤ 2048 / 2 ^ 53 + 1 / 2 ^ 200 := by
        have e : p * f64 (x2 - x1) - p * (x2 - x1) = p * (f64 (x2 - x1) - (x2 - x1)) := by ring
        rw [e, abs_mul]
        calc |p| * |f64 (x2 - x1) - (x2 - x1)| ≤ 1 * |f64 (x2 - x1) - (x2 - x1)| :=
              mul_le_mul_of_nonneg_right hpa (abs_nonneg _)
          _ ≤ 2048 / 2 ^ 53 + 1 / 2 ^ 200 := by
              rw [one_mul]
              exact hC
      have hpCa : |p * f64 (x2 - x1)| ≤ 2049 := by
        rw [abs_mul]
        calc |p| * |f64 (x2 - x1)| ≤ 1 * 2049 :=
              mul_le_mul hpa hCa (abs_nonneg _) zero_le_one
          _ = 2049 := one_mul _
      have hw := f64_near (p * f64 (x2 - x1)) 2049 hpCa
      have hwa : |f64 (p * f64 (x2 - x1))| ≤ 2050 := by
        have := abs_sub_abs_le_abs_sub (f64 (p * f64 (x2 - x1))) (p * f64 (x2 - x1))
        norm_num at hw ⊢
        linarith
      have hs : |x1 + f64 (p * f64 (x2 - x1))| ≤ 4096 := by
        have := abs_add x1 (f64 (p * f64 (x2 - x1)))
        linarith
      have ho := f64_near (x1 + f64 (p * f64 (x2 - x1))) 4096 hs
      have e : f64 (x1 + f64 (p * f64 (x2 - x1))) - (x1 + p * (x2 - x1)) =
          (f64 (x1 + f64 (p * f64 (x2 - x1))) - (x1 + f64 (p * f64 (x2 - x1)))) +
          ((f64 (p * f64 (x2 - x1)) - p * f64 (x2 - x1)) +
            (p * f64 (x2 - x1) - p * (x2 - x1))) := by ring
      rw [e]
      have t1 := abs_add (f64 (x1 + f64 (p * f64 (x2 - x1))) - (x1 + f64 (p * f64 (x2 - x1))))
        ((f64 (p * f64 (x2 - x1)) - p * f64 (x2 - x1)) + (p * f64 (x2 - x1) - p * (x2 - x1)))
      have t2 := abs_add (f64 (p * f64 (x2 - x1)) - p * f64 (x2 - x1))
        (p * f64 (x2 - x1) - p * (x2 - x1))
      have hb : (4096 / 2 ^ 53 + 1 / 2 ^ 200) + ((2049 / 2 ^ 53 + 1 / 2 ^ 200) +
          (2048 / 2 ^ 53 + 1 / 2 ^ 200)) ≤ (1 : ℝ) / 2 ^ 39 := by norm_num
      linarith

/-- Square roots of nearby numbers are near: a relative error of `2 ^ -51` under the root
costs at most `2 ^ -38` for arguments up to `2 ^ 24`. -/
theorem sqrt_near (S X : ℝ) (hS : 0 ≤ S) (hX : 0 ≤ X) (hX2 : X ≤ 2 ^ 24)
    (h : |S - X| ≤ X / 2 ^ 51 + 1 / 2 ^ 198) : |Real.sqrt S - Real.sqrt X| ≤ 1 / 2 ^ 38 := by
  have hsS := Real.sqrt_nonneg S
  have hsX := Real.sqrt_nonneg X
  by_cases hc : 1 / 2 ^ 80 ≤ X
  · have hr : (1 : ℝ) / 2 ^ 40 ≤ Real.sqrt X := by
      apply Real.le_sqrt_of_sq_le
      norm_num at hc ⊢
      linarith
    have hr2 : Real.sqrt X ≤ 2 ^ 12 := by
      apply Real.sqrt_le_iff.mpr
      constructor
      · positivity
      · norm_num at hX2 ⊢
        linarith
    have hpos : 0 < Real.sqrt X := lt_of_lt_of_le (by positivity) hr
    have hprod : |Real.sqrt S - Real.sqrt X| * (Real.sqrt S + Real.sqrt X) = |S - X| := by
      rw [← abs_of_nonneg (add_nonneg hsS hsX), ← abs_mul]
      congr 1
      have e1 := Real.mul_self_sqrt hS
      have e2 := Real.mul_self_sqrt hX
      nlinarith
    have hle : |Real.sqrt S - Real.sqrt X| * Real.sqrt X ≤ |S - X| := by
      rw [← hprod]
      exact mul_le_mul_of_nonneg_left (by linarith) (abs_nonneg _)
    have hXe : X = Real.sqrt X * Real.sqrt X := (Real.mul_self_sqrt hX).symm
    have hb : |S - X| ≤ (1 / 2 ^ 38) * Real.sqrt X := by
      have h1 : X / 2 ^ 51 ≤ (1 / 2 ^ 39) * Real.sqrt X := by
        have : X / 2 ^ 51 = (Real.sqrt X / 2 ^ 51) * Real.sqrt X := by
          rw [div_mul_eq_mul_div, ← hXe]
        rw [this]
        apply mul_le_mul_of_nonneg_right _ hsX
        norm_num at hr2 ⊢
        linarith
      have h2 : (1 : ℝ) / 2 ^ 198 ≤ (1 / 2 ^ 39) * Real.sqrt X := by
        calc (1 : ℝ) / 2 ^ 198 ≤ (1 / 2 ^ 39) * (1 / 2 ^ 40) := by norm_num
          _ ≤ (1 / 2 ^ 39) * Real.sqrt X := mul_le_mul_of_nonneg_left hr (by positivity)
      have e : (1 / 2 ^ 38 : ℝ) * Real.sqrt X =
          (1 / 2 ^ 39) * Real.sqrt X + (1 / 2 ^ 39) * Real.sqrt X := by ring
      rw [e]
      linarith
    exact le_of_mul_le_mul_right (le_trans hle hb) hpos
  · have hc' : X ≤ 1 / 2 ^ 80 := (not_le.mp hc).le
    have hSb : S ≤ 1 / 2 ^ 78 := by
      have := (abs_le.mp h).2
      norm_num at this hc' ⊢
      linarith
    have h1 : Real.sqrt X ≤ 1 / 2 ^ 39 := by
      apply Real.sqrt_le_iff.mpr
      constructor
      · positivity
      · norm_num at hc' ⊢
        linarith
    have h2 : Real.sqrt S ≤ 1 / 2 ^ 39 := by
      apply Real.sqrt_le_iff.mpr
      constructor
      · positivity
      · norm_num at hSb ⊢
        linarith
    rw [abs_le]
    constructor <;> norm_num at h1 h2 ⊢ <;> linarith

/-- The sum of two squares in double arithmetic: not negative, relative error at most
`2 ^ -51`. -/
theorem sumsq_round (p q : ℝ) :
    0 ≤ f64 (f64 (p * p) + f64 (q * q)) ∧
    |f64 (f64 (p * p) + f64 (q * q)) - (p * p + q * q)| ≤
      (p * p + q * q) / 2 ^ 51 + 1 / 2 ^ 198 := by
  have hp := mul_self_nonneg p
  have hq := mul_self_nonneg q
  have fp := f64_nonneg (p * p) hp
  have fq := f64_nonneg (q * q) hq
  refine ⟨f64_nonneg _ (add_nonneg fp fq), ?_⟩
  have e1 := f64_near (p * p) (p * p) (le_of_eq (abs_of_nonneg hp))
  have e2 := f64_near (q * q) (q * q) (le_of_eq (abs_of_nonneg hq))
  have e3 := f64_near (f64 (p * p) + f64 (q * q)) (f64 (p * p) + f64 (q * q))
    (le_of_eq (abs_of_nonneg (add_nonneg fp fq)))
  have a1 := abs_le.mp e1
  have a2 := abs_le.mp e2
  have a3 := abs_le.mp e3
  rw [abs_le]
  constructor <;> norm_num at a1 a2 a3 ⊢ <;> linarith [a1.1, a1.2, a2.1, a2.2, a3.1, a3.2]

/-- The error of a product of two approximated factors. -/
theorem mul_near (A a C c eA Ma eC MC : ℝ) (h1 : |A - a| ≤ eA) (h2 : |a| ≤ Ma)
    (h3 : |C - c| ≤ eC) (h4 : |C| ≤ MC) : |A * C - a * c| ≤ eA * MC + Ma * eC := by
  have e : A * C - a * c = (A - a) * C + a * (C - c) := by ring
  rw [e]
  have t1 := abs_add ((A - a) * C) (a * (C - c))
  rw [abs_mul, abs_mul] at t1
  have t2 : |A - a| * |C| ≤ eA * MC :=
    mul_le_mul h1 h4 (abs_nonneg _) (le_trans (abs_nonneg _) h1)
  have t3 : |a| * |C - c| ≤ Ma * eC :=
    mul_le_mul h2 h3 (abs_nonneg _) (le_trans (abs_nonneg _) h2)
  linarith

/-- A difference along a segment of length at least `2 ^ -40`, rounded: relative to the
length the error is at most `2 ^ -52`. -/
theorem side_near (c L : ℝ) (hc : |c| ≤ L) (hL : 1 / 2 ^ 40 ≤ L) :
    |f64 c - c| ≤ L / 2 ^ 52 ∧ |f64 c| ≤ 2 * L := by
  have h := f64_near c L hc
  have h2 : (1 : ℝ) / 2 ^ 200 ≤ L / 2 ^ 53 := by
    have : (1 : ℝ) / 2 ^ 200 ≤ (1 / 2 ^ 40) / 2 ^ 53 := by norm_num
    exact le_trans this (div_le_div_of_nonneg_right hL (by positivity))
  have h3 : |f64 c - c| ≤ L / 2 ^ 52 := by
    have e : L / 2 ^ 52 = L / 2 ^ 53 + L / 2 ^ 53 := by ring
    rw [e]
    linarith
  refine ⟨h3, ?_⟩
  have h4 := abs_sub_abs_le_abs_sub (f64 c) c
  have h5 : L / 2 ^ 52 ≤ L := by
    apply div_le_self (by linarith [abs_nonneg c])
    norm_num
  linarith

/-- The dot product of `pointToLineDistance` in double arithmetic. -/
theorem dot_near (a b c d L : ℝ) (ha : |a| ≤ 2048) (hb : |b| ≤ 2048) (hc : |c| ≤ L)
    (hd : |d| ≤ L) (hL : 1 / 2 ^ 40 ≤ L) :
    |f64 (f64 (f64 a * f64 c) + f64 (f64 b * f64 d)) - (a * c + b * d)| ≤ L / 2 ^ 36 ∧
    |a * c + b * d| ≤ 4096 * L := by
  have hL0 : 0 ≤ L := le_trans (abs_nonneg c) hc
  have hη : (1 : ℝ) / 2 ^ 200 ≤ L / 2 ^ 60 := by
    have : (1 : ℝ) / 2 ^ 200 ≤ (1 / 2 ^ 40) / 2 ^ 60 := by norm_num
    exact le_trans this (div_le_div_of_nonneg_right hL (by positivity))
  have hA := f64_near a 2048 ha
  have hB := f64_near b 2048 hb
  obtain ⟨hC, hCa⟩ := side_near c L hc hL
  obtain ⟨hD, hDa⟩ := side_near d L hd hL
  have hAa : |f64 a| ≤ 2049 := by
    have := abs_sub_abs_le_abs_sub (f64 a) a
    have : (2048 : ℝ) / 2 ^ 53 + 1 / 2 ^ 200 ≤ 1 := by norm_num
    linarith
  have hBa : |f64 b| ≤ 2049 := by
    have := abs_sub_abs_le_abs_sub (f64 b) b
    have : (2048 : ℝ) / 2 ^ 53 + 1 / 2 ^ 200 ≤ 1 := by norm_num
    linarith
  have hAC := mul_near (f64 a) a (f64 c) c _ _ _ _ hA ha hC hCa
  have hBD := mul_near (f64 b) b (f64 d) d _ _ _ _ hB hb hD hDa
  have hACa : |f64 a * f64 c| ≤ 4098 * L := by
    rw [abs_mul]
    have := mul_le_mul hAa hCa (abs_nonneg _) (by norm_num)
    linarith
  have hBDa : |f64 b * f64 d| ≤ 4098 * L := by
    rw [abs_mul]
    have := mul_le_mul hBa hDa (abs_nonneg _) (by norm_num)
    linarith
  have hP := f64_near (f64 a * f64 c) (4098 * L) hACa
  have hQ := f64_near (f64 b * f64 d) (4098 * L) hBDa
  have hac : |a * c| ≤ 2048 * L := by
    rw [abs_mul]
    exact mul_le_mul ha hc (abs_nonneg _) (by norm_num)
  have hbd : |b * d| ≤ 2048 * L := by
    rw [abs_mul]
    exact mul_le_mul hb hd (abs_nonneg _) (by norm_num)
  have hdot : |a * c + b * d| ≤ 4096 * L := by
    have := abs_add (a * c) (b * d)
    linarith
  have k1 : ((2048 : ℝ) / 2 ^ 53 + 1 / 2 ^ 200) * (2 * L) + 2048 * (L / 2 ^ 52) ≤
      L / 2 ^ 39 := by
    have e : ((2048 : ℝ) / 2 ^ 53 + 1 / 2 ^ 200) * (2 * L) + 2048 * (L / 2 ^ 52) =
        ((2048 / 2 ^ 53 + 1 / 2 ^ 200) * 2 + 2048 / 2 ^ 52) * L := by ring
    have e2 : L / 2 ^ 39 = (1 / 2 ^ 39) * L := by ring
    rw [e, e2]
    exact mul_le_mul_of_nonneg_right (by norm_num) hL0
  have k2 : (4098 : ℝ) * L / 2 ^ 53 + 1 / 2 ^ 200 ≤ L / 2 ^ 40 := by
    have e : L / 2 ^ 40 = 4098 * L / 2 ^ 53 + ((1 / 2 ^ 40 - 4098 / 2 ^ 53) * L) := by ring
    have : L / 2 ^ 60 ≤ (1 / 2 ^ 40 - 4098 / 2 ^ 53) * L := by
      have e3 : L / 2 ^ 60 = (1 / 2 ^ 60) * L := by ring
      rw [e3]
      exact mul_le_mul_of_nonneg_right (by norm_num) hL0
    rw [e]
    linarith
  have hS : |f64 (f64 a * f64 c) + f64 (f64 b * f64 d) - (a * c + b * d)| ≤
      L / 2 ^ 39 + L / 2 ^ 39 + (L / 2 ^ 40 + L / 2 ^ 40) := by
    have e : f64 (f64 a * f64 c) + f64 (f64 b * f64 d) - (a * c + b * d) =
        ((f64 (f64 a * f64 c) - f64 a * f64 c) + (f64 a * f64 c - a * c)) +
        ((f64 (f64 b * f64 d) - f64 b * f64 d) + (f64 b * f64 d - b * d)) := by ring
    rw [e]
    have t1 := abs_add ((f64 (f64 a * f64 c) - f64 a * f64 c) + (f64 a * f64 c - a * c))
      ((f64 (f64 b * f64 d) - f64 b * f64 d) + (f64 b * f64 d - b * d))
    have t2 := abs_add (f64 (f64 a * f64 c) - f64 a * f64 c) (f64 a * f64 c - a * c)
    have t3 := abs_add (f64 (f64 b * f64 d) - f64 b * f64 d) (f64 b * f64 d - b * d)
    linarith
  have hSa : |f64 (f64 a * f64 c) + f64 (f64 b * f64 d)| ≤ 4097 * L := by
    have := abs_sub_abs_le_abs_sub (f64 (f64 a * f64 c) + f64 (f64 b * f64 d)) (a * c + b * d)
    have k3 : L / 2 ^ 39 + L / 2 ^ 39 + (L / 2 ^ 40 + L / 2 ^ 40) ≤ L := by
      have e : L / 2 ^ 39 + L / 2 ^ 39 + (L / 2 ^ 40 + L / 2 ^ 40) =
          (1 / 2 ^ 39 + 1 / 2 ^ 39 + (1 / 2 ^ 40 + 1 / 2 ^ 40)) * L := by ring
      rw [e]
      calc (1 / 2 ^ 39 + 1 / 2 ^ 39 + (1 / 2 ^ 40 + 1 / 2 ^ 40)) * L ≤ 1 * L :=
            mul_le_mul_of_nonneg_right (by norm_num) hL0
        _ = L := one_mul _
    linarith
  have hR := f64_near (f64 (f64 a * f64 c) + f64 (f64 b * f64 d)) (4097 * L) hSa
  have k4 : (4097 : ℝ) * L / 2 ^ 53 + 1 / 2 ^ 200 ≤ L / 2 ^ 40 := by
    have : (4097 : ℝ) * L / 2 ^ 53 ≤ 4098 * L / 2 ^ 53 :=
      div_le_div_of_nonneg_right (by linarith) (by positivity)
    linarith
  refine ⟨?_, hdot⟩
  have e : f64 (f64 (f64 a * f64 c) + f64 (f64 b * f64 d)) - (a * c + b * d) =
      (f64 (f64 (f64 a * f64 c) + f64 (f64 b * f64 d)) -
        (f64 (f64 a * f64 c) + f64 (f64 b * f64 d))) +
      (f64 (f64 a * f64 c) + f64 (f64 b * f64 d) - (a * c + b * d)) := by ring
  rw [e]
  have t := abs_add (f64 (f64 (f64 a * f64 c) + f64 (f64 b * f64 d)) -
      (f64 (f64 a * f64 c) + f64 (f64 b * f64 d)))
    (f64 (f64 a * f64 c) + f64 (f64 b * f64 d) - (a * c + b * d))
  have k5 : L / 2 ^ 40 + (L / 2 ^ 39 + L / 2 ^ 39 + (L / 2 ^ 40 + L / 2 ^ 40)) ≤ L / 2 ^ 36 := by
    have e1 : L / 2 ^ 40 + (L / 2 ^ 39 + L / 2 ^ 39 + (L / 2 ^ 40 + L / 2 ^ 40)) =
        (1 / 2 ^ 40 + (1 / 2 ^ 39 + 1 / 2 ^ 39 + (1 / 2 ^ 40 + 1 / 2 ^ 40))) * L := by ring
    have e2 : L / 2 ^ 36 = (1 / 2 ^ 36) * L := by ring
    rw [e1, e2]
    exact mul_le_mul_of_nonneg_right (by norm_num) hL0
  linarith

/-- The squared length of the segment in double arithmetic. -/
theorem len_near (c d L : ℝ) (hc : |c| ≤ L) (hd : |d| ≤ L) (hL : 1 / 2 ^ 40 ≤ L)
    (hLL : L * L = c * c + d * d) :
    |f64 (f64 (f64 c * f64 c) + f64 (f64 d * f64 d)) - L * L| ≤ L * L / 2 ^ 47 := by
  have hL0 : 0 ≤ L := le_trans (abs_nonneg c) hc
  have hW0 : 0 ≤ L * L := mul_nonneg hL0 hL0
  have hW : (1 : ℝ) / 2 ^ 80 ≤ L * L := by
    have := mul_le_mul hL hL (by positivity) hL0
    norm_num at this ⊢
    linarith
  have hη : (1 : ℝ) / 2 ^ 200 ≤ L * L / 2 ^ 60 := by
    have : (1 : ℝ) / 2 ^ 200 ≤ (1 / 2 ^ 80) / 2 ^ 60 := by norm_num
    exact le_trans this (div_le_div_of_nonneg_right hW (by positivity))
  obtain ⟨hC, hCa⟩ := side_near c L hc hL
  obtain ⟨hD, hDa⟩ := side_near d L hd hL
  have hCC := mul_near (f64 c) c (f64 c) c _ _ _ _ hC hc hC hCa
  have hDD := mul_near (f64 d) d (f64 d) d _ _ _ _ hD hd hD hDa
  have hCCa : |f64 c * f64 c| ≤ 4 * (L * L) := by
    rw [abs_mul]
    have := mul_le_mul hCa hCa (abs_nonneg _) (by linarith)
    linarith
  have hDDa : |f64 d * f64 d| ≤ 4 * (L * L) := by
    rw [abs_mul]
    have := mul_le_mul hDa hDa (abs_nonneg _) (by linarith)
    linarith
  have hP := f64_near (f64 c * f64 c) (4 * (L * L)) hCCa
  have hQ := f64_near (f64 d * f64 d) (4 * (L * L)) hDDa
  have hS : |f64 (f64 c * f64 c) + f64 (f64 d * f64 d) - L * L| ≤ L * L / 2 ^ 48 := by
    have e : f64 (f64 c * f64 c) + f64 (f64 d * f64 d) - L * L =
        ((f64 (f64 c * f64 c) - f64 c * f64 c) + (f64 c * f64 c - c * c)) +
        ((f64 (f64 d * f64 d) - f64 d * f64 d) + (f64 d * f64 d - d * d)) := by
      rw [hLL]
      ring
    rw [e]
    have t1 := abs_add ((f64 (f64 c * f64 c) - f64 c * f64 c) + (f64 c * f64 c - c * c))
      ((f64 (f64 d * f64 d) - f64 d * f64 d) + (f64 d * f64 d - d * d))
    have t2 := abs_add (f64 (f64 c * f64 c) - f64 c * f64 c) (f64 c * f64 c - c * c)
    have t3 := abs_add (f64 (f64 d * f64 d) - f64 d * f64 d) (f64 d * f64 d - d * d)
    have k : 2 * ((4 * (L * L) / 2 ^ 53 + L * L / 2 ^ 60) +
        (L / 2 ^ 52 * (2 * L) + L * (L / 2 ^ 52))) ≤ L * L / 2 ^ 48 := by
      have e1 : 2 * ((4 * (L * L) / 2 ^ 53 + L * L / 2 ^ 60) +
          (L / 2 ^ 52 * (2 * L) + L * (L / 2 ^ 52))) =
          (2 * ((4 / 2 ^ 53 + 1 / 2 ^ 60) + (1 / 2 ^ 52 * 2 + 1 / 2 ^ 52))) * (L * L) := by ring
      have e2 : L * L / 2 ^ 48 = (1 / 2 ^ 48) * (L * L) := by ring
      rw [e1, e2]
      exact mul_le_mul_of_nonneg_right (by norm_num) hW0
    linarith
  have hSa : |f64 (f64 c * f64 c) + f64 (f64 d * f64 d)| ≤ 2 * (L * L) := by
    have := abs_sub_abs_le_abs_sub (f64 (f64 c * f64 c) + f64 (f64 d * f64 d)) (L * L)
    have e : |L * L| = L * L := abs_of_nonneg hW0
    have k : L * L / 2 ^ 48 ≤ L * L := div_le_self hW0 (by norm_num)
    linarith
  have hR := f64_near (f64 (f64 c * f64 c) + f64 (f64 d * f64 d)) (2 * (L * L)) hSa
  have e : f64 (f64 (f64 c * f64 c) + f64 (f64 d * f64 d)) - L * L =
      (f64 (f64 (f64 c * f64 c) + f64 (f64 d * f64 d)) -
        (f64 (f64 c * f64 c) + f64 (f64 d * f64 d))) +
      (f64 (f64 c * f64 c) + f64 (f64 d * f64 d) - L * L) := by ring
  rw [e]
  have t := abs_add (f64 (f64 (f64 c * f64 c) + f64 (f64 d * f64 d)) -
      (f64 (f64 c * f64 c) + f64 (f64 d * f64 d)))
    (f64 (f64 c * f64 c) + f64 (f64 d * f64 d) - L * L)
  have k : (2 * (L * L) / 2 ^ 53 + L * L / 2 ^ 60) + L * L / 2 ^ 48 ≤ L * L / 2 ^ 47 := by
    have e1 : (2 * (L * L) / 2 ^ 53 + L * L / 2 ^ 60) + L * L / 2 ^ 48 =
        ((2 / 2 ^ 53 + 1 / 2 ^ 60) + 1 / 2 ^ 48) * (L * L) := by ring
    have e2 : L * L / 2 ^ 47 = (1 / 2 ^ 47) * (L * L) := by ring
    rw [e1, e2]
    exact mul_le_mul_of_nonneg_right (by norm_num) hW0
  linarith

/-- The projection parameter in double arithmetic, scaled by the length of the segment. -/
theorem quot_near (n n0 m L : ℝ) (hL : 1 / 2 ^ 40 ≤ L) (hL2 : L ≤ 4096)
    (hn : |n - n0| ≤ L / 2 ^ 36) (hn0 : |n0| ≤ 4096 * L) (hm : |m - L * L| ≤ L * L / 2 ^ 47) :
    m ≠ 0 ∧ |f64 (n / m) - n0 / (L * L)| * L ≤ 1 / 2 ^ 34 + 1 / 2 ^ 40 := by
  have hL0 : 0 < L := lt_of_lt_of_le (by positivity) hL
  have hW0 : 0 < L * L := mul_pos hL0 hL0
  have hm1 : 3 / 4 * (L * L) ≤ m := by
    have h1 := (abs_le.mp hm).1
    have h2 : L * L / 2 ^ 47 ≤ 1 / 4 * (L * L) := by
      have e : L * L / 2 ^ 47 = 1 / 2 ^ 47 * (L * L) := by ring
      rw [e]
      exact mul_le_mul_of_nonneg_right (by norm_num) hW0.le
    linarith
  have hm0 : 0 < m := by linarith
  have hmW : 0 < m * (L * L) := mul_pos hm0 hW0
  refine ⟨hm0.ne.symm, ?_⟩
  have hq : n / m - n0 / (L * L) = ((n - n0) * (L * L) - n0 * (m - L * L)) / (m * (L * L)) := by
    field_simp
    ring
  have hnum : |(n - n0) * (L * L) - n0 * (m - L * L)| ≤
      L / 2 ^ 36 * (L * L) + 4096 * L * (L * L / 2 ^ 47) := by
    have t := abs_sub ((n - n0) * (L * L)) (n0 * (m - L * L))
    rw [abs_mul (n - n0) (L * L), abs_mul n0 (m - L * L), abs_of_pos hW0] at t
    have t1 : |n - n0| * (L * L) ≤ L / 2 ^ 36 * (L * L) :=
      mul_le_mul_of_nonneg_right hn hW0.le
    have t2 : |n0| * |m - L * L| ≤ 4096 * L * (L * L / 2 ^ 47) :=
      mul_le_mul hn0 hm (abs_nonneg _) (by linarith)
    linarith
  have key1 : |n / m - n0 / (L * L)| * L ≤ 1 / 2 ^ 34 := by
    rw [hq, abs_div, abs_of_pos hmW, div_mul_eq_mul_div, div_le_iff₀ hmW]
    have t1 : |(n - n0) * (L * L) - n0 * (m - L * L)| * L ≤
        (L / 2 ^ 36 * (L * L) + 4096 * L * (L * L / 2 ^ 47)) * L :=
      mul_le_mul_of_nonneg_right hnum hL0.le
    have t2 : 3 / 4 * (L * L) * (L * L) ≤ m * (L * L) :=
      mul_le_mul_of_nonneg_right hm1 hW0.le
    have e1 : (L / 2 ^ 36 * (L * L) + 4096 * L * (L * L / 2 ^ 47)) * L =
        1 / 2 ^ 34 * (3 / 4 * (L * L) * (L * L)) := by ring
    have t3 : 1 / 2 ^ 34 * (3 / 4 * (L * L) * (L * L)) ≤ 1 / 2 ^ 34 * (m * (L * L)) :=
      mul_le_mul_of_nonneg_left t2 (by positivity)
    linarith
  have hn0L : |n0 / (L * L)| * L ≤ 4096 := by
    rw [abs_div, abs_of_pos hW0, div_mul_eq_mul_div, div_le_iff₀ hW0]
    have := mul_le_mul_of_nonneg_right hn0 hL0.le
    linarith
  have hqL : |n / m| * L ≤ 4097 := by
    have t := abs_sub_abs_le_abs_sub (n / m) (n0 / (L * L))
    have t1 : (|n / m| - |n0 / (L * L)|) * L ≤ |n / m - n0 / (L * L)| * L :=
      mul_le_mul_of_nonneg_right t hL0.le
    have e : (|n / m| - |n0 / (L * L)|) * L = |n / m| * L - |n0 / (L * L)| * L := by ring
    have : (1 : ℝ) / 2 ^ 34 ≤ 1 := by norm_num
    linarith
  have key2 : |f64 (n / m) - n / m| * L ≤ 1 / 2 ^ 40 := by
    have t := f64_near (n / m) |n / m| (le_refl _)
    have t1 : |f64 (n / m) - n / m| * L ≤ (|n / m| / 2 ^ 53 + 1 / 2 ^ 200) * L :=
      mul_le_mul_of_nonneg_right t hL0.le
    have e : (|n / m| / 2 ^ 53 + 1 / 2 ^ 200) * L = |n / m| * L / 2 ^ 53 + L / 2 ^ 200 := by ring
    have t2 : |n / m| * L / 2 ^ 53 ≤ 4097 / 2 ^ 53 :=
      div_le_div_of_nonneg_right hqL (by positivity)
    have t3 : L / 2 ^ 200 ≤ 4096 / 2 ^ 200 := div_le_div_of_nonneg_right hL2 (by positivity)
    have t4 : (4097 : ℝ) / 2 ^ 53 + 4096 / 2 ^ 200 ≤ 1 / 2 ^ 40 := by norm_num
    linarith
  have e : f64 (n / m) - n0 / (L * L) = (f64 (n / m) - n / m) + (n / m - n0 / (L * L)) := by
    ring
  rw [e]
  have t := abs_add (f64 (n / m) - n / m) (n / m - n0 / (L * L))
  have t1 : |f64 (n / m) - n / m + (n / m - n0 / (L * L))| * L ≤
      (|f64 (n / m) - n / m| + |n / m - n0 / (L * L)|) * L :=
    mul_le_mul_of_nonneg_right t hL0.le
  have e2 : (|f64 (n / m) - n / m| + |n / m - n0 / (L * L)|) * L =
      |f64 (n / m) - n / m| * L + |n / m - n0 / (L * L)| * L := by ring
  linarith

/-- The last steps of `pointToLineDistance` in double arithmetic, from a closest point
that is within `2 ^ -33` per coordinate of the true one: the result is within `2 ^ -30` of
the true distance. -/
theorem dist_near (M : JsMath ℝ)
    (hs : ∀ s : ℝ, 0 ≤ s → |M.sqrt s - Real.sqrt s| ≤ Real.sqrt s / 2 ^ 50 + 1 / 2 ^ 1074)
    (x y XX YY X0 Y0 : ℝ) (hx : |x| ≤ 1024) (hy : |y| ≤ 1024) (hX0 : |X0| ≤ 1024)
    (hY0 : |Y0| ≤ 1024) (hX : |XX - X0| ≤ 1 / 2 ^ 33) (hY : |YY - Y0| ≤ 1 / 2 ^ 33) :
    |M.sqrt (f64 (f64 (f64 (x - XX) * f64 (x - XX)) + f64 (f64 (y - YY) * f64 (y - YY)))) -
      Real.sqrt ((x - X0) * (x - X0) + (y - Y0) * (y - Y0))| ≤ 1 / 2 ^ 30 := by
  have coord : ∀ u U U0 : ℝ, |u| ≤ 1024 → |U0| ≤ 1024 → |U - U0| ≤ 1 / 2 ^ 33 →
      |f64 (u - U) - (u - U0)| ≤ 1 / 2 ^ 32 ∧ |f64 (u - U)| ≤ 2050 := by
    intro u U U0 hu hU0 hU
    have h1 : |u - U| ≤ 2049 := by
      have e : u - U = (u - U0) - (U - U0) := by ring
      rw [e]
      have t1 := abs_sub (u - U0) (U - U0)
      have t2 := abs_sub u U0
      have : (1 : ℝ) / 2 ^ 33 ≤ 1 := by norm_num
      linarith
    have h2 := f64_near (u - U) 2049 h1
    have h3 : |f64 (u - U) - (u - U0)| ≤ 1 / 2 ^ 32 := by
      have e : f64 (u - U) - (u - U0) = (f64 (u - U) - (u - U)) - (U - U0) := by ring
      rw [e]
      have t1 := abs_sub (f64 (u - U) - (u - U)) (U - U0)
      have : (2049 : ℝ) / 2 ^ 53 + 1 / 2 ^ 200 + 1 / 2 ^ 33 ≤ 1 / 2 ^ 32 := by norm_num
      linarith
    refine ⟨h3, ?_⟩
    have t1 := abs_sub_abs_le_abs_sub (f64 (u - U)) (u - U)
    have : (2049 : ℝ) / 2 ^ 53 + 1 / 2 ^ 200 ≤ 1 := by norm_num
    linarith
  obtain ⟨hdx, hdxa⟩ := coord x XX X0 hx hX0 hX
  obtain ⟨hdy, hdya⟩ := coord y YY Y0 hy hY0 hY
  obtain ⟨p, hp⟩ : ∃ p, p = f64 (x - XX) := ⟨_, rfl⟩
  obtain ⟨q, hq⟩ : ∃ q, q = f64 (y - YY) := ⟨_, rfl⟩
  rw [← hp, ← hq]
  rw [← hp] at hdx hdxa
  rw [← hq] at hdy hdya
  obtain ⟨hS0, hS⟩ := sumsq_round p q
  have hX0' : 0 ≤ p * p + q * q := add_nonneg (mul_self_nonneg _) (mul_self_nonneg _)
  have hXb : p * p + q * q ≤ 2 ^ 24 := by
    have t1 : p * p ≤ 2050 * 2050 := by
      rw [← abs_mul_abs_self p]
      exact mul_le_mul hdxa hdxa (abs_nonneg _) (by norm_num)
    have t2 : q * q ≤ 2050 * 2050 := by
      rw [← abs_mul_abs_self q]
      exact mul_le_mul hdya hdya (abs_nonneg _) (by norm_num)
    norm_num at t1 t2 ⊢
    linarith
  have h1 := sqrt_near _ _ hS0 hX0' hXb hS
  have h2 := hs _ hS0
  have h3 := hyp_sub_le p q (x - X0) (y - Y0)
  have hr : Real.sqrt (p * p + q * q) ≤ 2 ^ 12 := by
    apply Real.sqrt_le_iff.mpr
    constructor
    · positivity
    · norm_num at hXb ⊢
      linarith
  have hr2 : Real.sqrt (f64 (f64 (p * p) + f64 (q * q))) ≤ 4097 := by
    have := (abs_le.mp h1).2
    have : (1 : ℝ) / 2 ^ 38 ≤ 1 := by norm_num
    norm_num at hr
    linarith
  have h4 : Real.sqrt (f64 (f64 (p * p) + f64 (q * q))) / 2 ^ 50 ≤ 4097 / 2 ^ 50 :=
    div_le_div_of_nonneg_right hr2 (by positivity)
  have e : M.sqrt (f64 (f64 (p * p) + f64 (q * q))) -
      Real.sqrt ((x - X0) * (x - X0) + (y - Y0) * (y - Y0)) =
      (M.sqrt (f64 (f64 (p * p) + f64 (q * q))) - Real.sqrt (f64 (f64 (p * p) + f64 (q * q)))) +
      ((Real.sqrt (f64 (f64 (p * p) + f64 (q * q))) - Real.sqrt (p * p + q * q)) +
        (Real.sqrt (p * p + q * q) -
          Real.sqrt ((x - X0) * (x - X0) + (y - Y0) * (y - Y0)))) := by ring
  rw [e]
  have t1 := abs_add
    (M.sqrt (f64 (f64 (p * p) + f64 (q * q))) - Real.sqrt (f64 (f64 (p * p) + f64 (q * q))))
    ((Real.sqrt (f64 (f64 (p * p) + f64 (q * q))) - Real.sqrt (p * p + q * q)) +
      (Real.sqrt (p * p + q * q) - Real.sqrt ((x - X0) * (x - X0) + (y - Y0) * (y - Y0))))
  have t2 := abs_add
    (Real.sqrt (f64 (f64 (p * p) + f64 (q * q))) - Real.sqrt (p * p + q * q))
    (Real.sqrt (p * p + q * q) - Real.sqrt ((x - X0) * (x - X0) + (y - Y0) * (y - Y0)))
  have t5 : (1 : ℝ) / 2 ^ 1074 ≤ 1 / 2 ^ 38 :=
    one_div_le_one_div_of_le (by positivity) (pow_le_pow_right₀ (by norm_num) (by norm_num))
  have k : (4097 : ℝ) / 2 ^ 50 + 1 / 2 ^ 38 + (1 / 2 ^ 38 + (1 / 2 ^ 32 + 1 / 2 ^ 32)) ≤
      1 / 2 ^ 30 := by
    norm_num
  linarith

/-- A point of a segment between coordinates of absolute value at most 1024. -/
theorem hull_bound (x1 x2 k : ℝ) (h1 : |x1| ≤ 1024) (h2 : |x2| ≤ 1024) (hk0 : 0 ≤ k)
    (hk1 : k ≤ 1) : |x1 + k * (x2 - x1)| ≤ 1024 := by
  have e : x1 + k * (x2 - x1) = (1 - k) * x1 + k * x2 := by ring
  rw [e]
  have t := abs_add ((1 - k) * x1) (k * x2)
  rw [abs_mul, abs_mul, abs_of_nonneg hk0, abs_of_nonneg (by linarith : 0 ≤ 1 - k)] at t
  have t1 : (1 - k) * |x1| ≤ (1 - k) * 1024 := mul_le_mul_of_nonneg_left h1 (by linarith)
  have t2 : k * |x2| ≤ k * 1024 := mul_le_mul_of_nonneg_left h2 hk0
  linarith

/-- The value of `pointToLineDistance` in double arithmetic is within `2 ^ -30` of its value
in exact arithmetic, for coordinates of absolute value at most 1024 and a `Math.sqrt` whose
error is at most `2 ^ -50` of the true value plus `2 ^ -1074`. -/
theorem pointToLineDistance_near (M : JsMath ℝ)
    (hs : ∀ s : ℝ, 0 ≤ s → |M.sqrt s - Real.sqrt s| ≤ Real.sqrt s / 2 ^ 50 + 1 / 2 ^ 1074)
    (rnd : Nat → ℝ) (x y x1 y1 x2 y2 : ℝ) (hx : |x| ≤ 1024) (hy : |y| ≤ 1024)
    (hx1 : |x1| ≤ 1024) (hy1 : |y1| ≤ 1024) (hx2 : |x2| ≤ 1024) (hy2 : |y2| ≤ 1024) :
    |Game.pointToLineDistanceF64 M x y x1 y1 x2 y2 -
      Game.pointToLineDistance (JsMath.ofSqrt Real.sqrt rnd) x y x1 y1 x2 y2| ≤ 1 / 2 ^ 30 := by
  obtain ⟨pF, hpF⟩ : ∃ pF : ℝ, pF =
      if f64 (f64 (f64 (x2 - x1) * f64 (x2 - x1)) + f64 (f64 (y2 - y1) * f64 (y2 - y1))) ≠ 0 then
        f64 (f64 (f64 (f64 (x - x1) * f64 (x2 - x1)) + f64 (f64 (y - y1) * f64 (y2 - y1))) /
          f64 (f64 (f64 (x2 - x1) * f64 (x2 - x1)) + f64 (f64 (y2 - y1) * f64 (y2 - y1))))
      else -1 := ⟨_, rfl⟩
  obtain ⟨p0, hp0⟩ : ∃ p0 : ℝ, p0 =
      if (x2 - x1) * (x2 - x1) + (y2 - y1) * (y2 - y1) ≠ 0 then
        ((x - x1) * (x2 - x1) + (y - y1) * (y2 - y1)) /
          ((x2 - x1) * (x2 - x1) + (y2 - y1) * (y2 - y1))
      else -1 := ⟨_, rfl⟩
  have eF : Game.pointToLineDistanceF64 M x y x1 y1 x2 y2 =
      M.sqrt (f64
        (f64 (f64 (x - (if pF < 0 then x1 else if 1 < pF then x2
            else f64 (x1 + f64 (pF * f64 (x2 - x1))))) *
          f64 (x - (if pF < 0 then x1 else if 1 < pF then x2
            else f64 (x1 + f64 (pF * f64 (x2 - x1)))))) +
        f64 (f64 (y - (if pF < 0 then y1 else if 1 < pF then y2
            else f64 (y1 + f64 (pF * f64 (y2 - y1))))) *
          f64 (y - (if pF < 0 then y1 else if 1 < pF then y2
            else f64 (y1 + f64 (pF * f64 (y2 - y1)))))))) := by
    rw [hpF]
    rfl
  have e0 : Game.pointToLineDistance (JsMath.ofSqrt Real.sqrt rnd) x y x1 y1 x2 y2 =
      Real.sqrt
        ((x - (if p0 < 0 then x1 else if 1 < p0 then x2 else x1 + p0 * (x2 - x1))) *
          (x - (if p0 < 0 then x1 else if 1 < p0 then x2 else x1 + p0 * (x2 - x1))) +
        (y - (if p0 < 0 then y1 else if 1 < p0 then y2 else y1 + p0 * (y2 - y1))) *
          (y - (if p0 < 0 then y1 else if 1 < p0 then y2 else y1 + p0 * (y2 - y1)))) := by
    rw [hp0]
    rfl
  rw [eF, e0, foot_exact, foot_exact]
  obtain ⟨L, hLd⟩ : ∃ L, L = Real.sqrt ((x2 - x1) * (x2 - x1) + (y2 - y1) * (y2 - y1)) :=
    ⟨_, rfl⟩
  have hcL : |x2 - x1| ≤ L := by
    rw [hLd]
    exact abs_le_hyp _ _
  have hdL : |y2 - y1| ≤ L := by
    rw [hLd]
    have := abs_le_hyp (y2 - y1) (x2 - x1)
    rw [add_comm] at this
    exact this
  have hL0 : 0 ≤ L := le_trans (abs_nonneg _) hcL
  have hc : |x2 - x1| ≤ 2048 := by
    have := abs_sub x2 x1
    linarith
  have hd : |y2 - y1| ≤ 2048 := by
    have := abs_sub y2 y1
    linarith
  have hLL : L * L = (x2 - x1) * (x2 - x1) + (y2 - y1) * (y2 - y1) := by
    rw [hLd]
    exact Real.mul_self_sqrt (add_nonneg (mul_self_nonneg _) (mul_self_nonneg _))
  have hL2 : L ≤ 4096 := by
    have t1 : (x2 - x1) * (x2 - x1) ≤ 2048 * 2048 := by
      rw [← abs_mul_abs_self (x2 - x1)]
      exact mul_le_mul hc hc (abs_nonneg _) (by norm_num)
    have t2 : (y2 - y1) * (y2 - y1) ≤ 2048 * 2048 := by
      rw [← abs_mul_abs_self (y2 - y1)]
      exact mul_le_mul hd hd (abs_nonneg _) (by norm_num)
    by_contra hcon
    have hgt : 4096 < L := not_le.mp hcon
    have := mul_lt_mul hgt hgt.le (by norm_num) hL0
    linarith
  have hΔ : |max 0 (min 1 pF) - max 0 (min 1 p0)| * L ≤ 1 / 2 ^ 34 + 1 / 2 ^ 40 := by
    by_cases hL : 1 / 2 ^ 40 ≤ L
    · have ha : |x - x1| ≤ 2048 := by
        have := abs_sub x x1
        linarith
      have hb : |y - y1| ≤ 2048 := by
        have := abs_sub y y1
        linarith
      obtain ⟨hdot, hdot0⟩ := dot_near (x - x1) (y - y1) (x2 - x1) (y2 - y1) L ha hb hcL hdL hL
      have hlen := len_near (x2 - x1) (y2 - y1) L hcL hdL hL hLL
      obtain ⟨hne, hq⟩ := quot_near _ _ _ L hL hL2 hdot hdot0 hlen
      have hne0 : (x2 - x1) * (x2 - x1) + (y2 - y1) * (y2 - y1) ≠ 0 := by
        rw [← hLL]
        have : 0 < L := lt_of_lt_of_le (by positivity) hL
        exact (mul_pos this this).ne.symm
      rw [if_pos hne] at hpF
      rw [if_pos hne0, ← hLL] at hp0
      rw [← hpF, ← hp0] at hq
      exact le_trans (mul_le_mul_of_nonneg_right (clamp_near pF p0) hL0) hq
    · have hL' : L ≤ 1 / 2 ^ 40 := (not_le.mp hL).le
      have t1 : |max 0 (min 1 pF) - max 0 (min 1 p0)| ≤ 1 := by
        have a1 := clamp_range pF
        have a2 := clamp_range p0
        rw [abs_le]
        constructor <;> linarith [a1.1, a1.2, a2.1, a2.2]
      have t2 := mul_le_mul_of_nonneg_right t1 hL0
      have : (0 : ℝ) ≤ 1 / 2 ^ 34 := by positivity
      linarith
  have foot : ∀ u1 u2 : ℝ, |u1| ≤ 1024 → |u2| ≤ 1024 → |u2 - u1| ≤ L →
      |(if pF < 0 then u1 else if 1 < pF then u2 else f64 (u1 + f64 (pF * f64 (u2 - u1)))) -
        (u1 + max 0 (min 1 p0) * (u2 - u1))| ≤ 1 / 2 ^ 33 := by
    intro u1 u2 h1 h2 hu
    have t1 := foot_round u1 u2 pF h1 h2
    have e : (if pF < 0 then u1 else if 1 < pF then u2
          else f64 (u1 + f64 (pF * f64 (u2 - u1)))) - (u1 + max 0 (min 1 p0) * (u2 - u1)) =
        ((if pF < 0 then u1 else if 1 < pF then u2
          else f64 (u1 + f64 (pF * f64 (u2 - u1)))) - (u1 + max 0 (min 1 pF) * (u2 - u1))) +
        (max 0 (min 1 pF) - max 0 (min 1 p0)) * (u2 - u1) := by ring
    rw [e]
    have t2 := abs_add ((if pF < 0 then u1 else if 1 < pF then u2
          else f64 (u1 + f64 (pF * f64 (u2 - u1)))) - (u1 + max 0 (min 1 pF) * (u2 - u1)))
      ((max 0 (min 1 pF) - max 0 (min 1 p0)) * (u2 - u1))
    rw [abs_mul] at t2
    have t3 : |max 0 (min 1 pF) - max 0 (min 1 p0)| * |u2 - u1| ≤
        |max 0 (min 1 pF) - max 0 (min 1 p0)| * L :=
      mul_le_mul_of_nonneg_left hu (abs_nonneg _)
    have k : (1 : ℝ) / 2 ^ 39 + (1 / 2 ^ 34 + 1 / 2 ^ 40) ≤ 1 / 2 ^ 33 := by norm_num
    linarith
  have hk := clamp_range p0
  exact dist_near M hs x y _ _ _ _ hx hy (hull_bound x1 x2 _ hx1 hx2 hk.1 hk.2)
    (hull_bound y1 y2 _ hy1 hy2 hk.1 hk.2) (foot x1 x2 hx1 hx2 hcL) (foot y1 y2 hy1 hy2 hdL)

/-- C14, amended. `Game.pointToLineDistanceF64` rounds every operation of
`pointToLineDistance` to a double, and `Math.sqrt` is any function that returns no negative
number and whose error is at most `2 ^ -50` of the true value plus `2 ^ -1074`, as that of
the correctly rounded function is. For coordinates of absolute value at most 1024 the
result is not negative and is within `2 ^ -30` of the minimum Euclidean distance from `(x, y)`
to the closed segment from `(x1, y1)` to `(x2, y2)`: it exceeds the distance to no point of
the segment by more than `2 ^ -30`, and some point of the segment, the closest one, is at
most `2 ^ -30` farther than the result. When the endpoints coincide the result is within
`2 ^ -30` of the distance to that point. For a point on the segment the result is at most
`2 ^ -30`, and a result of zero means that some point of the segment is within `2 ^ -30`. -/
theorem pointToLineDistance_doubles (M : JsMath ℝ)
    (hs : ∀ s : ℝ, 0 ≤ s → |M.sqrt s - Real.sqrt s| ≤ Real.sqrt s / 2 ^ 50 + 1 / 2 ^ 1074)
    (hs0 : ∀ s : ℝ, 0 ≤ s → 0 ≤ M.sqrt s)
    (x y x1 y1 x2 y2 : ℝ) (hx : |x| ≤ 1024) (hy : |y| ≤ 1024)
    (hx1 : |x1| ≤ 1024) (hy1 : |y1| ≤ 1024) (hx2 : |x2| ≤ 1024) (hy2 : |y2| ≤ 1024) :
    0 ≤ Game.pointToLineDistanceF64 M x y x1 y1 x2 y2 ∧
    (∀ t : ℝ, 0 ≤ t → t ≤ 1 →
      Game.pointToLineDistanceF64 M x y x1 y1 x2 y2 ≤
        Real.sqrt ((x - (x1 + t * (x2 - x1))) ^ 2 + (y - (y1 + t * (y2 - y1))) ^ 2) +
          1 / 2 ^ 30) ∧
    (∃ t : ℝ, 0 ≤ t ∧ t ≤ 1 ∧
      Real.sqrt ((x - (x1 + t * (x2 - x1))) ^ 2 + (y - (y1 + t * (y2 - y1))) ^ 2) ≤
        Game.pointToLineDistanceF64 M x y x1 y1 x2 y2 + 1 / 2 ^ 30 ∧
      ∀ r : ℝ, 0 ≤ r → r ≤ 1 →
        Real.sqrt ((x - (x1 + t * (x2 - x1))) ^ 2 + (y - (y1 + t * (y2 - y1))) ^ 2) ≤
          Real.sqrt ((x - (x1 + r * (x2 - x1))) ^ 2 + (y - (y1 + r * (y2 - y1))) ^ 2)) ∧
    (x1 = x2 → y1 = y2 →
      |Game.pointToLineDistanceF64 M x y x1 y1 x2 y2 -
        Real.sqrt ((x - x1) ^ 2 + (y - y1) ^ 2)| ≤ 1 / 2 ^ 30) ∧
    ((∃ t : ℝ, 0 ≤ t ∧ t ≤ 1 ∧ x = x1 + t * (x2 - x1) ∧ y = y1 + t * (y2 - y1)) →
      Game.pointToLineDistanceF64 M x y x1 y1 x2 y2 ≤ 1 / 2 ^ 30) ∧
    (Game.pointToLineDistanceF64 M x y x1 y1 x2 y2 = 0 →
      ∃ t : ℝ, 0 ≤ t ∧ t ≤ 1 ∧
        Real.sqrt ((x - (x1 + t * (x2 - x1))) ^ 2 + (y - (y1 + t * (y2 - y1))) ^ 2) ≤
          1 / 2 ^ 30) := by
  have hnear := pointToLineDistance_near M hs (fun _ => 0) x y x1 y1 x2 y2 hx hy hx1 hy1 hx2 hy2
  obtain ⟨⟨ts, h0, h1, hd⟩, hmin, hco, _, hz⟩ :=
    pointToLineDistance_min (fun _ => 0) x y x1 y1 x2 y2
  have hab := abs_le.mp hnear
  have hpos : 0 ≤ Game.pointToLineDistanceF64 M x y x1 y1 x2 y2 := by
    have h0 : ∀ p q : ℝ, 0 ≤ M.sqrt (f64 (f64 (p * p) + f64 (q * q))) :=
      fun p q => hs0 _ (sumsq_round p q).1
    exact h0 _ _
  refine ⟨hpos, ?_, ?_, ?_, ?_, ?_⟩
  · intro t ht0 ht1
    have := hmin t ht0 ht1
    linarith [hab.2]
  · refine ⟨ts, h0, h1, ?_, ?_⟩
    · rw [← hd]
      linarith [hab.1]
    · intro r hr0 hr1
      rw [← hd]
      exact hmin r hr0 hr1
  · intro e1 e2
    rw [← hco e1 e2]
    exact hnear
  · intro hon
    have := hz.mpr hon
    linarith [hab.2]
  · intro hzero
    refine ⟨ts, h0, h1, ?_⟩
    rw [← hd]
    linarith [hab.1]

/-- C14 at a point: the middle of the segment from `(50, 300)` to `(200, 300)`, with the
correctly rounded square root. -/
theorem pointToLineDistance_doubles_witness :
    |(125 : ℝ)| ≤ 1024 ∧ |(300 : ℝ)| ≤ 1024 ∧ |(50 : ℝ)| ≤ 1024 ∧ |(200 : ℝ)| ≤ 1024 ∧
    (∃ t : ℝ, 0 ≤ t ∧ t ≤ 1 ∧ (125 : ℝ) = 50 + t * (200 - 50) ∧
      (300 : ℝ) = 300 + t * (300 - 300)) ∧
    0 ≤ Game.pointToLineDistanceF64 (JsMath.ofSqrt (fun s => f64 (Real.sqrt s)) (fun _ => 0))
      125 300 50 300 200 300 ∧
    Game.pointToLineDistanceF64 (JsMath.ofSqrt (fun s => f64 (Real.sqrt s)) (fun _ => 0))
      125 300 50 300 200 300 ≤ 1 / 2 ^ 30 := by
  have b1 : |(125 : ℝ)| ≤ 1024 := by norm_num
  have b2 : |(300 : ℝ)| ≤ 1024 := by norm_num
  have b3 : |(50 : ℝ)| ≤ 1024 := by norm_num
  have b4 : |(200 : ℝ)| ≤ 1024 := by norm_num
  have hon : ∃ t : ℝ, 0 ≤ t ∧ t ≤ 1 ∧ (125 : ℝ) = 50 + t * (200 - 50) ∧
      (300 : ℝ) = 300 + t * (300 - 300) := ⟨1 / 2, by norm_num, by norm_num, by norm_num,
    by norm_num⟩
  have h := pointToLineDistance_doubles (JsMath.ofSqrt (fun s => f64 (Real.sqrt s)) (fun _ => 0))
    (rounded_accurate _).2.1 (rounded_accurate _).2.2 125 300 50 300 200 300 b1 b2 b3 b2 b4 b2
  exact ⟨b1, b2, b3, b4, hon, h.1, h.2.2.2.2.1 hon⟩

/-- C14, refuted as stated in doubles, with `Math.sqrt` correctly rounded. The double nearest to `82.8`
is the abscissa of a point of the segment from `(50, 300)` to `(200, 300)`, and the result at
that point is `2 ^ -46`, not zero. The point `(0, 2 ^ -600)` is not on the segment from
`(0, 0)` to `(1, 0)`, and the result there is zero. -/
theorem pointToLineDistance_not_exact :
    f64 (f64 (414 / 5 : ℚ)) = f64 (414 / 5) ∧
    (∃ t : ℚ, 0 ≤ t ∧ t ≤ 1 ∧ f64 (414 / 5 : ℚ) = 50 + t * (200 - 50) ∧
      (300 : ℚ) = 300 + t * (300 - 300)) ∧
    Game.pointToLineDistanceF64 mathF64 (f64 (414 / 5)) 300 50 300 200 300 = 1 / 2 ^ 46 ∧
    Game.pointToLineDistanceF64 mathF64 (f64 (414 / 5)) 300 50 300 200 300 ≠ 0 ∧
    f64 (1 / 2 ^ 600 : ℚ) = 1 / 2 ^ 600 ∧
    (¬ ∃ t : ℚ, 0 ≤ t ∧ t ≤ 1 ∧ (0 : ℚ) = 0 + t * (1 - 0) ∧
      (1 / 2 ^ 600 : ℚ) = 0 + t * (0 - 0)) ∧
    Game.pointToLineDistanceF64 mathF64 0 (1 / 2 ^ 600) 0 0 1 0 = 0 := by
  have hv : f64 (414 / 5 : ℚ) = 5826532017910579 / 2 ^ 46 := by decide!
  have hF : Game.pointToLineDistanceF64 mathF64 (f64 (414 / 5)) 300 50 300 200 300 =
      1 / 2 ^ 46 := by
    rw [hv]
    decide!
  refine ⟨?_, ?_, hF, ?_, by decide!, ?_, by decide!⟩
  · rw [hv]
    decide!
  · refine ⟨(f64 (414 / 5 : ℚ) - 50) / 150, ?_, ?_, ?_, ?_⟩
    · rw [hv]
      norm_num
    · rw [hv]
      norm_num
    · ring
    · ring
  · rw [hF]
    norm_num
  · rintro ⟨t, _, _, _, h⟩
    norm_num at h

end TowerDefense
